import Mathlib

/-!
# LOAM feature extractor (`beam_matching::LoamFeatureExtractor`)

A shallow embedding of `beam_matching/src/loam/LoamFeatureExtractor.cpp`.

* `size_t` values are natural numbers below `2 ^ 64`; every `size_t` operation of the
  source is written with its wrap-around (`uadd`, `usub`, `umul`, `toSizeT`).
* `int` parameters are integers; `float` values are rationals (exact arithmetic).
* A read or write outside a buffer is undefined behaviour in C++; here it is the fault
  `Fault.undefined`, and an exception is the fault named after it.
* Buffers (`std::vector`, `pcl::PointCloud`) are lists.
-/

namespace beam_matching

/-! ## Machine integers -/

/-- The number of values of a `size_t` (64 bit). -/
def SIZE_MOD : Nat := 2 ^ 64

/-- Unsigned addition `a + b` on `size_t`. -/
def uadd (a b : Nat) : Nat := (a + b) % SIZE_MOD

/-- Unsigned subtraction `a - b` on `size_t`: wraps below zero. -/
def usub (a b : Nat) : Nat := (a + (SIZE_MOD - b % SIZE_MOD)) % SIZE_MOD

/-- Unsigned multiplication `a * b` on `size_t`. -/
def umul (a b : Nat) : Nat := (a * b) % SIZE_MOD

/-- Conversion of an `int` operand to `size_t` (the usual arithmetic conversion). -/
def toSizeT (i : Int) : Nat := (i % (SIZE_MOD : Int)).toNat

/-! ## Faults -/

/-- The ways a call can go wrong. -/
inductive Fault where
  /-- `std::out_of_range`, thrown by `std::vector::at`. -/
  | out_of_range
  /-- `std::invalid_argument`. -/
  | invalid_argument
  /-- `std::length_error`, thrown when a vector is built with a size above its maximum. -/
  | length_error
  /-- an access outside a buffer (undefined behaviour in C++). -/
  | undefined
deriving DecidableEq, Repr

/-- Read `xs[i]`; outside the buffer is a fault. -/
def rd {α : Type} (xs : List α) (i : Nat) : Except Fault α :=
  match xs[i]? with
  | some v => .ok v
  | none => .error .undefined

/-- Write `xs[i] = v`; outside the buffer is a fault. -/
def wr {α : Type} (xs : List α) (i : Nat) (v : α) : Except Fault (List α) :=
  if i < xs.length then .ok (xs.set i v) else .error .undefined

/-! ## Data model -/

/-- A point with beam id and time stamp (`PointXYZIRT`). -/
structure Point where
  x : ℚ
  y : ℚ
  z : ℚ
  intensity : ℚ
  ring : Nat
  time : ℚ
deriving DecidableEq

/-- The feature labels (`PointLabel`). -/
inductive PointLabel where
  | CORNER_SHARP
  | CORNER_LESS_SHARP
  | SURFACE_LESS_FLAT
  | SURFACE_FLAT
deriving DecidableEq, Repr

/-- A scan line: the points of one beam (`PointCloudIRT`). -/
abbrev PointCloudIRT := List Point

/-- Inclusive start and end index of a scan line in the sorted scan (`IndexRange`). -/
abbrev IndexRange := Nat × Nat

/-- The parameters (`LoamParams`), read-only for the extractor. -/
structure LoamParams where
  number_of_beams : Int
  curvature_region : Int
  n_feature_regions : Int
  max_corner_sharp : Int
  max_corner_less_sharp : Int
  max_surface_flat : Int
  surface_curvature_threshold : ℚ
  ignore_weak_features : Bool
  downsample_less_flat_features : Bool
  less_flat_filter_size : ℚ
  /-- the axis that points up, one of X, Y, Z; used when the cloud has no beam ids. -/
  vertical_axis : String
  /-- the value of `GetBeamAngleBinsDeg()` (not among the sources): the thresholds, in
  degrees, between the vertical angles of neighbouring beams. -/
  beam_angle_bins_deg : List ℚ

/-- What the extractor uses and `LoamFeatureExtractor.cpp` does not define: the square
root of `<cmath>`, the three-argument `beam::SquaredDiff`, the numeric values of the
`PointLabel` enumerators (compared with `<=` in the remainder pass) and the voxel grid
filter of PCL (leaf size, input cloud). They are parameters of the embedding. -/
structure Env where
  sqrt : ℚ → ℚ
  SquaredDiffW : Point → Point → ℚ → ℚ
  labelValue : PointLabel → Int
  voxelGrid : ℚ → PointCloudIRT → PointCloudIRT

/-- The transient buffers of an extractor instance. -/
structure State where
  scan_indices_ : List IndexRange
  sorted_scan_ : List Point
  region_curvature_ : List ℚ
  region_label_ : List PointLabel
  region_sort_indices_ : List Nat
  scan_neighbor_picked_ : List Int
  corner_points_sharp_ : List Point
  corner_points_less_sharp_ : List Point
  surface_points_flat_ : List Point
  surface_points_less_flat_ : List Point
deriving DecidableEq

/-- The four output clouds (`LoamPointCloud`), in the order of the constructor call:
sharp corners, flat surfaces, less sharp corners, less flat surfaces. -/
structure LoamPointCloud where
  edges_strong : List Point
  surfaces_strong : List Point
  edges_weak : List Point
  surfaces_weak : List Point
deriving DecidableEq

/-- Modelled from the spec: `beam::SquaredDiff` with two arguments (beam_utils, not among
the sources) is the squared distance between two points. -/
def SquaredDiff (a b : Point) : ℚ :=
  (a.x - b.x) * (a.x - b.x) + (a.y - b.y) * (a.y - b.y) + (a.z - b.z) * (a.z - b.z)

/-- Modelled from the spec: `beam::SquaredPointDistance` (beam_utils, not among the
sources) is the squared distance of a point from the origin. -/
def SquaredPointDistance (a : Point) : ℚ := a.x * a.x + a.y * a.y + a.z * a.z

/-- Modelled from the spec: `beam::PointDistance` (beam_utils, not among the sources) is
the distance of a point from the sensor origin. -/
def PointDistance (env : Env) (a : Point) : ℚ := env.sqrt (SquaredPointDistance a)

/-! ## `Reset` and `GetSortedScan` -/

/-- `LoamFeatureExtractor::Reset`: clears every buffer. -/
def Reset (s : State) : State :=
  { s with
    scan_indices_ := [],
    sorted_scan_ := [],
    region_curvature_ := [],
    region_label_ := [],
    region_sort_indices_ := [],
    scan_neighbor_picked_ := [],
    corner_points_sharp_ := [],
    corner_points_less_sharp_ := [],
    surface_points_flat_ := [],
    surface_points_less_flat_ := [] }

/-- The loop of `GetSortedScan` over the remaining scan lines, `cloud_size` being the
local counter. -/
def GetSortedScanLoop : List PointCloudIRT → Nat → State → State
  | [], _, s => s
  | line :: rest, cloud_size, s =>
    let s1 := { s with sorted_scan_ := s.sorted_scan_ ++ line }
    let cloud_size1 := uadd cloud_size line.length
    let range : IndexRange := (cloud_size, if cloud_size1 > 0 then usub cloud_size1 1 else 0)
    GetSortedScanLoop rest cloud_size1 { s1 with scan_indices_ := s1.scan_indices_ ++ [range] }

/-- `LoamFeatureExtractor::GetSortedScan`. -/
def GetSortedScan (scan_lines : List PointCloudIRT) (s : State) : State :=
  GetSortedScanLoop scan_lines 0 s

/-! ## `SetScanBuffersFor`: the reliability filter -/

/-- `std::fill_n(&xs[a], count, v)`: writes `count` slots from slot `a` on. -/
def fillN {α : Type} (v : α) : Nat → Nat → List α → Except Fault (List α)
  | 0, _, xs => .ok xs
  | count + 1, a, xs => do
    let xs1 ← wr xs a v
    fillN v count (a + 1) xs1

/-- The comparison `a / b < c` on floats with `a` not negative: with a zero divisor the
quotient is an infinity or not a number, and the comparison is false. -/
def divLt (a b c : ℚ) : Bool := decide (b ≠ 0 ∧ a / b < c)

/-- One iteration of the loop of `SetScanBuffersFor`, at index `i`. -/
def SetScanBuffersStep (env : Env) (p : LoamParams) (start_idx i : Nat) (s : State) :
    Except Fault State := do
  let previous_point ← rd s.sorted_scan_ (usub i 1)
  let point ← rd s.sorted_scan_ i
  let next_point ← rd s.sorted_scan_ (uadd i 1)
  let diff_next := SquaredDiff next_point point
  let depth1 := PointDistance env point
  let depth2 := PointDistance env next_point
  -- the branch that ends with `continue`
  if diff_next > 1 / 10 ∧ depth1 > depth2 ∧
      divLt (env.sqrt (env.SquaredDiffW next_point point (depth2 / depth1))) depth2 (1 / 10)
  then do
    let picked ← fillN (1 : Int) (p.curvature_region + 1).toNat
      (usub (usub i start_idx) (toSizeT p.curvature_region)) s.scan_neighbor_picked_
    .ok { s with scan_neighbor_picked_ := picked }
  else do
    let picked1 ←
      (if diff_next > 1 / 10 ∧ ¬ depth1 > depth2 ∧
          divLt (env.sqrt (env.SquaredDiffW point next_point (depth1 / depth2))) depth1 (1 / 10)
      then fillN (1 : Int) (p.curvature_region + 1).toNat (uadd (usub i start_idx) 1)
        s.scan_neighbor_picked_
      else .ok s.scan_neighbor_picked_)
    let diffPrevious := SquaredDiff point previous_point
    let dis := SquaredPointDistance point
    if diff_next > 2 / 10000 * dis ∧ diffPrevious > 2 / 10000 * dis then do
      let picked2 ← wr picked1 (usub i start_idx) 1
      .ok { s with scan_neighbor_picked_ := picked2 }
    else .ok { s with scan_neighbor_picked_ := picked1 }

/-- The loop `for (i = start_idx + curvature_region; i < end_idx - curvature_region; i++)`
of `SetScanBuffersFor`; the first argument is the number of iterations left. -/
def SetScanBuffersLoop (env : Env) (p : LoamParams) (start_idx : Nat) :
    Nat → Nat → State → Except Fault State
  | 0, _, s => .ok s
  | left + 1, i, s => do
    let s1 ← SetScanBuffersStep env p start_idx i s
    SetScanBuffersLoop env p start_idx left (i + 1) s1

/-- `LoamFeatureExtractor::SetScanBuffersFor`. -/
def SetScanBuffersFor (env : Env) (p : LoamParams) (start_idx end_idx : Nat) (s : State) :
    Except Fault State :=
  let scan_size := uadd (usub end_idx start_idx) 1
  let s1 := { s with scan_neighbor_picked_ := List.replicate scan_size (0 : Int) }
  let lo := uadd start_idx (toSizeT p.curvature_region)
  let hi := usub end_idx (toSizeT p.curvature_region)
  SetScanBuffersLoop env p start_idx (hi - lo) lo s1

/-! ## `SetRegionBuffersFor`: curvature and ranking -/

/-- `std::vector::resize(n)`: keeps the first `n` entries and pads with `d`. -/
def resize {α : Type} (xs : List α) (n : Nat) (d : α) : List α :=
  xs.take n ++ List.replicate (n - xs.length) d

/-- The loop `for (int j = 1; j <= curvature_region; j++)` of `SetRegionBuffersFor`
around index `i`; the first argument is the number of iterations left, the triple is
`(diffX, diffY, diffZ)`. -/
def curvatureWindow (scan : List Point) (i : Nat) :
    Nat → Nat → ℚ × ℚ × ℚ → Except Fault (ℚ × ℚ × ℚ)
  | 0, _, d => .ok d
  | left + 1, j, d => do
    let a ← rd scan (uadd i j)
    let b ← rd scan (usub i j)
    curvatureWindow scan i left (j + 1) (d.1 + (a.x + b.x), d.2.1 + (a.y + b.y), d.2.2 + (a.z + b.z))

/-- The loop `for (i = start_idx, regionIdx = 0; i <= end_idx; i++, regionIdx++)` of
`SetRegionBuffersFor`; the first argument is the number of iterations left. -/
def curvatureLoop (p : LoamParams) : Nat → Nat → Nat → State → Except Fault State
  | 0, _, _, s => .ok s
  | left + 1, i, regionIdx, s => do
    let point_weight : ℚ := ((-2 * p.curvature_region : Int) : ℚ)
    let pt ← rd s.sorted_scan_ i
    let d ← curvatureWindow s.sorted_scan_ i p.curvature_region.toNat 1
      (point_weight * pt.x, point_weight * pt.y, point_weight * pt.z)
    let curv ← wr s.region_curvature_ regionIdx (d.1 * d.1 + d.2.1 * d.2.1 + d.2.2 * d.2.2)
    let idxs ← wr s.region_sort_indices_ regionIdx i
    curvatureLoop p left (i + 1) (regionIdx + 1)
      { s with region_curvature_ := curv, region_sort_indices_ := idxs }

/-- The loop `for (size_t j = i; j >= 1; j--)` of the sort, from `j` down. -/
def sortInner (start_idx : Nat) : Nat → State → Except Fault State
  | 0, s => .ok s
  | j + 1, s => do
    let a ← rd s.region_sort_indices_ (j + 1)
    let b ← rd s.region_sort_indices_ j
    let ca ← rd s.region_curvature_ (usub a start_idx)
    let cb ← rd s.region_curvature_ (usub b start_idx)
    if ca < cb then do
      let idxs1 ← wr s.region_sort_indices_ (j + 1) b
      let idxs2 ← wr idxs1 j a
      sortInner start_idx j { s with region_sort_indices_ := idxs2 }
    else sortInner start_idx j s

/-- The loop `for (size_t i = 1; i < region_size; i++)` of the sort; the first argument
is the number of iterations left. -/
def sortOuter (start_idx : Nat) : Nat → Nat → State → Except Fault State
  | 0, _, s => .ok s
  | left + 1, i, s => do
    let s1 ← sortInner start_idx i s
    sortOuter start_idx left (i + 1) s1

/-- `LoamFeatureExtractor::SetRegionBuffersFor`. -/
def SetRegionBuffersFor (p : LoamParams) (start_idx end_idx : Nat) (s : State) :
    Except Fault State := do
  let region_size := uadd (usub end_idx start_idx) 1
  let s1 := { s with
    region_curvature_ := resize s.region_curvature_ region_size 0,
    region_sort_indices_ := resize s.region_sort_indices_ region_size 0,
    region_label_ := List.replicate region_size PointLabel.SURFACE_LESS_FLAT }
  let s2 ← curvatureLoop p (end_idx + 1 - start_idx) start_idx 0 s1
  sortOuter start_idx (region_size - 1) 1 s2

/-! ## `MarkAsPicked`: neighbour suppression -/

/-- The first loop of `MarkAsPicked` (towards larger indices), from step `i` on; the
first argument is the number of iterations left. -/
def markForward (scan : List Point) (cloud_idx scan_idx : Nat) :
    Nat → Nat → List Int → Except Fault (List Int)
  | 0, _, picked => .ok picked
  | left + 1, i, picked => do
    let a ← rd scan (uadd cloud_idx i)
    let b ← rd scan (usub (uadd cloud_idx i) 1)
    if SquaredDiff a b > 5 / 100 then .ok picked
    else do
      let picked1 ← wr picked (uadd scan_idx i) 1
      markForward scan cloud_idx scan_idx left (i + 1) picked1

/-- The second loop of `MarkAsPicked` (towards smaller indices), from step `i` on; the
first argument is the number of iterations left. -/
def markBackward (scan : List Point) (cloud_idx scan_idx : Nat) :
    Nat → Nat → List Int → Except Fault (List Int)
  | 0, _, picked => .ok picked
  | left + 1, i, picked => do
    let a ← rd scan (usub cloud_idx i)
    let b ← rd scan (uadd (usub cloud_idx i) 1)
    if SquaredDiff a b > 5 / 100 then .ok picked
    else do
      let picked1 ← wr picked (usub scan_idx i) 1
      markBackward scan cloud_idx scan_idx left (i + 1) picked1

/-- `LoamFeatureExtractor::MarkAsPicked`. -/
def MarkAsPicked (p : LoamParams) (cloud_idx scan_idx : Nat) (s : State) :
    Except Fault State := do
  let picked0 ← wr s.scan_neighbor_picked_ scan_idx 1
  let picked1 ← markForward s.sorted_scan_ cloud_idx scan_idx p.curvature_region.toNat 1 picked0
  let picked2 ← markBackward s.sorted_scan_ cloud_idx scan_idx p.curvature_region.toNat 1 picked1
  .ok { s with scan_neighbor_picked_ := picked2 }

/-! ## The orchestrator -/

/-- The test `scan_end_idx <= scan_start_idx + 2 * curvature_region` under the comment
"skip empty scans": true when the scan line is skipped. -/
def scanSkipped (p : LoamParams) (range : IndexRange) : Bool :=
  decide (range.2 ≤ uadd range.1 (toSizeT (2 * p.curvature_region)))

/-- The first index `sp` of region `j` of a scan line. -/
def regionStart (p : LoamParams) (scan_start_idx scan_end_idx : Nat) (j : Int) : Nat :=
  uadd
      (umul (uadd scan_start_idx (toSizeT p.curvature_region))
        (toSizeT (p.n_feature_regions - j)))
      (umul (usub scan_end_idx (toSizeT p.curvature_region)) (toSizeT j))
    / toSizeT p.n_feature_regions

/-- The last index `ep` of region `j` of a scan line. -/
def regionEnd (p : LoamParams) (scan_start_idx scan_end_idx : Nat) (j : Int) : Nat :=
  usub
    (uadd
        (umul (uadd scan_start_idx (toSizeT p.curvature_region))
          (toSizeT (p.n_feature_regions - 1 - j)))
        (umul (usub scan_end_idx (toSizeT p.curvature_region)) (toSizeT (j + 1)))
      / toSizeT p.n_feature_regions)
    1

/-- The test `ep <= sp` under the comment "skip empty regions": true when region `j` is
skipped. -/
def regionSkipped (p : LoamParams) (scan_start_idx scan_end_idx : Nat) (j : Int) : Bool :=
  decide (regionEnd p scan_start_idx scan_end_idx j ≤ regionStart p scan_start_idx scan_end_idx j)

/-- The body of the `if` of the corner pass: the point `idx` is accepted as corner number
`largest_picked_num` (already incremented) of the region. -/
def cornerAccept (p : LoamParams) (idx scan_idx region_idx : Nat) (largest_picked_num : Int)
    (s : State) : Except Fault State := do
  let s1 ←
    (if largest_picked_num ≤ p.max_corner_sharp then do
      let labels ← wr s.region_label_ region_idx PointLabel.CORNER_SHARP
      let pt ← rd s.sorted_scan_ idx
      .ok { s with region_label_ := labels,
                   corner_points_sharp_ := s.corner_points_sharp_ ++ [pt] }
    else do
      let labels ← wr s.region_label_ region_idx PointLabel.CORNER_LESS_SHARP
      .ok { s with region_label_ := labels })
  let s2 ←
    (if ¬ p.ignore_weak_features then do
      let pt ← rd s1.sorted_scan_ idx
      .ok { s1 with corner_points_less_sharp_ := s1.corner_points_less_sharp_ ++ [pt] }
    else .ok s1)
  MarkAsPicked p idx scan_idx s2

/-- The corner pass: the loop `for (k = region_size; k > 0 && largest_picked_num <
max_corner_less_sharp;)`, from `k` down. -/
def cornerLoop (p : LoamParams) (scan_start_idx sp : Nat) :
    Nat → Int → State → Except Fault State
  | 0, _, s => .ok s
  | k + 1, largest_picked_num, s =>
    if largest_picked_num < p.max_corner_less_sharp then do
      let idx ← rd s.region_sort_indices_ k
      let scan_idx := usub idx scan_start_idx
      let region_idx := usub idx sp
      let picked ← rd s.scan_neighbor_picked_ scan_idx
      if picked = 0 then do
        let curv ← rd s.region_curvature_ region_idx
        if curv > p.surface_curvature_threshold then do
          let s1 ← cornerAccept p idx scan_idx region_idx (largest_picked_num + 1) s
          cornerLoop p scan_start_idx sp k (largest_picked_num + 1) s1
        else cornerLoop p scan_start_idx sp k largest_picked_num s
      else cornerLoop p scan_start_idx sp k largest_picked_num s
    else .ok s

/-- The body of the `if` of the flat pass: the point `idx` is accepted as a flat point; the
cloud is `surf_points_less_flat_scan`. -/
def flatAccept (p : LoamParams) (idx scan_idx region_idx : Nat)
    (less_flat_scan : PointCloudIRT) (s : State) : Except Fault (PointCloudIRT × State) := do
  let labels ← wr s.region_label_ region_idx PointLabel.SURFACE_FLAT
  let pt ← rd s.sorted_scan_ idx
  let s1 := { s with region_label_ := labels,
                     surface_points_flat_ := s.surface_points_flat_ ++ [pt] }
  let less_flat_scan1 :=
    if ¬ p.ignore_weak_features then less_flat_scan ++ [pt] else less_flat_scan
  let s2 ← MarkAsPicked p idx scan_idx s1
  .ok (less_flat_scan1, s2)

/-- The flat pass: the loop `for (k = 0; k < region_size && smallest_picked_num <
max_surface_flat; k++)`; the first argument is `region_size - k`, the cloud is
`surf_points_less_flat_scan`. -/
def flatLoop (p : LoamParams) (scan_start_idx sp : Nat) :
    Nat → Nat → Int → PointCloudIRT → State → Except Fault (PointCloudIRT × State)
  | 0, _, _, less_flat_scan, s => .ok (less_flat_scan, s)
  | left + 1, k, smallest_picked_num, less_flat_scan, s =>
    if smallest_picked_num < p.max_surface_flat then do
      let idx ← rd s.region_sort_indices_ k
      let scan_idx := usub idx scan_start_idx
      let region_idx := usub idx sp
      let picked ← rd s.scan_neighbor_picked_ scan_idx
      if picked = 0 then do
        let curv ← rd s.region_curvature_ region_idx
        if curv < p.surface_curvature_threshold then do
          let (less_flat_scan1, s1) ← flatAccept p idx scan_idx region_idx less_flat_scan s
          flatLoop p scan_start_idx sp left (k + 1) (smallest_picked_num + 1) less_flat_scan1 s1
        else flatLoop p scan_start_idx sp left (k + 1) smallest_picked_num less_flat_scan s
      else flatLoop p scan_start_idx sp left (k + 1) smallest_picked_num less_flat_scan s
    else .ok (less_flat_scan, s)

/-- The remainder pass: the loop `for (k = 0; k < region_size; k++)`; the first argument
is `region_size - k`. -/
def remainderLoop (env : Env) (sp : Nat) (s : State) :
    Nat → Nat → PointCloudIRT → Except Fault PointCloudIRT
  | 0, _, less_flat_scan => .ok less_flat_scan
  | left + 1, k, less_flat_scan => do
    let label ← rd s.region_label_ k
    if env.labelValue label ≤ env.labelValue PointLabel.SURFACE_LESS_FLAT then do
      let pt ← rd s.sorted_scan_ (uadd sp k)
      remainderLoop env sp s left (k + 1) (less_flat_scan ++ [pt])
    else remainderLoop env sp s left (k + 1) less_flat_scan

/-- The three passes over a region that is not skipped, after `SetRegionBuffersFor`. -/
def regionPasses (env : Env) (p : LoamParams) (scan_start_idx sp region_size : Nat)
    (less_flat_scan : PointCloudIRT) (s : State) : Except Fault (PointCloudIRT × State) := do
  let s1 ← cornerLoop p scan_start_idx sp region_size 0 s
  let (less_flat_scan1, s2) ← flatLoop p scan_start_idx sp region_size 0 0 less_flat_scan s1
  if ¬ p.ignore_weak_features then do
    let less_flat_scan2 ← remainderLoop env sp s2 region_size 0 less_flat_scan1
    .ok (less_flat_scan2, s2)
  else .ok (less_flat_scan1, s2)

/-- The body of the loop over the regions, for region `j`. -/
def regionBody (env : Env) (p : LoamParams) (scan_start_idx scan_end_idx : Nat) (j : Int)
    (less_flat_scan : PointCloudIRT) (s : State) : Except Fault (PointCloudIRT × State) :=
  let sp := regionStart p scan_start_idx scan_end_idx j
  let ep := regionEnd p scan_start_idx scan_end_idx j
  if regionSkipped p scan_start_idx scan_end_idx j then .ok (less_flat_scan, s)
  else do
    let region_size := uadd (usub ep sp) 1
    let s1 ← SetRegionBuffersFor p sp ep s
    regionPasses env p scan_start_idx sp region_size less_flat_scan s1

/-- The loop `for (int j = 0; j < n_feature_regions; j++)`; the first argument is the
number of iterations left. -/
def regionLoop (env : Env) (p : LoamParams) (scan_start_idx scan_end_idx : Nat) :
    Nat → Int → PointCloudIRT → State → Except Fault (PointCloudIRT × State)
  | 0, _, less_flat_scan, s => .ok (less_flat_scan, s)
  | left + 1, j, less_flat_scan, s => do
    let (less_flat_scan1, s1) ← regionBody env p scan_start_idx scan_end_idx j less_flat_scan s
    regionLoop env p scan_start_idx scan_end_idx left (j + 1) less_flat_scan1 s1

/-- The body of the loop over the scan lines, for the scan line with index range `range`. -/
def scanBody (env : Env) (p : LoamParams) (range : IndexRange) (s : State) :
    Except Fault State :=
  if scanSkipped p range then .ok s
  else do
    let s1 ← SetScanBuffersFor env p range.1 range.2 s
    let (less_flat_scan, s2) ← regionLoop env p range.1 range.2 p.n_feature_regions.toNat 0 [] s1
    if p.downsample_less_flat_features ∧ ¬ p.ignore_weak_features then
      .ok { s2 with surface_points_less_flat_ :=
        s2.surface_points_less_flat_ ++ env.voxelGrid p.less_flat_filter_size less_flat_scan }
    else
      .ok { s2 with surface_points_less_flat_ := s2.surface_points_less_flat_ ++ less_flat_scan }

/-- The loop `for (size_t i = 0; i < scan_indices_.size(); i++)` over the recorded ranges. -/
def scanLoop (env : Env) (p : LoamParams) : List IndexRange → State → Except Fault State
  | [], s => .ok s
  | range :: rest, s => do
    let s1 ← scanBody env p range s
    scanLoop env p rest s1

/-- The warnings a call can log (`BEAM_WARN`). -/
inductive Warning where
  /-- "Number of scan lines extracted is not equal to the specified number of lidar beams". -/
  | beam_count
  /-- "Point ring number is greater than specified number of beams, not using point." -/
  | ring_exceeds_beams
  /-- "Unable to extract sharp edge features from cloud." -/
  | no_sharp_features
  /-- "Unable to extract flat surface features from cloud." -/
  | no_flat_features
deriving DecidableEq, Repr

/-- The state in which `ExtractFeaturesFromScanLines` leaves the buffers. -/
def runScanLines (env : Env) (p : LoamParams) (scan_lines : List PointCloudIRT) (s : State) :
    Except Fault State :=
  let s1 := GetSortedScan scan_lines (Reset s)
  scanLoop env p s1.scan_indices_ s1

/-- `LoamFeatureExtractor::ExtractFeaturesFromScanLines`: the four clouds, the warnings
logged and the buffers left behind. -/
def ExtractFeaturesFromScanLines (env : Env) (p : LoamParams) (scan_lines : List PointCloudIRT)
    (s : State) : Except Fault (LoamPointCloud × List Warning × State) := do
  let s1 ← runScanLines env p scan_lines s
  let w1 := if s1.corner_points_sharp_.isEmpty then [Warning.no_sharp_features] else []
  let w2 := if s1.surface_points_flat_.isEmpty then [Warning.no_flat_features] else []
  .ok (⟨s1.corner_points_sharp_, s1.surface_points_flat_, s1.corner_points_less_sharp_,
        s1.surface_points_less_flat_⟩, w1 ++ w2, s1)

/-- The loop `for (const auto& p : cloud)` of `ExtractFeatures` for a cloud with beam ids:
routes every point to the scan line of its ring. -/
def routeByRing (p : LoamParams) :
    List Point → List PointCloudIRT → List Warning →
      Except Fault (List PointCloudIRT × List Warning)
  | [], scan_lines, w => .ok (scan_lines, w)
  | pt :: rest, scan_lines, w =>
    if (pt.ring : Int) > p.number_of_beams - 1 then
      routeByRing p rest scan_lines (w ++ [Warning.ring_exceeds_beams])
    else
      match scan_lines[pt.ring]? with
      | none => .error .out_of_range
      | some line => routeByRing p rest (scan_lines.set pt.ring (line ++ [pt])) w

/-- `LoamFeatureExtractor::ExtractFeatures` for a cloud of `PointXYZIRT`. -/
def ExtractFeatures (env : Env) (p : LoamParams) (cloud : List Point) (s : State) :
    Except Fault (LoamPointCloud × List Warning × State) :=
  if p.number_of_beams < 0 then .error .length_error
  else do
    let (scan_lines, w) ← routeByRing p cloud (List.replicate p.number_of_beams.toNat []) []
    let (out, w1, s1) ← ExtractFeaturesFromScanLines env p scan_lines s
    .ok (out, w ++ w1, s1)

/-! ## The other two overloads of `ExtractFeatures` -/

/-- A coordinate of a point of a cloud without beam ids: a finite value, or a value that
`std::isfinite` rejects (a NaN or an infinity). -/
inductive Coord where
  | finite (q : ℚ)
  | nonfinite
deriving DecidableEq

/-- A point of a cloud without beam ids (`pcl::PointXYZ`). -/
structure PointXYZ where
  x : Coord
  y : Coord
  z : Coord
deriving DecidableEq

/-- The search for the scan bin in `GetScanLines`: the first index `i` with
`angle_deg > beam_angle_bins_deg[i]`, counting from `i`, or the number of thresholds if
there is none. -/
def getLineId (angle_deg : ℚ) : List ℚ → Nat → Nat
  | [], i => i
  | b :: rest, i => if angle_deg > b then i else getLineId angle_deg rest (i + 1)

/-- The point is one that `GetScanLines` uses: its coordinates are finite and its squared
norm is at least 0.0001. -/
def usablePoint (pt : PointXYZ) : Bool :=
  match pt.x, pt.y, pt.z with
  | .finite x, .finite y, .finite z => decide (¬ x * x + y * y + z * z < 1 / 10000)
  | _, _, _ => false

/-- The body of the loop of `GetScanLines` for one point of the cloud. `atanDeg a b` is
`beam::Rad2Deg(std::atan(a / b))`, a parameter of the embedding; the fields of the new
point other than its coordinates are zero. -/
def GetScanLinesStep (env : Env) (atanDeg : ℚ → ℚ → ℚ) (p : LoamParams) (pt : PointXYZ)
    (scan_lines : List PointCloudIRT) : Except Fault (List PointCloudIRT) :=
  match pt.x, pt.y, pt.z with
  | .finite x, .finite y, .finite z =>
    -- skip zero valued points
    if x * x + y * y + z * z < 1 / 10000 then .ok scan_lines
    else do
      let angle_deg ←
        (if p.vertical_axis = "Z" ∨ p.vertical_axis = "z" then
          .ok (atanDeg z (env.sqrt (x * x + y * y)))
        else if p.vertical_axis = "Y" ∨ p.vertical_axis = "y" then
          .ok (atanDeg y (env.sqrt (x * x + z * z)))
        else if p.vertical_axis = "X" ∨ p.vertical_axis = "x" then
          .ok (atanDeg x (env.sqrt (y * y + z * z)))
        else .error Fault.invalid_argument)
      let line_id := getLineId angle_deg p.beam_angle_bins_deg 0
      match scan_lines[line_id]? with
      | none => .error .undefined
      | some line => .ok (scan_lines.set line_id (line ++ [⟨x, y, z, 0, 0, 0⟩]))
  -- skip NaN and INF valued points
  | _, _, _ => .ok scan_lines

/-- The loop `for (size_t point_id = 0; point_id < cloud.size(); point_id++)` of
`GetScanLines`. -/
def GetScanLinesLoop (env : Env) (atanDeg : ℚ → ℚ → ℚ) (p : LoamParams) :
    List PointXYZ → List PointCloudIRT → Except Fault (List PointCloudIRT)
  | [], scan_lines => .ok scan_lines
  | pt :: rest, scan_lines => do
    let scan_lines1 ← GetScanLinesStep env atanDeg p pt scan_lines
    GetScanLinesLoop env atanDeg p rest scan_lines1

/-- `LoamFeatureExtractor::GetScanLines`. Saving the scan lines to the debug directory
writes files and does not change what is returned; it is left out. -/
def GetScanLines (env : Env) (atanDeg : ℚ → ℚ → ℚ) (p : LoamParams) (cloud : List PointXYZ) :
    Except Fault (List PointCloudIRT) :=
  if p.number_of_beams < 0 then .error .length_error
  else GetScanLinesLoop env atanDeg p cloud (List.replicate p.number_of_beams.toNat [])

/-- `LoamFeatureExtractor::ExtractFeatures` for a cloud without beam ids (`PointCloud`). -/
def ExtractFeaturesXYZ (env : Env) (atanDeg : ℚ → ℚ → ℚ) (p : LoamParams)
    (cloud : List PointXYZ) (s : State) :
    Except Fault (LoamPointCloud × List Warning × State) := do
  let scan_lines ← GetScanLines env atanDeg p cloud
  let w := if (scan_lines.length : Int) ≠ p.number_of_beams then [Warning.beam_count] else []
  let (out, w1, s1) ← ExtractFeaturesFromScanLines env p scan_lines s
  .ok (out, w ++ w1, s1)

/-- A point with channels beyond beam id and time stamp (`PointXYZITRRNR`): reflectivity,
noise and range. The declaration is not among the sources; the loop of `ExtractFeatures`
reads `x`, `y`, `z`, `ring`, `intensity` and `time` only. -/
structure PointXYZITRRNR where
  x : ℚ
  y : ℚ
  z : ℚ
  intensity : ℚ
  time : ℚ
  reflectivity : Nat
  ring : Nat
  noise : Nat
  range : Nat
deriving DecidableEq

/-- The loop `for (const auto& p : cloud)` of `ExtractFeatures` for a cloud of
`PointXYZITRRNR`: builds the point `pn` and routes it to the scan line of its ring. The
cast of `time` to `float` is exact here. -/
def routeByRingXYZITRRNR (p : LoamParams) :
    List PointXYZITRRNR → List PointCloudIRT → List Warning →
      Except Fault (List PointCloudIRT × List Warning)
  | [], scan_lines, w => .ok (scan_lines, w)
  | pt :: rest, scan_lines, w =>
    if (pt.ring : Int) > p.number_of_beams - 1 then
      routeByRingXYZITRRNR p rest scan_lines (w ++ [Warning.ring_exceeds_beams])
    else
      let pn : Point :=
        { x := pt.x, y := pt.y, z := pt.z, ring := pt.ring, intensity := pt.intensity,
          time := pt.time }
      match scan_lines[pt.ring]? with
      | none => .error .out_of_range
      | some line => routeByRingXYZITRRNR p rest (scan_lines.set pt.ring (line ++ [pn])) w

/-- `LoamFeatureExtractor::ExtractFeatures` for a cloud of `PointXYZITRRNR`. -/
def ExtractFeaturesXYZITRRNR (env : Env) (p : LoamParams) (cloud : List PointXYZITRRNR)
    (s : State) : Except Fault (LoamPointCloud × List Warning × State) :=
  if p.number_of_beams < 0 then .error .length_error
  else do
    let (scan_lines, w) ←
      routeByRingXYZITRRNR p cloud (List.replicate p.number_of_beams.toNat []) []
    let (out, w1, s1) ← ExtractFeaturesFromScanLines env p scan_lines s
    .ok (out, w ++ w1, s1)

/-- The projection of a point with extra channels to its `x`, `y`, `z`, `intensity`, `ring`
and `time` fields. -/
def projectXYZIRT (pt : PointXYZITRRNR) : Point :=
  ⟨pt.x, pt.y, pt.z, pt.intensity, pt.ring, pt.time⟩

/-! ## Auxiliary definitions for the statements -/

/-- The range that `GetSortedScan` records for a line of `len` points that follows
`before` points, written without wrap-around. -/
def rangeAt (before len : Nat) : IndexRange :=
  (before, if before + len > 0 then before + len - 1 else 0)

/-- The ranges of the lines `lines` when `c` points precede them. -/
def rangesFrom : Nat → List PointCloudIRT → List IndexRange
  | _, [] => []
  | c, line :: rest => rangeAt c line.length :: rangesFrom (c + line.length) rest

/-- The hypotheses under which the index arithmetic of a scan line does not wrap:
a non-negative window radius, at least one region, a line that is not skipped and no
overflow of `scan_end_idx * n_feature_regions`. -/
structure LineOK (p : LoamParams) (start_idx end_idx : Nat) : Prop where
  hcr : 0 ≤ p.curvature_region
  hn : 1 ≤ p.n_feature_regions
  hlong : (start_idx : Int) + 2 * p.curvature_region < end_idx
  hmul : (end_idx : Int) * p.n_feature_regions < SIZE_MOD

/-- The mask `m1` has the length of `m0` and every slot of it is as in `m0` or set to 1. -/
def MaskGrows (m0 m1 : List Int) : Prop :=
  m1.length = m0.length ∧ ∀ t : Nat, m1[t]? = m0[t]? ∨ m1[t]? = some 1

/-- The consecutive points `k` and `k + 1` of the scan are more than 0.05 apart (squared
distance): a discontinuity, at which `MarkAsPicked` stops. -/
def Disc (scan : List Point) (k : Nat) : Prop :=
  ∃ a b, scan[k]? = some a ∧ scan[k + 1]? = some b ∧ SquaredDiff a b > 5 / 100

/-- Every point of the sorted scan and of the four output buffers satisfies `P`. -/
def PointsSatisfy (P : Point → Prop) (s : State) : Prop :=
  (∀ pt ∈ s.sorted_scan_, P pt) ∧ (∀ pt ∈ s.corner_points_sharp_, P pt) ∧
  (∀ pt ∈ s.corner_points_less_sharp_, P pt) ∧ (∀ pt ∈ s.surface_points_flat_, P pt) ∧
  (∀ pt ∈ s.surface_points_less_flat_, P pt)

/-- The indices `a < b` of a scan are far apart for the suppression: more than
`curvature_region` apart, or with a discontinuity at some `k` with `a ≤ k < b`. -/
def Far (scan : List Point) (cr : Int) (a b : Nat) : Prop :=
  (b : Int) - a > cr ∨ ∃ k, a ≤ k ∧ k < b ∧ Disc scan k

/-- The mask of the scan line that starts at `start_idx` has suppressed the neighbours of
every index in `X`: every slot `t - start_idx` of an index `t` within `curvature_region` of
an index `i` in `X`, with no discontinuity between the two, is set; and any two indices in
`X` are far apart. -/
def Suppressed (scan : List Point) (cr : Int) (start_idx : Nat) (mask : List Int)
    (X : Nat → Prop) : Prop :=
  (∀ i, X i → ∀ t : Nat, start_idx ≤ t → (t : Int) ≤ i + cr → (i : Int) ≤ t + cr →
    (∀ k : Nat, (i ≤ k ∧ k < t) ∨ (t ≤ k ∧ k < i) → ¬ Disc scan k) →
    ∃ v, mask[t - start_idx]? = some v ∧ v ≠ 0) ∧
  (∀ a b, X a → X b → a < b → Far scan cr a b)

/-- The sorted-scan index `i` is selected in region `j` of the scan line
`[scan_start_idx, scan_end_idx]`: the region is not skipped, contains `i`, and the label of
`i` in the region labels of `s` (the buffers after the passes over the region) is a corner
or a flat label. -/
def Selected (p : LoamParams) (scan_start_idx scan_end_idx : Nat) (j : Int) (s : State)
    (i : Nat) : Prop :=
  regionSkipped p scan_start_idx scan_end_idx j = false ∧
  regionStart p scan_start_idx scan_end_idx j ≤ i ∧
  i ≤ regionEnd p scan_start_idx scan_end_idx j ∧
  ∃ l, s.region_label_[i - regionStart p scan_start_idx scan_end_idx j]? = some l ∧
    l ≠ PointLabel.SURFACE_LESS_FLAT

/-- The invariant of the passes over the region `[sp, ep]` of the scan line that starts at
`start_idx`: the sorted scan and the rank array are `scan` and `idxs`, and the mask has
suppressed the neighbours of a set of indices that contains `X0` and every index of the
region whose label is no longer `SURFACE_LESS_FLAT`. -/
def RegionInv (p : LoamParams) (start_idx sp ep : Nat) (scan : List Point) (idxs : List Nat)
    (X0 : Nat → Prop) (st : State) : Prop :=
  st.sorted_scan_ = scan ∧ st.region_sort_indices_ = idxs ∧
  ∃ X : Nat → Prop, (∀ i, X0 i → X i) ∧
    Suppressed scan p.curvature_region start_idx st.scan_neighbor_picked_ X ∧
    ∀ i, sp ≤ i → i ≤ ep →
      (∃ l, st.region_label_[i - sp]? = some l ∧ l ≠ PointLabel.SURFACE_LESS_FLAT) → X i

/-- The weight `w(j)` of the curvature window of the spec: `-2 * curvature_region` at the
centre and 1 elsewhere. -/
def windowWeight (cr : Int) (j : Int) : ℚ := if j = 0 then ((-2 * cr : Int) : ℚ) else 1

/-- The coordinate `f` of the point at index `k` of the scan; 0 outside the scan. -/
def coordAt (f : Point → ℚ) (scan : List Point) (k : Int) : ℚ :=
  if k < 0 then 0 else
    match scan[k.toNat]? with
    | some pt => f pt
    | none => 0

/-- One coordinate of the vector `Σ_{j = -cr}^{cr} w(j) coord(i + j)` of the spec. -/
def windowSum (f : Point → ℚ) (scan : List Point) (cr : Int) (i : Nat) : ℚ :=
  ∑ j ∈ Finset.Icc (-cr) cr, windowWeight cr j * coordAt f scan (i + j)

/-- The curvature of the spec at index `i`: the squared norm of the window sum. -/
def curvatureSpec (scan : List Point) (cr : Int) (i : Nat) : ℚ :=
  windowSum (fun pt => pt.x) scan cr i * windowSum (fun pt => pt.x) scan cr i
    + windowSum (fun pt => pt.y) scan cr i * windowSum (fun pt => pt.y) scan cr i
    + windowSum (fun pt => pt.z) scan cr i * windowSum (fun pt => pt.z) scan cr i

/-- The window sum around index `i` with centre weight `W` and radius `m`. -/
def windowSumW (f : Point → ℚ) (scan : List Point) (W : ℚ) (i m : Nat) : ℚ :=
  ∑ t ∈ Finset.Icc (-(m : Int)) (m : Int), (if t = 0 then W else 1) * coordAt f scan (i + t)

/-- The curvature that the region buffers hold for the sorted-scan index `x` of the region
that starts at `sp` (0 when the slot does not exist). -/
def rankKey (curv : List ℚ) (sp : Nat) (x : Nat) : ℚ := (curv[usub x sp]?).getD 0

/-- The inner loop of the sort as a function on the rank array: from position `j` down,
neighbours are swapped when the later one has the smaller key. -/
def bubble (key : Nat → ℚ) : Nat → List Nat → List Nat
  | 0, l => l
  | j + 1, l =>
    match l[j + 1]?, l[j]? with
    | some a, some b =>
      if key a < key b then bubble key j ((l.set (j + 1) b).set j a) else bubble key j l
    | _, _ => l

/-- The outer loop of the sort as a function on the rank array. -/
def bubblePasses (key : Nat → ℚ) : Nat → Nat → List Nat → List Nat
  | 0, _, l => l
  | left + 1, i, l => bubblePasses key left (i + 1) (bubble key i l)

/-- The order of a stable sort by key of a list that starts in index order: by key, and by
index among equal keys. -/
def StableLt (key : Nat → ℚ) (x y : Nat) : Prop := key x < key y ∨ (key x = key y ∧ x < y)

/-- The buffers have the shape that the passes over the region `[sp, ep]` of the scan line
`[start_idx, end_idx]` rely on: the region lies `curvature_region` points inside the line,
the line lies in the sorted scan, the mask has one slot per point of the line, the region
buffers one slot per point of the region, and the rank array holds indices of the region. -/
structure RegionWF (p : LoamParams) (start_idx end_idx sp ep : Nat) (s : State) : Prop where
  hlo : start_idx + p.curvature_region.toNat ≤ sp
  hle : sp ≤ ep
  hhi : ep + 1 + p.curvature_region.toNat ≤ end_idx
  hmod : end_idx + 1 < SIZE_MOD
  hscan : end_idx < s.sorted_scan_.length
  hmask : s.scan_neighbor_picked_.length = end_idx - start_idx + 1
  hlabel : s.region_label_.length = ep - sp + 1
  hcurv : s.region_curvature_.length = ep - sp + 1
  hidx : s.region_sort_indices_.length = ep - sp + 1
  hmem : ∀ x ∈ s.region_sort_indices_, sp ≤ x ∧ x ≤ ep

/-- The points of the scan with index in `[a, b]` are equally spaced on a straight line:
point `k` is `o + k d` for some origin `o` and step `d`. -/
def EquallySpacedOn (scan : List Point) (a b : Nat) : Prop :=
  ∃ ox oy oz dx dy dz : ℚ, ∀ (k : Nat) (pt : Point), a ≤ k → k ≤ b → scan[k]? = some pt →
    pt.x = ox + k * dx ∧ pt.y = oy + k * dy ∧ pt.z = oz + k * dz

/-- The points of a scan line are equally spaced on a straight line. -/
def EquallySpaced (pts : PointCloudIRT) : Prop :=
  ∃ ox oy oz dx dy dz : ℚ, ∀ (k : Nat) (pt : Point), pts[k]? = some pt →
    pt.x = ox + k * dx ∧ pt.y = oy + k * dy ∧ pt.z = oz + k * dz

/-- The buffers `s` with the two accumulators of weak features replaced by `A` and `B`. -/
def withWeak (A B : List Point) (s : State) : State :=
  { s with corner_points_less_sharp_ := A, surface_points_less_flat_ := B }

/-- The parameters `q` are the parameters `p` with `ignore_weak_features` switched from
false to true (the fields that the orchestrator does not read are not constrained). -/
structure WeakIgnored (p q : LoamParams) : Prop where
  hF : p.ignore_weak_features = false
  hT : q.ignore_weak_features = true
  hcr : q.curvature_region = p.curvature_region
  hn : q.n_feature_regions = p.n_feature_regions
  hcs : q.max_corner_sharp = p.max_corner_sharp
  hcls : q.max_corner_less_sharp = p.max_corner_less_sharp
  hflat : q.max_surface_flat = p.max_surface_flat
  hthr : q.surface_curvature_threshold = p.surface_curvature_threshold

/-- The points that the remainder pass appends for a region of `n` points that starts at
`sp`: the points of the region, in index order, whose label compares `≤ SURFACE_LESS_FLAT`
in the order of the enumerators. -/
def remainderPoints (env : Env) (sp : Nat) (s : State) (n : Nat) : List Point :=
  (List.range n).filterMap fun k =>
    match s.region_label_[k]? with
    | some l =>
      if env.labelValue l ≤ env.labelValue PointLabel.SURFACE_LESS_FLAT then
        s.sorted_scan_[sp + k]?
      else none
    | none => none

/-- The points of the scan at the indices `idxs`, in the order of `idxs`. -/
def pointsAt (scan : List Point) (idxs : List Nat) : List Point :=
  idxs.filterMap fun i => scan[i]?

/-- The cloud `after` is the cloud `before` followed by the points of the scan at a list of
indices that all satisfy `Q`. -/
def EmittedFrom (Q : Nat → Prop) (scan before after : List Point) : Prop :=
  ∃ idxs : List Nat, after = before ++ pointsAt scan idxs ∧ ∀ i ∈ idxs, Q i

/-- The corner pass as the sequence of its accepts: from the state `s`, in which `L` corners
of the region are accepted, the indices of the list are accepted one after the other, each
in a state in which its mask slot is unset and its stored curvature is above the threshold;
the last accept leaves the state `s1`. The iterations in between change nothing. -/
def CornerRun (p : LoamParams) (scan_start_idx sp : Nat) :
    List Nat → Int → State → State → Prop
  | [], _, s, s1 => s1 = s
  | idx :: rest, L, s, s1 =>
    s.scan_neighbor_picked_[usub idx scan_start_idx]? = some 0 ∧
    (∃ c, s.region_curvature_[usub idx sp]? = some c ∧ c > p.surface_curvature_threshold) ∧
    ∃ s2, cornerAccept p idx (usub idx scan_start_idx) (usub idx sp) (L + 1) s = .ok s2 ∧
      CornerRun p scan_start_idx sp rest (L + 1) s2 s1

/-- The flat pass as the sequence of its accepts: the indices of the list are accepted one
after the other, each in a state in which its mask slot is unset and its stored curvature is
below the threshold; the last accept leaves the cloud `acc1` and the state `s1`. -/
def FlatRun (p : LoamParams) (scan_start_idx sp : Nat) :
    List Nat → PointCloudIRT → State → PointCloudIRT → State → Prop
  | [], acc, s, acc1, s1 => acc1 = acc ∧ s1 = s
  | idx :: rest, acc, s, acc1, s1 =>
    s.scan_neighbor_picked_[usub idx scan_start_idx]? = some 0 ∧
    (∃ c, s.region_curvature_[usub idx sp]? = some c ∧ c < p.surface_curvature_threshold) ∧
    ∃ acc2 s2, flatAccept p idx (usub idx scan_start_idx) (usub idx sp) acc s = .ok (acc2, s2) ∧
      FlatRun p scan_start_idx sp rest acc2 s2 acc1 s1

/-! ## Sample inputs -/

/-- An extractor whose buffers are all empty. -/
def sampleState : State := ⟨[], [], [], [], [], [], [], [], [], []⟩

/-- A point of ring `r` at `(10 + i / 100, y, 0)`. -/
def samplePoint (r i : Nat) (y : ℚ) : Point := ⟨10 + (i : ℚ) / 100, y, 0, 0, r, 0⟩

/-- A scan line of three points of ring 0. -/
def sampleLine3 : PointCloudIRT := [samplePoint 0 0 0, samplePoint 0 1 0, samplePoint 0 2 0]

/-- Parameters with `curvature_region = 1` and a single region per scan line. -/
def sampleParams : LoamParams :=
  { number_of_beams := 2, curvature_region := 1, n_feature_regions := 1,
    max_corner_sharp := 1, max_corner_less_sharp := 2, max_surface_flat := 2,
    surface_curvature_threshold := 1 / 100, ignore_weak_features := false,
    downsample_less_flat_features := false, less_flat_filter_size := 1 / 10,
    vertical_axis := "Z", beam_angle_bins_deg := [0] }

/-- An environment: an integer square root, the weighted squared difference
`|a - w b|^2`, the enumerator values 255, 1, 0, -1 and a voxel filter that keeps every
point. -/
def sampleEnv : Env :=
  { sqrt := fun q => (Nat.sqrt q.floor.toNat : ℚ),
    SquaredDiffW := fun a b w =>
      (a.x - w * b.x) * (a.x - w * b.x) + (a.y - w * b.y) * (a.y - w * b.y)
        + (a.z - w * b.z) * (a.z - w * b.z),
    labelValue := fun l =>
      match l with
      | .CORNER_SHARP => 255
      | .CORNER_LESS_SHARP => 1
      | .SURFACE_LESS_FLAT => 0
      | .SURFACE_FLAT => -1,
    voxelGrid := fun _ c => c }

/-- A scan line of four points of ring 0 on a straight line. -/
def sampleLine4 : PointCloudIRT :=
  [samplePoint 0 0 0, samplePoint 0 1 0, samplePoint 0 2 0, samplePoint 0 3 0]

/-- A scan line of seven points of ring 0: a straight line but for the point at index 3,
which is displaced by 1/10. -/
def sampleLine7 : PointCloudIRT :=
  [samplePoint 0 0 0, samplePoint 0 1 0, samplePoint 0 2 0, samplePoint 0 3 (1 / 10),
   samplePoint 0 4 0, samplePoint 0 5 0, samplePoint 0 6 0]

/-- The buffers after `Reset` and `GetSortedScan` on the single scan line `sampleLine7`. -/
def sampleScan7 : State := GetSortedScan [sampleLine7] (Reset sampleState)

/-- The sample parameters with two regions per scan line. -/
def sampleParams2 : LoamParams := { sampleParams with n_feature_regions := 2 }

/-- The value of a run that has not faulted, and `d` for a run that has. -/
def okOr {α : Type} (d : α) : Except Fault α → α
  | .ok a => a
  | .error _ => d

/-- The buffers after the reliability filter on the scan line `[0, 6]` of `sampleScan7`. -/
def sampleFiltered7 : State :=
  okOr sampleState (SetScanBuffersFor sampleEnv sampleParams 0 6 sampleScan7)

/-- The less flat cloud and the buffers after region 0 of that scan line. -/
def sampleRegion7 : PointCloudIRT × State :=
  okOr ([], sampleState) (regionBody sampleEnv sampleParams 0 6 0 [] sampleFiltered7)

/-- A cloud with beam ids: the seven points of `sampleLine7` (ring 0), with a point of ring 2
(one past the last beam of `sampleParams`) in their midst. -/
def sampleCloudRing : List Point :=
  [samplePoint 0 0 0, samplePoint 0 1 0, samplePoint 0 2 0, samplePoint 2 9 0,
   samplePoint 0 3 (1 / 10), samplePoint 0 4 0, samplePoint 0 5 0, samplePoint 0 6 0]

/-- The less flat cloud and the buffers after the region loop of that scan line. -/
def sampleLoop7 : PointCloudIRT × State :=
  okOr ([], sampleState) (regionLoop sampleEnv sampleParams 0 6 1 0 [] sampleFiltered7)

/-- The sample parameters with a vertical axis that is none of X, Y, Z. -/
def sampleParamsBadAxis : LoamParams := { sampleParams with vertical_axis := "W" }

/-- A stand-in for `Rad2Deg(atan(a / b))`: 45 degrees times the quotient, and 90 or -90
degrees for a zero divisor. -/
def sampleAtanDeg (a b : ℚ) : ℚ := if b = 0 then (if a > 0 then 90 else -90) else 45 * (a / b)

/-- A cloud without beam ids: a point with a coordinate that is not finite, a point at the
origin and a point at `(1, 0, 0)`. -/
def sampleCloudXYZ : List PointXYZ :=
  [⟨.nonfinite, .finite 0, .finite 0⟩, ⟨.finite 0, .finite 0, .finite 0⟩,
   ⟨.finite 1, .finite 0, .finite 0⟩]

/-- The buffers after `SetRegionBuffersFor` on the region `[1, 4]` of that scan line. -/
def sampleRanked7 : State :=
  okOr sampleState (SetRegionBuffersFor sampleParams 1 4 sampleFiltered7)

/-- A scan line of seven points of ring 0 on a straight line, 1/100 apart. -/
def sampleFlat7 : PointCloudIRT :=
  [samplePoint 0 0 0, samplePoint 0 1 0, samplePoint 0 2 0, samplePoint 0 3 0,
   samplePoint 0 4 0, samplePoint 0 5 0, samplePoint 0 6 0]

/-- A scan line of 41 points of ring 0, 1/10 apart on the straight line `y = d` (a wall at
distance `d` in front of the sensor), but for the point at index 20, which is displaced by 1
towards the sensor, orthogonally to the line. -/
def spikeLine (d : ℚ) : PointCloudIRT :=
  (List.range 41).map fun k =>
    if k = 20 then ⟨0, d - 1, 0, 0, 0, 0⟩ else ⟨((k : ℚ) - 20) / 10, d, 0, 0, 0, 0⟩

/-- Parameters with `curvature_region = 5`, a single region per scan line and the threshold
50 on the curvature. -/
def spikeParams : LoamParams :=
  { number_of_beams := 1, curvature_region := 5, n_feature_regions := 1,
    max_corner_sharp := 2, max_corner_less_sharp := 20, max_surface_flat := 4,
    surface_curvature_threshold := 50, ignore_weak_features := false,
    downsample_less_flat_features := false, less_flat_filter_size := 1 / 10,
    vertical_axis := "Z", beam_angle_bins_deg := [] }

/-- Newton iteration for the integer square root of `n` from the guess `x`, at most `fuel`
steps. -/
def newtonSqrt : Nat → Nat → Nat → Nat
  | 0, _, x => x
  | fuel + 1, n, x =>
    let y := (x + n / x) / 2
    if y < x then newtonSqrt fuel n y else x

/-- The integer square root (for arguments below `2 ^ 64`). -/
def intSqrt (n : Nat) : Nat := if n ≤ 1 then n else newtonSqrt 64 n n

/-- The environment `sampleEnv` with the integer square root computed by Newton
iteration. -/
def spikeEnv : Env := { sampleEnv with sqrt := fun q => (intSqrt q.floor.toNat : ℚ) }

/-- The buffers for the wall at distance 10 when the filter starts on its scan line: the
sorted scan is the line and the mask has 41 unset slots. -/
def spikeScanNear : State :=
  { GetSortedScan [spikeLine 10] (Reset sampleState) with
    scan_neighbor_picked_ := List.replicate 41 (0 : Int) }

/-- Modelled from the spec: the enumerator values in the order that the spec states for
`PointLabel`, `CORNER_SHARP < CORNER_LESS_SHARP < SURFACE_LESS_FLAT < SURFACE_FLAT`; everything
else is as in `sampleEnv`. -/
def specOrderEnv : Env :=
  { sampleEnv with
    labelValue := fun l =>
      match l with
      | .CORNER_SHARP => 0
      | .CORNER_LESS_SHARP => 1
      | .SURFACE_LESS_FLAT => 2
      | .SURFACE_FLAT => 3 }

/-- The buffers after the body of the loop over the scan lines on the scan line `[0, 6]` of
`sampleScan7`. -/
def sampleBody7 : State :=
  okOr sampleState (scanBody sampleEnv sampleParams (0, 6) sampleScan7)

/-- The buffers `s` with the sorted scan replaced by `B`. -/
def withScan (B : List Point) (s : State) : State := { s with sorted_scan_ := B }

/-- The unsigned subtraction `a - b` does not wrap below zero: its value is the difference
of `a` and `b` as integers. -/
def NoWrap (a b : Nat) : Prop := ((usub a b : Nat) : Int) = (a : Int) - (b : Int)

/-- The elevation angle that `GetScanLines` computes for a point `(x, y, z)`, relative to
the configured `vertical_axis`; an axis that is none of X, Y, Z is an invalid argument. -/
def elevationAngle (env : Env) (atanDeg : ℚ → ℚ → ℚ) (p : LoamParams) (x y z : ℚ) :
    Except Fault ℚ :=
  if p.vertical_axis = "Z" ∨ p.vertical_axis = "z" then
    .ok (atanDeg z (env.sqrt (x * x + y * y)))
  else if p.vertical_axis = "Y" ∨ p.vertical_axis = "y" then
    .ok (atanDeg y (env.sqrt (x * x + z * z)))
  else if p.vertical_axis = "X" ∨ p.vertical_axis = "x" then
    .ok (atanDeg x (env.sqrt (y * y + z * z)))
  else .error Fault.invalid_argument

/-- Parameters with three thresholds in descending order, for four beams. -/
def sampleParamsBins : LoamParams :=
  { sampleParams with number_of_beams := 4, beam_angle_bins_deg := [10, 0, -10] }

/-- The point `pt` moved by the vector `(tx, ty, tz)`. -/
def translatePoint (tx ty tz : ℚ) (pt : Point) : Point :=
  { pt with x := pt.x + tx, y := pt.y + ty, z := pt.z + tz }

/-- The scan with every point moved by the vector `(tx, ty, tz)`. -/
def translateScan (tx ty tz : ℚ) (scan : List Point) : List Point :=
  scan.map (translatePoint tx ty tz)

/-! ## `beam_filtering::CropBox` -/

/-- A `float` or `double` value as a comparison sees it: a finite value, an infinity or a
NaN. -/
inductive FloatVal where
  | finite (q : ℚ)
  | posInf
  | negInf
  | nan
deriving DecidableEq

/-- The comparison `a < b` of two floats: false when an operand is a NaN. -/
def FloatVal.lt : FloatVal → FloatVal → Bool
  | .nan, _ => false
  | _, .nan => false
  | .finite a, .finite b => decide (a < b)
  | .finite _, .posInf => true
  | .finite _, .negInf => false
  | .posInf, _ => false
  | .negInf, .negInf => false
  | .negInf, _ => true

/-- The comparison `a > b` of two floats. -/
def FloatVal.gt (a b : FloatVal) : Bool := FloatVal.lt b a

/-- A `pcl::PointXYZ` with its coordinates as float values. -/
structure PointXYZf where
  x : FloatVal
  y : FloatVal
  z : FloatVal
deriving DecidableEq

/-- An `Eigen::Vector3f`; `v[i]` is the field `vi`. -/
structure Vector3f where
  v0 : FloatVal
  v1 : FloatVal
  v2 : FloatVal
deriving DecidableEq

/-- The members of a `CropBox`. The type of `T_box_cloud_` (`Eigen::Affine3f`) is a
parameter: the filter hands it to `pcl::transformPoint` and does nothing else with it. -/
structure CropBox (Affine3f : Type) where
  min_vec_ : Vector3f
  max_vec_ : Vector3f
  T_box_cloud_ : Affine3f
  min_vec_set_ : Bool
  max_vec_set_ : Bool

/-- `CropBox::CropBox()`: the transform is set to the identity, the two flags are false
(their default member initialisers); the two vectors are not initialised, `min0` and `max0`
are what they happen to hold. -/
def CropBox.construct {Affine3f : Type} (identity : Affine3f) (min0 max0 : Vector3f) :
    CropBox Affine3f :=
  { min_vec_ := min0, max_vec_ := max0, T_box_cloud_ := identity,
    min_vec_set_ := false, max_vec_set_ := false }

/-- `CropBox::SetMinVector`. -/
def CropBox.SetMinVector {Affine3f : Type} (box : CropBox Affine3f) (min_vec : Vector3f) :
    CropBox Affine3f :=
  { box with min_vec_ := min_vec, min_vec_set_ := true }

/-- `CropBox::SetMaxVector`. -/
def CropBox.SetMaxVector {Affine3f : Type} (box : CropBox Affine3f) (max_vec : Vector3f) :
    CropBox Affine3f :=
  { box with max_vec_ := max_vec, max_vec_set_ := true }

/-- `CropBox::SetTransform`. -/
def CropBox.SetTransform {Affine3f : Type} (box : CropBox Affine3f) (T_box_cloud : Affine3f) :
    CropBox Affine3f :=
  { box with T_box_cloud_ := T_box_cloud }

/-- The loop of `CropBox::Filter` over the input cloud. `transformPoint` is
`pcl::transformPoint`, a parameter of the embedding. -/
def CropBox.FilterLoop {Affine3f : Type} (transformPoint : PointXYZf → Affine3f → PointXYZf)
    (box : CropBox Affine3f) : List PointXYZf → List PointXYZf → List PointXYZf
  | [], cropped_cloud => cropped_cloud
  | it :: rest, cropped_cloud =>
    let point := transformPoint it box.T_box_cloud_
    if point.x.lt box.min_vec_.v0 || point.y.lt box.min_vec_.v1 ||
        point.z.lt box.min_vec_.v2 || point.x.gt box.max_vec_.v0 ||
        point.y.gt box.max_vec_.v1 || point.z.gt box.max_vec_.v2
    then CropBox.FilterLoop transformPoint box rest cropped_cloud
    else CropBox.FilterLoop transformPoint box rest (cropped_cloud ++ [it])

/-- `CropBox::Filter`: what the call throws, if anything, and the output cloud after the
call. The input cloud and the output cloud are two objects. -/
def CropBox.Filter {Affine3f : Type} (transformPoint : PointXYZf → Affine3f → PointXYZf)
    (box : CropBox Affine3f) (input_cloud cropped_cloud : List PointXYZf) :
    Except Fault Unit × List PointXYZf :=
  -- check that inputs are set
  if ¬ box.min_vec_set_ then (.error .invalid_argument, cropped_cloud)
  else if ¬ box.max_vec_set_ then (.error .invalid_argument, cropped_cloud)
  -- clear points in output cloud, perform filtering
  else (.ok (), CropBox.FilterLoop transformPoint box input_cloud [])

/-- A call of a method of `CropBox` other than `Filter`. -/
inductive CropBoxCall (Affine3f : Type) where
  | GetMinVector
  | SetMinVector (min_vec : Vector3f)
  | GetMaxVector
  | SetMaxVector (max_vec : Vector3f)
  | GetTransform
  | SetTransform (T_box_cloud : Affine3f)

/-- The box after a call: the getters leave it as it is. -/
def CropBox.call {Affine3f : Type} (box : CropBox Affine3f) :
    CropBoxCall Affine3f → CropBox Affine3f
  | .GetMinVector => box
  | .SetMinVector min_vec => box.SetMinVector min_vec
  | .GetMaxVector => box
  | .SetMaxVector max_vec => box.SetMaxVector max_vec
  | .GetTransform => box
  | .SetTransform T_box_cloud => box.SetTransform T_box_cloud

/-- The box after a sequence of calls. -/
def CropBox.calls {Affine3f : Type} (box : CropBox Affine3f)
    (cs : List (CropBoxCall Affine3f)) : CropBox Affine3f :=
  cs.foldl CropBox.call box

/-- The comparison `a ≤ b` of two floats: false when an operand is a NaN. -/
def FloatVal.le : FloatVal → FloatVal → Bool
  | .nan, _ => false
  | _, .nan => false
  | a, b => !(FloatVal.lt b a)

/-- The test of `CropBox::Filter` on a transformed point: one of its coordinates is below
the minimum or above the maximum. -/
def outsideBox (min_vec max_vec : Vector3f) (point : PointXYZf) : Bool :=
  point.x.lt min_vec.v0 || point.y.lt min_vec.v1 || point.z.lt min_vec.v2 ||
    point.x.gt max_vec.v0 || point.y.gt max_vec.v1 || point.z.gt max_vec.v2

/-- The transformed point lies in the box, bounds included: `min ≤ point ≤ max` in all three
components. -/
def insideBox (min_vec max_vec : Vector3f) (point : PointXYZf) : Bool :=
  min_vec.v0.le point.x && point.x.le max_vec.v0 && min_vec.v1.le point.y &&
    point.y.le max_vec.v1 && min_vec.v2.le point.z && point.z.le max_vec.v2

/-- None of the coordinates of the point and of the two vectors is a NaN. -/
def noNaN (min_vec max_vec : Vector3f) (point : PointXYZf) : Prop :=
  point.x ≠ .nan ∧ point.y ≠ .nan ∧ point.z ≠ .nan ∧
  min_vec.v0 ≠ .nan ∧ min_vec.v1 ≠ .nan ∧ min_vec.v2 ≠ .nan ∧
  max_vec.v0 ≠ .nan ∧ max_vec.v1 ≠ .nan ∧ max_vec.v2 ≠ .nan

/-- A stand-in for `pcl::transformPoint` with the identity transform: the point itself
(what the identity gives for a point whose coordinates are all finite, or all NaN). -/
def sampleTransformPoint (pt : PointXYZf) (_ : Unit) : PointXYZf := pt

/-- A box from `(0, 0, 0)` to `(1, 1, 1)` with the identity transform. -/
def sampleBox : CropBox Unit :=
  ((CropBox.construct () ⟨.nan, .nan, .nan⟩ ⟨.nan, .nan, .nan⟩).SetMinVector
    ⟨.finite 0, .finite 0, .finite 0⟩).SetMaxVector ⟨.finite 1, .finite 1, .finite 1⟩

/-- A cloud of four points: a point with NaN coordinates, a point inside the box, a point
on its boundary and a point outside. -/
def sampleCloudF : List PointXYZf :=
  [⟨.nan, .nan, .nan⟩, ⟨.finite (1 / 2), .finite (1 / 2), .finite (1 / 2)⟩,
   ⟨.finite 1, .finite 0, .finite 1⟩, ⟨.finite 2, .finite 0, .finite 0⟩]


/-! ## `beam_defects::Corrosion` -/

/-- The values of `DefectOSIMSeverity` that `Corrosion::GetOSIMSeverity` returns. -/
inductive DefectOSIMSeverity where
  | NONE
  | LIGHT
  | MEDIUM
  | SEVERE
  | VERY_SEVERE
deriving DecidableEq, Repr

/-- The members of a `Corrosion`: the defect cloud (its `width` is the number of its points)
and the cached size. -/
structure Corrosion where
  defect_cloud_ : List PointXYZf
  corrosion_size_ : FloatVal

/-- `Corrosion::CalculateSize`. `hullArea` stands for the hull computation of
`defect_functions` (`calculateHull`, `planeNormalVector`, `project2Plane`,
`calculateHullArea`), a parameter of the embedding. -/
def Corrosion.CalculateSize (hullArea : List PointXYZf → FloatVal) (c : Corrosion) : FloatVal :=
  if c.defect_cloud_.length = 0 then .finite 0
  -- code that calculates the size of corrosion
  else hullArea c.defect_cloud_

/-- `Corrosion::GetSize`: the size is calculated when the cached value is zero; the value
returned and the object after the call. -/
def Corrosion.GetSize (hullArea : List PointXYZf → FloatVal) (c : Corrosion) :
    FloatVal × Corrosion :=
  -- Only calculate size first time this method is called
  let c1 := if c.corrosion_size_ = .finite 0
    then { c with corrosion_size_ := c.CalculateSize hullArea } else c
  (c1.corrosion_size_, c1)

/-- The step function of `Corrosion::GetOSIMSeverity` on the area; the literals `0.0225`,
`0.09` and `0.36` are taken at their decimal values. -/
def osimSeverityOf (corrosion_area : FloatVal) : DefectOSIMSeverity :=
  if corrosion_area = .finite 0 then .NONE
  else if corrosion_area.lt (.finite (9 / 400)) then .LIGHT
  else if corrosion_area.lt (.finite (9 / 100)) then .MEDIUM
  else if corrosion_area.lt (.finite (9 / 25)) then .SEVERE
  else .VERY_SEVERE

/-- `Corrosion::GetOSIMSeverity`: the severity returned and the object after the call. -/
def Corrosion.GetOSIMSeverity (hullArea : List PointXYZf → FloatVal) (c : Corrosion) :
    DefectOSIMSeverity × Corrosion :=
  let r := c.GetSize hullArea
  let corrosion_area := r.1
  (osimSeverityOf corrosion_area, r.2)

/-- Modelled from the spec: the order of the severities, from `NONE`, the lowest, to
`VERY_SEVERE`, the highest. -/
def severityRank : DefectOSIMSeverity → Nat
  | .NONE => 0
  | .LIGHT => 1
  | .MEDIUM => 2
  | .SEVERE => 3
  | .VERY_SEVERE => 4

/-- A stand-in for the hull computation: the number of points of the cloud, in hundredths. -/
def sampleHullArea (cloud : List PointXYZf) : FloatVal :=
  .finite ((cloud.length : ℚ) / 100)

/-- A corrosion defect of four points with no size cached. -/
def sampleCorrosion : Corrosion :=
  { defect_cloud_ := sampleCloudF, corrosion_size_ := .finite 0 }

/-- A corrosion defect with a cached size of 1/2. -/
def sampleCorrosionLarge : Corrosion :=
  { defect_cloud_ := sampleCloudF, corrosion_size_ := .finite (1 / 2) }

/-! # Theorems -/

/-! ### Machine arithmetic and `GetSortedScan` -/

theorem SIZE_MOD_pos : 0 < SIZE_MOD := by decide

theorem uadd_eq {a b : Nat} (h : a + b < SIZE_MOD) : uadd a b = a + b := by
  unfold uadd; exact Nat.mod_eq_of_lt h

theorem usub_eq {a b : Nat} (hb : b ≤ a) (ha : a < SIZE_MOD) : usub a b = a - b := by
  unfold usub
  have hb2 : b % SIZE_MOD = b := Nat.mod_eq_of_lt (by omega)
  rw [hb2]
  have : a + (SIZE_MOD - b) = (a - b) + SIZE_MOD := by omega
  rw [this, Nat.add_mod_right]
  exact Nat.mod_eq_of_lt (by omega)

theorem umul_eq {a b : Nat} (h : a * b < SIZE_MOD) : umul a b = a * b := by
  unfold umul; exact Nat.mod_eq_of_lt h

theorem toSizeT_eq {i : Int} (h0 : 0 ≤ i) (h1 : i < (SIZE_MOD : Int)) :
    toSizeT i = i.toNat := by
  unfold toSizeT
  rw [Int.emod_eq_of_lt h0 h1]

theorem GetSortedScanLoop_eq (lines : List PointCloudIRT) :
    ∀ (c : Nat) (s : State), c + lines.flatten.length < SIZE_MOD →
      GetSortedScanLoop lines c s =
        { s with sorted_scan_ := s.sorted_scan_ ++ lines.flatten,
                 scan_indices_ := s.scan_indices_ ++ rangesFrom c lines } := by
  induction lines with
  | nil => intro c s _; simp [GetSortedScanLoop, rangesFrom]
  | cons line rest ih =>
    intro c s h
    simp only [List.flatten_cons, List.length_append] at h
    have h1 : uadd c line.length = c + line.length := uadd_eq (by omega)
    have h2 : (if c + line.length > 0 then usub (c + line.length) 1 else 0)
        = (if c + line.length > 0 then c + line.length - 1 else 0) := by
      split
      · exact usub_eq (by omega) (by omega)
      · rfl
    simp only [GetSortedScanLoop, h1, h2]
    rw [ih (c + line.length) _ (by omega)]
    simp [rangesFrom, rangeAt, List.append_assoc]

theorem rangesFrom_length (lines : List PointCloudIRT) :
    ∀ c, (rangesFrom c lines).length = lines.length := by
  induction lines with
  | nil => intro c; rfl
  | cons line rest ih => intro c; simp [rangesFrom, ih]

theorem rangesFrom_getElem? (lines : List PointCloudIRT) :
    ∀ (c i : Nat) (line : PointCloudIRT), lines[i]? = some line →
      (rangesFrom c lines)[i]? = some (rangeAt (c + (lines.take i).flatten.length) line.length) := by
  induction lines with
  | nil => intro c i line h; simp at h
  | cons l rest ih =>
    intro c i line h
    cases i with
    | zero =>
      simp at h
      subst h
      simp [rangesFrom]
    | succ i =>
      simp at h
      simp only [rangesFrom, List.getElem?_cons_succ, List.take_succ_cons, List.flatten_cons,
        List.length_append]
      rw [ih (c + l.length) i line h]
      congr 2
      omega

theorem GetSortedScan_eq (lines : List PointCloudIRT) (s : State)
    (h : lines.flatten.length < SIZE_MOD) :
    GetSortedScan lines (Reset s) =
      { Reset s with sorted_scan_ := lines.flatten, scan_indices_ := rangesFrom 0 lines } := by
  unfold GetSortedScan
  rw [GetSortedScanLoop_eq lines 0 _ (by omega)]
  simp [Reset]

theorem flatten_split (lines : List PointCloudIRT) (i : Nat) (line : PointCloudIRT)
    (h : lines[i]? = some line) :
    lines.flatten = (lines.take i).flatten ++ line ++ (lines.drop (i + 1)).flatten := by
  induction lines generalizing i with
  | nil => simp at h
  | cons l rest ih =>
    cases i with
    | zero => simp at h; subst h; simp
    | succ i =>
      simp at h
      simp only [List.take_succ_cons, List.flatten_cons, List.drop_succ_cons, List.append_assoc]
      rw [ih i h]
      simp [List.append_assoc]

/-- Claim C7. `GetSortedScan`, started from reset buffers on scan lines that fit in memory
(fewer than `2 ^ 64` points in all), makes the sorted scan the concatenation of the lines in
beam order and records one range per line; the range `(start, end)` of a non-empty line `i`
starts at the number of points of the lines before it, has `end - start + 1` equal to the
length of the line, and the sorted-scan points at `start..end` are the points of the line in
order; the ranges of two distinct non-empty lines are disjoint and increasing. -/
theorem GetSortedScan_concat_ranges (lines : List PointCloudIRT) (s : State)
    (hsize : lines.flatten.length < SIZE_MOD) :
    (GetSortedScan lines (Reset s)).sorted_scan_ = lines.flatten ∧
    (GetSortedScan lines (Reset s)).scan_indices_.length = lines.length ∧
    (∀ (i : Nat) (line : PointCloudIRT), lines[i]? = some line → line ≠ [] →
      ∃ start end_, (GetSortedScan lines (Reset s)).scan_indices_[i]? = some (start, end_) ∧
        start = (lines.take i).flatten.length ∧
        start ≤ end_ ∧ end_ - start + 1 = line.length ∧
        end_ < (GetSortedScan lines (Reset s)).sorted_scan_.length ∧
        ((GetSortedScan lines (Reset s)).sorted_scan_.drop start).take (end_ - start + 1) = line) ∧
    (∀ (i j : Nat) (li lj : PointCloudIRT) (ri rj : IndexRange), i < j →
      lines[i]? = some li → lines[j]? = some lj → li ≠ [] → lj ≠ [] →
      (GetSortedScan lines (Reset s)).scan_indices_[i]? = some ri →
      (GetSortedScan lines (Reset s)).scan_indices_[j]? = some rj →
      ri.1 ≤ ri.2 ∧ ri.2 < rj.1 ∧ rj.1 ≤ rj.2) := by
  rw [GetSortedScan_eq lines s hsize]
  refine ⟨rfl, rangesFrom_length lines 0, ?_, ?_⟩
  · intro i line hi hne
    have hlen : 0 < line.length := List.length_pos.mpr hne
    have hsplit := flatten_split lines i line hi
    refine ⟨(lines.take i).flatten.length, (lines.take i).flatten.length + line.length - 1,
      ?_, rfl, by omega, by omega, ?_, ?_⟩
    · show (rangesFrom 0 lines)[i]? = _
      rw [rangesFrom_getElem? lines 0 i line hi]
      simp [rangeAt, hlen]
    · show _ < lines.flatten.length
      rw [hsplit]; simp only [List.length_append]; omega
    · show (lines.flatten.drop _).take _ = line
      have e : (lines.take i).flatten.length + line.length - 1 - (lines.take i).flatten.length + 1
          = line.length := by omega
      rw [e, hsplit, List.append_assoc, List.drop_left, List.take_left]
  · intro i j li lj ri rj hij hi hj hnei hnej hri hrj
    have hleni : 0 < li.length := List.length_pos.mpr hnei
    have hlenj : 0 < lj.length := List.length_pos.mpr hnej
    have e1 : (rangesFrom 0 lines)[i]? = some ri := hri
    have e2 : (rangesFrom 0 lines)[j]? = some rj := hrj
    rw [rangesFrom_getElem? lines 0 i li hi] at e1
    rw [rangesFrom_getElem? lines 0 j lj hj] at e2
    simp only [Option.some.injEq] at e1 e2
    subst e1; subst e2
    -- the lines before `j` contain the lines before `i` and line `i`
    have hsplit : (lines.take j).flatten.length ≥ (lines.take i).flatten.length + li.length := by
      have hi2 : (lines.take j)[i]? = some li := by
        rw [List.getElem?_take_of_lt hij]; exact hi
      have := flatten_split (lines.take j) i li hi2
      rw [this, List.take_take, Nat.min_eq_left (Nat.le_of_lt hij)]
      simp only [List.length_append]; omega
    simp only [rangeAt, Nat.zero_add]
    have c1 : (lines.take i).flatten.length + li.length > 0 := by omega
    have c2 : (lines.take j).flatten.length + lj.length > 0 := by omega
    simp only [c1, c2, if_true]
    omega


/-- Witness for claim C7: two non-empty lines around an empty one. -/
theorem GetSortedScan_concat_ranges_witness :
    [sampleLine3, [], sampleLine3].flatten.length < SIZE_MOD ∧
    (GetSortedScan [sampleLine3, [], sampleLine3] (Reset sampleState)).sorted_scan_ =
      [sampleLine3, [], sampleLine3].flatten ∧
    (GetSortedScan [sampleLine3, [], sampleLine3] (Reset sampleState)).scan_indices_.length = 3 :=
  ⟨by decide,
   (GetSortedScan_concat_ranges [sampleLine3, [], sampleLine3] sampleState (by decide)).1,
   (GetSortedScan_concat_ranges [sampleLine3, [], sampleLine3] sampleState (by decide)).2.1⟩

/-- Claim C8 fails as stated: the empty line that follows a line of three points gets the
range `(3, 2)`, which is neither `(3, 3)` nor `(0, 0)`. -/
theorem GetSortedScan_empty_line_counterexample :
    ∃ range, (GetSortedScan [sampleLine3, []] (Reset sampleState)).scan_indices_[1]? = some range ∧
      ¬ (range = ([sampleLine3].flatten.length, [sampleLine3].flatten.length) ∨
          range = (0, 0)) :=
  ⟨(3, 2), rfl, by decide⟩

/-- Claim C8, amended. For scan lines that fit in memory, the range `GetSortedScan` records
for a line with zero points is `(s, s - 1)` when the number `s` of points in the lines before
it is positive (an inverted range), and `(0, 0)` when `s = 0`. -/
theorem GetSortedScan_empty_line_range (lines : List PointCloudIRT) (s : State) (i : Nat)
    (hsize : lines.flatten.length < SIZE_MOD) (hline : lines[i]? = some []) :
    (GetSortedScan lines (Reset s)).scan_indices_[i]? =
      some ((lines.take i).flatten.length,
        if 0 < (lines.take i).flatten.length then (lines.take i).flatten.length - 1 else 0) := by
  rw [GetSortedScan_eq lines s hsize]
  show (rangesFrom 0 lines)[i]? = _
  rw [rangesFrom_getElem? lines 0 i [] hline]
  simp [rangeAt]

/-- Witness for the amended claim C8. -/
theorem GetSortedScan_empty_line_range_witness :
    [sampleLine3, []].flatten.length < SIZE_MOD ∧
    (GetSortedScan [sampleLine3, []] (Reset sampleState)).scan_indices_[1]? =
      some (([sampleLine3, []].take 1).flatten.length,
        if 0 < ([sampleLine3, []].take 1).flatten.length
        then ([sampleLine3, []].take 1).flatten.length - 1 else 0) :=
  ⟨by decide, GetSortedScan_empty_line_range [sampleLine3, []] sampleState 1 (by decide) rfl⟩

/-- Claim C6 fails as stated: with `curvature_region = 1` a scan line of three points has more
than `2 * curvature_region` points, and the orchestrator skips it. -/
theorem scan_line_skip_counterexample :
    ∃ range, (GetSortedScan [sampleLine3] (Reset sampleState)).scan_indices_[0]? = some range ∧
      (sampleLine3.length : Int) > 2 * sampleParams.curvature_region ∧
      scanSkipped sampleParams range = true ∧
      scanBody sampleEnv sampleParams range sampleState = .ok sampleState :=
  ⟨(0, 2), rfl, by decide, by decide, rfl⟩

/-- Claim C6, amended. For scan lines that fit in memory and `curvature_region ≥ 0`, the
orchestrator runs the reliability filter and the region loop on a scan line if and only if
the line has more than `2 * curvature_region + 1` points; a skipped line leaves the buffers
unchanged. -/
theorem scan_line_processed_iff (env : Env) (p : LoamParams) (lines : List PointCloudIRT)
    (s : State) (i : Nat) (line : PointCloudIRT) (range : IndexRange)
    (hcr : 0 ≤ p.curvature_region)
    (hsize : (lines.flatten.length : Int) + 2 * p.curvature_region < SIZE_MOD)
    (hline : lines[i]? = some line)
    (hrange : (GetSortedScan lines (Reset s)).scan_indices_[i]? = some range) :
    (scanSkipped p range = false ↔ 2 * p.curvature_region + 1 < line.length) ∧
    (scanSkipped p range = true → ∀ st, scanBody env p range st = .ok st) ∧
    (scanSkipped p range = false → ∀ st, scanBody env p range st =
      (SetScanBuffersFor env p range.1 range.2 st >>= fun s1 =>
        regionLoop env p range.1 range.2 p.n_feature_regions.toNat 0 [] s1 >>= fun r =>
          if p.downsample_less_flat_features ∧ ¬ p.ignore_weak_features then
            .ok { r.2 with surface_points_less_flat_ :=
              r.2.surface_points_less_flat_ ++ env.voxelGrid p.less_flat_filter_size r.1 }
          else
            .ok { r.2 with surface_points_less_flat_ := r.2.surface_points_less_flat_ ++ r.1 })) := by
  have hsz : lines.flatten.length < SIZE_MOD := by
    have : (lines.flatten.length : Int) < SIZE_MOD := by omega
    exact_mod_cast this
  rw [GetSortedScan_eq lines s hsz] at hrange
  have hr : (rangesFrom 0 lines)[i]? = some range := hrange
  rw [rangesFrom_getElem? lines 0 i line hline] at hr
  simp only [Option.some.injEq, Nat.zero_add] at hr
  have hsplit := flatten_split lines i line hline
  have hlen : (lines.take i).flatten.length + line.length ≤ lines.flatten.length := by
    rw [hsplit]; simp only [List.length_append]; omega
  refine ⟨?_, ?_, ?_⟩
  · subst hr
    have h2 : toSizeT (2 * p.curvature_region) = (2 * p.curvature_region).toNat :=
      toSizeT_eq (by omega) (by omega)
    have h3 : uadd (lines.take i).flatten.length (2 * p.curvature_region).toNat
        = (lines.take i).flatten.length + (2 * p.curvature_region).toNat := by
      apply uadd_eq
      have : (((lines.take i).flatten.length + (2 * p.curvature_region).toNat : Nat) : Int)
          < (SIZE_MOD : Int) := by
        push_cast; rw [Int.toNat_of_nonneg (by omega)]; omega
      exact_mod_cast this
    simp only [scanSkipped, rangeAt, h2, h3, decide_eq_false_iff_not]
    split <;> omega
  · intro hskip st
    simp [scanBody, hskip]
  · intro hskip st
    simp only [scanBody, hskip, Bool.false_eq_true, if_false]

/-- Witness for the amended claim C6: a line of three points is skipped when
`curvature_region = 1`, as `3 ≤ 2 * 1 + 1`. -/
theorem scan_line_processed_iff_witness :
    (scanSkipped sampleParams (0, 2) = false ↔
      2 * sampleParams.curvature_region + 1 < sampleLine3.length) :=
  (scan_line_processed_iff sampleEnv sampleParams [sampleLine3] sampleState 0 sampleLine3 (0, 2)
    (by decide) (by decide) rfl rfl).1

/-! ### Faults and buffers -/

theorem bind_ok_iff {ε α β : Type} {x : Except ε α} {f : α → Except ε β} {b : β} :
    (x >>= f) = .ok b ↔ ∃ a, x = .ok a ∧ f a = .ok b := by
  cases x <;> simp [bind, Except.bind]

theorem rd_ok_iff {α : Type} {xs : List α} {i : Nat} {v : α} :
    rd xs i = .ok v ↔ xs[i]? = some v := by
  unfold rd
  cases h : xs[i]? <;> simp

theorem wr_ok_iff {α : Type} {xs ys : List α} {i : Nat} {v : α} :
    wr xs i v = .ok ys ↔ i < xs.length ∧ ys = xs.set i v := by
  unfold wr
  split <;> simp_all [eq_comm]

theorem rd_mem {α : Type} {xs : List α} {i : Nat} {v : α} (h : rd xs i = .ok v) : v ∈ xs := by
  rw [rd_ok_iff] at h
  exact List.getElem?_mem h

/-! ### Claim C5 -/

theorem Reset_eq (s : State) : Reset s = sampleState := rfl

/-- Claim C5. For every two buffer states and the same parameters and scan lines,
`ExtractFeaturesFromScanLines` returns the same result (the four output clouds, the warnings
and the buffers it leaves, or the same fault): the result never depends on what an earlier
call left in the buffers. -/
theorem ExtractFeaturesFromScanLines_ignores_buffers (env : Env) (p : LoamParams)
    (scan_lines : List PointCloudIRT) (s1 s2 : State) :
    ExtractFeaturesFromScanLines env p scan_lines s1 =
      ExtractFeaturesFromScanLines env p scan_lines s2 ∧
    (ExtractFeaturesFromScanLines env p scan_lines s1).map (fun r => r.1) =
      (ExtractFeaturesFromScanLines env p scan_lines s2).map (fun r => r.1) := by
  have h : ExtractFeaturesFromScanLines env p scan_lines s1 =
      ExtractFeaturesFromScanLines env p scan_lines s2 := by
    unfold ExtractFeaturesFromScanLines runScanLines
    rw [Reset_eq s1, Reset_eq s2]
  exact ⟨h, by rw [h]⟩

/-! ### Claim C4: routing by ring -/

/-- Routing by ring never throws, keeps the number of scan lines, gives the same scan lines
as on the cloud without the points of ring `≥ number_of_beams`, and puts no such point into
a scan line. -/
theorem routeByRing_filter (p : LoamParams) (hnb : 0 ≤ p.number_of_beams) (cloud : List Point) :
    ∀ (scan_lines : List PointCloudIRT) (w : List Warning),
      scan_lines.length = p.number_of_beams.toNat →
      ∃ lines1 w1, routeByRing p cloud scan_lines w = .ok (lines1, w1) ∧
        lines1.length = scan_lines.length ∧
        (∀ w2, routeByRing p (cloud.filter fun pt => decide ((pt.ring : Int) < p.number_of_beams))
          scan_lines w2 = .ok (lines1, w2)) ∧
        (∀ line ∈ lines1, ∀ pt ∈ line,
          (pt.ring : Int) < p.number_of_beams ∨ ∃ line0 ∈ scan_lines, pt ∈ line0) := by
  induction cloud with
  | nil =>
    intro scan_lines w _
    exact ⟨scan_lines, w, rfl, rfl, fun _ => rfl, fun line hl pt hpt => Or.inr ⟨line, hl, hpt⟩⟩
  | cons pt rest ih =>
    intro scan_lines w hlen
    by_cases hring : (pt.ring : Int) > p.number_of_beams - 1
    · obtain ⟨lines1, w1, h1, h2, h3, h4⟩ := ih scan_lines (w ++ [Warning.ring_exceeds_beams]) hlen
      refine ⟨lines1, w1, ?_, h2, ?_, h4⟩
      · simp only [routeByRing, hring, if_true]; exact h1
      · intro w2
        have : ¬ (pt.ring : Int) < p.number_of_beams := by omega
        simp only [List.filter_cons, this, decide_False, Bool.false_eq_true, if_false]
        exact h3 w2
    · have hlt : pt.ring < scan_lines.length := by
        rw [hlen]
        have : ((pt.ring : Nat) : Int) < p.number_of_beams := by omega
        omega
      have hget : scan_lines[pt.ring]? = some scan_lines[pt.ring] := List.getElem?_eq_getElem hlt
      obtain ⟨lines1, w1, h1, h2, h3, h4⟩ :=
        ih (scan_lines.set pt.ring (scan_lines[pt.ring] ++ [pt])) w (by simpa using hlen)
      refine ⟨lines1, w1, ?_, by simpa using h2, ?_, ?_⟩
      · simp only [routeByRing, hring, if_false, hget]; exact h1
      · intro w2
        have : (pt.ring : Int) < p.number_of_beams := by omega
        simp only [List.filter_cons, this, decide_True, if_true, routeByRing, hring, if_false, hget]
        exact h3 w2
      · intro line hl q hq
        rcases h4 line hl q hq with h | ⟨line0, hl0, hq0⟩
        · exact Or.inl h
        · rcases List.mem_or_eq_of_mem_set hl0 with h5 | h5
          · exact Or.inr ⟨line0, h5, hq0⟩
          · subst h5
            rcases List.mem_append.mp hq0 with h6 | h6
            · exact Or.inr ⟨scan_lines[pt.ring], List.getElem_mem _, h6⟩
            · simp only [List.mem_singleton] at h6
              subst h6
              exact Or.inl (by omega)

/-! ### Region bounds -/

/-- The interpolation `(A (N - j) + B j) / N` between `A` and `B`. -/
theorem interp_zero (A B N : Nat) (hN : 0 < N) : (A * (N - 0) + B * 0) / N = A := by
  simp [Nat.mul_div_cancel _ hN]

theorem interp_last (A B N : Nat) (hN : 0 < N) : (A * (N - N) + B * N) / N = B := by
  simp [Nat.mul_div_cancel _ hN]

theorem interp_ge (A B N j : Nat) (hN : 0 < N) (hAB : A ≤ B) (hj : j ≤ N) :
    A ≤ (A * (N - j) + B * j) / N := by
  rw [Nat.le_div_iff_mul_le hN]
  have h1 : A * j ≤ B * j := Nat.mul_le_mul_right j hAB
  have h2 : A * N = A * (N - j) + A * j := by
    rw [← Nat.mul_add]; congr 1; omega
  omega

theorem interp_le (A B N j : Nat) (hN : 0 < N) (hAB : A ≤ B) (hj : j ≤ N) :
    (A * (N - j) + B * j) / N ≤ B := by
  have h0 : (A * (N - j) + B * j) / N < B + 1 := by
    rw [Nat.div_lt_iff_lt_mul hN]
    have h1 : A * (N - j) ≤ B * (N - j) := Nat.mul_le_mul_right _ hAB
    have h2 : B * N = B * (N - j) + B * j := by
      rw [← Nat.mul_add]; congr 1; omega
    have h3 : (B + 1) * N = B * N + N := by ring
    omega
  omega

theorem interp_mono (A B N j : Nat) (hAB : A ≤ B) (hj : j + 1 ≤ N) :
    (A * (N - j) + B * j) / N ≤ (A * (N - (j + 1)) + B * (j + 1)) / N := by
  apply Nat.div_le_div_right
  have h1 : A * (N - j) = A * (N - (j + 1)) + A := by
    have : N - j = (N - (j + 1)) + 1 := by omega
    rw [this, Nat.mul_add, Nat.mul_one]
  have h2 : B * (j + 1) = B * j + B := by ring
  omega

theorem interp_sum_le (A B N j : Nat) (hAB : A ≤ B) (hj : j ≤ N) :
    A * (N - j) + B * j ≤ B * N := by
  have h1 : A * (N - j) ≤ B * (N - j) := Nat.mul_le_mul_right _ hAB
  have h2 : B * N = B * (N - j) + B * j := by
    rw [← Nat.mul_add]; congr 1; omega
  omega

theorem interp_pos (A B N j : Nat) (hN : 0 < N) (hA : 1 ≤ A) (hAB : A ≤ B) (hj : j ≤ N) :
    1 ≤ (A * (N - j) + B * j) / N :=
  Nat.le_trans hA (interp_ge A B N j hN hAB hj)

theorem regionStart_eq (p : LoamParams) (start_idx end_idx : Nat) (h : LineOK p start_idx end_idx)
    (j : Nat) (hj : j ≤ p.n_feature_regions.toNat) :
    regionStart p start_idx end_idx (j : Int) =
      ((start_idx + p.curvature_region.toNat) * (p.n_feature_regions.toNat - j) +
        (end_idx - p.curvature_region.toNat) * j) / p.n_feature_regions.toNat := by
  obtain ⟨hcr, hn, hlong, hmul⟩ := h
  obtain ⟨c, hc⟩ := Int.eq_ofNat_of_zero_le hcr
  obtain ⟨N, hN⟩ := Int.eq_ofNat_of_zero_le (by omega : 0 ≤ p.n_feature_regions)
  rw [hc] at hlong
  rw [hN] at hn hmul hj
  rw [hc, hN]
  simp only [Int.toNat_ofNat] at hj ⊢
  have hN1 : 1 ≤ N := by omega
  have hlong2 : start_idx + 2 * c < end_idx := by omega
  have hmul2 : end_idx * N < SIZE_MOD := by exact_mod_cast hmul
  have hend : end_idx < SIZE_MOD := lt_of_le_of_lt (Nat.le_mul_of_pos_right _ hN1) hmul2
  have hNlt : N < SIZE_MOD :=
    lt_of_le_of_lt (Nat.le_mul_of_pos_left _ (by omega : 0 < end_idx)) hmul2
  have e1 : toSizeT (c : Int) = c := by
    rw [toSizeT_eq (by omega) (by omega)]; simp
  have e2 : toSizeT ((N : Int) - (j : Int)) = N - j := by
    rw [toSizeT_eq (by omega) (by omega)]; omega
  have e3 : toSizeT (j : Int) = j := by
    rw [toSizeT_eq (by omega) (by omega)]; simp
  have e4 : toSizeT (N : Int) = N := by
    rw [toSizeT_eq (by omega) (by omega)]; simp
  have hBN : (end_idx - c) * N ≤ end_idx * N := Nat.mul_le_mul_right _ (by omega)
  have hsum := interp_sum_le (start_idx + c) (end_idx - c) N j (by omega) hj
  have hA : (start_idx + c) * (N - j) ≤ (start_idx + c) * (N - j) + (end_idx - c) * j :=
    Nat.le_add_right _ _
  have hB : (end_idx - c) * j ≤ (start_idx + c) * (N - j) + (end_idx - c) * j :=
    Nat.le_add_left _ _
  have f1 : uadd start_idx c = start_idx + c := uadd_eq (by omega)
  have f2 : usub end_idx c = end_idx - c := usub_eq (by omega) hend
  have f3 : umul (start_idx + c) (N - j) = (start_idx + c) * (N - j) := umul_eq (by omega)
  have f4 : umul (end_idx - c) j = (end_idx - c) * j := umul_eq (by omega)
  have f5 : uadd ((start_idx + c) * (N - j)) ((end_idx - c) * j)
      = (start_idx + c) * (N - j) + (end_idx - c) * j := uadd_eq (by omega)
  unfold regionStart
  rw [hc, hN, e1, e2, e3, e4, f1, f2, f3, f4, f5]

theorem regionEnd_eq (p : LoamParams) (start_idx end_idx : Nat) (j : Nat) :
    regionEnd p start_idx end_idx (j : Int) =
      usub (regionStart p start_idx end_idx ((j + 1 : Nat) : Int)) 1 := by
  unfold regionEnd regionStart
  have e1 : p.n_feature_regions - 1 - (j : Int) = p.n_feature_regions - ((j + 1 : Nat) : Int) := by
    push_cast; ring
  have e2 : (j : Int) + 1 = ((j + 1 : Nat) : Int) := by push_cast; ring
  rw [e1, e2]

theorem interp_mono_le (A B N a b : Nat) (hAB : A ≤ B) (hab : a ≤ b) (hb : b ≤ N) :
    (A * (N - a) + B * a) / N ≤ (A * (N - b) + B * b) / N := by
  apply Nat.div_le_div_right
  have h1 : A * (N - a) = A * (N - b) + A * (b - a) := by
    rw [← Nat.mul_add]; congr 1; omega
  have h2 : B * b = B * a + B * (b - a) := by
    rw [← Nat.mul_add]; congr 1; omega
  have h3 : A * (b - a) ≤ B * (b - a) := Nat.mul_le_mul_right _ hAB
  omega

/-- A sequence that starts at or below `i` and ends above `i` steps over `i` somewhere. -/
theorem exists_step (g : Nat → Nat) (i : Nat) :
    ∀ N, g 0 ≤ i → i < g N → ∃ j, j < N ∧ g j ≤ i ∧ i < g (j + 1) := by
  intro N
  induction N with
  | zero => intro h0 h1; omega
  | succ N ih =>
    intro h0 h1
    by_cases h : i < g N
    · obtain ⟨j, hj, h2, h3⟩ := ih h0 h
      exact ⟨j, by omega, h2, h3⟩
    · exact ⟨N, by omega, by omega, h1⟩

theorem LineOK.lt_mod {p : LoamParams} {start_idx end_idx : Nat}
    (h : LineOK p start_idx end_idx) : end_idx < SIZE_MOD := by
  obtain ⟨hcr, hn, hlong, hmul⟩ := h
  have : (end_idx : Int) * 1 ≤ (end_idx : Int) * p.n_feature_regions :=
    Int.mul_le_mul_of_nonneg_left hn (by omega)
  have h2 : (end_idx : Int) < (SIZE_MOD : Int) := by omega
  exact_mod_cast h2

theorem LineOK.window {p : LoamParams} {start_idx end_idx : Nat}
    (h : LineOK p start_idx end_idx) :
    start_idx + 2 * p.curvature_region.toNat < end_idx := by
  obtain ⟨hcr, hn, hlong, hmul⟩ := h
  omega

theorem LineOK.regions_pos {p : LoamParams} {start_idx end_idx : Nat}
    (h : LineOK p start_idx end_idx) : 0 < p.n_feature_regions.toNat := by
  obtain ⟨hcr, hn, hlong, hmul⟩ := h
  omega

theorem LineOK.toSizeT_cr {p : LoamParams} {start_idx end_idx : Nat}
    (h : LineOK p start_idx end_idx) :
    toSizeT p.curvature_region = p.curvature_region.toNat := by
  have h1 := h.lt_mod
  have h2 := h.window
  obtain ⟨hcr, hn, hlong, hmul⟩ := h
  apply toSizeT_eq hcr
  have : (end_idx : Int) < (SIZE_MOD : Int) := by exact_mod_cast h1
  omega

/-- A line that passes `LineOK` is not skipped by the orchestrator. -/
theorem LineOK.not_skipped {p : LoamParams} {start_idx end_idx : Nat}
    (h : LineOK p start_idx end_idx) : scanSkipped p (start_idx, end_idx) = false := by
  have h1 := h.lt_mod
  have h2 := h.window
  obtain ⟨hcr, hn, hlong, hmul⟩ := h
  have e : toSizeT (2 * p.curvature_region) = (2 * p.curvature_region).toNat := by
    apply toSizeT_eq (by omega)
    have : (end_idx : Int) < (SIZE_MOD : Int) := by exact_mod_cast h1
    omega
  have e2 : uadd start_idx (2 * p.curvature_region).toNat
      = start_idx + (2 * p.curvature_region).toNat := uadd_eq (by omega)
  simp only [scanSkipped, e, e2, decide_eq_false_iff_not]
  omega

/-- When the reliability filter has run on a line without a fault, the first eligible index
`scan_start_idx + curvature_region` is at least 1: the filter reads the point before it. -/
theorem first_eligible_pos (env : Env) (p : LoamParams) (start_idx end_idx : Nat) (s s1 : State)
    (h : LineOK p start_idx end_idx) (hlen : s.sorted_scan_.length < SIZE_MOD)
    (hrun : SetScanBuffersFor env p start_idx end_idx s = .ok s1) :
    1 ≤ start_idx + p.curvature_region.toNat := by
  have h1 := h.lt_mod
  have h2 := h.window
  have e := h.toSizeT_cr
  by_contra hzero
  have hs : start_idx = 0 := by omega
  have hc : p.curvature_region.toNat = 0 := by omega
  have hlo : uadd start_idx p.curvature_region.toNat = 0 := by rw [hs, hc]; rfl
  have hhi : usub end_idx p.curvature_region.toNat = end_idx := by
    rw [hc]; exact usub_eq (by omega) h1
  unfold SetScanBuffersFor at hrun
  simp only [e, hlo, hhi, Nat.sub_zero] at hrun
  obtain ⟨k, hk⟩ : ∃ k, end_idx = k + 1 := ⟨end_idx - 1, by omega⟩
  rw [hk] at hrun
  simp only [SetScanBuffersLoop, SetScanBuffersStep, bind_ok_iff] at hrun
  obtain ⟨s2, ⟨prev, hprev, _⟩, _⟩ := hrun
  rw [rd_ok_iff] at hprev
  have hidx : usub 0 1 = SIZE_MOD - 1 := by decide
  rw [hidx] at hprev
  have := (List.getElem?_eq_some_iff.mp hprev).1
  simp only at this
  omega

theorem regionStart_zero (p : LoamParams) (start_idx end_idx : Nat)
    (h : LineOK p start_idx end_idx) :
    regionStart p start_idx end_idx 0 = start_idx + p.curvature_region.toNat := by
  have := regionStart_eq p start_idx end_idx h 0 (Nat.zero_le _)
  simp only [Nat.cast_zero] at this
  rw [this]
  exact interp_zero _ _ _ h.regions_pos

theorem regionStart_last (p : LoamParams) (start_idx end_idx : Nat)
    (h : LineOK p start_idx end_idx) :
    regionStart p start_idx end_idx (p.n_feature_regions.toNat : Int)
      = end_idx - p.curvature_region.toNat := by
  rw [regionStart_eq p start_idx end_idx h _ (Nat.le_refl _)]
  exact interp_last _ _ _ h.regions_pos

theorem regionStart_mono (p : LoamParams) (start_idx end_idx : Nat)
    (h : LineOK p start_idx end_idx) (a b : Nat) (hab : a ≤ b)
    (hb : b ≤ p.n_feature_regions.toNat) :
    regionStart p start_idx end_idx (a : Int) ≤ regionStart p start_idx end_idx (b : Int) := by
  rw [regionStart_eq p start_idx end_idx h a (by omega), regionStart_eq p start_idx end_idx h b hb]
  exact interp_mono_le _ _ _ a b (by have := h.window; omega) hab hb

theorem regionStart_ge (p : LoamParams) (start_idx end_idx : Nat)
    (h : LineOK p start_idx end_idx) (j : Nat) (hj : j ≤ p.n_feature_regions.toNat) :
    start_idx + p.curvature_region.toNat ≤ regionStart p start_idx end_idx (j : Int) := by
  have := regionStart_mono p start_idx end_idx h 0 j (Nat.zero_le _) hj
  simp only [Nat.cast_zero] at this
  rw [regionStart_zero p start_idx end_idx h] at this
  exact this

theorem regionStart_le (p : LoamParams) (start_idx end_idx : Nat)
    (h : LineOK p start_idx end_idx) (j : Nat) (hj : j ≤ p.n_feature_regions.toNat) :
    regionStart p start_idx end_idx (j : Int) ≤ end_idx - p.curvature_region.toNat := by
  have := regionStart_mono p start_idx end_idx h j _ hj (Nat.le_refl _)
  rw [regionStart_last p start_idx end_idx h] at this
  exact this

/-- With a first eligible index of at least 1, the end of region `j` is the index before
the start of region `j + 1`. -/
theorem regionEnd_succ (p : LoamParams) (start_idx end_idx : Nat)
    (h : LineOK p start_idx end_idx) (hpos : 1 ≤ start_idx + p.curvature_region.toNat)
    (j : Nat) (hj : j + 1 ≤ p.n_feature_regions.toNat) :
    regionEnd p start_idx end_idx (j : Int) + 1
      = regionStart p start_idx end_idx ((j + 1 : Nat) : Int) := by
  rw [regionEnd_eq]
  have h1 := regionStart_ge p start_idx end_idx h (j + 1) hj
  have h2 := regionStart_le p start_idx end_idx h (j + 1) hj
  have h3 := h.lt_mod
  rw [usub_eq (by omega) (by omega)]
  omega


theorem isOk_iff {ε α : Type} {x : Except ε α} : x.isOk = true ↔ ∃ a, x = .ok a := by
  cases x <;> simp [Except.isOk, Except.toBool]

/-- Claim C9. For a scan line `[start, end]` that the orchestrator processes (the line is not
skipped, the index arithmetic does not overflow, and the reliability filter has run on it
without a fault) and `n_feature_regions ≥ 1`, the region bounds satisfy
`sp_0 = start + curvature_region` and `sp_(j+1) = ep_j + 1` for every `j < n - 1`; the end of
a region is below the start of every later region, so two regions never share an index. -/
theorem region_bounds_contiguous (env : Env) (p : LoamParams) (start_idx end_idx : Nat)
    (s : State) (h : LineOK p start_idx end_idx) (hlen : s.sorted_scan_.length < SIZE_MOD)
    (hrun : (SetScanBuffersFor env p start_idx end_idx s).isOk = true) :
    (regionStart p start_idx end_idx 0 : Int) = start_idx + p.curvature_region ∧
    (∀ j : Nat, (j : Int) + 1 < p.n_feature_regions →
      regionStart p start_idx end_idx ((j : Int) + 1) = regionEnd p start_idx end_idx j + 1) ∧
    (∀ j k : Nat, j < k → (k : Int) < p.n_feature_regions →
      regionEnd p start_idx end_idx j < regionStart p start_idx end_idx k) := by
  obtain ⟨s1, hs1⟩ := isOk_iff.mp hrun
  have hpos := first_eligible_pos env p start_idx end_idx s s1 h hlen hs1
  have hcr := h.hcr
  refine ⟨?_, ?_, ?_⟩
  · rw [regionStart_zero p start_idx end_idx h]
    push_cast
    rw [Int.toNat_of_nonneg hcr]
  · intro j hj
    have hj2 : j + 1 ≤ p.n_feature_regions.toNat := by omega
    have := regionEnd_succ p start_idx end_idx h hpos j hj2
    rw [this]
    push_cast
    rfl
  · intro j k hjk hk
    have hj2 : j + 1 ≤ p.n_feature_regions.toNat := by omega
    have h1 := regionEnd_succ p start_idx end_idx h hpos j hj2
    have h2 := regionStart_mono p start_idx end_idx h (j + 1) k (by omega) (by omega)
    omega

/-- Witness for claim C9: two regions on a line of seven points. -/
theorem region_bounds_contiguous_witness :
    (regionStart sampleParams2 0 6 0 : Int) = (0 : Nat) + sampleParams2.curvature_region ∧
    regionStart sampleParams2 0 6 (((0 : Nat) : Int) + 1)
      = regionEnd sampleParams2 0 6 ((0 : Nat) : Int) + 1 :=
  ⟨(region_bounds_contiguous sampleEnv sampleParams2 0 6 sampleScan7
      ⟨by decide, by decide, by decide, by decide⟩ (by decide) (by decide!)).1,
   (region_bounds_contiguous sampleEnv sampleParams2 0 6 sampleScan7
      ⟨by decide, by decide, by decide, by decide⟩ (by decide) (by decide!)).2.1 0 (by decide)⟩

/-- Claim C10 is broken by the code: on a scan line of four points with
`curvature_region = 1` and one region, the region is `[1, 1]`; it contains one point, and the
test `ep <= sp` skips it, so nothing is ranked or selected and the four clouds stay empty. -/
theorem one_point_region_skipped :
    scanSkipped sampleParams (0, 3) = false ∧
    regionStart sampleParams 0 3 0 = 1 ∧ regionEnd sampleParams 0 3 0 = 1 ∧
    regionSkipped sampleParams 0 3 0 = true ∧
    (ExtractFeaturesFromScanLines sampleEnv sampleParams [sampleLine4] sampleState).toOption.map
      (fun r => r.1) = some ⟨[], [], [], []⟩ := by
  refine ⟨by decide, by decide, by decide, by decide, by decide!⟩

/-- Claim C2 fails as stated: on a line with range `[0, 6]` and `curvature_region = 1` the
index `5 = end - curvature_region` is in the span of the claim, and no region contains it. -/
theorem last_eligible_index_counterexample :
    scanSkipped sampleParams (0, 6) = false ∧
    (0 : Int) + sampleParams.curvature_region ≤ 5 ∧
    (5 : Int) ≤ 6 - sampleParams.curvature_region ∧
    (List.range sampleParams.n_feature_regions.toNat).filter
      (fun j => decide (regionStart sampleParams 0 6 j ≤ 5 ∧ 5 ≤ regionEnd sampleParams 0 6 j))
      = [] := by
  refine ⟨by decide, by decide, by decide, by decide⟩

/-- Claim C2, amended. For a scan line `[start, end]` that the orchestrator processes and
`n_feature_regions ≥ 1`, every index `i` with
`start + curvature_region ≤ i ≤ end - curvature_region - 1` lies between the bounds
`sp_j ≤ i ≤ ep_j` of exactly one region `j`, and every region ends at or before
`end - curvature_region - 1`: the index `end - curvature_region` lies in no region. -/
theorem region_bounds_cover (env : Env) (p : LoamParams) (start_idx end_idx : Nat)
    (s : State) (h : LineOK p start_idx end_idx) (hlen : s.sorted_scan_.length < SIZE_MOD)
    (hrun : (SetScanBuffersFor env p start_idx end_idx s).isOk = true) :
    (∀ i : Nat, (start_idx : Int) + p.curvature_region ≤ i →
      (i : Int) ≤ end_idx - p.curvature_region - 1 →
      ∃ j : Nat, (j : Int) < p.n_feature_regions ∧
        regionStart p start_idx end_idx j ≤ i ∧ i ≤ regionEnd p start_idx end_idx j ∧
        ∀ k : Nat, (k : Int) < p.n_feature_regions →
          regionStart p start_idx end_idx k ≤ i → i ≤ regionEnd p start_idx end_idx k → k = j) ∧
    (∀ j : Nat, (j : Int) < p.n_feature_regions →
      (regionEnd p start_idx end_idx j : Int) ≤ end_idx - p.curvature_region - 1) := by
  obtain ⟨s1, hs1⟩ := isOk_iff.mp hrun
  have hpos := first_eligible_pos env p start_idx end_idx s s1 h hlen hs1
  have hcr := h.hcr
  have hw := h.window
  refine ⟨?_, ?_⟩
  · intro i hi1 hi2
    have h0 : regionStart p start_idx end_idx ((0 : Nat) : Int) ≤ i := by
      simp only [Nat.cast_zero]
      rw [regionStart_zero p start_idx end_idx h]; omega
    have hN : i < regionStart p start_idx end_idx (p.n_feature_regions.toNat : Int) := by
      rw [regionStart_last p start_idx end_idx h]; omega
    obtain ⟨j, hj, hj1, hj2⟩ :=
      exists_step (fun j => regionStart p start_idx end_idx (j : Int)) i _ h0 hN
    have e := regionEnd_succ p start_idx end_idx h hpos j (by omega)
    refine ⟨j, by omega, hj1, by omega, ?_⟩
    intro k hk hk1 hk2
    have ek := regionEnd_succ p start_idx end_idx h hpos k (by omega)
    by_contra hne
    rcases Nat.lt_or_gt_of_ne hne with hlt | hgt
    · have := regionStart_mono p start_idx end_idx h (k + 1) j (by omega) (by omega)
      omega
    · have := regionStart_mono p start_idx end_idx h (j + 1) k (by omega) (by omega)
      omega
  · intro j hj
    have e := regionEnd_succ p start_idx end_idx h hpos j (by omega)
    have := regionStart_le p start_idx end_idx h (j + 1) (by omega)
    omega

/-- Witness for the amended claim C2: on the line `[0, 6]` with two regions every region
ends at or before index 4. -/
theorem region_bounds_cover_witness :
    (regionEnd sampleParams2 0 6 ((1 : Nat) : Int) : Int)
      ≤ (6 : Nat) - sampleParams2.curvature_region - 1 :=
  (region_bounds_cover sampleEnv sampleParams2 0 6 sampleScan7
    ⟨by decide, by decide, by decide, by decide⟩ (by decide) (by decide!)).2 1 (by decide)


/-! ### Neighbour suppression -/

theorem MaskGrows.refl (m : List Int) : MaskGrows m m := ⟨rfl, fun _ => Or.inl rfl⟩

theorem MaskGrows.trans {m0 m1 m2 : List Int} (h1 : MaskGrows m0 m1) (h2 : MaskGrows m1 m2) :
    MaskGrows m0 m2 := by
  refine ⟨h2.1.trans h1.1, fun t => ?_⟩
  rcases h2.2 t with h | h
  · rw [h]; exact h1.2 t
  · exact Or.inr h

theorem MaskGrows.set (m : List Int) (i : Nat) : MaskGrows m (m.set i 1) := by
  refine ⟨List.length_set _ _ _, fun t => ?_⟩
  by_cases h : i = t
  · subst h
    by_cases hlt : i < m.length
    · right; simp [hlt]
    · left; simp [List.getElem?_eq_none (Nat.le_of_not_lt hlt), Nat.le_of_not_lt hlt]
  · left; simp [List.getElem?_set_ne h]

/-- A slot that is not zero stays not zero. -/
theorem MaskGrows.nonzero {m0 m1 : List Int} (h : MaskGrows m0 m1) {t : Nat} {v : Int}
    (h0 : m0[t]? = some v) (hv : v ≠ 0) : ∃ w, m1[t]? = some w ∧ w ≠ 0 := by
  rcases h.2 t with h1 | h1
  · exact ⟨v, by rw [h1, h0], hv⟩
  · exact ⟨1, h1, by decide⟩

/-- A slot that is zero afterwards was zero before. -/
theorem MaskGrows.zero_before {m0 m1 : List Int} (h : MaskGrows m0 m1) {t : Nat}
    (h1 : m1[t]? = some 0) : m0[t]? = some 0 := by
  rcases h.2 t with h2 | h2
  · rw [← h2]; exact h1
  · rw [h2] at h1; exact absurd h1 (by decide)

theorem SquaredDiff_comm (a b : Point) : SquaredDiff a b = SquaredDiff b a := by
  unfold SquaredDiff; ring

theorem markForward_spec (scan : List Point) (c k : Nat) :
    ∀ (left i : Nat) (m m1 : List Int), markForward scan c k left i m = .ok m1 →
      MaskGrows m m1 ∧
      ∀ j, i ≤ j → j < i + left →
        (∀ t, i ≤ t → t ≤ j → ∀ a b, scan[uadd c t]? = some a →
          scan[usub (uadd c t) 1]? = some b → ¬ SquaredDiff a b > 5 / 100) →
        m1[uadd k j]? = some 1 := by
  intro left
  induction left with
  | zero =>
    intro i m m1 h
    simp only [markForward, Except.ok.injEq] at h
    subst h
    exact ⟨MaskGrows.refl _, fun j h1 h2 => by omega⟩
  | succ left ih =>
    intro i m m1 h
    simp only [markForward, bind_ok_iff] at h
    obtain ⟨a, ha, b, hb, h⟩ := h
    rw [rd_ok_iff] at ha hb
    split at h
    · rename_i hd
      simp only [Except.ok.injEq] at h
      subst h
      refine ⟨MaskGrows.refl _, fun j h1 h2 hno => ?_⟩
      exact absurd hd (hno i (Nat.le_refl _) h1 a b ha hb)
    · simp only [bind_ok_iff] at h
      obtain ⟨m2, hm2, h⟩ := h
      rw [wr_ok_iff] at hm2
      obtain ⟨hlt, hm2⟩ := hm2
      subst hm2
      obtain ⟨hg, hrest⟩ := ih (i + 1) _ m1 h
      refine ⟨(MaskGrows.set m _).trans hg, fun j h1 h2 hno => ?_⟩
      by_cases hj : j = i
      · subst hj
        have : (m.set (uadd k j) 1)[uadd k j]? = some 1 := by simp [hlt]
        rcases hg.2 (uadd k j) with h3 | h3
        · rw [h3]; exact this
        · exact h3
      · exact hrest j (by omega) (by omega) (fun t ht1 ht2 => hno t (by omega) ht2)

theorem markBackward_spec (scan : List Point) (c k : Nat) :
    ∀ (left i : Nat) (m m1 : List Int), markBackward scan c k left i m = .ok m1 →
      MaskGrows m m1 ∧
      ∀ j, i ≤ j → j < i + left →
        (∀ t, i ≤ t → t ≤ j → ∀ a b, scan[usub c t]? = some a →
          scan[uadd (usub c t) 1]? = some b → ¬ SquaredDiff a b > 5 / 100) →
        m1[usub k j]? = some 1 := by
  intro left
  induction left with
  | zero =>
    intro i m m1 h
    simp only [markBackward, Except.ok.injEq] at h
    subst h
    exact ⟨MaskGrows.refl _, fun j h1 h2 => by omega⟩
  | succ left ih =>
    intro i m m1 h
    simp only [markBackward, bind_ok_iff] at h
    obtain ⟨a, ha, b, hb, h⟩ := h
    rw [rd_ok_iff] at ha hb
    split at h
    · rename_i hd
      simp only [Except.ok.injEq] at h
      subst h
      refine ⟨MaskGrows.refl _, fun j h1 h2 hno => ?_⟩
      exact absurd hd (hno i (Nat.le_refl _) h1 a b ha hb)
    · simp only [bind_ok_iff] at h
      obtain ⟨m2, hm2, h⟩ := h
      rw [wr_ok_iff] at hm2
      obtain ⟨hlt, hm2⟩ := hm2
      subst hm2
      obtain ⟨hg, hrest⟩ := ih (i + 1) _ m1 h
      refine ⟨(MaskGrows.set m _).trans hg, fun j h1 h2 hno => ?_⟩
      by_cases hj : j = i
      · subst hj
        have : (m.set (usub k j) 1)[usub k j]? = some 1 := by simp [hlt]
        rcases hg.2 (usub k j) with h3 | h3
        · rw [h3]; exact this
        · exact h3
      · exact hrest j (by omega) (by omega) (fun t ht1 ht2 => hno t (by omega) ht2)

/-- What `MarkAsPicked` does: only the mask changes; it grows, slot `scan_idx` is set, and
in each direction the slots up to the first discontinuity, at most `curvature_region` of
them, are set. -/
theorem MarkAsPicked_spec (p : LoamParams) (c k : Nat) (s s1 : State)
    (h : MarkAsPicked p c k s = .ok s1) :
    s1 = { s with scan_neighbor_picked_ := s1.scan_neighbor_picked_ } ∧
    MaskGrows s.scan_neighbor_picked_ s1.scan_neighbor_picked_ ∧
    s1.scan_neighbor_picked_[k]? = some 1 ∧
    (∀ j : Nat, 1 ≤ j → (j : Int) ≤ p.curvature_region →
      (∀ t : Nat, 1 ≤ t → t ≤ j → ∀ a b, s.sorted_scan_[uadd c t]? = some a →
        s.sorted_scan_[usub (uadd c t) 1]? = some b → ¬ SquaredDiff a b > 5 / 100) →
      s1.scan_neighbor_picked_[uadd k j]? = some 1) ∧
    (∀ j : Nat, 1 ≤ j → (j : Int) ≤ p.curvature_region →
      (∀ t : Nat, 1 ≤ t → t ≤ j → ∀ a b, s.sorted_scan_[usub c t]? = some a →
        s.sorted_scan_[uadd (usub c t) 1]? = some b → ¬ SquaredDiff a b > 5 / 100) →
      s1.scan_neighbor_picked_[usub k j]? = some 1) := by
  simp only [MarkAsPicked, bind_ok_iff] at h
  obtain ⟨m0, hm0, m1, hm1, m2, hm2, h⟩ := h
  simp only [Except.ok.injEq] at h
  subst h
  rw [wr_ok_iff] at hm0
  obtain ⟨hlt, hm0⟩ := hm0
  subst hm0
  obtain ⟨hg1, hf⟩ := markForward_spec _ c k _ 1 _ m1 hm1
  obtain ⟨hg2, hb⟩ := markBackward_spec _ c k _ 1 _ m2 hm2
  have hk : (s.scan_neighbor_picked_.set k 1)[k]? = some 1 := by simp [hlt]
  refine ⟨rfl, (MaskGrows.set _ k).trans (hg1.trans hg2), ?_, ?_, ?_⟩
  · obtain ⟨w, hw, _⟩ := (hg1.trans hg2).nonzero hk (by decide)
    rcases (hg1.trans hg2).2 k with h3 | h3
    · simp only at h3 ⊢; rw [h3]; exact hk
    · exact h3
  · intro j hj1 hj2 hno
    have := hf j hj1 (by omega) hno
    rcases hg2.2 (uadd k j) with h3 | h3
    · simp only; rw [h3]; exact this
    · exact h3
  · intro j hj1 hj2 hno
    exact hb j hj1 (by omega) hno


/-! ### The passes, one accepted point at a time -/

theorem rd_toList {α : Type} {xs : List α} {i : Nat} {v : α} (h : rd xs i = .ok v) :
    xs[i]?.toList = [v] := by
  rw [rd_ok_iff] at h; rw [h]; rfl

/-- What accepting a corner does: the label of the point is set, the point is appended to the
outputs, and `MarkAsPicked` runs. -/
theorem cornerAccept_spec (p : LoamParams) (idx scan_idx region_idx : Nat) (L : Int)
    (s s3 : State) (h : cornerAccept p idx scan_idx region_idx L s = .ok s3) :
    region_idx < s.region_label_.length ∧
    MarkAsPicked p idx scan_idx
      { s with
        region_label_ := s.region_label_.set region_idx
          (if L ≤ p.max_corner_sharp then PointLabel.CORNER_SHARP
           else PointLabel.CORNER_LESS_SHARP),
        corner_points_sharp_ := s.corner_points_sharp_ ++
          (if L ≤ p.max_corner_sharp then s.sorted_scan_[idx]?.toList else []),
        corner_points_less_sharp_ := s.corner_points_less_sharp_ ++
          (if p.ignore_weak_features then [] else s.sorted_scan_[idx]?.toList) } = .ok s3 := by
  simp only [cornerAccept, bind_ok_iff] at h
  obtain ⟨s1, hs1, s2, hs2, h⟩ := h
  by_cases hL : L ≤ p.max_corner_sharp
  · simp only [hL, if_true, bind_ok_iff, Except.ok.injEq] at hs1
    obtain ⟨labels, hl, pt, hpt, hs1⟩ := hs1
    rw [wr_ok_iff] at hl
    obtain ⟨hlt, hl⟩ := hl
    subst hl; subst hs1
    refine ⟨hlt, ?_⟩
    by_cases hi : p.ignore_weak_features = true
    · simp only [hi, not_true_eq_false, if_false, Except.ok.injEq] at hs2
      subst hs2
      simp only [hL, if_true, hi, rd_toList hpt, List.append_nil]
      exact h
    · simp only [hi, hpt, bind, Except.bind, Bool.false_eq_true, not_false_eq_true, if_true,
        Except.ok.injEq] at hs2
      subst hs2
      simp only [hL, if_true, hi, if_false, rd_toList hpt, Bool.false_eq_true]
      exact h
  · simp only [hL, if_false, bind_ok_iff, Except.ok.injEq] at hs1
    obtain ⟨labels, hl, hs1⟩ := hs1
    rw [wr_ok_iff] at hl
    obtain ⟨hlt, hl⟩ := hl
    subst hl; subst hs1
    refine ⟨hlt, ?_⟩
    by_cases hi : p.ignore_weak_features = true
    · simp only [hi, not_true_eq_false, if_false, Except.ok.injEq] at hs2
      subst hs2
      simp only [hL, if_false, hi, if_true, List.append_nil]
      exact h
    · cases hrd : rd s.sorted_scan_ idx with
      | error e =>
        simp [hi, hrd, bind, Except.bind] at hs2
      | ok pt2 =>
        simp only [hi, hrd, bind, Except.bind, Bool.false_eq_true, not_false_eq_true, if_true,
          Except.ok.injEq] at hs2
        subst hs2
        simp only [hL, if_false, hi, List.append_nil, rd_toList hrd, Bool.false_eq_true]
        exact h

/-- What accepting a flat point does. -/
theorem flatAccept_spec (p : LoamParams) (idx scan_idx region_idx : Nat)
    (acc acc1 : PointCloudIRT) (s s2 : State)
    (h : flatAccept p idx scan_idx region_idx acc s = .ok (acc1, s2)) :
    region_idx < s.region_label_.length ∧
    ∃ pt, s.sorted_scan_[idx]? = some pt ∧
      acc1 = (if p.ignore_weak_features then acc else acc ++ [pt]) ∧
      MarkAsPicked p idx scan_idx
        { s with
          region_label_ := s.region_label_.set region_idx PointLabel.SURFACE_FLAT,
          surface_points_flat_ := s.surface_points_flat_ ++ [pt] } = .ok s2 := by
  simp only [flatAccept, bind_ok_iff] at h
  obtain ⟨labels, hl, pt, hpt, s3, hs3, h⟩ := h
  rw [wr_ok_iff] at hl
  obtain ⟨hlt, hl⟩ := hl
  subst hl
  simp only [Except.ok.injEq, Prod.mk.injEq] at h
  obtain ⟨h1, h2⟩ := h
  subst h2
  refine ⟨hlt, pt, rd_ok_iff.mp hpt, ?_, hs3⟩
  rw [← h1]
  by_cases hi : p.ignore_weak_features = true <;> simp [hi]

/-- Induction over the corner pass: a property that holds before the pass and is kept by
every accepted corner holds after it. -/
theorem cornerLoop_induction (p : LoamParams) (scan_start_idx sp : Nat)
    (Inv : Int → State → Prop)
    (hstep : ∀ (k : Nat) (L : Int) (s s3 : State) (idx : Nat) (curv : ℚ), Inv L s →
      L < p.max_corner_less_sharp →
      s.region_sort_indices_[k]? = some idx →
      s.scan_neighbor_picked_[usub idx scan_start_idx]? = some 0 →
      s.region_curvature_[usub idx sp]? = some curv →
      curv > p.surface_curvature_threshold →
      cornerAccept p idx (usub idx scan_start_idx) (usub idx sp) (L + 1) s = .ok s3 →
      Inv (L + 1) s3) :
    ∀ (k : Nat) (L : Int) (s s1 : State), Inv L s →
      cornerLoop p scan_start_idx sp k L s = .ok s1 → ∃ L1, Inv L1 s1 := by
  intro k
  induction k with
  | zero =>
    intro L s s1 hinv h
    simp only [cornerLoop, Except.ok.injEq] at h
    subst h
    exact ⟨L, hinv⟩
  | succ k ih =>
    intro L s s1 hinv h
    unfold cornerLoop at h
    split at h
    · rename_i hL
      simp only [bind_ok_iff] at h
      obtain ⟨idx, hidx, picked, hpicked, h⟩ := h
      rw [rd_ok_iff] at hidx hpicked
      split at h
      · rename_i hp0
        subst hp0
        simp only [bind_ok_iff] at h
        obtain ⟨curv, hcurv, h⟩ := h
        rw [rd_ok_iff] at hcurv
        split at h
        · rename_i hgt
          simp only [bind_ok_iff] at h
          obtain ⟨s3, hs3, h⟩ := h
          exact ih (L + 1) s3 s1 (hstep k L s s3 idx curv hinv hL hidx hpicked hcurv hgt hs3) h
        · exact ih L s s1 hinv h
      · exact ih L s s1 hinv h
    · simp only [Except.ok.injEq] at h
      subst h
      exact ⟨L, hinv⟩

/-- Induction over the flat pass. -/
theorem flatLoop_induction (p : LoamParams) (scan_start_idx sp : Nat)
    (Inv : Int → PointCloudIRT → State → Prop)
    (hstep : ∀ (k : Nat) (L : Int) (acc acc1 : PointCloudIRT) (s s2 : State) (idx : Nat)
      (curv : ℚ), Inv L acc s →
      L < p.max_surface_flat →
      s.region_sort_indices_[k]? = some idx →
      s.scan_neighbor_picked_[usub idx scan_start_idx]? = some 0 →
      s.region_curvature_[usub idx sp]? = some curv →
      curv < p.surface_curvature_threshold →
      flatAccept p idx (usub idx scan_start_idx) (usub idx sp) acc s = .ok (acc1, s2) →
      Inv (L + 1) acc1 s2) :
    ∀ (left k : Nat) (L : Int) (acc acc1 : PointCloudIRT) (s s1 : State), Inv L acc s →
      flatLoop p scan_start_idx sp left k L acc s = .ok (acc1, s1) → ∃ L1, Inv L1 acc1 s1 := by
  intro left
  induction left with
  | zero =>
    intro k L acc acc1 s s1 hinv h
    simp only [flatLoop, Except.ok.injEq, Prod.mk.injEq] at h
    obtain ⟨h1, h2⟩ := h
    subst h1; subst h2
    exact ⟨L, hinv⟩
  | succ left ih =>
    intro k L acc acc1 s s1 hinv h
    unfold flatLoop at h
    split at h
    · rename_i hL
      simp only [bind_ok_iff] at h
      obtain ⟨idx, hidx, picked, hpicked, h⟩ := h
      rw [rd_ok_iff] at hidx hpicked
      split at h
      · rename_i hp0
        subst hp0
        simp only [bind_ok_iff] at h
        obtain ⟨curv, hcurv, h⟩ := h
        rw [rd_ok_iff] at hcurv
        split at h
        · rename_i hlt
          simp only [bind_ok_iff] at h
          obtain ⟨⟨acc2, s2⟩, hs2, h⟩ := h
          exact ih (k + 1) (L + 1) acc2 acc1 s2 s1
            (hstep k L acc acc2 s s2 idx curv hinv hL hidx hpicked hcurv hlt hs2) h
        · exact ih (k + 1) L acc acc1 s s1 hinv h
      · exact ih (k + 1) L acc acc1 s s1 hinv h
    · simp only [Except.ok.injEq, Prod.mk.injEq] at h
      obtain ⟨h1, h2⟩ := h
      subst h1; subst h2
      exact ⟨L, hinv⟩


/-! ### `SetRegionBuffersFor` changes the region buffers only -/

theorem curvatureLoop_frame (p : LoamParams) :
    ∀ (left i regionIdx : Nat) (s s1 : State), curvatureLoop p left i regionIdx s = .ok s1 →
      s1 = { s with region_curvature_ := s1.region_curvature_,
                    region_sort_indices_ := s1.region_sort_indices_ } := by
  intro left
  induction left with
  | zero =>
    intro i regionIdx s s1 h
    simp only [curvatureLoop, Except.ok.injEq] at h
    subst h; rfl
  | succ left ih =>
    intro i regionIdx s s1 h
    simp only [curvatureLoop, bind_ok_iff] at h
    obtain ⟨pt, _, d, _, curv, _, idxs, _, h⟩ := h
    have := ih _ _ _ _ h
    rw [this]

theorem sortInner_frame (start_idx : Nat) :
    ∀ (j : Nat) (s s1 : State), sortInner start_idx j s = .ok s1 →
      s1 = { s with region_sort_indices_ := s1.region_sort_indices_ } := by
  intro j
  induction j with
  | zero =>
    intro s s1 h
    simp only [sortInner, Except.ok.injEq] at h
    subst h; rfl
  | succ j ih =>
    intro s s1 h
    simp only [sortInner, bind_ok_iff] at h
    obtain ⟨a, _, b, _, ca, _, cb, _, h⟩ := h
    split at h
    · simp only [bind_ok_iff] at h
      obtain ⟨i1, _, i2, _, h⟩ := h
      have := ih _ _ h
      rw [this]
    · exact ih _ _ h

theorem sortOuter_frame (start_idx : Nat) :
    ∀ (left i : Nat) (s s1 : State), sortOuter start_idx left i s = .ok s1 →
      s1 = { s with region_sort_indices_ := s1.region_sort_indices_ } := by
  intro left
  induction left with
  | zero =>
    intro i s s1 h
    simp only [sortOuter, Except.ok.injEq] at h
    subst h; rfl
  | succ left ih =>
    intro i s s1 h
    simp only [sortOuter, bind_ok_iff] at h
    obtain ⟨s2, hs2, h⟩ := h
    have h1 := sortInner_frame start_idx _ _ _ hs2
    have h2 := ih _ _ _ h
    rw [h2, h1]

/-- `SetRegionBuffersFor` resets the labels of the region to `SURFACE_LESS_FLAT` and leaves
the sorted scan, the ranges, the mask and the outputs as they are. -/
theorem SetRegionBuffersFor_frame (p : LoamParams) (sp ep : Nat) (s s1 : State)
    (h : SetRegionBuffersFor p sp ep s = .ok s1) :
    s1 = { s with
      region_curvature_ := s1.region_curvature_,
      region_sort_indices_ := s1.region_sort_indices_,
      region_label_ := List.replicate (uadd (usub ep sp) 1) PointLabel.SURFACE_LESS_FLAT } := by
  simp only [SetRegionBuffersFor, bind_ok_iff] at h
  obtain ⟨s2, hs2, h⟩ := h
  have h1 := curvatureLoop_frame p _ _ _ _ _ hs2
  have h2 := sortOuter_frame sp _ _ _ _ h
  rw [h2, h1]

/-! ### Claim C1: the caps of a region -/

theorem count_set_le {α : Type} [DecidableEq α] (a v : α) :
    ∀ (l : List α) (i : Nat), (l.set i v).count a ≤ l.count a + 1 := by
  intro l
  induction l with
  | nil => intro i; simp
  | cons x xs ih =>
    intro i
    cases i with
    | zero =>
      simp only [List.set_cons_zero, List.count_cons]
      split <;> split <;> omega
    | succ i =>
      simp only [List.set_cons_succ, List.count_cons]
      have := ih i
      split <;> omega

theorem count_set_ne_le {α : Type} [DecidableEq α] (a v : α) (hne : v ≠ a) :
    ∀ (l : List α) (i : Nat), (l.set i v).count a ≤ l.count a := by
  intro l
  induction l with
  | nil => intro i; simp
  | cons x xs ih =>
    intro i
    cases i with
    | zero =>
      simp only [List.set_cons_zero, List.count_cons]
      have : (v == a) = false := by simpa using hne
      rw [this]
      simp
    | succ i =>
      simp only [List.set_cons_succ, List.count_cons]
      have := ih i
      split <;> omega

theorem count_replicate_ne {α : Type} [DecidableEq α] (a v : α) (hne : v ≠ a) (n : Nat) :
    (List.replicate n v).count a = 0 := by
  rw [List.count_eq_zero]
  intro h
  exact hne (List.eq_of_mem_replicate h).symm

/-- The caps that claim C1 states for the labels of a region. -/
theorem cornerLoop_caps (p : LoamParams) (scan_start_idx sp : Nat)
    (k : Nat) (s s1 : State)
    (hcs : 0 ≤ p.max_corner_sharp) (hcls : 0 ≤ p.max_corner_less_sharp)
    (h0 : ∀ l ∈ s.region_label_, l = PointLabel.SURFACE_LESS_FLAT)
    (h : cornerLoop p scan_start_idx sp k 0 s = .ok s1) :
    (s1.region_label_.count PointLabel.CORNER_SHARP : Int) ≤ p.max_corner_sharp ∧
    (s1.region_label_.count PointLabel.CORNER_SHARP : Int)
      + s1.region_label_.count PointLabel.CORNER_LESS_SHARP ≤ p.max_corner_less_sharp ∧
    s1.region_label_.count PointLabel.SURFACE_FLAT = 0 := by
  have key := cornerLoop_induction p scan_start_idx sp
    (fun L st => L ≤ p.max_corner_less_sharp ∧
      (st.region_label_.count PointLabel.CORNER_SHARP : Int) ≤ p.max_corner_sharp ∧
      (st.region_label_.count PointLabel.CORNER_SHARP : Int)
        + st.region_label_.count PointLabel.CORNER_LESS_SHARP ≤ L ∧
      st.region_label_.count PointLabel.SURFACE_FLAT = 0)
    (by
      intro k L st s3 idx curv hinv hL _ _ _ _ hacc
      obtain ⟨_, hmark⟩ := cornerAccept_spec p idx _ _ _ st s3 hacc
      obtain ⟨hshape, _⟩ := MarkAsPicked_spec p idx _ _ s3 hmark
      obtain ⟨i1, i2, i3, i4⟩ := hinv
      have hlab : s3.region_label_ = st.region_label_.set (usub idx sp)
          (if L + 1 ≤ p.max_corner_sharp then PointLabel.CORNER_SHARP
           else PointLabel.CORNER_LESS_SHARP) := by
        rw [hshape]
      rw [hlab]
      by_cases hs : L + 1 ≤ p.max_corner_sharp
      · simp only [hs, if_true]
        have c1 := count_set_le PointLabel.CORNER_SHARP PointLabel.CORNER_SHARP
          st.region_label_ (usub idx sp)
        have c2 := count_set_ne_le PointLabel.CORNER_LESS_SHARP PointLabel.CORNER_SHARP
          (by decide) st.region_label_ (usub idx sp)
        have c3 := count_set_ne_le PointLabel.SURFACE_FLAT PointLabel.CORNER_SHARP
          (by decide) st.region_label_ (usub idx sp)
        refine ⟨by omega, by omega, by omega, by omega⟩
      · simp only [hs, if_false]
        have c1 := count_set_ne_le PointLabel.CORNER_SHARP PointLabel.CORNER_LESS_SHARP
          (by decide) st.region_label_ (usub idx sp)
        have c2 := count_set_le PointLabel.CORNER_LESS_SHARP PointLabel.CORNER_LESS_SHARP
          st.region_label_ (usub idx sp)
        have c3 := count_set_ne_le PointLabel.SURFACE_FLAT PointLabel.CORNER_LESS_SHARP
          (by decide) st.region_label_ (usub idx sp)
        refine ⟨by omega, by omega, by omega, by omega⟩)
    k 0 s s1
    (by
      have z1 : s.region_label_.count PointLabel.CORNER_SHARP = 0 := by
        rw [List.count_eq_zero]; intro hm; exact absurd (h0 _ hm) (by decide)
      have z2 : s.region_label_.count PointLabel.CORNER_LESS_SHARP = 0 := by
        rw [List.count_eq_zero]; intro hm; exact absurd (h0 _ hm) (by decide)
      have z3 : s.region_label_.count PointLabel.SURFACE_FLAT = 0 := by
        rw [List.count_eq_zero]; intro hm; exact absurd (h0 _ hm) (by decide)
      refine ⟨hcls, by omega, by omega, z3⟩)
    h
  obtain ⟨L1, i1, i2, i3, i4⟩ := key
  exact ⟨i2, by omega, i4⟩

theorem flatLoop_caps (p : LoamParams) (scan_start_idx sp : Nat)
    (left k : Nat) (acc acc1 : PointCloudIRT) (s s1 : State) (a b : Int)
    (hflat : 0 ≤ p.max_surface_flat)
    (h1 : (s.region_label_.count PointLabel.CORNER_SHARP : Int) ≤ a)
    (h2 : (s.region_label_.count PointLabel.CORNER_SHARP : Int)
      + s.region_label_.count PointLabel.CORNER_LESS_SHARP ≤ b)
    (h3 : s.region_label_.count PointLabel.SURFACE_FLAT = 0)
    (h : flatLoop p scan_start_idx sp left k 0 acc s = .ok (acc1, s1)) :
    (s1.region_label_.count PointLabel.CORNER_SHARP : Int) ≤ a ∧
    (s1.region_label_.count PointLabel.CORNER_SHARP : Int)
      + s1.region_label_.count PointLabel.CORNER_LESS_SHARP ≤ b ∧
    (s1.region_label_.count PointLabel.SURFACE_FLAT : Int) ≤ p.max_surface_flat := by
  have key := flatLoop_induction p scan_start_idx sp
    (fun L _ st => L ≤ p.max_surface_flat ∧
      (st.region_label_.count PointLabel.CORNER_SHARP : Int) ≤ a ∧
      (st.region_label_.count PointLabel.CORNER_SHARP : Int)
        + st.region_label_.count PointLabel.CORNER_LESS_SHARP ≤ b ∧
      (st.region_label_.count PointLabel.SURFACE_FLAT : Int) ≤ L)
    (by
      intro k L acc0 acc2 st s3 idx curv hinv hL _ _ _ _ hacc
      obtain ⟨_, pt, _, _, hmark⟩ := flatAccept_spec p idx _ _ _ _ st s3 hacc
      obtain ⟨hshape, _⟩ := MarkAsPicked_spec p idx _ _ s3 hmark
      obtain ⟨i1, i2, i3, i4⟩ := hinv
      have hlab : s3.region_label_ =
          st.region_label_.set (usub idx sp) PointLabel.SURFACE_FLAT := by
        rw [hshape]
      rw [hlab]
      have c1 := count_set_ne_le PointLabel.CORNER_SHARP PointLabel.SURFACE_FLAT
        (by decide) st.region_label_ (usub idx sp)
      have c2 := count_set_ne_le PointLabel.CORNER_LESS_SHARP PointLabel.SURFACE_FLAT
        (by decide) st.region_label_ (usub idx sp)
      have c3 := count_set_le PointLabel.SURFACE_FLAT PointLabel.SURFACE_FLAT
        st.region_label_ (usub idx sp)
      refine ⟨by omega, by omega, by omega, by omega⟩)
    left k 0 acc acc1 s s1 ⟨hflat, h1, h2, by omega⟩ h
  obtain ⟨L1, i1, i2, i3, i4⟩ := key
  exact ⟨i2, i3, by omega⟩

/-- Claim C1. For every region that the orchestrator processes (it is not skipped and its
passes run without a fault), with caps that are not negative, the labels of the region after
its passes have at most `max_corner_sharp` entries `CORNER_SHARP`, at most
`max_corner_less_sharp` entries `CORNER_SHARP` or `CORNER_LESS_SHARP`, and at most
`max_surface_flat` entries `SURFACE_FLAT`. -/
theorem region_label_caps (env : Env) (p : LoamParams) (scan_start_idx scan_end_idx : Nat)
    (j : Int) (acc acc1 : PointCloudIRT) (s s1 : State)
    (hcs : 0 ≤ p.max_corner_sharp) (hcls : 0 ≤ p.max_corner_less_sharp)
    (hflat : 0 ≤ p.max_surface_flat)
    (hproc : regionSkipped p scan_start_idx scan_end_idx j = false)
    (hrun : regionBody env p scan_start_idx scan_end_idx j acc s = .ok (acc1, s1)) :
    (s1.region_label_.count PointLabel.CORNER_SHARP : Int) ≤ p.max_corner_sharp ∧
    (s1.region_label_.count PointLabel.CORNER_SHARP : Int)
      + s1.region_label_.count PointLabel.CORNER_LESS_SHARP ≤ p.max_corner_less_sharp ∧
    (s1.region_label_.count PointLabel.SURFACE_FLAT : Int) ≤ p.max_surface_flat := by
  simp only [regionBody, hproc, Bool.false_eq_true, if_false, bind_ok_iff] at hrun
  obtain ⟨s2, hs2, hrun⟩ := hrun
  have hframe := SetRegionBuffersFor_frame p _ _ s s2 hs2
  have hlab : ∀ l ∈ s2.region_label_, l = PointLabel.SURFACE_LESS_FLAT := by
    intro l hl
    rw [hframe] at hl
    exact List.eq_of_mem_replicate hl
  simp only [regionPasses, bind_ok_iff] at hrun
  obtain ⟨s3, hs3, ⟨acc4, s4⟩, hs4, hrun⟩ := hrun
  obtain ⟨c1, c2, c3⟩ := cornerLoop_caps p _ _ _ s2 s3 hcs hcls hlab hs3
  obtain ⟨f1, f2, f3⟩ := flatLoop_caps p _ _ _ _ _ _ s3 s4 _ _ hflat c1 c2 c3 hs4
  have hs : s1 = s4 := by
    simp only at hrun
    split at hrun
    · simp only [bind_ok_iff, Except.ok.injEq, Prod.mk.injEq] at hrun
      obtain ⟨_, _, _, h⟩ := hrun
      exact h.symm
    · simp only [Except.ok.injEq, Prod.mk.injEq] at hrun
      exact hrun.2.symm
  rw [hs]
  exact ⟨f1, f2, f3⟩


/-- Witness for claim C1: region 0 of a line of seven points, in which one sharp corner and
one flat point are selected. -/
theorem region_label_caps_witness :
    regionSkipped sampleParams 0 6 0 = false ∧
    sampleRegion7.2.region_label_ =
      [PointLabel.SURFACE_FLAT, PointLabel.SURFACE_LESS_FLAT, PointLabel.CORNER_SHARP,
       PointLabel.SURFACE_LESS_FLAT] ∧
    (sampleRegion7.2.region_label_.count PointLabel.CORNER_SHARP : Int)
      ≤ sampleParams.max_corner_sharp :=
  ⟨by decide, by decide!,
   (region_label_caps sampleEnv sampleParams 0 6 0 [] sampleRegion7.1 sampleFiltered7
      sampleRegion7.2 (by decide) (by decide) (by decide) (by decide)
      (by with_unfolding_all rfl)).1⟩


/-! ### The reliability filter changes the mask only -/

theorem SetScanBuffersStep_frame (env : Env) (p : LoamParams) (start_idx i : Nat) (s s1 : State)
    (h : SetScanBuffersStep env p start_idx i s = .ok s1) :
    s1 = { s with scan_neighbor_picked_ := s1.scan_neighbor_picked_ } := by
  simp only [SetScanBuffersStep, bind_ok_iff] at h
  obtain ⟨prev, _, pt, _, next, _, h⟩ := h
  split at h
  · simp only [bind_ok_iff, Except.ok.injEq] at h
    obtain ⟨m, _, h⟩ := h
    subst h; rfl
  · simp only [bind_ok_iff] at h
    obtain ⟨m1, _, h⟩ := h
    split at h
    · simp only [bind_ok_iff, Except.ok.injEq] at h
      obtain ⟨m2, _, h⟩ := h
      subst h; rfl
    · simp only [Except.ok.injEq] at h
      subst h; rfl

theorem SetScanBuffersLoop_frame (env : Env) (p : LoamParams) (start_idx : Nat) :
    ∀ (left i : Nat) (s s1 : State), SetScanBuffersLoop env p start_idx left i s = .ok s1 →
      s1 = { s with scan_neighbor_picked_ := s1.scan_neighbor_picked_ } := by
  intro left
  induction left with
  | zero =>
    intro i s s1 h
    simp only [SetScanBuffersLoop, Except.ok.injEq] at h
    subst h; rfl
  | succ left ih =>
    intro i s s1 h
    simp only [SetScanBuffersLoop, bind_ok_iff] at h
    obtain ⟨s2, hs2, h⟩ := h
    have h1 := SetScanBuffersStep_frame env p start_idx i s s2 hs2
    have h2 := ih _ _ _ h
    rw [h2, h1]

/-- `SetScanBuffersFor` leaves everything but the mask as it is. -/
theorem SetScanBuffersFor_frame (env : Env) (p : LoamParams) (start_idx end_idx : Nat)
    (s s1 : State) (h : SetScanBuffersFor env p start_idx end_idx s = .ok s1) :
    s1 = { s with scan_neighbor_picked_ := s1.scan_neighbor_picked_ } := by
  unfold SetScanBuffersFor at h
  have := SetScanBuffersLoop_frame env p start_idx _ _ _ _ h
  rw [this]

/-! ### Every output point is a point of the sorted scan -/

theorem PointsSatisfy.of_mask {P : Point → Prop} {s s1 : State}
    (h : s1 = { s with scan_neighbor_picked_ := s1.scan_neighbor_picked_ })
    (hs : PointsSatisfy P s) : PointsSatisfy P s1 := by
  rw [h]; exact hs

theorem getElem?_toList_mem {α : Type} {xs : List α} {i : Nat} {v : α}
    (h : v ∈ xs[i]?.toList) : v ∈ xs := by
  cases hx : xs[i]? with
  | none => rw [hx] at h; simp at h
  | some w =>
    rw [hx] at h
    simp only [Option.toList, List.mem_singleton] at h
    subst h
    exact List.getElem?_mem hx

theorem cornerAccept_points (P : Point → Prop) (p : LoamParams) (idx scan_idx region_idx : Nat)
    (L : Int) (s s3 : State) (hs : PointsSatisfy P s)
    (h : cornerAccept p idx scan_idx region_idx L s = .ok s3) : PointsSatisfy P s3 := by
  obtain ⟨_, hmark⟩ := cornerAccept_spec p idx _ _ _ s s3 h
  obtain ⟨hshape, _⟩ := MarkAsPicked_spec p idx _ _ s3 hmark
  apply PointsSatisfy.of_mask hshape
  obtain ⟨h1, h2, h3, h4, h5⟩ := hs
  refine ⟨h1, ?_, ?_, h4, h5⟩
  · intro pt hpt
    simp only [List.mem_append] at hpt
    rcases hpt with hpt | hpt
    · exact h2 pt hpt
    · split at hpt
      · exact h1 pt (getElem?_toList_mem hpt)
      · simp at hpt
  · intro pt hpt
    simp only [List.mem_append] at hpt
    rcases hpt with hpt | hpt
    · exact h3 pt hpt
    · split at hpt
      · simp at hpt
      · exact h1 pt (getElem?_toList_mem hpt)

theorem cornerLoop_points (P : Point → Prop) (p : LoamParams) (scan_start_idx sp k : Nat)
    (L : Int) (s s1 : State) (hs : PointsSatisfy P s)
    (h : cornerLoop p scan_start_idx sp k L s = .ok s1) : PointsSatisfy P s1 := by
  obtain ⟨_, h1⟩ := cornerLoop_induction p scan_start_idx sp (fun _ st => PointsSatisfy P st)
    (by
      intro k L st s3 idx curv hinv _ _ _ _ _ hacc
      exact cornerAccept_points P p idx _ _ _ st s3 hinv hacc)
    k L s s1 hs h
  exact h1

theorem flatAccept_points (P : Point → Prop) (p : LoamParams) (idx scan_idx region_idx : Nat)
    (acc acc1 : PointCloudIRT) (s s2 : State) (hs : PointsSatisfy P s)
    (hacc : ∀ pt ∈ acc, P pt)
    (h : flatAccept p idx scan_idx region_idx acc s = .ok (acc1, s2)) :
    PointsSatisfy P s2 ∧ ∀ pt ∈ acc1, P pt := by
  obtain ⟨_, pt, hpt, hacc1, hmark⟩ := flatAccept_spec p idx _ _ _ _ s s2 h
  obtain ⟨hshape, _⟩ := MarkAsPicked_spec p idx _ _ s2 hmark
  obtain ⟨h1, h2, h3, h4, h5⟩ := hs
  have hP : P pt := h1 pt (List.getElem?_mem hpt)
  refine ⟨PointsSatisfy.of_mask hshape ⟨h1, h2, h3, ?_, h5⟩, ?_⟩
  · intro q hq
    simp only [List.mem_append, List.mem_singleton] at hq
    rcases hq with hq | hq
    · exact h4 q hq
    · subst hq; exact hP
  · intro q hq
    rw [hacc1] at hq
    split at hq
    · exact hacc q hq
    · simp only [List.mem_append, List.mem_singleton] at hq
      rcases hq with hq | hq
      · exact hacc q hq
      · subst hq; exact hP

theorem flatLoop_points (P : Point → Prop) (p : LoamParams) (scan_start_idx sp left k : Nat)
    (L : Int) (acc acc1 : PointCloudIRT) (s s1 : State) (hs : PointsSatisfy P s)
    (hacc : ∀ pt ∈ acc, P pt)
    (h : flatLoop p scan_start_idx sp left k L acc s = .ok (acc1, s1)) :
    PointsSatisfy P s1 ∧ ∀ pt ∈ acc1, P pt := by
  obtain ⟨_, h1⟩ := flatLoop_induction p scan_start_idx sp
    (fun _ a st => PointsSatisfy P st ∧ ∀ pt ∈ a, P pt)
    (by
      intro k L a a1 st s2 idx curv hinv _ _ _ _ _ hacc
      exact flatAccept_points P p idx _ _ a a1 st s2 hinv.1 hinv.2 hacc)
    left k L acc acc1 s s1 ⟨hs, hacc⟩ h
  exact h1

theorem remainderLoop_points (P : Point → Prop) (env : Env) (sp : Nat) (s : State)
    (hs : ∀ pt ∈ s.sorted_scan_, P pt) :
    ∀ (left k : Nat) (acc acc1 : PointCloudIRT), (∀ pt ∈ acc, P pt) →
      remainderLoop env sp s left k acc = .ok acc1 → ∀ pt ∈ acc1, P pt := by
  intro left
  induction left with
  | zero =>
    intro k acc acc1 hacc h
    simp only [remainderLoop, Except.ok.injEq] at h
    subst h; exact hacc
  | succ left ih =>
    intro k acc acc1 hacc h
    simp only [remainderLoop, bind_ok_iff] at h
    obtain ⟨label, _, h⟩ := h
    split at h
    · simp only [bind_ok_iff] at h
      obtain ⟨pt, hpt, h⟩ := h
      refine ih (k + 1) _ acc1 ?_ h
      intro q hq
      simp only [List.mem_append, List.mem_singleton] at hq
      rcases hq with hq | hq
      · exact hacc q hq
      · subst hq; exact hs _ (rd_mem hpt)
    · exact ih (k + 1) _ acc1 hacc h

theorem regionBody_points (P : Point → Prop) (env : Env) (p : LoamParams)
    (scan_start_idx scan_end_idx : Nat) (j : Int) (acc acc1 : PointCloudIRT) (s s1 : State)
    (hs : PointsSatisfy P s) (hacc : ∀ pt ∈ acc, P pt)
    (h : regionBody env p scan_start_idx scan_end_idx j acc s = .ok (acc1, s1)) :
    PointsSatisfy P s1 ∧ ∀ pt ∈ acc1, P pt := by
  unfold regionBody at h
  simp only at h
  split at h
  · simp only [Except.ok.injEq, Prod.mk.injEq] at h
    obtain ⟨h1, h2⟩ := h
    subst h1; subst h2
    exact ⟨hs, hacc⟩
  · simp only [bind_ok_iff] at h
    obtain ⟨s2, hs2, h⟩ := h
    have hframe := SetRegionBuffersFor_frame p _ _ s s2 hs2
    have hs2P : PointsSatisfy P s2 := by rw [hframe]; exact hs
    simp only [regionPasses, bind_ok_iff] at h
    obtain ⟨s3, hs3, ⟨acc4, s4⟩, hs4, h⟩ := h
    have h3 := cornerLoop_points P p _ _ _ _ s2 s3 hs2P hs3
    obtain ⟨h4, hacc4⟩ := flatLoop_points P p _ _ _ _ _ acc acc4 s3 s4 h3 hacc hs4
    simp only at h
    split at h
    · simp only [bind_ok_iff, Except.ok.injEq, Prod.mk.injEq] at h
      obtain ⟨acc5, hacc5, h1, h2⟩ := h
      subst h1; subst h2
      exact ⟨h4, remainderLoop_points P env _ s4 h4.1 _ _ _ _ hacc4 hacc5⟩
    · simp only [Except.ok.injEq, Prod.mk.injEq] at h
      obtain ⟨h1, h2⟩ := h
      subst h1; subst h2
      exact ⟨h4, hacc4⟩

theorem regionLoop_points (P : Point → Prop) (env : Env) (p : LoamParams)
    (scan_start_idx scan_end_idx : Nat) :
    ∀ (left : Nat) (j : Int) (acc acc1 : PointCloudIRT) (s s1 : State),
      PointsSatisfy P s → (∀ pt ∈ acc, P pt) →
      regionLoop env p scan_start_idx scan_end_idx left j acc s = .ok (acc1, s1) →
      PointsSatisfy P s1 ∧ ∀ pt ∈ acc1, P pt := by
  intro left
  induction left with
  | zero =>
    intro j acc acc1 s s1 hs hacc h
    simp only [regionLoop, Except.ok.injEq, Prod.mk.injEq] at h
    obtain ⟨h1, h2⟩ := h
    subst h1; subst h2
    exact ⟨hs, hacc⟩
  | succ left ih =>
    intro j acc acc1 s s1 hs hacc h
    simp only [regionLoop, bind_ok_iff] at h
    obtain ⟨⟨acc2, s2⟩, h2, h⟩ := h
    obtain ⟨hs2, hacc2⟩ := regionBody_points P env p _ _ j acc acc2 s s2 hs hacc h2
    exact ih (j + 1) acc2 acc1 s2 s1 hs2 hacc2 h

/-- A property of points that the voxel grid filter keeps (whenever downsampling is on)
is kept by the processing of a scan line. -/
theorem scanBody_points (P : Point → Prop) (env : Env) (p : LoamParams) (range : IndexRange)
    (s s1 : State)
    (hvox : p.downsample_less_flat_features = true → p.ignore_weak_features = false →
      ∀ c : PointCloudIRT, (∀ pt ∈ c, P pt) →
        ∀ pt ∈ env.voxelGrid p.less_flat_filter_size c, P pt)
    (hs : PointsSatisfy P s) (h : scanBody env p range s = .ok s1) : PointsSatisfy P s1 := by
  unfold scanBody at h
  split at h
  · simp only [Except.ok.injEq] at h
    subst h; exact hs
  · simp only [bind_ok_iff] at h
    obtain ⟨s2, hs2, ⟨acc, s3⟩, hs3, h⟩ := h
    have hs2P : PointsSatisfy P s2 :=
      PointsSatisfy.of_mask (SetScanBuffersFor_frame env p _ _ s s2 hs2) hs
    obtain ⟨⟨h1, h2, h3, h4, h5⟩, hacc⟩ :=
      regionLoop_points P env p _ _ _ _ [] acc s2 s3 hs2P (by simp) hs3
    simp only at h
    split at h
    · rename_i hc
      simp only [Except.ok.injEq] at h
      subst h
      refine ⟨h1, h2, h3, h4, ?_⟩
      intro pt hpt
      simp only [List.mem_append] at hpt
      rcases hpt with hpt | hpt
      · exact h5 pt hpt
      · exact hvox hc.1 (by simpa using hc.2) acc hacc pt hpt
    · simp only [Except.ok.injEq] at h
      subst h
      refine ⟨h1, h2, h3, h4, ?_⟩
      intro pt hpt
      simp only [List.mem_append] at hpt
      rcases hpt with hpt | hpt
      · exact h5 pt hpt
      · exact hacc pt hpt

theorem scanLoop_points (P : Point → Prop) (env : Env) (p : LoamParams)
    (hvox : p.downsample_less_flat_features = true → p.ignore_weak_features = false →
      ∀ c : PointCloudIRT, (∀ pt ∈ c, P pt) →
        ∀ pt ∈ env.voxelGrid p.less_flat_filter_size c, P pt) :
    ∀ (ranges : List IndexRange) (s s1 : State), PointsSatisfy P s →
      scanLoop env p ranges s = .ok s1 → PointsSatisfy P s1 := by
  intro ranges
  induction ranges with
  | nil =>
    intro s s1 hs h
    simp only [scanLoop, Except.ok.injEq] at h
    subst h; exact hs
  | cons range rest ih =>
    intro s s1 hs h
    simp only [scanLoop, bind_ok_iff] at h
    obtain ⟨s2, hs2, h⟩ := h
    exact ih s2 s1 (scanBody_points P env p range s s2 hvox hs hs2) h

theorem GetSortedScanLoop_points (lines : List PointCloudIRT) :
    ∀ (c : Nat) (s : State),
      GetSortedScanLoop lines c s =
        { s with sorted_scan_ := s.sorted_scan_ ++ lines.flatten,
                 scan_indices_ := (GetSortedScanLoop lines c s).scan_indices_ } := by
  induction lines with
  | nil => intro c s; simp [GetSortedScanLoop]
  | cons line rest ih =>
    intro c s
    simp only [GetSortedScanLoop]
    rw [ih]
    simp [List.append_assoc]

/-- Every point of the four output clouds satisfies a property that every input point
satisfies and that the voxel grid filter keeps. -/
theorem ExtractFeaturesFromScanLines_points (P : Point → Prop) (env : Env) (p : LoamParams)
    (scan_lines : List PointCloudIRT) (s : State) (out : LoamPointCloud) (w : List Warning)
    (s1 : State)
    (hvox : p.downsample_less_flat_features = true → p.ignore_weak_features = false →
      ∀ c : PointCloudIRT, (∀ pt ∈ c, P pt) →
        ∀ pt ∈ env.voxelGrid p.less_flat_filter_size c, P pt)
    (hin : ∀ line ∈ scan_lines, ∀ pt ∈ line, P pt)
    (h : ExtractFeaturesFromScanLines env p scan_lines s = .ok (out, w, s1)) :
    (∀ pt ∈ out.edges_strong, P pt) ∧ (∀ pt ∈ out.surfaces_strong, P pt) ∧
    (∀ pt ∈ out.edges_weak, P pt) ∧ (∀ pt ∈ out.surfaces_weak, P pt) := by
  simp only [ExtractFeaturesFromScanLines, bind_ok_iff, Except.ok.injEq, Prod.mk.injEq] at h
  obtain ⟨s2, hs2, hout, _, hs⟩ := h
  subst hs
  unfold runScanLines GetSortedScan at hs2
  have h0 : PointsSatisfy P (GetSortedScanLoop scan_lines 0 (Reset s)) := by
    rw [GetSortedScanLoop_points]
    refine ⟨?_, by simp [Reset], by simp [Reset], by simp [Reset], by simp [Reset]⟩
    intro pt hpt
    simp only [Reset, List.nil_append, List.mem_flatten] at hpt
    obtain ⟨line, hl, hpt⟩ := hpt
    exact hin line hl pt hpt
  obtain ⟨_, h2, h3, h4, h5⟩ := scanLoop_points P env p hvox _ _ _ h0 hs2
  rw [← hout]
  exact ⟨h2, h4, h3, h5⟩


/-- Claim C4. For every cloud with explicit beam ids and `number_of_beams ≥ 1`: routing the
points to their scan lines never throws; `ExtractFeatures` returns the same four clouds and
leaves the same buffers (or ends in the same fault) as on the cloud with every point of
ring `≥ number_of_beams` removed; and no point of ring `≥ number_of_beams` is in any of the
four clouds it returns. The last part assumes of the voxel grid filter of PCL, when
downsampling is on, that every point it returns carries the ring of one of its input points. -/
theorem ExtractFeatures_ring_safety (env : Env) (p : LoamParams) (cloud : List Point) (s : State)
    (hnb : 1 ≤ p.number_of_beams)
    (hvox : p.downsample_less_flat_features = true → p.ignore_weak_features = false →
      ∀ (c : PointCloudIRT) (pt : Point), pt ∈ env.voxelGrid p.less_flat_filter_size c →
        ∃ q ∈ c, q.ring = pt.ring) :
    (∃ scan_lines w,
      routeByRing p cloud (List.replicate p.number_of_beams.toNat []) [] = .ok (scan_lines, w)) ∧
    (ExtractFeatures env p cloud s).map (fun r => (r.1, r.2.2)) =
      (ExtractFeatures env p
        (cloud.filter fun pt => decide ((pt.ring : Int) < p.number_of_beams)) s).map
        (fun r => (r.1, r.2.2)) ∧
    (∀ out w s1, ExtractFeatures env p cloud s = .ok (out, w, s1) →
      ∀ pt, pt ∈ out.edges_strong ∨ pt ∈ out.surfaces_strong ∨ pt ∈ out.edges_weak ∨
        pt ∈ out.surfaces_weak → (pt.ring : Int) < p.number_of_beams) := by
  obtain ⟨lines1, w1, h1, _, h3, h4⟩ :=
    routeByRing_filter p (by omega) cloud (List.replicate p.number_of_beams.toNat []) []
      (List.length_replicate _ _)
  have hneg : ¬ p.number_of_beams < 0 := by omega
  refine ⟨⟨lines1, w1, h1⟩, ?_, ?_⟩
  · simp only [ExtractFeatures, hneg, if_false, h1, h3 [], bind, Except.bind]
    cases ExtractFeaturesFromScanLines env p lines1 s with
    | error e => rfl
    | ok r => rfl
  · intro out w s1 h pt hpt
    simp only [ExtractFeatures, hneg, if_false, h1, bind_ok_iff, Except.ok.injEq,
      Prod.mk.injEq] at h
    obtain ⟨⟨lines2, w2⟩, hl, ⟨out2, w3, s2⟩, hrun, hout, _, _⟩ := h
    simp only [Except.ok.injEq, Prod.mk.injEq] at hl
    obtain ⟨hl, _⟩ := hl
    subst hl
    simp only at hrun hout
    subst hout
    have hin : ∀ line ∈ lines1, ∀ q ∈ line, (q.ring : Int) < p.number_of_beams := by
      intro line hline q hq
      rcases h4 line hline q hq with h5 | ⟨line0, hl0, hq0⟩
      · exact h5
      · rw [List.eq_of_mem_replicate hl0] at hq0
        simp at hq0
    obtain ⟨o1, o2, o3, o4⟩ :=
      ExtractFeaturesFromScanLines_points (fun q => (q.ring : Int) < p.number_of_beams)
        env p lines1 s out2 w3 s2
        (by
          intro hd hi c hc q hq
          obtain ⟨q0, hq0, hring⟩ := hvox hd hi c q hq
          have := hc q0 hq0
          simp only at this ⊢
          rw [← hring]; exact this)
        hin hrun
    rcases hpt with hpt | hpt | hpt | hpt
    · exact o1 pt hpt
    · exact o2 pt hpt
    · exact o3 pt hpt
    · exact o4 pt hpt

/-- Witness for claim C4: a cloud of seven points of ring 0 and one point of ring 2, with two
beams. -/
theorem ExtractFeatures_ring_safety_witness :
    1 ≤ sampleParams.number_of_beams ∧
    (ExtractFeatures sampleEnv sampleParams sampleCloudRing sampleState).map
        (fun r => (r.1, r.2.2)) =
      (ExtractFeatures sampleEnv sampleParams
        (sampleCloudRing.filter fun pt => decide ((pt.ring : Int) < sampleParams.number_of_beams))
        sampleState).map (fun r => (r.1, r.2.2)) ∧
    ((ExtractFeatures sampleEnv sampleParams sampleCloudRing sampleState).toOption.map
        fun r => (r.1.edges_strong, r.2.1)) =
      some ([samplePoint 0 3 (1 / 10)], [Warning.ring_exceeds_beams]) :=
  ⟨by decide,
   (ExtractFeatures_ring_safety sampleEnv sampleParams sampleCloudRing sampleState (by decide)
      (fun h => absurd h (by decide))).2.1,
   by decide!⟩


/-! ### The rank array holds indices of the region -/

theorem curvatureLoop_indices (p : LoamParams) :
    ∀ (left i r : Nat) (s s1 : State), curvatureLoop p left i r s = .ok s1 →
      s1.region_sort_indices_.length = s.region_sort_indices_.length ∧
      s1.region_curvature_.length = s.region_curvature_.length ∧
      (∀ pos, r ≤ pos → pos < r + left →
        s1.region_sort_indices_[pos]? = some (i + (pos - r))) ∧
      (∀ pos, pos < r → s1.region_sort_indices_[pos]? = s.region_sort_indices_[pos]?) := by
  intro left
  induction left with
  | zero =>
    intro i r s s1 h
    simp only [curvatureLoop, Except.ok.injEq] at h
    subst h
    exact ⟨rfl, rfl, fun pos h1 h2 => by omega, fun _ _ => rfl⟩
  | succ left ih =>
    intro i r s s1 h
    simp only [curvatureLoop, bind_ok_iff] at h
    obtain ⟨pt, _, d, _, curv, hcurv, idxs, hidxs, h⟩ := h
    rw [wr_ok_iff] at hcurv hidxs
    obtain ⟨hlt, hidxs⟩ := hidxs
    obtain ⟨_, hcurv⟩ := hcurv
    subst hidxs; subst hcurv
    obtain ⟨h1, h2, h4, h5⟩ := ih _ _ _ _ h
    simp only [List.length_set] at h1 h2
    refine ⟨h1, h2, ?_, ?_⟩
    · intro pos hp1 hp2
      by_cases hpr : pos = r
      · subst hpr
        rw [h5 pos (by omega)]
        simp [hlt]
      · rw [h4 pos (by omega) (by omega)]
        congr 1; omega
    · intro pos hp
      rw [h5 pos (by omega)]
      simp only
      rw [List.getElem?_set_ne (by omega)]

theorem sortInner_indices (start_idx : Nat) (Q : Nat → Prop) :
    ∀ (j : Nat) (s s1 : State), sortInner start_idx j s = .ok s1 →
      (∀ x ∈ s.region_sort_indices_, Q x) →
      s1.region_sort_indices_.length = s.region_sort_indices_.length ∧
      ∀ x ∈ s1.region_sort_indices_, Q x := by
  intro j
  induction j with
  | zero =>
    intro s s1 h hQ
    simp only [sortInner, Except.ok.injEq] at h
    subst h; exact ⟨rfl, hQ⟩
  | succ j ih =>
    intro s s1 h hQ
    simp only [sortInner, bind_ok_iff] at h
    obtain ⟨a, ha, b, hb, ca, _, cb, _, h⟩ := h
    split at h
    · simp only [bind_ok_iff] at h
      obtain ⟨i1, hi1, i2, hi2, h⟩ := h
      rw [wr_ok_iff] at hi1 hi2
      obtain ⟨_, hi1⟩ := hi1
      obtain ⟨_, hi2⟩ := hi2
      subst hi1; subst hi2
      have := ih _ _ h (by
        intro x hx
        simp only at hx
        rcases List.mem_or_eq_of_mem_set hx with hx | hx
        · rcases List.mem_or_eq_of_mem_set hx with hx | hx
          · exact hQ x hx
          · subst hx; exact hQ _ (rd_mem hb)
        · subst hx; exact hQ _ (rd_mem ha))
      simpa using this
    · exact ih _ _ h hQ

theorem sortOuter_indices (start_idx : Nat) (Q : Nat → Prop) :
    ∀ (left i : Nat) (s s1 : State), sortOuter start_idx left i s = .ok s1 →
      (∀ x ∈ s.region_sort_indices_, Q x) →
      s1.region_sort_indices_.length = s.region_sort_indices_.length ∧
      ∀ x ∈ s1.region_sort_indices_, Q x := by
  intro left
  induction left with
  | zero =>
    intro i s s1 h hQ
    simp only [sortOuter, Except.ok.injEq] at h
    subst h; exact ⟨rfl, hQ⟩
  | succ left ih =>
    intro i s s1 h hQ
    simp only [sortOuter, bind_ok_iff] at h
    obtain ⟨s2, hs2, h⟩ := h
    obtain ⟨h1, h2⟩ := sortInner_indices start_idx Q _ _ _ hs2 hQ
    obtain ⟨h3, h4⟩ := ih _ _ _ h h2
    exact ⟨h3.trans h1, h4⟩

theorem resize_length {α : Type} (xs : List α) (n : Nat) (d : α) :
    (resize xs n d).length = n := by
  simp only [resize, List.length_append, List.length_take, List.length_replicate]
  omega

/-- After `SetRegionBuffersFor` on a region `[sp, ep]` with `sp ≤ ep`, the rank array has
one entry per point of the region and every entry is an index of the region. -/
theorem SetRegionBuffersFor_indices (p : LoamParams) (sp ep : Nat) (s s1 : State)
    (hle : sp ≤ ep) (hep : ep + 1 < SIZE_MOD)
    (h : SetRegionBuffersFor p sp ep s = .ok s1) :
    s1.region_sort_indices_.length = ep - sp + 1 ∧
    s1.region_label_.length = ep - sp + 1 ∧
    ∀ x ∈ s1.region_sort_indices_, sp ≤ x ∧ x ≤ ep := by
  have hframe := SetRegionBuffersFor_frame p sp ep s s1 h
  have hsize : uadd (usub ep sp) 1 = ep - sp + 1 := by
    rw [usub_eq hle (by omega), uadd_eq (by omega)]
  simp only [SetRegionBuffersFor, bind_ok_iff, hsize] at h
  obtain ⟨s2, hs2, h⟩ := h
  obtain ⟨h1, _, h4, _⟩ := curvatureLoop_indices p _ _ _ _ _ hs2
  simp only [resize_length] at h1
  have hQ : ∀ x ∈ s2.region_sort_indices_, sp ≤ x ∧ x ≤ ep := by
    intro x hx
    obtain ⟨pos, hpos⟩ := List.mem_iff_getElem?.mp hx
    have hlt : pos < s2.region_sort_indices_.length :=
      (List.getElem?_eq_some_iff.mp hpos).1
    rw [h4 pos (Nat.zero_le _) (by omega)] at hpos
    simp only [Option.some.injEq] at hpos
    omega
  obtain ⟨h5, h6⟩ := sortOuter_indices sp _ _ _ _ _ h hQ
  refine ⟨by omega, ?_, h6⟩
  rw [hframe]
  simp [hsize]


/-! ### Suppression after a pick -/

theorem Suppressed.empty (scan : List Point) (cr : Int) (start_idx : Nat) (mask : List Int) :
    Suppressed scan cr start_idx mask (fun _ => False) :=
  ⟨fun _ h => absurd h id, fun _ _ h => absurd h id⟩

theorem Suppressed.grow {scan : List Point} {cr : Int} {start_idx : Nat} {m0 m1 : List Int}
    {X : Nat → Prop} (h : Suppressed scan cr start_idx m0 X) (hg : MaskGrows m0 m1) :
    Suppressed scan cr start_idx m1 X := by
  refine ⟨fun i hi t h1 h2 h3 h4 => ?_, h.2⟩
  obtain ⟨v, hv, hv0⟩ := h.1 i hi t h1 h2 h3 h4
  exact hg.nonzero hv hv0

/-- After `MarkAsPicked` on an index whose mask slot was unset, the mask has suppressed the
neighbours of that index too, and the index is far from every index picked before. -/
theorem MarkAsPicked_suppressed (p : LoamParams) (start_idx idx : Nat) (st s3 : State)
    (X : Nat → Prop) (hcr : 0 ≤ p.curvature_region) (hstart : start_idx ≤ idx)
    (hidx : (idx : Int) + p.curvature_region < SIZE_MOD)
    (hgood : Suppressed st.sorted_scan_ p.curvature_region start_idx st.scan_neighbor_picked_ X)
    (hzero : st.scan_neighbor_picked_[idx - start_idx]? = some 0)
    (hmark : MarkAsPicked p idx (idx - start_idx) st = .ok s3) :
    Suppressed st.sorted_scan_ p.curvature_region start_idx s3.scan_neighbor_picked_
      (fun i => X i ∨ i = idx) := by
  obtain ⟨_, hg, hself, hfwd, hbwd⟩ := MarkAsPicked_spec p idx (idx - start_idx) st s3 hmark
  have hmod : (SIZE_MOD : Int) = 18446744073709551616 := by decide
  have hidx2 : idx < SIZE_MOD := by
    have : (idx : Int) < (SIZE_MOD : Int) := by omega
    exact_mod_cast this
  -- the neighbours of `idx` are suppressed
  have hnew : ∀ t : Nat, start_idx ≤ t → (t : Int) ≤ idx + p.curvature_region →
      (idx : Int) ≤ t + p.curvature_region →
      (∀ k : Nat, (idx ≤ k ∧ k < t) ∨ (t ≤ k ∧ k < idx) → ¬ Disc st.sorted_scan_ k) →
      s3.scan_neighbor_picked_[t - start_idx]? = some 1 := by
    intro t ht1 ht2 ht3 hno
    rcases Nat.lt_trichotomy t idx with hlt | heq | hgt
    · -- towards smaller indices
      have hj := hbwd (idx - t) (by omega) (by omega) (by
        intro u hu1 hu2 a b ha hb hd
        have e1 : usub idx u = idx - u := usub_eq (by omega) hidx2
        have e2 : uadd (idx - u) 1 = idx - u + 1 := uadd_eq (by omega)
        rw [e1] at ha hb
        rw [e2] at hb
        exact hno (idx - u) (Or.inr ⟨by omega, by omega⟩) ⟨a, b, ha, hb, hd⟩)
      have e3 : usub (idx - start_idx) (idx - t) = t - start_idx := by
        rw [usub_eq (by omega) (by omega)]; omega
      rw [e3] at hj
      exact hj
    · subst heq; exact hself
    · -- towards larger indices
      have hj := hfwd (t - idx) (by omega) (by omega) (by
        intro u hu1 hu2 a b ha hb hd
        have hlt2 : idx + u < SIZE_MOD := by
          have : ((idx + u : Nat) : Int) < (SIZE_MOD : Int) := by push_cast; omega
          exact_mod_cast this
        have e1 : uadd idx u = idx + u := uadd_eq hlt2
        have e2 : usub (idx + u) 1 = idx + u - 1 := usub_eq (by omega) hlt2
        rw [e1] at ha hb
        rw [e2] at hb
        have hb2 : st.sorted_scan_[idx + u - 1 + 1]? = some a := by
          have : idx + u - 1 + 1 = idx + u := by omega
          rw [this]; exact ha
        rw [SquaredDiff_comm] at hd
        exact hno (idx + u - 1) (Or.inl ⟨by omega, by omega⟩) ⟨b, a, hb, hb2, hd⟩)
      have hlt3 : idx - start_idx + (t - idx) < SIZE_MOD := by
        have : ((idx - start_idx + (t - idx) : Nat) : Int) < (SIZE_MOD : Int) := by
          have h1 : ((idx - start_idx + (t - idx) : Nat) : Int) ≤ t := by omega
          omega
        exact_mod_cast this
      have e3 : uadd (idx - start_idx) (t - idx) = t - start_idx := by
        rw [uadd_eq hlt3]; omega
      rw [e3] at hj
      exact hj
  -- an index picked before is far from `idx`
  have hfar : ∀ i, X i → ∀ a b, (a = i ∧ b = idx) ∨ (a = idx ∧ b = i) → a < b →
      Far st.sorted_scan_ p.curvature_region a b := by
    intro i hi a b hab hlt
    by_contra hnot
    have hclose : ¬ ((b : Int) - a > p.curvature_region) := fun h => hnot (Or.inl h)
    have hnodisc : ∀ k : Nat, a ≤ k → k < b → ¬ Disc st.sorted_scan_ k :=
      fun k h1 h2 hd => hnot (Or.inr ⟨k, h1, h2, hd⟩)
    have hcov := hgood.1 i hi idx hstart
      (by rcases hab with ⟨h1, h2⟩ | ⟨h1, h2⟩ <;> omega)
      (by rcases hab with ⟨h1, h2⟩ | ⟨h1, h2⟩ <;> omega)
      (by
        intro k hk
        rcases hab with ⟨h1, h2⟩ | ⟨h1, h2⟩
        · exact hnodisc k (by omega) (by omega)
        · exact hnodisc k (by omega) (by omega))
    obtain ⟨v, hv, hv0⟩ := hcov
    rw [hzero] at hv
    exact hv0 (Option.some.inj hv).symm
  refine ⟨?_, ?_⟩
  · intro i hi t ht1 ht2 ht3 hno
    rcases hi with hi | hi
    · exact (hgood.grow hg).1 i hi t ht1 ht2 ht3 hno
    · subst hi
      exact ⟨1, hnew t ht1 ht2 ht3 hno, by decide⟩
  · intro a b ha hb hlt
    rcases ha with ha | ha
    · rcases hb with hb | hb
      · exact hgood.2 a b ha hb hlt
      · exact hfar a ha a b (Or.inl ⟨rfl, hb⟩) hlt
    · rcases hb with hb | hb
      · exact hfar b hb a b (Or.inr ⟨ha, rfl⟩) hlt
      · omega


/-! ### The passes keep the suppression invariant -/

/-- Accepting a point of the region whose mask slot is unset keeps the invariant. -/
theorem accept_inv (p : LoamParams) (start_idx sp ep idx : Nat) (scan : List Point)
    (idxs : List Nat) (X0 : Nat → Prop) (lab : PointLabel) (st st2 s3 : State)
    (hcr : 0 ≤ p.curvature_region) (hstart : start_idx ≤ sp) (h1 : sp ≤ idx) (h2 : idx ≤ ep)
    (hep : (ep : Int) + p.curvature_region < SIZE_MOD)
    (hinv : RegionInv p start_idx sp ep scan idxs X0 st)
    (hzero : st.scan_neighbor_picked_[idx - start_idx]? = some 0)
    (e1 : st2.sorted_scan_ = st.sorted_scan_)
    (e2 : st2.region_sort_indices_ = st.region_sort_indices_)
    (e3 : st2.scan_neighbor_picked_ = st.scan_neighbor_picked_)
    (e4 : st2.region_label_ = st.region_label_.set (idx - sp) lab)
    (hmark : MarkAsPicked p idx (idx - start_idx) st2 = .ok s3) :
    RegionInv p start_idx sp ep scan idxs X0 s3 := by
  obtain ⟨hscan, hidxs, X, hX0, hsup, hsel⟩ := hinv
  obtain ⟨hshape, _⟩ := MarkAsPicked_spec p idx (idx - start_idx) st2 s3 hmark
  have hsup2 : Suppressed st2.sorted_scan_ p.curvature_region start_idx
      st2.scan_neighbor_picked_ X := by rw [e1, e3, hscan]; exact hsup
  have hnew := MarkAsPicked_suppressed p start_idx idx st2 s3 X hcr (by omega) (by omega)
    hsup2 (by rw [e3]; exact hzero) hmark
  rw [e1, hscan] at hnew
  refine ⟨?_, ?_, fun i => X i ∨ i = idx, fun i hi => Or.inl (hX0 i hi), hnew, ?_⟩
  · rw [hshape]; simp only; rw [e1, hscan]
  · rw [hshape]; simp only; rw [e2, hidxs]
  · intro i hi1 hi2 hl
    have hlab : s3.region_label_ = st.region_label_.set (idx - sp) lab := by
      rw [hshape]; exact e4
    rw [hlab] at hl
    by_cases hi : i = idx
    · exact Or.inr hi
    · rw [List.getElem?_set_ne (by omega)] at hl
      exact Or.inl (hsel i hi1 hi2 hl)

theorem cornerLoop_inv (p : LoamParams) (start_idx sp ep : Nat) (scan : List Point)
    (idxs : List Nat) (X0 : Nat → Prop)
    (hcr : 0 ≤ p.curvature_region) (hstart : start_idx ≤ sp)
    (hep : (ep : Int) + p.curvature_region < SIZE_MOD)
    (hidxs : ∀ x ∈ idxs, sp ≤ x ∧ x ≤ ep)
    (k : Nat) (L : Int) (s s1 : State)
    (hinv : RegionInv p start_idx sp ep scan idxs X0 s)
    (h : cornerLoop p start_idx sp k L s = .ok s1) :
    RegionInv p start_idx sp ep scan idxs X0 s1 := by
  have hmod : ep < SIZE_MOD := by
    have : (ep : Int) < (SIZE_MOD : Int) := by omega
    exact_mod_cast this
  obtain ⟨_, h1⟩ := cornerLoop_induction p start_idx sp
    (fun _ st => RegionInv p start_idx sp ep scan idxs X0 st)
    (by
      intro k L st s3 idx curv hst _ hk hzero _ _ hacc
      have hmem : idx ∈ idxs := by rw [← hst.2.1]; exact List.getElem?_mem hk
      obtain ⟨b1, b2⟩ := hidxs idx hmem
      have e1 : usub idx start_idx = idx - start_idx := usub_eq (by omega) (by omega)
      have e2 : usub idx sp = idx - sp := usub_eq b1 (by omega)
      rw [e1] at hzero
      rw [e1, e2] at hacc
      obtain ⟨_, hmark⟩ := cornerAccept_spec p idx _ _ _ st s3 hacc
      refine accept_inv p start_idx sp ep idx scan idxs X0
        (if L + 1 ≤ p.max_corner_sharp then PointLabel.CORNER_SHARP
         else PointLabel.CORNER_LESS_SHARP) st _ s3 hcr hstart b1 b2 hep hst
        hzero ?_ ?_ ?_ ?_ hmark <;> rfl)
    k L s s1 hinv h
  exact h1

theorem flatLoop_inv (p : LoamParams) (start_idx sp ep : Nat) (scan : List Point)
    (idxs : List Nat) (X0 : Nat → Prop)
    (hcr : 0 ≤ p.curvature_region) (hstart : start_idx ≤ sp)
    (hep : (ep : Int) + p.curvature_region < SIZE_MOD)
    (hidxs : ∀ x ∈ idxs, sp ≤ x ∧ x ≤ ep)
    (left k : Nat) (L : Int) (acc acc1 : PointCloudIRT) (s s1 : State)
    (hinv : RegionInv p start_idx sp ep scan idxs X0 s)
    (h : flatLoop p start_idx sp left k L acc s = .ok (acc1, s1)) :
    RegionInv p start_idx sp ep scan idxs X0 s1 := by
  have hmod : ep < SIZE_MOD := by
    have : (ep : Int) < (SIZE_MOD : Int) := by omega
    exact_mod_cast this
  obtain ⟨_, h1⟩ := flatLoop_induction p start_idx sp
    (fun _ _ st => RegionInv p start_idx sp ep scan idxs X0 st)
    (by
      intro k L a a1 st s3 idx curv hst _ hk hzero _ _ hacc
      have hmem : idx ∈ idxs := by rw [← hst.2.1]; exact List.getElem?_mem hk
      obtain ⟨b1, b2⟩ := hidxs idx hmem
      have e1 : usub idx start_idx = idx - start_idx := usub_eq (by omega) (by omega)
      have e2 : usub idx sp = idx - sp := usub_eq b1 (by omega)
      rw [e1] at hzero
      rw [e1, e2] at hacc
      obtain ⟨_, pt, _, _, hmark⟩ := flatAccept_spec p idx _ _ _ _ st s3 hacc
      refine accept_inv p start_idx sp ep idx scan idxs X0 PointLabel.SURFACE_FLAT st _ s3
        hcr hstart b1 b2 hep hst hzero ?_ ?_ ?_ ?_ hmark <;> rfl)
    left k L acc acc1 s s1 hinv h
  exact h1

/-- The bounds of a region `j < n_feature_regions` that is not skipped. -/
theorem region_in_line (p : LoamParams) (start_idx end_idx : Nat)
    (h : LineOK p start_idx end_idx) (hpos : 1 ≤ start_idx + p.curvature_region.toNat)
    (j : Nat) (hj : (j : Int) < p.n_feature_regions) :
    start_idx + p.curvature_region.toNat ≤ regionStart p start_idx end_idx j ∧
    regionEnd p start_idx end_idx j + 1 + p.curvature_region.toNat ≤ end_idx ∧
    end_idx < SIZE_MOD := by
  have h1 := regionStart_ge p start_idx end_idx h j (by omega)
  have h2 := regionEnd_succ p start_idx end_idx h hpos j (by omega)
  have h3 := regionStart_le p start_idx end_idx h (j + 1) (by omega)
  have h4 := h.window
  exact ⟨h1, by omega, h.lt_mod⟩

/-- Processing a region keeps the sorted scan and the suppression, and every index selected
in the region is among the suppressed ones. -/
theorem regionBody_suppressed (env : Env) (p : LoamParams) (start_idx end_idx : Nat)
    (h : LineOK p start_idx end_idx) (hpos : 1 ≤ start_idx + p.curvature_region.toNat)
    (j : Nat) (hj : (j : Int) < p.n_feature_regions)
    (acc acc1 : PointCloudIRT) (s s1 : State) (X0 : Nat → Prop)
    (hgood : Suppressed s.sorted_scan_ p.curvature_region start_idx s.scan_neighbor_picked_ X0)
    (hrun : regionBody env p start_idx end_idx j acc s = .ok (acc1, s1)) :
    s1.sorted_scan_ = s.sorted_scan_ ∧
    ∃ X1 : Nat → Prop, (∀ i, X0 i → X1 i) ∧
      Suppressed s.sorted_scan_ p.curvature_region start_idx s1.scan_neighbor_picked_ X1 ∧
      ∀ i, Selected p start_idx end_idx j s1 i → X1 i := by
  by_cases hskip : regionSkipped p start_idx end_idx j = true
  · simp only [regionBody, hskip, if_true, Except.ok.injEq, Prod.mk.injEq] at hrun
    obtain ⟨_, hs⟩ := hrun
    subst hs
    refine ⟨rfl, X0, fun _ hi => hi, hgood, ?_⟩
    intro i hsel
    rw [hsel.1] at hskip
    exact absurd hskip (by decide)
  · have hskip2 : regionSkipped p start_idx end_idx j = false := by simpa using hskip
    obtain ⟨b1, b2, b3⟩ := region_in_line p start_idx end_idx h hpos j hj
    have hlt : regionStart p start_idx end_idx j < regionEnd p start_idx end_idx j := by
      simp only [regionSkipped, decide_eq_false_iff_not] at hskip2
      omega
    have hcr := h.hcr
    have hep : (regionEnd p start_idx end_idx j : Int) + p.curvature_region < SIZE_MOD := by
      have : (end_idx : Int) < (SIZE_MOD : Int) := by exact_mod_cast b3
      omega
    have hep1 : regionEnd p start_idx end_idx j + 1 < SIZE_MOD := by omega
    simp only [regionBody, hskip2, Bool.false_eq_true, if_false, bind_ok_iff] at hrun
    obtain ⟨s2, hs2, hrun⟩ := hrun
    have hframe := SetRegionBuffersFor_frame p _ _ s s2 hs2
    obtain ⟨_, _, hidxs⟩ := SetRegionBuffersFor_indices p _ _ s s2 (by omega) hep1 hs2
    have hinv2 : RegionInv p start_idx (regionStart p start_idx end_idx j)
        (regionEnd p start_idx end_idx j) s.sorted_scan_ s2.region_sort_indices_ X0 s2 := by
      refine ⟨by rw [hframe], rfl, X0, fun _ hi => hi, by rw [hframe]; exact hgood, ?_⟩
      intro i _ _ hl
      obtain ⟨l, hl1, hl2⟩ := hl
      rw [hframe] at hl1
      have := List.getElem?_mem hl1
      simp only at this
      exact absurd (List.eq_of_mem_replicate this) hl2
    simp only [regionPasses, bind_ok_iff] at hrun
    obtain ⟨s3, hs3, ⟨acc4, s4⟩, hs4, hrun⟩ := hrun
    have hinv3 := cornerLoop_inv p start_idx _ _ _ _ X0 hcr (by omega) hep hidxs _ _ s2 s3
      hinv2 hs3
    have hinv4 := flatLoop_inv p start_idx _ _ _ _ X0 hcr (by omega) hep hidxs _ _ _ _ _ s3 s4
      hinv3 hs4
    have hs : s1 = s4 := by
      simp only at hrun
      split at hrun
      · simp only [bind_ok_iff, Except.ok.injEq, Prod.mk.injEq] at hrun
        obtain ⟨_, _, _, h⟩ := hrun
        exact h.symm
      · simp only [Except.ok.injEq, Prod.mk.injEq] at hrun
        exact hrun.2.symm
    subst hs
    obtain ⟨hscan, _, X, hX0, hsup, hsel⟩ := hinv4
    refine ⟨hscan, X, hX0, hsup, ?_⟩
    intro i hi
    exact hsel i hi.2.1 hi.2.2.1 hi.2.2.2

/-- The region loop keeps the suppression, and the indices selected in its last region are
among the suppressed ones. -/
theorem regionLoop_suppressed (env : Env) (p : LoamParams) (start_idx end_idx : Nat)
    (h : LineOK p start_idx end_idx) (hpos : 1 ≤ start_idx + p.curvature_region.toNat) :
    ∀ (m j : Nat) (acc acc1 : PointCloudIRT) (s s1 : State) (X0 : Nat → Prop),
      ((j + m : Nat) : Int) < p.n_feature_regions →
      Suppressed s.sorted_scan_ p.curvature_region start_idx s.scan_neighbor_picked_ X0 →
      regionLoop env p start_idx end_idx (m + 1) j acc s = .ok (acc1, s1) →
      s1.sorted_scan_ = s.sorted_scan_ ∧
      ∃ X1 : Nat → Prop, (∀ i, X0 i → X1 i) ∧
        Suppressed s.sorted_scan_ p.curvature_region start_idx s1.scan_neighbor_picked_ X1 ∧
        ∀ i, Selected p start_idx end_idx ((j + m : Nat) : Int) s1 i → X1 i := by
  intro m
  induction m with
  | zero =>
    intro j acc acc1 s s1 X0 hj hgood hrun
    simp only [regionLoop, bind_ok_iff] at hrun
    obtain ⟨⟨acc2, s2⟩, h2, hrun⟩ := hrun
    simp only [Except.ok.injEq, Prod.mk.injEq] at hrun
    obtain ⟨_, hs⟩ := hrun
    subst hs
    exact regionBody_suppressed env p start_idx end_idx h hpos j (by omega) acc acc2 s s2 X0
      hgood h2
  | succ m ih =>
    intro j acc acc1 s s1 X0 hj hgood hrun
    rw [regionLoop] at hrun
    simp only [bind_ok_iff] at hrun
    obtain ⟨⟨acc2, s2⟩, h2, hrun⟩ := hrun
    obtain ⟨hscan2, X1, hX1, hsup1, _⟩ :=
      regionBody_suppressed env p start_idx end_idx h hpos j (by omega) acc acc2 s s2 X0
        hgood h2
    have hcast : ((j : Nat) : Int) + 1 = ((j + 1 : Nat) : Int) := by push_cast; ring
    simp only at hrun
    rw [hcast] at hrun
    obtain ⟨hscan3, X2, hX2, hsup2, hsel2⟩ :=
      ih (j + 1) acc2 acc1 s2 s1 X1 (by omega) (by rw [hscan2]; exact hsup1) hrun
    have e : j + 1 + m = j + (m + 1) := by omega
    rw [e] at hsel2
    rw [hscan2] at hsup2
    exact ⟨hscan3.trans hscan2, X2, fun i hi => hX2 i (hX1 i hi), hsup2, hsel2⟩


/-! ### Claim C3: suppression locality -/

theorem regionLoop_add (env : Env) (p : LoamParams) (start_idx end_idx : Nat) :
    ∀ (a b : Nat) (j : Int) (acc : PointCloudIRT) (s : State),
      regionLoop env p start_idx end_idx (a + b) j acc s =
        (regionLoop env p start_idx end_idx a j acc s >>= fun r =>
          regionLoop env p start_idx end_idx b (j + a) r.1 r.2) := by
  intro a
  induction a with
  | zero =>
    intro b j acc s
    simp only [Nat.zero_add, regionLoop, bind, Except.bind, Nat.cast_zero, Int.add_zero]
  | succ a ih =>
    intro b j acc s
    have e : a + 1 + b = (a + b) + 1 := by omega
    rw [e]
    simp only [regionLoop]
    cases hbody : regionBody env p start_idx end_idx j acc s with
    | error err => simp only [bind, Except.bind]
    | ok r =>
      obtain ⟨acc2, s2⟩ := r
      simp only [bind, Except.bind]
      have := ih b (j + 1) acc2 s2
      simp only [bind, Except.bind] at this
      rw [this]
      have e2 : j + 1 + (a : Int) = j + ((a + 1 : Nat) : Int) := by push_cast; ring
      rw [e2]

/-- The indices selected in two regions `ja ≤ jb` of a scan line are all among the indices
whose neighbours the mask has suppressed after region `jb`. -/
theorem selected_suppressed (env : Env) (p : LoamParams) (start_idx end_idx : Nat)
    (h : LineOK p start_idx end_idx) (hpos : 1 ≤ start_idx + p.curvature_region.toNat)
    (s0 : State) (ja jb : Nat) (hab : ja ≤ jb) (hjb : (jb : Int) < p.n_feature_regions)
    (acca accb : PointCloudIRT) (sa sb : State)
    (hruna : regionLoop env p start_idx end_idx (ja + 1) 0 [] s0 = .ok (acca, sa))
    (hrunb : regionLoop env p start_idx end_idx (jb + 1) 0 [] s0 = .ok (accb, sb)) :
    ∃ X : Nat → Prop,
      Suppressed s0.sorted_scan_ p.curvature_region start_idx sb.scan_neighbor_picked_ X ∧
      (∀ i, Selected p start_idx end_idx ja sa i → X i) ∧
      (∀ i, Selected p start_idx end_idx jb sb i → X i) := by
  have hruna2 : regionLoop env p start_idx end_idx (ja + 1) ((0 : Nat) : Int) [] s0
      = .ok (acca, sa) := by
    rw [Nat.cast_zero]; exact hruna
  obtain ⟨hscan1, X1, _, hsup1, hsel1⟩ :=
    regionLoop_suppressed env p start_idx end_idx h hpos ja 0 [] acca s0 sa (fun _ => False)
      (by omega) (Suppressed.empty _ _ _ _) hruna2
  rw [Nat.zero_add] at hsel1
  rcases Nat.eq_or_lt_of_le hab with heq | hlt
  · subst heq
    rw [hruna] at hrunb
    simp only [Except.ok.injEq, Prod.mk.injEq] at hrunb
    obtain ⟨_, hs⟩ := hrunb
    subst hs
    exact ⟨X1, hsup1, hsel1, hsel1⟩
  · obtain ⟨m, hm⟩ : ∃ m, jb = ja + 1 + m := ⟨jb - ja - 1, by omega⟩
    have e : jb + 1 = (ja + 1) + (m + 1) := by omega
    rw [e, regionLoop_add, hruna, bind_ok_iff] at hrunb
    obtain ⟨r, hr, hrunb⟩ := hrunb
    rw [Except.ok.injEq] at hr
    subst hr
    rw [Int.zero_add] at hrunb
    obtain ⟨_, X2, hX2, hsup2, hsel2⟩ :=
      regionLoop_suppressed env p start_idx end_idx h hpos m (ja + 1) acca accb sa sb X1
        (by omega) (by rw [hscan1]; exact hsup1) hrunb
    rw [hscan1] at hsup2
    rw [← hm] at hsel2
    exact ⟨X2, hsup2, fun i hi => hX2 i (hsel1 i hi), hsel2⟩

/-- Claim C3. In a scan line `[start, end]` that is processed (it is not skipped and its
index arithmetic does not overflow), let `p < q` be two sorted-scan indices that are both
selected, as a corner or as a flat point: `p` in region `j1` and `q` in region `j2`, as the
region labels right after the passes over these regions record. Then
`q - p > curvature_region`, or there is some `k` with `p ≤ k < q` whose consecutive points
`k` and `k + 1` have a squared distance above 0.05. -/
theorem suppression_locality (env : Env) (p : LoamParams) (start_idx end_idx : Nat)
    (s0 : State) (j1 j2 : Nat) (acc1 acc2 : PointCloudIRT) (s1 s2 : State) (pi qi : Nat)
    (hlong : (start_idx : Int) + 2 * p.curvature_region < end_idx)
    (hmul : (end_idx : Int) * p.n_feature_regions < SIZE_MOD)
    (hj1 : (j1 : Int) < p.n_feature_regions) (hj2 : (j2 : Int) < p.n_feature_regions)
    (hrun1 : regionLoop env p start_idx end_idx (j1 + 1) 0 [] s0 = .ok (acc1, s1))
    (hrun2 : regionLoop env p start_idx end_idx (j2 + 1) 0 [] s0 = .ok (acc2, s2))
    (hp : Selected p start_idx end_idx j1 s1 pi) (hq : Selected p start_idx end_idx j2 s2 qi)
    (hlt : pi < qi) :
    (qi : Int) - pi > p.curvature_region ∨
      ∃ k, pi ≤ k ∧ k < qi ∧
        ∃ a b, s0.sorted_scan_[k]? = some a ∧ s0.sorted_scan_[k + 1]? = some b ∧
          SquaredDiff a b > 5 / 100 := by
  by_cases hcr : p.curvature_region ≤ 0
  · left; omega
  · have hline : LineOK p start_idx end_idx := ⟨by omega, by omega, hlong, hmul⟩
    have hpos : 1 ≤ start_idx + p.curvature_region.toNat := by omega
    have hfar : Far s0.sorted_scan_ p.curvature_region pi qi := by
      rcases Nat.le_total j1 j2 with h12 | h21
      · obtain ⟨X, hsup, hXa, hXb⟩ :=
          selected_suppressed env p start_idx end_idx hline hpos s0 j1 j2 h12 hj2
            acc1 acc2 s1 s2 hrun1 hrun2
        exact hsup.2 pi qi (hXa pi hp) (hXb qi hq) hlt
      · obtain ⟨X, hsup, hXa, hXb⟩ :=
          selected_suppressed env p start_idx end_idx hline hpos s0 j2 j1 h21 hj1
            acc2 acc1 s2 s1 hrun2 hrun1
        exact hsup.2 pi qi (hXb pi hp) (hXa qi hq) hlt
    exact hfar


/-- Witness for claim C3: on the line of seven points the indices 1 (flat) and 3 (sharp
corner) are selected in region 0, and `3 - 1 > 1 = curvature_region`. -/
theorem suppression_locality_witness :
    Selected sampleParams 0 6 ((0 : Nat) : Int) sampleLoop7.2 1 ∧
    Selected sampleParams 0 6 ((0 : Nat) : Int) sampleLoop7.2 3 ∧
    (((3 : Nat) : Int) - (1 : Nat) > sampleParams.curvature_region ∨
      ∃ k, 1 ≤ k ∧ k < 3 ∧
        ∃ a b, sampleFiltered7.sorted_scan_[k]? = some a ∧
          sampleFiltered7.sorted_scan_[k + 1]? = some b ∧ SquaredDiff a b > 5 / 100) :=
  have h1 : Selected sampleParams 0 6 ((0 : Nat) : Int) sampleLoop7.2 1 :=
    ⟨by decide, by decide, by decide, PointLabel.SURFACE_FLAT, by decide!, by decide⟩
  have h3 : Selected sampleParams 0 6 ((0 : Nat) : Int) sampleLoop7.2 3 :=
    ⟨by decide, by decide, by decide, PointLabel.CORNER_SHARP, by decide!, by decide⟩
  ⟨h1, h3,
   suppression_locality sampleEnv sampleParams 0 6 sampleFiltered7 0 0 sampleLoop7.1
     sampleLoop7.1 sampleLoop7.2 sampleLoop7.2 1 3 (by decide) (by decide) (by decide)
     (by decide) (by with_unfolding_all rfl) (by with_unfolding_all rfl) h1 h3 (by decide)⟩


/-! ### Claim C20: the overload for clouds with extra channels -/

theorem routeByRingXYZITRRNR_eq (p : LoamParams) (cloud : List PointXYZITRRNR) :
    ∀ (scan_lines : List PointCloudIRT) (w : List Warning),
      routeByRingXYZITRRNR p cloud scan_lines w =
        routeByRing p (cloud.map projectXYZIRT) scan_lines w := by
  induction cloud with
  | nil => intro scan_lines w; rfl
  | cons pt rest ih =>
    intro scan_lines w
    simp only [List.map_cons, routeByRingXYZITRRNR, routeByRing, projectXYZIRT]
    split
    · exact ih _ _
    · cases hline : scan_lines[pt.ring]? with
      | none => rfl
      | some line => exact ih _ _

/-- Claim C20. For every cloud with extra channels, `ExtractFeatures` returns what the
overload for clouds with beam ids returns on the cloud obtained by projecting each point to
its `x`, `y`, `z`, `intensity`, `ring` and `time` fields: the same four clouds, warnings and
buffers, or the same fault. -/
theorem ExtractFeaturesXYZITRRNR_eq_projected (env : Env) (p : LoamParams)
    (cloud : List PointXYZITRRNR) (s : State) :
    ExtractFeaturesXYZITRRNR env p cloud s =
      ExtractFeatures env p (cloud.map projectXYZIRT) s := by
  unfold ExtractFeaturesXYZITRRNR ExtractFeatures
  rw [routeByRingXYZITRRNR_eq]

/-! ### Claims C15 and C16: clouds without beam ids -/

theorem GetScanLinesStep_unusable (env : Env) (atanDeg : ℚ → ℚ → ℚ) (p : LoamParams)
    (pt : PointXYZ) (scan_lines : List PointCloudIRT) (h : usablePoint pt = false) :
    GetScanLinesStep env atanDeg p pt scan_lines = .ok scan_lines := by
  unfold usablePoint at h
  unfold GetScanLinesStep
  split
  · rename_i x y z hx hy hz
    simp only [hx, hy, hz, decide_eq_false_iff_not, not_not] at h
    rw [if_pos h]
  · rfl

theorem GetScanLinesStep_bad_axis (env : Env) (atanDeg : ℚ → ℚ → ℚ) (p : LoamParams)
    (pt : PointXYZ) (scan_lines : List PointCloudIRT) (h : usablePoint pt = true)
    (hz : ¬ (p.vertical_axis = "Z" ∨ p.vertical_axis = "z"))
    (hy : ¬ (p.vertical_axis = "Y" ∨ p.vertical_axis = "y"))
    (hx : ¬ (p.vertical_axis = "X" ∨ p.vertical_axis = "x")) :
    GetScanLinesStep env atanDeg p pt scan_lines = .error .invalid_argument := by
  unfold usablePoint at h
  unfold GetScanLinesStep
  split
  · rename_i x y z ex ey ez
    simp only [ex, ey, ez, decide_eq_true_eq] at h
    simp only [h, if_false, hz, hy, hx]
    rfl
  · rename_i hne
    split at h
    · rename_i x y z ex ey ez
      exact (hne x y z ex ey ez).elim
    · exact absurd h (by decide)

theorem GetScanLinesLoop_unusable (env : Env) (atanDeg : ℚ → ℚ → ℚ) (p : LoamParams)
    (cloud : List PointXYZ) (scan_lines : List PointCloudIRT)
    (h : ∀ pt ∈ cloud, usablePoint pt = false) :
    GetScanLinesLoop env atanDeg p cloud scan_lines = .ok scan_lines := by
  induction cloud with
  | nil => rfl
  | cons pt rest ih =>
    simp only [GetScanLinesLoop,
      GetScanLinesStep_unusable env atanDeg p pt scan_lines (h pt (List.mem_cons_self _ _)),
      bind, Except.bind]
    exact ih (fun q hq => h q (List.mem_cons_of_mem _ hq))

theorem GetScanLinesLoop_append (env : Env) (atanDeg : ℚ → ℚ → ℚ) (p : LoamParams)
    (pre post : List PointXYZ) :
    ∀ scan_lines : List PointCloudIRT,
      GetScanLinesLoop env atanDeg p (pre ++ post) scan_lines =
        (GetScanLinesLoop env atanDeg p pre scan_lines >>= fun l =>
          GetScanLinesLoop env atanDeg p post l) := by
  induction pre with
  | nil => intro scan_lines; rfl
  | cons pt rest ih =>
    intro scan_lines
    simp only [List.cons_append, GetScanLinesLoop]
    cases GetScanLinesStep env atanDeg p pt scan_lines with
    | error e => rfl
    | ok l =>
      simp only [bind, Except.bind]
      have := ih l
      simp only [bind, Except.bind] at this
      exact this

/-- Claim C15 fails as stated: with a vertical axis that is none of X, Y, Z, `GetScanLines`
returns the empty scan lines, without an error, on the empty cloud and on a cloud whose
points are all non-finite or near zero. -/
theorem GetScanLines_bad_axis_counterexample :
    sampleParamsBadAxis.vertical_axis = "W" ∧
    GetScanLines sampleEnv sampleAtanDeg sampleParamsBadAxis [] = .ok [[], []] ∧
    GetScanLines sampleEnv sampleAtanDeg sampleParamsBadAxis (sampleCloudXYZ.take 2)
      = .ok [[], []] :=
  ⟨rfl, rfl, by with_unfolding_all rfl⟩

/-- Claim C15, amended. With a vertical axis that is none of X, x, Y, y, Z, z (and
`number_of_beams ≥ 0`), `GetScanLines` fails with an invalid-argument error on every cloud
that has a usable point (finite coordinates, squared norm at least 0.0001): it fails at the
first usable point, when no point has been assigned to a scan line yet. On a cloud with no
usable point, the empty cloud among them, it returns `number_of_beams` empty scan lines and
no error. -/
theorem GetScanLines_bad_axis (env : Env) (atanDeg : ℚ → ℚ → ℚ) (p : LoamParams)
    (cloud : List PointXYZ) (hnb : 0 ≤ p.number_of_beams)
    (hz : ¬ (p.vertical_axis = "Z" ∨ p.vertical_axis = "z"))
    (hy : ¬ (p.vertical_axis = "Y" ∨ p.vertical_axis = "y"))
    (hx : ¬ (p.vertical_axis = "X" ∨ p.vertical_axis = "x")) :
    ((∀ pt ∈ cloud, usablePoint pt = false) →
      GetScanLines env atanDeg p cloud = .ok (List.replicate p.number_of_beams.toNat [])) ∧
    (∀ pre pt post, cloud = pre ++ pt :: post → (∀ q ∈ pre, usablePoint q = false) →
      usablePoint pt = true →
      GetScanLinesLoop env atanDeg p pre (List.replicate p.number_of_beams.toNat [])
        = .ok (List.replicate p.number_of_beams.toNat []) ∧
      GetScanLinesStep env atanDeg p pt (List.replicate p.number_of_beams.toNat [])
        = .error .invalid_argument ∧
      GetScanLines env atanDeg p cloud = .error .invalid_argument) := by
  have hneg : ¬ p.number_of_beams < 0 := by omega
  refine ⟨?_, ?_⟩
  · intro h
    simp only [GetScanLines, hneg, if_false]
    exact GetScanLinesLoop_unusable env atanDeg p cloud _ h
  · intro pre pt post hcloud hpre hpt
    have h1 := GetScanLinesLoop_unusable env atanDeg p pre
      (List.replicate p.number_of_beams.toNat []) hpre
    have h2 := GetScanLinesStep_bad_axis env atanDeg p pt
      (List.replicate p.number_of_beams.toNat []) hpt hz hy hx
    refine ⟨h1, h2, ?_⟩
    simp only [GetScanLines, hneg, if_false, hcloud]
    rw [GetScanLinesLoop_append, h1]
    simp only [bind, Except.bind, GetScanLinesLoop, h2]

/-- Witness for the amended claim C15: the third point of the sample cloud is usable. -/
theorem GetScanLines_bad_axis_witness :
    GetScanLines sampleEnv sampleAtanDeg sampleParamsBadAxis sampleCloudXYZ
      = .error .invalid_argument :=
  ((GetScanLines_bad_axis sampleEnv sampleAtanDeg sampleParamsBadAxis sampleCloudXYZ
    (by decide) (by decide) (by decide) (by decide)).2
    (sampleCloudXYZ.take 2) ⟨.finite 1, .finite 0, .finite 0⟩ [] rfl (by decide!)
    (by decide!)).2.2

/-- Claim C16 is broken by the code: on the empty cloud with two beams no scan line is
non-empty, so the number of non-empty scan lines (0) differs from `number_of_beams` (2), and
`ExtractFeatures` logs no beam-count warning: it compares `scan_lines.size()`, which
`GetScanLines` fixes at `number_of_beams`. -/
theorem beam_count_warning_missing :
    sampleParams.number_of_beams = 2 ∧
    (GetScanLines sampleEnv sampleAtanDeg sampleParams []).toOption.map
      (fun l => (l.filter fun line => decide (line ≠ [])).length) = some 0 ∧
    (ExtractFeaturesXYZ sampleEnv sampleAtanDeg sampleParams [] sampleState).toOption.map
      (fun r => r.2.1) = some [Warning.no_sharp_features, Warning.no_flat_features] := by
  refine ⟨rfl, by decide!, by decide!⟩

theorem GetScanLinesStep_length (env : Env) (atanDeg : ℚ → ℚ → ℚ) (p : LoamParams)
    (pt : PointXYZ) (l l1 : List PointCloudIRT)
    (h : GetScanLinesStep env atanDeg p pt l = .ok l1) : l1.length = l.length := by
  unfold GetScanLinesStep at h
  split at h
  · split at h
    · simp only [Except.ok.injEq] at h; subst h; rfl
    · simp only [bind_ok_iff] at h
      obtain ⟨angle, _, h⟩ := h
      split at h
      · exact absurd h (by simp)
      · simp only [Except.ok.injEq] at h; subst h; simp
  · simp only [Except.ok.injEq] at h; subst h; rfl

theorem GetScanLinesLoop_length (env : Env) (atanDeg : ℚ → ℚ → ℚ) (p : LoamParams)
    (cloud : List PointXYZ) :
    ∀ l l1 : List PointCloudIRT, GetScanLinesLoop env atanDeg p cloud l = .ok l1 →
      l1.length = l.length := by
  induction cloud with
  | nil =>
    intro l l1 h
    simp only [GetScanLinesLoop, Except.ok.injEq] at h
    subst h; rfl
  | cons pt rest ih =>
    intro l l1 h
    simp only [GetScanLinesLoop, bind_ok_iff] at h
    obtain ⟨l2, h2, h⟩ := h
    rw [ih l2 l1 h, GetScanLinesStep_length env atanDeg p pt l l2 h2]

/-- The beam-count warning is never logged: `GetScanLines` always returns
`number_of_beams` scan lines, empty ones included. -/
theorem ExtractFeaturesXYZ_no_beam_count (env : Env) (atanDeg : ℚ → ℚ → ℚ) (p : LoamParams)
    (cloud : List PointXYZ) (s s1 : State) (out : LoamPointCloud) (w : List Warning)
    (h : ExtractFeaturesXYZ env atanDeg p cloud s = .ok (out, w, s1)) :
    Warning.beam_count ∉ w := by
  simp only [ExtractFeaturesXYZ, bind_ok_iff] at h
  obtain ⟨l, hl, ⟨out2, w2, s2⟩, hrun, h⟩ := h
  simp only [Except.ok.injEq, Prod.mk.injEq] at h
  obtain ⟨_, hw, _⟩ := h
  have hlen : (l.length : Int) = p.number_of_beams := by
    unfold GetScanLines at hl
    split at hl
    · exact absurd hl (by simp)
    · rename_i hnb
      rw [GetScanLinesLoop_length env atanDeg p cloud _ l hl, List.length_replicate]
      omega
  simp only [ExtractFeaturesFromScanLines, bind_ok_iff, Except.ok.injEq, Prod.mk.injEq] at hrun
  obtain ⟨s3, _, _, hw2, _⟩ := hrun
  rw [← hw, ← hw2]
  simp only [hlen, ne_eq, not_true_eq_false, if_false, List.nil_append, List.mem_append]
  intro hmem
  rcases hmem with hmem | hmem <;> split at hmem <;> simp at hmem


/-! ### Claim C19: near-equal regions -/

/-- The numerator of the interpolation grows by `B - A` from one region to the next. -/
theorem interp_num_succ (A B N j : Nat) (hAB : A ≤ B) (hj : j + 1 ≤ N) :
    A * (N - (j + 1)) + B * (j + 1) = A * (N - j) + B * j + (B - A) := by
  have h1 : A * (N - j) = A * (N - (j + 1)) + A := by
    have : N - j = (N - (j + 1)) + 1 := by omega
    rw [this, Nat.mul_add, Nat.mul_one]
  have h2 : B * (j + 1) = B * j + B := by ring
  omega

/-- The size of region `j` is the quotient `D / N` of the span by the number of regions, or
one more; it is one more only when `N` does not divide `D`. -/
theorem region_size_cases (p : LoamParams) (start_idx end_idx : Nat)
    (h : LineOK p start_idx end_idx) (hpos : 1 ≤ start_idx + p.curvature_region.toNat)
    (j : Nat) (hj : j + 1 ≤ p.n_feature_regions.toNat) :
    regionEnd p start_idx end_idx j + 1 =
        regionStart p start_idx end_idx j
          + (end_idx - start_idx - 2 * p.curvature_region.toNat) / p.n_feature_regions.toNat ∨
    (regionEnd p start_idx end_idx j + 1 =
        regionStart p start_idx end_idx j
          + (end_idx - start_idx - 2 * p.curvature_region.toNat) / p.n_feature_regions.toNat + 1 ∧
      (end_idx - start_idx - 2 * p.curvature_region.toNat) % p.n_feature_regions.toNat ≠ 0) := by
  have hw := h.window
  have hN := h.regions_pos
  rw [regionEnd_succ p start_idx end_idx h hpos j hj,
    regionStart_eq p start_idx end_idx h (j + 1) hj,
    regionStart_eq p start_idx end_idx h j (by omega),
    interp_num_succ _ _ _ j (by omega) hj]
  have hD : end_idx - p.curvature_region.toNat - (start_idx + p.curvature_region.toNat)
      = end_idx - start_idx - 2 * p.curvature_region.toNat := by omega
  rw [hD, Nat.add_div hN]
  split
  · rename_i hc
    right
    refine ⟨rfl, ?_⟩
    intro h0
    rw [h0] at hc
    have := Nat.mod_lt ((start_idx + p.curvature_region.toNat)
      * (p.n_feature_regions.toNat - j) + (end_idx - p.curvature_region.toNat) * j) hN
    omega
  · left; rfl

theorem floor_span (D N : Nat) : ⌊((D : ℚ) / (N : ℚ))⌋ = ((D / N : Nat) : Int) := by
  rw [Rat.floor_natCast_div_natCast, Int.natCast_div]

theorem ceil_span (D N : Nat) (hN : 0 < N) (hmod : D % N ≠ 0) :
    ⌈((D : ℚ) / (N : ℚ))⌉ = ((D / N : Nat) : Int) + 1 := by
  have hNq : (0 : ℚ) < (N : ℚ) := by exact_mod_cast hN
  have hdecomp : (D : ℚ) = (N : ℚ) * ((D / N : Nat) : ℚ) + ((D % N : Nat) : ℚ) := by
    exact_mod_cast (Nat.div_add_mod D N).symm
  have hr1 : (0 : ℚ) < ((D % N : Nat) : ℚ) := by
    exact_mod_cast Nat.pos_of_ne_zero hmod
  have hr2 : ((D % N : Nat) : ℚ) < (N : ℚ) := by
    exact_mod_cast Nat.mod_lt D hN
  generalize D / N = q at hdecomp ⊢
  generalize D % N = r at hdecomp hr1 hr2
  rw [Int.ceil_eq_iff]
  have hcast : ((((q : Nat) : Int) + 1 : Int) : ℚ) = (q : ℚ) + 1 := by push_cast; ring
  rw [hcast]
  constructor
  · rw [lt_div_iff₀ hNq]
    nlinarith
  · rw [div_le_iff₀ hNq]
    nlinarith

/-- Claim C19. For a scan line `[start, end]` that the orchestrator processes and
`n_feature_regions = n ≥ 1`, the size `ep_j - sp_j + 1` of every region `j < n` is the floor
or the ceiling of `(end - start - 2 * curvature_region) / n`, and the sizes of any two
regions differ by at most 1. -/
theorem region_sizes_near_equal (env : Env) (p : LoamParams) (start_idx end_idx : Nat)
    (s : State) (h : LineOK p start_idx end_idx) (hlen : s.sorted_scan_.length < SIZE_MOD)
    (hrun : (SetScanBuffersFor env p start_idx end_idx s).isOk = true) :
    (∀ j : Nat, (j : Int) < p.n_feature_regions →
      (regionEnd p start_idx end_idx j : Int) - regionStart p start_idx end_idx j + 1 =
          ⌊(((end_idx : Int) - start_idx - 2 * p.curvature_region : Int) : ℚ)
            / ((p.n_feature_regions : Int) : ℚ)⌋ ∨
      (regionEnd p start_idx end_idx j : Int) - regionStart p start_idx end_idx j + 1 =
          ⌈(((end_idx : Int) - start_idx - 2 * p.curvature_region : Int) : ℚ)
            / ((p.n_feature_regions : Int) : ℚ)⌉) ∧
    (∀ j k : Nat, (j : Int) < p.n_feature_regions → (k : Int) < p.n_feature_regions →
      ((regionEnd p start_idx end_idx j : Int) - regionStart p start_idx end_idx j + 1)
        - ((regionEnd p start_idx end_idx k : Int) - regionStart p start_idx end_idx k + 1) ≤ 1)
    := by
  obtain ⟨s1, hs1⟩ := isOk_iff.mp hrun
  have hpos := first_eligible_pos env p start_idx end_idx s s1 h hlen hs1
  have hcr := h.hcr
  have hw := h.window
  have hN := h.regions_pos
  have hD : (((end_idx : Int) - start_idx - 2 * p.curvature_region : Int) : ℚ)
      = ((end_idx - start_idx - 2 * p.curvature_region.toNat : Nat) : ℚ) := by
    have : (end_idx : Int) - start_idx - 2 * p.curvature_region
        = ((end_idx - start_idx - 2 * p.curvature_region.toNat : Nat) : Int) := by omega
    rw [this]; simp
  have hNq : ((p.n_feature_regions : Int) : ℚ) = ((p.n_feature_regions.toNat : Nat) : ℚ) := by
    have e : ((p.n_feature_regions.toNat : Nat) : Int) = p.n_feature_regions :=
      Int.toNat_of_nonneg (by omega)
    calc ((p.n_feature_regions : Int) : ℚ)
        = (((p.n_feature_regions.toNat : Nat) : Int) : ℚ) := by rw [e]
      _ = ((p.n_feature_regions.toNat : Nat) : ℚ) := Int.cast_natCast _
  rw [hD, hNq]
  refine ⟨?_, ?_⟩
  · intro j hj
    rcases region_size_cases p start_idx end_idx h hpos j (by omega) with hc | ⟨hc, hmod⟩
    · left
      rw [floor_span]
      omega
    · right
      rw [ceil_span _ _ hN hmod]
      omega
  · intro j k hj hk
    rcases region_size_cases p start_idx end_idx h hpos j (by omega) with hc | ⟨hc, _⟩ <;>
    rcases region_size_cases p start_idx end_idx h hpos k (by omega) with hd | ⟨hd, _⟩ <;>
    omega

/-- Witness for claim C19: the line `[0, 6]` with two regions. -/
theorem region_sizes_near_equal_witness :
    ((regionEnd sampleParams2 0 6 ((0 : Nat) : Int) : Int)
        - regionStart sampleParams2 0 6 ((0 : Nat) : Int) + 1)
      - ((regionEnd sampleParams2 0 6 ((1 : Nat) : Int) : Int)
        - regionStart sampleParams2 0 6 ((1 : Nat) : Int) + 1) ≤ 1 :=
  (region_sizes_near_equal sampleEnv sampleParams2 0 6 sampleScan7
    ⟨by decide, by decide, by decide, by decide⟩ (by decide) (by decide!)).2 0 1
    (by decide) (by decide)


/-! ### Claim C14: the less sharp corners record every accepted corner -/

/-- What accepting a corner appends to the two corner buffers. -/
theorem cornerAccept_corners (p : LoamParams) (idx scan_idx region_idx : Nat) (L : Int)
    (s s3 : State) (h : cornerAccept p idx scan_idx region_idx L s = .ok s3) :
    s3.corner_points_sharp_ = s.corner_points_sharp_ ++
      (if L ≤ p.max_corner_sharp then s.sorted_scan_[idx]?.toList else []) ∧
    s3.corner_points_less_sharp_ = s.corner_points_less_sharp_ ++
      (if p.ignore_weak_features then [] else s.sorted_scan_[idx]?.toList) ∧
    (p.ignore_weak_features = false → ∃ pt, s.sorted_scan_[idx]? = some pt) := by
  obtain ⟨_, hmark⟩ := cornerAccept_spec p idx _ _ _ s s3 h
  obtain ⟨hshape, _⟩ := MarkAsPicked_spec p idx _ _ s3 hmark
  refine ⟨by rw [hshape], by rw [hshape], ?_⟩
  intro hi
  simp only [cornerAccept, hi, bind_ok_iff] at h
  obtain ⟨s1, hs1, s2, hs2, _⟩ := h
  simp only [Bool.false_eq_true, not_false_eq_true, if_true, bind_ok_iff] at hs2
  obtain ⟨pt, hpt, _⟩ := hs2
  have hscan : s1.sorted_scan_ = s.sorted_scan_ := by
    split at hs1
    · simp only [bind_ok_iff, Except.ok.injEq] at hs1
      obtain ⟨_, _, _, _, hs1⟩ := hs1
      subst hs1; rfl
    · simp only [bind_ok_iff, Except.ok.injEq] at hs1
      obtain ⟨_, _, hs1⟩ := hs1
      subst hs1; rfl
  rw [rd_ok_iff, hscan] at hpt
  exact ⟨pt, hpt⟩

/-- The flat pass leaves the two corner buffers as they are. -/
theorem flatLoop_corners (p : LoamParams) (scan_start_idx sp left k : Nat) (L : Int)
    (acc acc1 : PointCloudIRT) (s s1 : State)
    (h : flatLoop p scan_start_idx sp left k L acc s = .ok (acc1, s1)) :
    s1.corner_points_sharp_ = s.corner_points_sharp_ ∧
    s1.corner_points_less_sharp_ = s.corner_points_less_sharp_ := by
  obtain ⟨_, h1⟩ := flatLoop_induction p scan_start_idx sp
    (fun _ _ st => st.corner_points_sharp_ = s.corner_points_sharp_ ∧
      st.corner_points_less_sharp_ = s.corner_points_less_sharp_)
    (by
      intro k L a a1 st s2 idx curv hinv _ _ _ _ _ hacc
      obtain ⟨_, pt, _, _, hmark⟩ := flatAccept_spec p idx _ _ _ _ st s2 hacc
      obtain ⟨hshape, _⟩ := MarkAsPicked_spec p idx _ _ s2 hmark
      rw [hshape]
      exact hinv)
    left k L acc acc1 s s1 ⟨rfl, rfl⟩ h
  exact h1

/-- A property of the two corner buffers that every accepted corner keeps is kept by the
corner pass. -/
theorem cornerLoop_corner_inv (I : List Point → List Point → Prop) (p : LoamParams)
    (hacc : ∀ idx scan_idx region_idx L (s s3 : State),
      cornerAccept p idx scan_idx region_idx L s = .ok s3 →
      I s.corner_points_sharp_ s.corner_points_less_sharp_ →
      I s3.corner_points_sharp_ s3.corner_points_less_sharp_)
    (scan_start_idx sp k : Nat) (L : Int) (s s1 : State)
    (hs : I s.corner_points_sharp_ s.corner_points_less_sharp_)
    (h : cornerLoop p scan_start_idx sp k L s = .ok s1) :
    I s1.corner_points_sharp_ s1.corner_points_less_sharp_ := by
  obtain ⟨_, h1⟩ := cornerLoop_induction p scan_start_idx sp
    (fun _ st => I st.corner_points_sharp_ st.corner_points_less_sharp_)
    (by
      intro k L st s3 idx curv hinv _ _ _ _ _ h3
      exact hacc _ _ _ _ st s3 h3 hinv)
    k L s s1 hs h
  exact h1

theorem regionBody_corner_inv (I : List Point → List Point → Prop) (env : Env) (p : LoamParams)
    (hacc : ∀ idx scan_idx region_idx L (s s3 : State),
      cornerAccept p idx scan_idx region_idx L s = .ok s3 →
      I s.corner_points_sharp_ s.corner_points_less_sharp_ →
      I s3.corner_points_sharp_ s3.corner_points_less_sharp_)
    (scan_start_idx scan_end_idx : Nat) (j : Int) (acc acc1 : PointCloudIRT) (s s1 : State)
    (hs : I s.corner_points_sharp_ s.corner_points_less_sharp_)
    (h : regionBody env p scan_start_idx scan_end_idx j acc s = .ok (acc1, s1)) :
    I s1.corner_points_sharp_ s1.corner_points_less_sharp_ := by
  unfold regionBody at h
  simp only at h
  split at h
  · simp only [Except.ok.injEq, Prod.mk.injEq] at h
    obtain ⟨_, h2⟩ := h
    subst h2; exact hs
  · simp only [bind_ok_iff] at h
    obtain ⟨s2, hs2, h⟩ := h
    have hframe := SetRegionBuffersFor_frame p _ _ s s2 hs2
    have hs2I : I s2.corner_points_sharp_ s2.corner_points_less_sharp_ := by
      rw [hframe]; exact hs
    simp only [regionPasses, bind_ok_iff] at h
    obtain ⟨s3, hs3, ⟨acc4, s4⟩, hs4, h⟩ := h
    have h3 := cornerLoop_corner_inv I p hacc _ _ _ _ s2 s3 hs2I hs3
    obtain ⟨e1, e2⟩ := flatLoop_corners p _ _ _ _ _ _ _ s3 s4 hs4
    have hs : s1 = s4 := by
      simp only at h
      split at h
      · simp only [bind_ok_iff, Except.ok.injEq, Prod.mk.injEq] at h
        obtain ⟨_, _, _, h⟩ := h
        exact h.symm
      · simp only [Except.ok.injEq, Prod.mk.injEq] at h
        exact h.2.symm
    rw [hs, e1, e2]
    exact h3

theorem regionLoop_corner_inv (I : List Point → List Point → Prop) (env : Env) (p : LoamParams)
    (hacc : ∀ idx scan_idx region_idx L (s s3 : State),
      cornerAccept p idx scan_idx region_idx L s = .ok s3 →
      I s.corner_points_sharp_ s.corner_points_less_sharp_ →
      I s3.corner_points_sharp_ s3.corner_points_less_sharp_)
    (scan_start_idx scan_end_idx : Nat) :
    ∀ (left : Nat) (j : Int) (acc acc1 : PointCloudIRT) (s s1 : State),
      I s.corner_points_sharp_ s.corner_points_less_sharp_ →
      regionLoop env p scan_start_idx scan_end_idx left j acc s = .ok (acc1, s1) →
      I s1.corner_points_sharp_ s1.corner_points_less_sharp_ := by
  intro left
  induction left with
  | zero =>
    intro j acc acc1 s s1 hs h
    simp only [regionLoop, Except.ok.injEq, Prod.mk.injEq] at h
    obtain ⟨_, h2⟩ := h
    subst h2; exact hs
  | succ left ih =>
    intro j acc acc1 s s1 hs h
    simp only [regionLoop, bind_ok_iff] at h
    obtain ⟨⟨acc2, s2⟩, h2, h⟩ := h
    exact ih (j + 1) acc2 acc1 s2 s1
      (regionBody_corner_inv I env p hacc _ _ j acc acc2 s s2 hs h2) h

theorem scanBody_corner_inv (I : List Point → List Point → Prop) (env : Env) (p : LoamParams)
    (hacc : ∀ idx scan_idx region_idx L (s s3 : State),
      cornerAccept p idx scan_idx region_idx L s = .ok s3 →
      I s.corner_points_sharp_ s.corner_points_less_sharp_ →
      I s3.corner_points_sharp_ s3.corner_points_less_sharp_)
    (range : IndexRange) (s s1 : State)
    (hs : I s.corner_points_sharp_ s.corner_points_less_sharp_)
    (h : scanBody env p range s = .ok s1) :
    I s1.corner_points_sharp_ s1.corner_points_less_sharp_ := by
  unfold scanBody at h
  split at h
  · simp only [Except.ok.injEq] at h
    subst h; exact hs
  · simp only [bind_ok_iff] at h
    obtain ⟨s2, hs2, ⟨acc, s3⟩, hs3, h⟩ := h
    have hs2I : I s2.corner_points_sharp_ s2.corner_points_less_sharp_ := by
      rw [SetScanBuffersFor_frame env p _ _ s s2 hs2]; exact hs
    have h3 := regionLoop_corner_inv I env p hacc _ _ _ _ [] acc s2 s3 hs2I hs3
    simp only at h
    split at h <;>
    · simp only [Except.ok.injEq] at h
      subst h
      exact h3

theorem scanLoop_corner_inv (I : List Point → List Point → Prop) (env : Env) (p : LoamParams)
    (hacc : ∀ idx scan_idx region_idx L (s s3 : State),
      cornerAccept p idx scan_idx region_idx L s = .ok s3 →
      I s.corner_points_sharp_ s.corner_points_less_sharp_ →
      I s3.corner_points_sharp_ s3.corner_points_less_sharp_) :
    ∀ (ranges : List IndexRange) (s s1 : State),
      I s.corner_points_sharp_ s.corner_points_less_sharp_ →
      scanLoop env p ranges s = .ok s1 →
      I s1.corner_points_sharp_ s1.corner_points_less_sharp_ := by
  intro ranges
  induction ranges with
  | nil =>
    intro s s1 hs h
    simp only [scanLoop, Except.ok.injEq] at h
    subst h; exact hs
  | cons range rest ih =>
    intro s s1 hs h
    simp only [scanLoop, bind_ok_iff] at h
    obtain ⟨s2, hs2, h⟩ := h
    exact ih s2 s1 (scanBody_corner_inv I env p hacc range s s2 hs hs2) h

/-- Claim C14. When `ignore_weak_features` is false: every accepted corner, sharp or less
sharp, appends its point to the end of the less sharp corner buffer (and a sharp one also to
the sharp corner buffer); the flat pass, the reliability filter and the ranking leave both
buffers as they are; so the returned corner-less-sharp cloud lists the accepted corners in
acceptance order, and the returned corner-sharp cloud is a subsequence of it. -/
theorem corner_less_sharp_lists_accepted (env : Env) (p : LoamParams)
    (hweak : p.ignore_weak_features = false) :
    (∀ idx scan_idx region_idx L (s s3 : State),
      cornerAccept p idx scan_idx region_idx L s = .ok s3 →
      ∃ pt, s.sorted_scan_[idx]? = some pt ∧
        s3.corner_points_less_sharp_ = s.corner_points_less_sharp_ ++ [pt] ∧
        s3.corner_points_sharp_ = s.corner_points_sharp_ ++
          (if L ≤ p.max_corner_sharp then [pt] else [])) ∧
    (∀ scan_start_idx sp left k L acc acc1 (s s1 : State),
      flatLoop p scan_start_idx sp left k L acc s = .ok (acc1, s1) →
      s1.corner_points_less_sharp_ = s.corner_points_less_sharp_ ∧
      s1.corner_points_sharp_ = s.corner_points_sharp_) ∧
    (∀ start_idx end_idx (s s1 : State),
      (SetScanBuffersFor env p start_idx end_idx s = .ok s1 ∨
        SetRegionBuffersFor p start_idx end_idx s = .ok s1) →
      s1.corner_points_less_sharp_ = s.corner_points_less_sharp_ ∧
      s1.corner_points_sharp_ = s.corner_points_sharp_) ∧
    (∀ scan_lines (s s1 : State) out w,
      ExtractFeaturesFromScanLines env p scan_lines s = .ok (out, w, s1) →
      out.edges_strong.Sublist out.edges_weak) := by
  have hstep : ∀ idx scan_idx region_idx L (s s3 : State),
      cornerAccept p idx scan_idx region_idx L s = .ok s3 →
      ∃ pt, s.sorted_scan_[idx]? = some pt ∧
        s3.corner_points_less_sharp_ = s.corner_points_less_sharp_ ++ [pt] ∧
        s3.corner_points_sharp_ = s.corner_points_sharp_ ++
          (if L ≤ p.max_corner_sharp then [pt] else []) := by
    intro idx scan_idx region_idx L s s3 h
    obtain ⟨h1, h2, h3⟩ := cornerAccept_corners p idx scan_idx region_idx L s s3 h
    obtain ⟨pt, hpt⟩ := h3 hweak
    refine ⟨pt, hpt, ?_, ?_⟩
    · rw [h2, hweak, hpt]; rfl
    · rw [h1, hpt]; rfl
  refine ⟨hstep, ?_, ?_, ?_⟩
  · intro scan_start_idx sp left k L acc acc1 s s1 h
    obtain ⟨e1, e2⟩ := flatLoop_corners p _ _ _ _ _ _ _ s s1 h
    exact ⟨e2, e1⟩
  · intro start_idx end_idx s s1 h
    rcases h with h | h
    · rw [SetScanBuffersFor_frame env p _ _ s s1 h]; exact ⟨rfl, rfl⟩
    · rw [SetRegionBuffersFor_frame p _ _ s s1 h]; exact ⟨rfl, rfl⟩
  · intro scan_lines s s1 out w h
    simp only [ExtractFeaturesFromScanLines, bind_ok_iff, Except.ok.injEq, Prod.mk.injEq] at h
    obtain ⟨s2, hs2, hout, _, _⟩ := h
    unfold runScanLines GetSortedScan at hs2
    have h0 : (GetSortedScanLoop scan_lines 0 (Reset s)).corner_points_sharp_.Sublist
        (GetSortedScanLoop scan_lines 0 (Reset s)).corner_points_less_sharp_ := by
      rw [GetSortedScanLoop_points]
      exact List.Sublist.refl _
    have := scanLoop_corner_inv (fun a b => a.Sublist b) env p
      (by
        intro idx scan_idx region_idx L st s3 hacc hsub
        obtain ⟨pt, _, e1, e2⟩ := hstep idx scan_idx region_idx L st s3 hacc
        rw [e1, e2]
        split
        · exact List.Sublist.append hsub (List.Sublist.refl _)
        · exact List.Sublist.append hsub (List.nil_sublist _))
      _ _ s2 h0 hs2
    rw [← hout]
    exact this

/-- Witness for claim C14: on the line of seven points the accepted corner is in both
clouds. -/
theorem corner_less_sharp_lists_accepted_witness :
    sampleParams.ignore_weak_features = false ∧
    ((ExtractFeaturesFromScanLines sampleEnv sampleParams [sampleLine7] sampleState).toOption.map
      fun r => (r.1.edges_strong, r.1.edges_weak))
      = some ([samplePoint 0 3 (1 / 10)], [samplePoint 0 3 (1 / 10)]) ∧
    [samplePoint 0 3 (1 / 10)].Sublist [samplePoint 0 3 (1 / 10)] :=
  ⟨rfl, by decide!,
   (corner_less_sharp_lists_accepted sampleEnv sampleParams rfl).2.2.2 [sampleLine7]
     sampleState (okOr sampleState (runScanLines sampleEnv sampleParams [sampleLine7] sampleState))
     ⟨[samplePoint 0 3 (1 / 10)], (okOr sampleState (runScanLines sampleEnv sampleParams
        [sampleLine7] sampleState)).surface_points_flat_, [samplePoint 0 3 (1 / 10)],
      (okOr sampleState (runScanLines sampleEnv sampleParams [sampleLine7]
        sampleState)).surface_points_less_flat_⟩ []
     (by with_unfolding_all rfl)⟩


/-! ### Claim C11: the curvature score -/

/-- The window sum with centre weight `W` and radius `m`. -/
theorem window_grow (g : Int → ℚ) (W : ℚ) (m : Nat) :
    ∑ j ∈ Finset.Icc (-((m + 1 : Nat) : Int)) ((m + 1 : Nat) : Int),
        (if j = 0 then W else 1) * g j =
      ∑ j ∈ Finset.Icc (-(m : Int)) (m : Int), (if j = 0 then W else 1) * g j
        + (g ((m + 1 : Nat) : Int) + g (-((m + 1 : Nat) : Int))) := by
  have hset : Finset.Icc (-((m + 1 : Nat) : Int)) ((m + 1 : Nat) : Int)
      = insert (((m + 1 : Nat) : Int)) (insert (-((m + 1 : Nat) : Int))
          (Finset.Icc (-(m : Int)) (m : Int))) := by
    ext x
    simp only [Finset.mem_Icc, Finset.mem_insert]
    push_cast
    omega
  have hn1 : (-((m + 1 : Nat) : Int)) ∉ Finset.Icc (-(m : Int)) (m : Int) := by
    simp only [Finset.mem_Icc]; push_cast; omega
  have hn2 : (((m + 1 : Nat) : Int)) ∉ insert (-((m + 1 : Nat) : Int))
      (Finset.Icc (-(m : Int)) (m : Int)) := by
    simp only [Finset.mem_Icc, Finset.mem_insert]; push_cast; omega
  have hne1 : ¬ ((m + 1 : Nat) : Int) = 0 := by push_cast; omega
  have hne2 : ¬ (-((m + 1 : Nat) : Int)) = 0 := by push_cast; omega
  rw [hset, Finset.sum_insert hn2, Finset.sum_insert hn1, if_neg hne1, if_neg hne2]
  ring

theorem coordAt_of_get (f : Point → ℚ) (scan : List Point) (k : Nat) (pt : Point)
    (h : scan[k]? = some pt) (z : Int) (hz : z = (k : Int)) : coordAt f scan z = f pt := by
  subst hz
  unfold coordAt
  rw [if_neg (by omega), Int.toNat_ofNat, h]

theorem windowSumW_succ (f : Point → ℚ) (scan : List Point) (W : ℚ) (i m : Nat) :
    windowSumW f scan W i (m + 1) =
      windowSumW f scan W i m
        + (coordAt f scan (i + ((m + 1 : Nat) : Int)) + coordAt f scan (i + -((m + 1 : Nat) : Int)))
    := by
  unfold windowSumW
  exact window_grow (fun t => coordAt f scan (i + t)) W m

theorem windowSumW_zero (f : Point → ℚ) (scan : List Point) (W : ℚ) (i : Nat) :
    windowSumW f scan W i 0 = W * coordAt f scan i := by
  unfold windowSumW
  simp

/-- The loop over the window adds the two neighbours at distance `m + 1`, `m + 2`, ... to
the three sums. -/
theorem curvatureWindow_spec (scan : List Point) (i : Nat) (W : ℚ) (hi : i < SIZE_MOD) :
    ∀ (left m : Nat) (d d1 : ℚ × ℚ × ℚ), curvatureWindow scan i left (m + 1) d = .ok d1 →
      m + left ≤ i → i + (m + left) < SIZE_MOD →
      d.1 = windowSumW (fun pt => pt.x) scan W i m →
      d.2.1 = windowSumW (fun pt => pt.y) scan W i m →
      d.2.2 = windowSumW (fun pt => pt.z) scan W i m →
      d1.1 = windowSumW (fun pt => pt.x) scan W i (m + left) ∧
      d1.2.1 = windowSumW (fun pt => pt.y) scan W i (m + left) ∧
      d1.2.2 = windowSumW (fun pt => pt.z) scan W i (m + left) := by
  intro left
  induction left with
  | zero =>
    intro m d d1 h _ _ hx hy hz
    simp only [curvatureWindow, Except.ok.injEq] at h
    subst h
    exact ⟨hx, hy, hz⟩
  | succ left ih =>
    intro m d d1 h h1 h2 hx hy hz
    simp only [curvatureWindow, bind_ok_iff] at h
    obtain ⟨a, ha, b, hb, h⟩ := h
    rw [rd_ok_iff] at ha hb
    have e1 : uadd i (m + 1) = i + (m + 1) := uadd_eq (by omega)
    have e2 : usub i (m + 1) = i - (m + 1) := usub_eq (by omega) hi
    rw [e1] at ha
    rw [e2] at hb
    have ca : ∀ f : Point → ℚ, coordAt f scan (i + ((m + 1 : Nat) : Int)) = f a :=
      fun f => coordAt_of_get f scan _ a ha _ (by push_cast; ring)
    have cb : ∀ f : Point → ℚ, coordAt f scan (i + -((m + 1 : Nat) : Int)) = f b :=
      fun f => coordAt_of_get f scan _ b hb _ (by push_cast; omega)
    have := ih (m + 1) _ d1 h (by omega) (by omega)
      (by rw [windowSumW_succ, ca, cb, ← hx])
      (by rw [windowSumW_succ, ca, cb, ← hy])
      (by rw [windowSumW_succ, ca, cb, ← hz])
    have e : m + 1 + left = m + (left + 1) := by omega
    rw [e] at this
    exact this

theorem windowSum_eq (f : Point → ℚ) (scan : List Point) (cr : Int) (hcr : 0 ≤ cr) (i : Nat) :
    windowSum f scan cr i = windowSumW f scan ((-2 * cr : Int) : ℚ) i cr.toNat := by
  unfold windowSum windowSumW windowWeight
  rw [Int.toNat_of_nonneg hcr]

/-- The curvature that the loop of `SetRegionBuffersFor` stores for the points `i`, `i + 1`,
... of the region is the curvature of the spec. -/
theorem curvatureLoop_curvature (p : LoamParams) (hcr : 0 ≤ p.curvature_region) :
    ∀ (left i r : Nat) (s s1 : State), curvatureLoop p left i r s = .ok s1 →
      p.curvature_region.toNat ≤ i →
      i + left + p.curvature_region.toNat ≤ SIZE_MOD →
      (∀ pos, r ≤ pos → pos < r + left →
        s1.region_curvature_[pos]? =
          some (curvatureSpec s.sorted_scan_ p.curvature_region (i + (pos - r)))) ∧
      (∀ pos, pos < r → s1.region_curvature_[pos]? = s.region_curvature_[pos]?) := by
  intro left
  induction left with
  | zero =>
    intro i r s s1 h _ _
    simp only [curvatureLoop, Except.ok.injEq] at h
    subst h
    exact ⟨fun pos h1 h2 => by omega, fun _ _ => rfl⟩
  | succ left ih =>
    intro i r s s1 h h1 h2
    simp only [curvatureLoop, bind_ok_iff] at h
    obtain ⟨pt, hpt, d, hd, curv, hcurv, idxs, hidxs, h⟩ := h
    rw [wr_ok_iff] at hcurv hidxs
    obtain ⟨_, hidxs⟩ := hidxs
    obtain ⟨hlt, hcurv⟩ := hcurv
    subst hidxs; subst hcurv
    rw [rd_ok_iff] at hpt
    have hi : i < SIZE_MOD := by omega
    have cpt : ∀ f : Point → ℚ, coordAt f s.sorted_scan_ (i : Int) = f pt :=
      fun f => coordAt_of_get f s.sorted_scan_ i pt hpt _ rfl
    obtain ⟨dx, dy, dz⟩ := curvatureWindow_spec s.sorted_scan_ i
      ((-2 * p.curvature_region : Int) : ℚ) hi _ 0 _ d hd (by omega) (by omega)
      (by rw [windowSumW_zero, cpt])
      (by rw [windowSumW_zero, cpt])
      (by rw [windowSumW_zero, cpt])
    simp only [Nat.zero_add] at dx dy dz
    obtain ⟨h4, h5⟩ := ih _ _ _ _ h (by omega) (by omega)
    refine ⟨?_, ?_⟩
    · intro pos hp1 hp2
      by_cases hpr : pos = r
      · subst hpr
        rw [h5 pos (by omega)]
        simp only [List.getElem?_set_self hlt, Nat.sub_self, Nat.add_zero, curvatureSpec,
          windowSum_eq _ _ _ hcr, dx, dy, dz]
      · rw [h4 pos (by omega) (by omega)]
        simp only
        congr 2; omega
    · intro pos hp
      rw [h5 pos (by omega)]
      simp only
      rw [List.getElem?_set_ne (by omega)]

theorem curvatureSpec_nonneg (scan : List Point) (cr : Int) (i : Nat) :
    0 ≤ curvatureSpec scan cr i := by
  unfold curvatureSpec
  have h1 := mul_self_nonneg (windowSum (fun pt => pt.x) scan cr i)
  have h2 := mul_self_nonneg (windowSum (fun pt => pt.y) scan cr i)
  have h3 := mul_self_nonneg (windowSum (fun pt => pt.z) scan cr i)
  linarith

/-- The curvature buffer after `SetRegionBuffersFor` on the region `[sp, ep]`. -/
theorem SetRegionBuffersFor_curvature (p : LoamParams) (sp ep : Nat) (s s1 : State)
    (hcr : 0 ≤ p.curvature_region) (hsp : p.curvature_region.toNat ≤ sp) (hle : sp ≤ ep)
    (hep : ep + 1 + p.curvature_region.toNat ≤ SIZE_MOD)
    (h : SetRegionBuffersFor p sp ep s = .ok s1) :
    ∀ i, sp ≤ i → i ≤ ep →
      s1.region_curvature_[i - sp]? = some (curvatureSpec s.sorted_scan_ p.curvature_region i) := by
  intro i hi1 hi2
  simp only [SetRegionBuffersFor, bind_ok_iff] at h
  obtain ⟨s2, hs2, h⟩ := h
  obtain ⟨h4, _⟩ := curvatureLoop_curvature p hcr _ _ _ _ _ hs2 hsp (by omega)
  have hframe := sortOuter_frame sp _ _ _ _ h
  rw [hframe]
  simp only
  rw [h4 (i - sp) (Nat.zero_le _) (by omega)]
  simp only [Nat.sub_zero]
  congr 2; omega

/-- Claim C11. For every region `[sp, ep]` whose windows stay inside the index range
(`curvature_region ≤ sp`, no wrap-around above `ep + curvature_region`), with
`curvature_region ≥ 0`, and every index `i` in it, the curvature that `SetRegionBuffersFor`
stores at slot `i - sp` is the squared norm of the vector
`Σ_{j = -curvature_region}^{curvature_region} w(j) coord(i + j)` with
`w(0) = -2 * curvature_region` and `w(j) = 1` otherwise, and it is not negative. -/
theorem curvature_is_window_norm (p : LoamParams) (sp ep : Nat) (s s1 : State)
    (hcr : 0 ≤ p.curvature_region) (hsp : (p.curvature_region : Int) ≤ sp) (hle : sp ≤ ep)
    (hep : (ep : Int) + 1 + p.curvature_region ≤ SIZE_MOD)
    (h : SetRegionBuffersFor p sp ep s = .ok s1) (i : Nat) (hi1 : sp ≤ i) (hi2 : i ≤ ep) :
    s1.region_curvature_[i - sp]? = some (curvatureSpec s.sorted_scan_ p.curvature_region i) ∧
    curvatureSpec s.sorted_scan_ p.curvature_region i =
      (∑ j ∈ Finset.Icc (-p.curvature_region) p.curvature_region,
          windowWeight p.curvature_region j * coordAt (fun pt => pt.x) s.sorted_scan_ (i + j)) ^ 2
      + (∑ j ∈ Finset.Icc (-p.curvature_region) p.curvature_region,
          windowWeight p.curvature_region j * coordAt (fun pt => pt.y) s.sorted_scan_ (i + j)) ^ 2
      + (∑ j ∈ Finset.Icc (-p.curvature_region) p.curvature_region,
          windowWeight p.curvature_region j * coordAt (fun pt => pt.z) s.sorted_scan_ (i + j)) ^ 2
      ∧
    0 ≤ curvatureSpec s.sorted_scan_ p.curvature_region i := by
  have hep2 : ep + 1 + p.curvature_region.toNat ≤ SIZE_MOD := by
    have : ((ep + 1 + p.curvature_region.toNat : Nat) : Int) ≤ (SIZE_MOD : Int) := by
      push_cast; omega
    exact_mod_cast this
  refine ⟨SetRegionBuffersFor_curvature p sp ep s s1 hcr (by omega) hle hep2 h i hi1 hi2, ?_,
    curvatureSpec_nonneg _ _ _⟩
  unfold curvatureSpec windowSum
  ring

/-- Witness for claim C11: the displaced point at index 3 of the line of seven points, with
curvature 1/25. -/
theorem curvature_is_window_norm_witness :
    sampleRanked7.region_curvature_[3 - 1]? =
      some (curvatureSpec sampleFiltered7.sorted_scan_ sampleParams.curvature_region 3) ∧
    sampleRanked7.region_curvature_[3 - 1]? = some (1 / 25) :=
  ⟨(curvature_is_window_norm sampleParams 1 4 sampleFiltered7 sampleRanked7 (by decide)
      (by decide) (by decide) (by decide) (by with_unfolding_all rfl) 3 (by decide)
      (by decide)).1,
   by decide!⟩


/-! ### Claim C12: the rank array is a stable sort -/

theorem sortInner_eq_bubble (sp : Nat) :
    ∀ (j : Nat) (s s1 : State), sortInner sp j s = .ok s1 →
      s1.region_sort_indices_ = bubble (rankKey s.region_curvature_ sp) j s.region_sort_indices_ ∧
      s1.region_curvature_ = s.region_curvature_ := by
  intro j
  induction j with
  | zero =>
    intro s s1 h
    simp only [sortInner, Except.ok.injEq] at h
    subst h
    exact ⟨rfl, rfl⟩
  | succ j ih =>
    intro s s1 h
    simp only [sortInner, bind_ok_iff] at h
    obtain ⟨a, ha, b, hb, ca, hca, cb, hcb, h⟩ := h
    rw [rd_ok_iff] at ha hb hca hcb
    have ka : rankKey s.region_curvature_ sp a = ca := by unfold rankKey; rw [hca]; rfl
    have kb : rankKey s.region_curvature_ sp b = cb := by unfold rankKey; rw [hcb]; rfl
    split at h
    · rename_i hlt
      simp only [bind_ok_iff] at h
      obtain ⟨i1, hi1, i2, hi2, h⟩ := h
      rw [wr_ok_iff] at hi1 hi2
      obtain ⟨_, hi1⟩ := hi1
      obtain ⟨_, hi2⟩ := hi2
      subst hi1; subst hi2
      obtain ⟨e1, e2⟩ := ih _ _ h
      refine ⟨?_, e2⟩
      rw [e1]
      simp only [bubble, ha, hb, ka, kb, hlt, if_true]
    · rename_i hlt
      obtain ⟨e1, e2⟩ := ih _ _ h
      refine ⟨?_, e2⟩
      rw [e1]
      simp only [bubble, ha, hb, ka, kb, hlt, if_false]

theorem sortOuter_eq_bubblePasses (sp : Nat) :
    ∀ (left i : Nat) (s s1 : State), sortOuter sp left i s = .ok s1 →
      s1.region_sort_indices_ =
        bubblePasses (rankKey s.region_curvature_ sp) left i s.region_sort_indices_ ∧
      s1.region_curvature_ = s.region_curvature_ := by
  intro left
  induction left with
  | zero =>
    intro i s s1 h
    simp only [sortOuter, Except.ok.injEq] at h
    subst h
    exact ⟨rfl, rfl⟩
  | succ left ih =>
    intro i s s1 h
    simp only [sortOuter, bind_ok_iff] at h
    obtain ⟨s2, hs2, h⟩ := h
    obtain ⟨e1, e2⟩ := sortInner_eq_bubble sp i s s2 hs2
    obtain ⟨e3, e4⟩ := ih _ _ _ h
    refine ⟨?_, e4.trans e2⟩
    rw [e3, e2, e1]
    rfl

theorem set_swap (A : List Nat) (a x : Nat) (R : List Nat) :
    ((A ++ a :: x :: R).set (A.length + 1) a).set A.length x = A ++ x :: a :: R := by
  induction A with
  | nil => rfl
  | cons y A ih =>
    simp only [List.cons_append, List.length_cons, List.set_cons_succ]
    rw [ih]

theorem getElem?_append_mid (A : List Nat) (x : Nat) (R : List Nat) :
    (A ++ x :: R)[A.length]? = some x := by
  rw [List.getElem?_append_right (Nat.le_refl _)]
  simp

/-- On a prefix without inversions the inner loop changes nothing. -/
theorem bubble_noop (key : Nat → ℚ) :
    ∀ (j : Nat) (l : List Nat),
      (∀ t u v, t < j → l[t]? = some u → l[t + 1]? = some v → ¬ key v < key u) →
      bubble key j l = l := by
  intro j
  induction j with
  | zero => intro l _; rfl
  | succ j ih =>
    intro l h
    unfold bubble
    split
    · rename_i a b ha hb
      have := h j b a (Nat.lt_succ_self _) hb ha
      rw [if_neg this]
      exact ih l (fun t u v ht => h t u v (by omega))
    · rfl

theorem pairwise_no_inversion (key : Nat → ℚ) (A : List Nat)
    (hA : A.Pairwise (StableLt key)) :
    ∀ t u v, A[t]? = some u → A[t + 1]? = some v → ¬ key v < key u := by
  intro t u v hu hv
  obtain ⟨h1, hu2⟩ := List.getElem?_eq_some_iff.mp hu
  obtain ⟨h2, hv2⟩ := List.getElem?_eq_some_iff.mp hv
  have := List.pairwise_iff_getElem.mp hA t (t + 1) h1 h2 (Nat.lt_succ_self _)
  rw [hu2, hv2] at this
  rcases this with h | ⟨h, _⟩
  · exact not_lt.mpr (le_of_lt h)
  · exact not_lt.mpr (le_of_eq h)

/-- The inner loop inserts the element at position `j` into the sorted prefix before it. -/
theorem bubble_insert (key : Nat → ℚ) :
    ∀ (j : Nat) (A B R : List Nat) (x : Nat), A.length = j →
      A.Pairwise (StableLt key) →
      ∃ A1 A2, A = A1 ++ A2 ∧
        bubble key j (A ++ x :: (B ++ R)) = A1 ++ x :: (A2 ++ (B ++ R)) ∧
        (∀ a ∈ A2, key x < key a) ∧
        (∀ a ∈ A1, ¬ key x < key a) := by
  intro j
  induction j with
  | zero =>
    intro A B R x hlen _
    have : A = [] := List.length_eq_zero.mp hlen
    subst this
    exact ⟨[], [], rfl, rfl, by simp, by simp⟩
  | succ j ih =>
    intro A B R x hlen hA
    rcases List.eq_nil_or_concat A with hnil | ⟨A0, a, hcat⟩
    · subst hnil; simp at hlen
    · have hcat2 : A = A0 ++ [a] := by simpa using hcat
      clear hcat
      subst hcat2
      simp only [List.length_append, List.length_singleton] at hlen
      have hlen0 : A0.length = j := by omega
      have hA0 : A0.Pairwise (StableLt key) := (List.pairwise_append.mp hA).1
      have hl : A0 ++ [a] ++ x :: (B ++ R) = A0 ++ a :: x :: (B ++ R) := by simp
      have g1 : (A0 ++ a :: x :: (B ++ R))[j + 1]? = some x := by
        rw [List.getElem?_append_right (by omega)]
        have : j + 1 - A0.length = 1 := by omega
        rw [this]; simp
      have g0 : (A0 ++ a :: x :: (B ++ R))[j]? = some a := by
        rw [← hlen0]; exact getElem?_append_mid A0 a _
      by_cases hlt : key x < key a
      · obtain ⟨A1, A2, e1, e2, e3, e4⟩ := ih A0 (a :: B) R x hlen0 hA0
        refine ⟨A1, A2 ++ [a], by rw [e1, List.append_assoc], ?_, ?_, e4⟩
        · rw [hl]
          unfold bubble
          simp only [g1, g0, hlt, if_true]
          have hs := set_swap A0 a x (B ++ R)
          rw [hlen0] at hs
          rw [hs]
          have : A0 ++ x :: a :: (B ++ R) = A0 ++ x :: ((a :: B) ++ R) := rfl
          rw [this, e2]
          simp
        · intro y hy
          rcases List.mem_append.mp hy with hy | hy
          · exact e3 y hy
          · simp only [List.mem_singleton] at hy
            subst hy; exact hlt
      · refine ⟨A0 ++ [a], [], by simp, ?_, by simp, ?_⟩
        · rw [hl]
          unfold bubble
          simp only [g1, g0, hlt, if_false]
          rw [bubble_noop key j _ (by
            intro t u v ht hu hv
            have hlen2 : (A0 ++ [a]).length = j + 1 := by
              rw [List.length_append, List.length_singleton]; omega
            have hu2 : (A0 ++ [a])[t]? = some u := by
              have e : (A0 ++ [a] ++ x :: (B ++ R))[t]? = (A0 ++ [a])[t]? :=
                List.getElem?_append_left (by omega)
              rw [hl, hu] at e; exact e.symm
            have hv2 : (A0 ++ [a])[t + 1]? = some v := by
              have e : (A0 ++ [a] ++ x :: (B ++ R))[t + 1]? = (A0 ++ [a])[t + 1]? :=
                List.getElem?_append_left (by omega)
              rw [hl, hv] at e; exact e.symm
            exact pairwise_no_inversion key _ hA t u v hu2 hv2)]
          simp
        · intro y hy
          rcases List.mem_append.mp hy with hy | hy
          · have := (List.pairwise_append.mp hA).2.2 y hy a (by simp)
            rcases this with h | ⟨h, _⟩
            · exact fun hc => hlt (lt_trans hc h)
            · rw [h]; exact hlt
          · simp only [List.mem_singleton] at hy
            subst hy; exact hlt

/-- The outer loop sorts: started on a sorted prefix of length `i` followed by the next
indices in order, it ends with a stable sort of all of them. -/
theorem bubblePasses_spec (key : Nat → ℚ) (sp : Nat) :
    ∀ (left i : Nat) (S : List Nat), S.length = i →
      S.Pairwise (StableLt key) → S.Perm (List.range' sp i) →
      (bubblePasses key left i (S ++ List.range' (sp + i) left)).Pairwise (StableLt key) ∧
      (bubblePasses key left i (S ++ List.range' (sp + i) left)).Perm
        (List.range' sp (i + left)) := by
  intro left
  induction left with
  | zero =>
    intro i S _ hS hperm
    simp only [List.range'_zero, List.append_nil, bubblePasses, Nat.add_zero]
    exact ⟨hS, hperm⟩
  | succ left ih =>
    intro i S hlen hS hperm
    have hR : List.range' (sp + i) (left + 1) = (sp + i) :: ([] ++ List.range' (sp + i + 1) left) := by
      rw [List.range'_succ]; rfl
    obtain ⟨A1, A2, e1, e2, e3, e4⟩ :=
      bubble_insert key i S [] (List.range' (sp + i + 1) left) (sp + i) hlen hS
    have hlt : ∀ a ∈ S, a < sp + i := by
      intro a ha
      have := (List.Perm.mem_iff hperm).mp ha
      rw [List.mem_range'_1] at this
      exact this.2
    have hS2 : (A1 ++ (sp + i) :: A2).Pairwise (StableLt key) := by
      rw [e1] at hS hlt
      rw [List.pairwise_append] at hS ⊢
      refine ⟨hS.1, ?_, ?_⟩
      · rw [List.pairwise_cons]
        exact ⟨fun y hy => Or.inl (e3 y hy), hS.2.1⟩
      · intro a ha y hy
        rcases List.mem_cons.mp hy with hy | hy
        · subst hy
          have h1 := e4 a ha
          have h2 := hlt a (List.mem_append_left _ ha)
          rcases lt_or_eq_of_le (not_lt.mp h1) with h | h
          · exact Or.inl h
          · exact Or.inr ⟨h, h2⟩
        · exact hS.2.2 a ha y hy
    have hperm2 : (A1 ++ (sp + i) :: A2).Perm (List.range' sp (i + 1)) := by
      have h1 : (A1 ++ (sp + i) :: A2).Perm (S ++ [sp + i]) := by
        rw [e1]
        exact (List.perm_middle.trans (List.perm_append_singleton _ _).symm)
      have h2 : List.range' sp (i + 1) = List.range' sp i ++ [sp + i] := by
        rw [List.range'_concat]; simp
      rw [h2]
      exact h1.trans (List.Perm.append_right _ hperm)
    have hlen2 : (A1 ++ (sp + i) :: A2).length = i + 1 := by
      have := hperm2.length_eq
      rw [List.length_range'] at this
      exact this
    have := ih (i + 1) (A1 ++ (sp + i) :: A2) hlen2 hS2 hperm2
    have hb : bubblePasses key (left + 1) i (S ++ List.range' (sp + i) (left + 1)) =
        bubblePasses key left (i + 1)
          ((A1 ++ (sp + i) :: A2) ++ List.range' (sp + (i + 1)) left) := by
      rw [hR]
      simp only [bubblePasses]
      rw [e2]
      simp [Nat.add_assoc]
    rw [hb]
    have hi : i + (left + 1) = i + 1 + left := by omega
    rw [hi]
    exact this

theorem SetRegionBuffersFor_sorted (p : LoamParams) (sp ep : Nat) (s s1 : State)
    (hle : sp ≤ ep) (hep : ep + 1 < SIZE_MOD)
    (h : SetRegionBuffersFor p sp ep s = .ok s1) :
    s1.region_sort_indices_.Pairwise (StableLt (rankKey s1.region_curvature_ sp)) ∧
    s1.region_sort_indices_.Perm (List.range' sp (ep - sp + 1)) := by
  have hsize : uadd (usub ep sp) 1 = ep - sp + 1 := by
    rw [usub_eq hle (by omega), uadd_eq (by omega)]
  simp only [SetRegionBuffersFor, bind_ok_iff, hsize] at h
  obtain ⟨s2, hs2, h⟩ := h
  obtain ⟨h1, _, h4, _⟩ := curvatureLoop_indices p _ _ _ _ _ hs2
  simp only [resize_length] at h1
  obtain ⟨e1, e2⟩ := sortOuter_eq_bubblePasses sp _ _ _ _ h
  have hidx : s2.region_sort_indices_ = [sp] ++ List.range' (sp + 1) (ep - sp) := by
    apply List.ext_getElem?
    intro n
    by_cases hn : n < ep - sp + 1
    · rw [h4 n (Nat.zero_le _) (by omega)]
      have : [sp] ++ List.range' (sp + 1) (ep - sp) = List.range' sp (ep - sp + 1) := by
        rw [List.range'_succ]; rfl
      rw [this, List.getElem?_range' _ _ hn]
      simp
    · rw [List.getElem?_eq_none (by omega), List.getElem?_eq_none (by simp; omega)]
  rw [e1, e2, hidx]
  have := bubblePasses_spec (rankKey s2.region_curvature_ sp) sp (ep - sp + 1 - 1) 1 [sp] rfl
    (List.pairwise_singleton _ _) (by simp)
  have hk : ep - sp + 1 - 1 = ep - sp := by omega
  rw [hk] at this ⊢
  have hk2 : 1 + (ep - sp) = ep - sp + 1 := by omega
  rw [hk2] at this
  exact this

/-- Claim C12: when `SetRegionBuffersFor` returns for the region `[sp, ep]`, the rank array
`region_sort_indices_` holds each of the indices `sp, ..., ep` exactly once, in non-decreasing
order of their stored curvature, and indices of equal curvature appear in increasing index
order: it is the stable sort of the indices by curvature. -/
theorem rank_array_stable_sort (p : LoamParams) (sp ep : Nat) (s s1 : State)
    (hle : sp ≤ ep) (hep : ep + 1 < SIZE_MOD)
    (h : SetRegionBuffersFor p sp ep s = .ok s1) :
    s1.region_sort_indices_.Perm (List.range' sp (ep - sp + 1)) ∧
    s1.region_sort_indices_.Pairwise
      (fun x y => rankKey s1.region_curvature_ sp x ≤ rankKey s1.region_curvature_ sp y) ∧
    s1.region_sort_indices_.Pairwise
      (fun x y => rankKey s1.region_curvature_ sp x = rankKey s1.region_curvature_ sp y →
        x < y) ∧
    (∀ x, sp ≤ x → x ≤ ep →
      ∃ c, s1.region_curvature_[x - sp]? = some c ∧ rankKey s1.region_curvature_ sp x = c) := by
  obtain ⟨h1, h2⟩ := SetRegionBuffersFor_sorted p sp ep s s1 hle hep h
  refine ⟨h2, h1.imp ?_, h1.imp ?_, ?_⟩
  · intro x y hxy
    rcases hxy with hxy | ⟨hxy, _⟩
    · exact le_of_lt hxy
    · exact le_of_eq hxy
  · intro x y hxy heq
    rcases hxy with hxy | ⟨_, hxy⟩
    · rw [heq] at hxy; exact absurd hxy (lt_irrefl _)
    · exact hxy
  · intro x hx1 hx2
    have hsize : uadd (usub ep sp) 1 = ep - sp + 1 := by
      rw [usub_eq hle (by omega), uadd_eq (by omega)]
    simp only [SetRegionBuffersFor, bind_ok_iff, hsize] at h
    obtain ⟨s2, hs2, h⟩ := h
    obtain ⟨_, h3, _, _⟩ := curvatureLoop_indices p _ _ _ _ _ hs2
    simp only [resize_length] at h3
    have hframe := sortOuter_frame sp _ _ _ _ h
    have hlen : s1.region_curvature_.length = ep - sp + 1 := by
      rw [hframe]; exact h3
    have hx : x - sp < s1.region_curvature_.length := by omega
    refine ⟨s1.region_curvature_[x - sp], List.getElem?_eq_getElem hx, ?_⟩
    unfold rankKey
    rw [usub_eq hx1 (by omega), List.getElem?_eq_getElem hx]
    rfl

/-- Witness for claim C12: the region `[1, 4]` of the line of seven points, where the
displaced point 3 is ranked last and the points 2 and 4 of equal curvature keep their
order. -/
theorem rank_array_stable_sort_witness :
    SetRegionBuffersFor sampleParams 1 4 sampleFiltered7 = .ok sampleRanked7 ∧
    sampleRanked7.region_sort_indices_ = [1, 2, 4, 3] ∧
    sampleRanked7.region_sort_indices_.Perm (List.range' 1 (4 - 1 + 1)) :=
  ⟨by with_unfolding_all rfl, by decide!,
   (rank_array_stable_sort sampleParams 1 4 sampleFiltered7 sampleRanked7 (by decide)
      (by decide) (by with_unfolding_all rfl)).1⟩


/-! ### Absence of faults -/

theorem ok_bind {ε α β : Type} (a : α) (f : α → Except ε β) :
    ((Except.ok a : Except ε α) >>= f) = f a := rfl

theorem rd_of_lt {α : Type} {xs : List α} {i : Nat} (h : i < xs.length) :
    ∃ v, rd xs i = .ok v ∧ xs[i]? = some v :=
  ⟨xs[i], rd_ok_iff.mpr (List.getElem?_eq_getElem h), List.getElem?_eq_getElem h⟩

theorem wr_of_lt {α : Type} {xs : List α} {i : Nat} (v : α) (h : i < xs.length) :
    wr xs i v = .ok (xs.set i v) := wr_ok_iff.mpr ⟨h, rfl⟩

theorem fillN_ok {α : Type} (v : α) :
    ∀ (count a : Nat) (xs : List α), a + count ≤ xs.length →
      ∃ ys, fillN v count a xs = .ok ys ∧ ys.length = xs.length := by
  intro count
  induction count with
  | zero => intro a xs _; exact ⟨xs, rfl, rfl⟩
  | succ count ih =>
    intro a xs h
    obtain ⟨ys, h1, h2⟩ := ih (a + 1) (xs.set a v) (by rw [List.length_set]; omega)
    refine ⟨ys, ?_, by rw [h2, List.length_set]⟩
    simp only [fillN]
    rw [wr_of_lt v (by omega), ok_bind]
    exact h1

theorem SetScanBuffersStep_ok (env : Env) (p : LoamParams) (start_idx i : Nat) (s : State)
    (hcr : 0 ≤ p.curvature_region) (hi1 : 1 ≤ i) (hlo : start_idx + p.curvature_region.toNat ≤ i)
    (hscan : i + 1 < s.sorted_scan_.length) (hmod : i + 1 < SIZE_MOD)
    (hmask : i - start_idx + p.curvature_region.toNat + 2 ≤ s.scan_neighbor_picked_.length) :
    ∃ s1, SetScanBuffersStep env p start_idx i s = .ok s1 ∧
      s1.scan_neighbor_picked_.length = s.scan_neighbor_picked_.length := by
  have hc : toSizeT p.curvature_region = p.curvature_region.toNat :=
    toSizeT_eq hcr (by
      have : ((p.curvature_region.toNat : Nat) : Int) = p.curvature_region :=
        Int.toNat_of_nonneg hcr
      have h2 : p.curvature_region.toNat < SIZE_MOD := by omega
      omega)
  have hc1 : (p.curvature_region + 1).toNat = p.curvature_region.toNat + 1 := by omega
  obtain ⟨a, ha, _⟩ := rd_of_lt (show usub i 1 < s.sorted_scan_.length by
    rw [usub_eq hi1 (by omega)]; omega)
  obtain ⟨b, hb, _⟩ := rd_of_lt (show i < s.sorted_scan_.length by omega)
  obtain ⟨c, hcc, _⟩ := rd_of_lt (show uadd i 1 < s.sorted_scan_.length by
    rw [uadd_eq hmod]; exact hscan)
  have e3 : usub i start_idx = i - start_idx := usub_eq (by omega) (by omega)
  have e1 : usub (usub i start_idx) (toSizeT p.curvature_region) =
      i - start_idx - p.curvature_region.toNat := by
    rw [hc, e3, usub_eq (by omega) (by omega)]
  have e2 : uadd (usub i start_idx) 1 = i - start_idx + 1 := by
    rw [e3, uadd_eq (by omega)]
  simp only [SetScanBuffersStep]
  rw [ha, ok_bind, hb, ok_bind, hcc, ok_bind]
  split
  · obtain ⟨ys, hy1, hy2⟩ := fillN_ok (1 : Int) (p.curvature_region.toNat + 1)
      (i - start_idx - p.curvature_region.toNat) s.scan_neighbor_picked_ (by omega)
    rw [e1, hc1, hy1, ok_bind]
    exact ⟨_, rfl, hy2⟩
  · split
    · obtain ⟨ys, hy1, hy2⟩ := fillN_ok (1 : Int) (p.curvature_region.toNat + 1)
        (i - start_idx + 1) s.scan_neighbor_picked_ (by omega)
      rw [e2, hc1, hy1, ok_bind, e3]
      split
      · rw [wr_of_lt _ (by omega), ok_bind]
        exact ⟨_, rfl, by simp only [List.length_set]; exact hy2⟩
      · exact ⟨_, rfl, hy2⟩
    · rw [ok_bind, e3]
      split
      · rw [wr_of_lt _ (by omega), ok_bind]
        exact ⟨_, rfl, by simp only [List.length_set]⟩
      · exact ⟨_, rfl, rfl⟩

theorem SetScanBuffersLoop_ok (env : Env) (p : LoamParams) (start_idx end_idx : Nat)
    (hcr : 0 ≤ p.curvature_region) (hmod : end_idx + 1 < SIZE_MOD) :
    ∀ (left i : Nat) (s : State), 1 ≤ i → start_idx + p.curvature_region.toNat ≤ i →
      i + left + p.curvature_region.toNat ≤ end_idx →
      end_idx < s.sorted_scan_.length →
      s.scan_neighbor_picked_.length = end_idx - start_idx + 1 →
      ∃ s1, SetScanBuffersLoop env p start_idx left i s = .ok s1 ∧
        s1.scan_neighbor_picked_.length = end_idx - start_idx + 1 := by
  intro left
  induction left with
  | zero => intro i s _ _ _ _ hm; exact ⟨s, rfl, hm⟩
  | succ left ih =>
    intro i s h1 h2 h3 h4 h5
    obtain ⟨s1, hs1, hlen⟩ := SetScanBuffersStep_ok env p start_idx i s hcr h1 h2 (by omega)
      (by omega) (by omega)
    have hframe := SetScanBuffersStep_frame env p start_idx i s s1 hs1
    obtain ⟨s2, hs2, hlen2⟩ := ih (i + 1) s1 (by omega) (by omega) (by omega)
      (by rw [hframe]; exact h4) (by rw [hlen, h5])
    refine ⟨s2, ?_, hlen2⟩
    simp only [SetScanBuffersLoop]
    rw [hs1, ok_bind]
    exact hs2

theorem SetScanBuffersFor_ok (env : Env) (p : LoamParams) (start_idx end_idx : Nat) (s : State)
    (hcr : 0 ≤ p.curvature_region) (hpos : 1 ≤ start_idx + p.curvature_region.toNat)
    (hlong : start_idx + 2 * p.curvature_region.toNat < end_idx)
    (hmod : end_idx + 1 < SIZE_MOD) (hscan : end_idx < s.sorted_scan_.length) :
    ∃ s1, SetScanBuffersFor env p start_idx end_idx s = .ok s1 ∧
      s1.scan_neighbor_picked_.length = end_idx - start_idx + 1 ∧
      s1 = { s with scan_neighbor_picked_ := s1.scan_neighbor_picked_ } := by
  have hc : toSizeT p.curvature_region = p.curvature_region.toNat :=
    toSizeT_eq hcr (by
      have : ((p.curvature_region.toNat : Nat) : Int) = p.curvature_region :=
        Int.toNat_of_nonneg hcr
      have h2 : p.curvature_region.toNat < SIZE_MOD := by omega
      omega)
  have e1 : uadd (usub end_idx start_idx) 1 = end_idx - start_idx + 1 := by
    rw [usub_eq (by omega) (by omega), uadd_eq (by omega)]
  have e2 : uadd start_idx (toSizeT p.curvature_region) = start_idx + p.curvature_region.toNat := by
    rw [hc, uadd_eq (by omega)]
  have e3 : usub end_idx (toSizeT p.curvature_region) = end_idx - p.curvature_region.toNat := by
    rw [hc, usub_eq (by omega) (by omega)]
  obtain ⟨s1, hs1, hlen⟩ := SetScanBuffersLoop_ok env p start_idx end_idx hcr hmod
    (end_idx - p.curvature_region.toNat - (start_idx + p.curvature_region.toNat))
    (start_idx + p.curvature_region.toNat)
    { s with scan_neighbor_picked_ := List.replicate (end_idx - start_idx + 1) (0 : Int) }
    hpos (Nat.le_refl _) (by omega) hscan (by simp only [List.length_replicate])
  have hrun : SetScanBuffersFor env p start_idx end_idx s = .ok s1 := by
    simp only [SetScanBuffersFor, e1, e2, e3]
    exact hs1
  exact ⟨s1, hrun, hlen, SetScanBuffersFor_frame env p start_idx end_idx s s1 hrun⟩

theorem curvatureWindow_ok (scan : List Point) (i : Nat) :
    ∀ (left j : Nat) (d : ℚ × ℚ × ℚ), j + left ≤ i + 1 → i + (j + left) ≤ scan.length →
      i + (j + left) ≤ SIZE_MOD →
      ∃ d1, curvatureWindow scan i left j d = .ok d1 := by
  intro left
  induction left with
  | zero => intro j d _ _ _; exact ⟨d, rfl⟩
  | succ left ih =>
    intro j d h1 h2 h3
    obtain ⟨a, ha, _⟩ := rd_of_lt (show uadd i j < scan.length by
      rw [uadd_eq (by omega)]; omega)
    obtain ⟨b, hb, _⟩ := rd_of_lt (show usub i j < scan.length by
      rw [usub_eq (by omega) (by omega)]; omega)
    simp only [curvatureWindow]
    rw [ha, ok_bind, hb, ok_bind]
    exact ih (j + 1) _ (by omega) (by omega) (by omega)

theorem curvatureLoop_ok (p : LoamParams) :
    ∀ (left i r : Nat) (s : State), p.curvature_region.toNat ≤ i →
      i + left + p.curvature_region.toNat ≤ s.sorted_scan_.length →
      i + left + p.curvature_region.toNat ≤ SIZE_MOD →
      r + left ≤ s.region_curvature_.length → r + left ≤ s.region_sort_indices_.length →
      ∃ s1, curvatureLoop p left i r s = .ok s1 := by
  intro left
  induction left with
  | zero => intro i r s _ _ _ _ _; exact ⟨s, rfl⟩
  | succ left ih =>
    intro i r s h1 h2 h3 h4 h5
    obtain ⟨pt, hpt, _⟩ := rd_of_lt (show i < s.sorted_scan_.length by omega)
    obtain ⟨d, hd⟩ := curvatureWindow_ok s.sorted_scan_ i p.curvature_region.toNat 1
      (((-2 * p.curvature_region : Int) : ℚ) * pt.x, ((-2 * p.curvature_region : Int) : ℚ) * pt.y,
        ((-2 * p.curvature_region : Int) : ℚ) * pt.z) (by omega) (by omega) (by omega)
    simp only [curvatureLoop]
    rw [hpt, ok_bind, hd, ok_bind, wr_of_lt _ (by omega), ok_bind, wr_of_lt _ (by omega), ok_bind]
    exact ih (i + 1) (r + 1) _ (by omega) (by simp only; omega) (by omega)
      (by simp only [List.length_set]; omega) (by simp only [List.length_set]; omega)

theorem sortInner_ok (sp : Nat) :
    ∀ (j : Nat) (s : State), j < s.region_sort_indices_.length →
      (∀ x ∈ s.region_sort_indices_, sp ≤ x ∧ x < SIZE_MOD ∧ x - sp < s.region_curvature_.length) →
      ∃ s1, sortInner sp j s = .ok s1 := by
  intro j
  induction j with
  | zero => intro s _ _; exact ⟨s, rfl⟩
  | succ j ih =>
    intro s hj hmem
    obtain ⟨a, ha, ha2⟩ := rd_of_lt hj
    obtain ⟨b, hb, hb2⟩ := rd_of_lt (show j < s.region_sort_indices_.length by omega)
    have hain := hmem a (List.getElem?_mem ha2)
    have hbin := hmem b (List.getElem?_mem hb2)
    obtain ⟨ca, hca, _⟩ := rd_of_lt (show usub a sp < s.region_curvature_.length by
      rw [usub_eq hain.1 hain.2.1]; exact hain.2.2)
    obtain ⟨cb, hcb, _⟩ := rd_of_lt (show usub b sp < s.region_curvature_.length by
      rw [usub_eq hbin.1 hbin.2.1]; exact hbin.2.2)
    simp only [sortInner]
    rw [ha, ok_bind, hb, ok_bind, hca, ok_bind, hcb, ok_bind]
    split
    · rw [wr_of_lt _ hj, ok_bind, wr_of_lt _ (by rw [List.length_set]; omega), ok_bind]
      apply ih
      · simp only [List.length_set]; omega
      · intro x hx
        simp only at hx ⊢
        rcases List.mem_or_eq_of_mem_set hx with hx | hx
        · rcases List.mem_or_eq_of_mem_set hx with hx | hx
          · exact hmem x hx
          · rw [hx]; exact hbin
        · rw [hx]; exact hain
    · exact ih s (by omega) hmem

theorem sortOuter_ok (sp : Nat) :
    ∀ (left i : Nat) (s : State), i + left ≤ s.region_sort_indices_.length →
      1 ≤ s.region_sort_indices_.length →
      (∀ x ∈ s.region_sort_indices_, sp ≤ x ∧ x < SIZE_MOD ∧ x - sp < s.region_curvature_.length) →
      ∃ s1, sortOuter sp left i s = .ok s1 := by
  intro left
  induction left with
  | zero => intro i s _ _ _; exact ⟨s, rfl⟩
  | succ left ih =>
    intro i s h1 h2 hmem
    obtain ⟨s1, hs1⟩ := sortInner_ok sp i s (by omega) hmem
    have hframe := sortInner_frame sp i s s1 hs1
    have hcurv : s1.region_curvature_ = s.region_curvature_ := by rw [hframe]
    obtain ⟨hlen, hmem1⟩ := sortInner_indices sp
      (fun x => sp ≤ x ∧ x < SIZE_MOD ∧ x - sp < s.region_curvature_.length) i s s1 hs1 hmem
    simp only [sortOuter]
    rw [hs1, ok_bind]
    exact ih (i + 1) s1 (by rw [hlen]; omega) (by rw [hlen]; exact h2)
      (by rw [hcurv]; exact hmem1)

theorem SetRegionBuffersFor_ok (p : LoamParams) (sp ep : Nat) (s : State)
    (hsp : p.curvature_region.toNat ≤ sp) (hle : sp ≤ ep)
    (hscan : ep + p.curvature_region.toNat < s.sorted_scan_.length)
    (hmod : ep + 1 + p.curvature_region.toNat < SIZE_MOD) :
    ∃ s1, SetRegionBuffersFor p sp ep s = .ok s1 := by
  have hsize : uadd (usub ep sp) 1 = ep - sp + 1 := by
    rw [usub_eq hle (by omega), uadd_eq (by omega)]
  obtain ⟨s2, hs2⟩ := curvatureLoop_ok p (ep + 1 - sp) sp 0
    { s with
      region_curvature_ := resize s.region_curvature_ (ep - sp + 1) 0,
      region_sort_indices_ := resize s.region_sort_indices_ (ep - sp + 1) 0,
      region_label_ := List.replicate (ep - sp + 1) PointLabel.SURFACE_LESS_FLAT }
    hsp (by simp only; omega) (by omega) (by simp only [resize_length]; omega)
    (by simp only [resize_length]; omega)
  obtain ⟨h1, h2, h4, _⟩ := curvatureLoop_indices p _ _ _ _ _ hs2
  simp only [resize_length] at h1 h2
  have hmem : ∀ x ∈ s2.region_sort_indices_,
      sp ≤ x ∧ x < SIZE_MOD ∧ x - sp < s2.region_curvature_.length := by
    intro x hx
    obtain ⟨n, hn, hx2⟩ := List.getElem_of_mem hx
    have := h4 n (Nat.zero_le _) (by omega)
    rw [List.getElem?_eq_getElem hn, hx2] at this
    simp only [Option.some.injEq, Nat.sub_zero] at this
    omega
  obtain ⟨s3, hs3⟩ := sortOuter_ok sp (ep - sp + 1 - 1) 1 s2 (by omega) (by omega) hmem
  refine ⟨s3, ?_⟩
  simp only [SetRegionBuffersFor, hsize]
  rw [hs2, ok_bind]
  exact hs3

theorem markForward_ok (scan : List Point) (c k : Nat) :
    ∀ (left i : Nat) (m : List Int), 1 ≤ c + i → c + i + left ≤ scan.length →
      c + i + left ≤ SIZE_MOD → k + i + left ≤ m.length → k + i + left ≤ SIZE_MOD →
      ∃ m1, markForward scan c k left i m = .ok m1 := by
  intro left
  induction left with
  | zero => intro i m _ _ _ _ _; exact ⟨m, rfl⟩
  | succ left ih =>
    intro i m h1 h2 h3 h4 h6
    have e1 : uadd c i = c + i := uadd_eq (by omega)
    obtain ⟨a, ha, _⟩ := rd_of_lt (show uadd c i < scan.length by rw [e1]; omega)
    obtain ⟨b, hb, _⟩ := rd_of_lt (show usub (uadd c i) 1 < scan.length by
      rw [e1, usub_eq h1 (by omega)]; omega)
    simp only [markForward]
    rw [ha, ok_bind, hb, ok_bind]
    split
    · exact ⟨m, rfl⟩
    · rw [wr_of_lt _ (show uadd k i < m.length by rw [uadd_eq (by omega)]; omega), ok_bind]
      exact ih (i + 1) _ (by omega) (by omega) (by omega) (by rw [List.length_set]; omega)
        (by omega)

theorem markBackward_ok (scan : List Point) (c k : Nat) :
    ∀ (left i : Nat) (m : List Int), i + left ≤ c + 1 → c + 1 < scan.length →
      c + 1 < SIZE_MOD → i + left ≤ k + 1 → k < m.length → k < SIZE_MOD →
      ∃ m1, markBackward scan c k left i m = .ok m1 := by
  intro left
  induction left with
  | zero => intro i m _ _ _ _ _ _; exact ⟨m, rfl⟩
  | succ left ih =>
    intro i m h1 h2 h3 h4 h5 h6
    have e1 : usub c i = c - i := usub_eq (by omega) (by omega)
    obtain ⟨a, ha, _⟩ := rd_of_lt (show usub c i < scan.length by rw [e1]; omega)
    obtain ⟨b, hb, _⟩ := rd_of_lt (show uadd (usub c i) 1 < scan.length by
      rw [e1, uadd_eq (by omega)]; omega)
    simp only [markBackward]
    rw [ha, ok_bind, hb, ok_bind]
    split
    · exact ⟨m, rfl⟩
    · rw [wr_of_lt _ (show usub k i < m.length by
        rw [usub_eq (by omega) (by omega)]; omega), ok_bind]
      exact ih (i + 1) _ (by omega) h2 h3 (by omega) (by rw [List.length_set]; omega) h6

theorem MarkAsPicked_ok (p : LoamParams) (c k : Nat) (s : State)
    (h1 : p.curvature_region.toNat ≤ c)
    (h2 : c + p.curvature_region.toNat + 1 < s.sorted_scan_.length)
    (h3 : c + p.curvature_region.toNat + 1 < SIZE_MOD)
    (h4 : p.curvature_region.toNat ≤ k)
    (h5 : k + p.curvature_region.toNat < s.scan_neighbor_picked_.length)
    (h6 : k + p.curvature_region.toNat + 1 ≤ SIZE_MOD) :
    ∃ s1, MarkAsPicked p c k s = .ok s1 := by
  obtain ⟨m1, hm1⟩ := markForward_ok s.sorted_scan_ c k p.curvature_region.toNat 1
    (s.scan_neighbor_picked_.set k 1) (by omega) (by omega) (by omega)
    (by rw [List.length_set]; omega) (by omega)
  obtain ⟨hg, _⟩ := markForward_spec s.sorted_scan_ c k _ _ _ _ hm1
  have hlen : m1.length = s.scan_neighbor_picked_.length := by
    rw [hg.1, List.length_set]
  obtain ⟨m2, hm2⟩ := markBackward_ok s.sorted_scan_ c k p.curvature_region.toNat 1 m1
    (by omega) (by omega) (by omega) (by omega) (by omega) (by omega)
  simp only [MarkAsPicked]
  rw [wr_of_lt _ (by omega), ok_bind, hm1, ok_bind, hm2, ok_bind]
  exact ⟨_, rfl⟩


theorem cornerAccept_eq (p : LoamParams) (idx scan_idx region_idx : Nat) (L : Int) (s : State)
    (pt : Point) (hl : region_idx < s.region_label_.length)
    (hpt : s.sorted_scan_[idx]? = some pt) :
    cornerAccept p idx scan_idx region_idx L s =
      MarkAsPicked p idx scan_idx
        { s with
          region_label_ := s.region_label_.set region_idx
            (if L ≤ p.max_corner_sharp then PointLabel.CORNER_SHARP
             else PointLabel.CORNER_LESS_SHARP),
          corner_points_sharp_ := s.corner_points_sharp_ ++
            (if L ≤ p.max_corner_sharp then [pt] else []),
          corner_points_less_sharp_ := s.corner_points_less_sharp_ ++
            (if p.ignore_weak_features then [] else [pt]) } := by
  have hrd : rd s.sorted_scan_ idx = .ok pt := rd_ok_iff.mpr hpt
  have hwr := fun v => @wr_of_lt PointLabel s.region_label_ region_idx v hl
  simp only [cornerAccept]
  by_cases hL : L ≤ p.max_corner_sharp <;> cases hw : p.ignore_weak_features <;>
    simp only [hL, if_true, if_false, hwr, ok_bind, hrd, List.append_nil,
      Bool.false_eq_true, not_false_eq_true, not_true_eq_false]

theorem flatAccept_eq (p : LoamParams) (idx scan_idx region_idx : Nat) (acc : PointCloudIRT)
    (s : State) (pt : Point) (hl : region_idx < s.region_label_.length)
    (hpt : s.sorted_scan_[idx]? = some pt) :
    flatAccept p idx scan_idx region_idx acc s =
      (MarkAsPicked p idx scan_idx
        { s with
          region_label_ := s.region_label_.set region_idx PointLabel.SURFACE_FLAT,
          surface_points_flat_ := s.surface_points_flat_ ++ [pt] } >>= fun s2 =>
        .ok (if p.ignore_weak_features then acc else acc ++ [pt], s2)) := by
  have hrd : rd s.sorted_scan_ idx = .ok pt := rd_ok_iff.mpr hpt
  have hwr := fun v => @wr_of_lt PointLabel s.region_label_ region_idx v hl
  simp only [flatAccept]
  cases hw : p.ignore_weak_features <;>
    simp only [if_true, if_false, hwr, ok_bind, hrd,
      Bool.false_eq_true, not_false_eq_true, not_true_eq_false]

theorem RegionWF.of_mark {p : LoamParams} {start_idx end_idx sp ep : Nat} {s s1 s2 : State}
    (h : RegionWF p start_idx end_idx sp ep s)
    (c k : Nat) (hm : MarkAsPicked p c k s1 = .ok s2)
    (hscan : s1.sorted_scan_ = s.sorted_scan_)
    (hmask : s1.scan_neighbor_picked_ = s.scan_neighbor_picked_)
    (hlabel : s1.region_label_.length = s.region_label_.length)
    (hcurv : s1.region_curvature_ = s.region_curvature_)
    (hidx : s1.region_sort_indices_ = s.region_sort_indices_) :
    RegionWF p start_idx end_idx sp ep s2 := by
  obtain ⟨hshape, hg, _⟩ := MarkAsPicked_spec p c k s1 s2 hm
  have e1 : s2.sorted_scan_ = s.sorted_scan_ := by rw [hshape]; exact hscan
  have e2 : s2.region_label_ = s1.region_label_ := by rw [hshape]
  have e3 : s2.region_curvature_ = s.region_curvature_ := by rw [hshape]; exact hcurv
  have e4 : s2.region_sort_indices_ = s.region_sort_indices_ := by rw [hshape]; exact hidx
  exact ⟨h.hlo, h.hle, h.hhi, h.hmod, by rw [e1]; exact h.hscan,
    by rw [hg.1, hmask]; exact h.hmask, by rw [e2, hlabel]; exact h.hlabel,
    by rw [e3]; exact h.hcurv, by rw [e4]; exact h.hidx, by rw [e4]; exact h.hmem⟩

theorem RegionWF.mark_ok {p : LoamParams} {start_idx end_idx sp ep : Nat} {s : State}
    (h : RegionWF p start_idx end_idx sp ep s) (s1 : State)
    (hscan : s1.sorted_scan_ = s.sorted_scan_)
    (hmask : s1.scan_neighbor_picked_ = s.scan_neighbor_picked_)
    (idx : Nat) (h1 : sp ≤ idx) (h2 : idx ≤ ep) :
    ∃ s2, MarkAsPicked p idx (idx - start_idx) s1 = .ok s2 := by
  have a1 := h.hlo
  have a2 := h.hhi
  have a3 := h.hmod
  have a4 := h.hscan
  have a5 := h.hmask
  exact MarkAsPicked_ok p idx (idx - start_idx) s1 (by omega) (by rw [hscan]; omega) (by omega)
    (by omega) (by rw [hmask]; omega) (by omega)

theorem cornerAccept_ok (p : LoamParams) (start_idx end_idx sp ep : Nat) (L : Int) (s : State)
    (h : RegionWF p start_idx end_idx sp ep s) (idx : Nat) (h1 : sp ≤ idx) (h2 : idx ≤ ep) :
    ∃ s3, cornerAccept p idx (usub idx start_idx) (usub idx sp) L s = .ok s3 ∧
      RegionWF p start_idx end_idx sp ep s3 := by
  have a1 := h.hlo
  have a2 := h.hhi
  have a3 := h.hmod
  have a4 := h.hscan
  have e1 : usub idx start_idx = idx - start_idx := usub_eq (by omega) (by omega)
  have e2 : usub idx sp = idx - sp := usub_eq h1 (by omega)
  obtain ⟨pt, _, hpt⟩ := rd_of_lt (show idx < s.sorted_scan_.length by omega)
  rw [e1, e2, cornerAccept_eq p idx _ _ L s pt (by rw [h.hlabel]; omega) hpt]
  obtain ⟨s3, hs3⟩ := h.mark_ok ({ s with
      region_label_ := s.region_label_.set (idx - sp)
        (if L ≤ p.max_corner_sharp then PointLabel.CORNER_SHARP
         else PointLabel.CORNER_LESS_SHARP),
      corner_points_sharp_ := s.corner_points_sharp_ ++
        (if L ≤ p.max_corner_sharp then [pt] else []),
      corner_points_less_sharp_ := s.corner_points_less_sharp_ ++
        (if p.ignore_weak_features then [] else [pt]) }) rfl rfl idx h1 h2
  exact ⟨s3, hs3, h.of_mark _ _ hs3 rfl rfl (by simp only [List.length_set]) rfl rfl⟩

theorem flatAccept_ok (p : LoamParams) (start_idx end_idx sp ep : Nat) (acc : PointCloudIRT)
    (s : State) (h : RegionWF p start_idx end_idx sp ep s) (idx : Nat) (h1 : sp ≤ idx)
    (h2 : idx ≤ ep) :
    ∃ acc1 s3, flatAccept p idx (usub idx start_idx) (usub idx sp) acc s = .ok (acc1, s3) ∧
      RegionWF p start_idx end_idx sp ep s3 := by
  have a1 := h.hlo
  have a2 := h.hhi
  have a3 := h.hmod
  have a4 := h.hscan
  have e1 : usub idx start_idx = idx - start_idx := usub_eq (by omega) (by omega)
  have e2 : usub idx sp = idx - sp := usub_eq h1 (by omega)
  obtain ⟨pt, _, hpt⟩ := rd_of_lt (show idx < s.sorted_scan_.length by omega)
  rw [e1, e2, flatAccept_eq p idx _ _ acc s pt (by rw [h.hlabel]; omega) hpt]
  obtain ⟨s3, hs3⟩ := h.mark_ok ({ s with
      region_label_ := s.region_label_.set (idx - sp) PointLabel.SURFACE_FLAT,
      surface_points_flat_ := s.surface_points_flat_ ++ [pt] }) rfl rfl idx h1 h2
  rw [hs3, ok_bind]
  exact ⟨_, s3, rfl, h.of_mark _ _ hs3 rfl rfl (by simp only [List.length_set]) rfl rfl⟩

theorem RegionWF.reads {p : LoamParams} {start_idx end_idx sp ep : Nat} {s : State}
    (h : RegionWF p start_idx end_idx sp ep s) (k : Nat) (hk : k < ep - sp + 1) :
    ∃ idx picked curv, sp ≤ idx ∧ idx ≤ ep ∧
      rd s.region_sort_indices_ k = .ok idx ∧
      rd s.scan_neighbor_picked_ (usub idx start_idx) = .ok picked ∧
      rd s.region_curvature_ (usub idx sp) = .ok curv := by
  have a1 := h.hlo
  have a2 := h.hhi
  have a3 := h.hmod
  obtain ⟨idx, hidx, hidx2⟩ := rd_of_lt (show k < s.region_sort_indices_.length by
    rw [h.hidx]; exact hk)
  have hin := h.hmem idx (List.getElem?_mem hidx2)
  have e1 : usub idx start_idx = idx - start_idx := usub_eq (by omega) (by omega)
  have e2 : usub idx sp = idx - sp := usub_eq hin.1 (by omega)
  obtain ⟨picked, hp, _⟩ := rd_of_lt (show usub idx start_idx < s.scan_neighbor_picked_.length by
    rw [e1, h.hmask]; omega)
  obtain ⟨curv, hc, _⟩ := rd_of_lt (show usub idx sp < s.region_curvature_.length by
    rw [e2, h.hcurv]; omega)
  exact ⟨idx, picked, curv, hin.1, hin.2, hidx, hp, hc⟩

theorem cornerLoop_ok (p : LoamParams) (start_idx end_idx sp ep : Nat) :
    ∀ (k : Nat) (L : Int) (s : State), RegionWF p start_idx end_idx sp ep s →
      k ≤ ep - sp + 1 →
      ∃ s1, cornerLoop p start_idx sp k L s = .ok s1 ∧
        RegionWF p start_idx end_idx sp ep s1 := by
  intro k
  induction k with
  | zero => intro L s h _; exact ⟨s, rfl, h⟩
  | succ k ih =>
    intro L s h hk
    obtain ⟨idx, picked, curv, h1, h2, hidx, hp, hc⟩ := h.reads k (by omega)
    simp only [cornerLoop]
    split
    · rw [hidx, ok_bind, hp, ok_bind]
      split
      · rw [hc, ok_bind]
        split
        · obtain ⟨s3, hs3, hwf⟩ := cornerAccept_ok p start_idx end_idx sp ep (L + 1) s h idx h1 h2
          rw [hs3, ok_bind]
          exact ih _ s3 hwf (by omega)
        · exact ih _ s h (by omega)
      · exact ih _ s h (by omega)
    · exact ⟨s, rfl, h⟩

theorem flatLoop_ok (p : LoamParams) (start_idx end_idx sp ep : Nat) :
    ∀ (left k : Nat) (L : Int) (acc : PointCloudIRT) (s : State),
      RegionWF p start_idx end_idx sp ep s → k + left ≤ ep - sp + 1 →
      ∃ acc1 s1, flatLoop p start_idx sp left k L acc s = .ok (acc1, s1) ∧
        RegionWF p start_idx end_idx sp ep s1 := by
  intro left
  induction left with
  | zero => intro k L acc s h _; exact ⟨acc, s, rfl, h⟩
  | succ left ih =>
    intro k L acc s h hk
    obtain ⟨idx, picked, curv, h1, h2, hidx, hp, hc⟩ := h.reads k (by omega)
    simp only [flatLoop]
    split
    · rw [hidx, ok_bind, hp, ok_bind]
      split
      · rw [hc, ok_bind]
        split
        · obtain ⟨acc1, s3, hs3, hwf⟩ :=
            flatAccept_ok p start_idx end_idx sp ep acc s h idx h1 h2
          rw [hs3, ok_bind]
          exact ih _ _ _ s3 hwf (by omega)
        · exact ih _ _ _ s h (by omega)
      · exact ih _ _ _ s h (by omega)
    · exact ⟨acc, s, rfl, h⟩

theorem remainderLoop_ok (env : Env) (sp : Nat) (s : State) :
    ∀ (left k : Nat) (acc : PointCloudIRT), k + left ≤ s.region_label_.length →
      sp + k + left ≤ s.sorted_scan_.length → sp + k + left ≤ SIZE_MOD →
      ∃ acc1, remainderLoop env sp s left k acc = .ok acc1 := by
  intro left
  induction left with
  | zero => intro k acc _ _ _; exact ⟨acc, rfl⟩
  | succ left ih =>
    intro k acc h1 h2 h3
    obtain ⟨l, hl, _⟩ := rd_of_lt (show k < s.region_label_.length by omega)
    obtain ⟨pt, hpt, _⟩ := rd_of_lt (show uadd sp k < s.sorted_scan_.length by
      rw [uadd_eq (by omega)]; omega)
    simp only [remainderLoop]
    rw [hl, ok_bind]
    split
    · rw [hpt, ok_bind]
      exact ih _ _ (by omega) (by omega) (by omega)
    · exact ih _ _ (by omega) (by omega) (by omega)

theorem regionPasses_ok (env : Env) (p : LoamParams) (start_idx end_idx sp ep : Nat)
    (acc : PointCloudIRT) (s : State) (h : RegionWF p start_idx end_idx sp ep s) :
    ∃ acc1 s1, regionPasses env p start_idx sp (ep - sp + 1) acc s = .ok (acc1, s1) ∧
      RegionWF p start_idx end_idx sp ep s1 := by
  obtain ⟨s1, hs1, hwf1⟩ := cornerLoop_ok p start_idx end_idx sp ep (ep - sp + 1) 0 s h
    (Nat.le_refl _)
  obtain ⟨acc2, s2, hs2, hwf2⟩ := flatLoop_ok p start_idx end_idx sp ep (ep - sp + 1) 0 0 acc s1
    hwf1 (by omega)
  have a1 := hwf2.hhi
  have a2 := hwf2.hscan
  have a3 := hwf2.hmod
  have a4 := hwf2.hle
  obtain ⟨acc3, hacc3⟩ := remainderLoop_ok env sp s2 (ep - sp + 1) 0 acc2
    (by rw [hwf2.hlabel]; omega) (by omega) (by omega)
  simp only [regionPasses]
  rw [hs1, ok_bind, hs2, ok_bind]
  split
  · rw [hacc3, ok_bind]
    exact ⟨_, _, rfl, hwf2⟩
  · exact ⟨_, _, rfl, hwf2⟩


theorem SetRegionBuffersFor_wf (p : LoamParams) (start_idx end_idx sp ep : Nat) (s s1 : State)
    (hlo : start_idx + p.curvature_region.toNat ≤ sp) (hle : sp ≤ ep)
    (hhi : ep + 1 + p.curvature_region.toNat ≤ end_idx) (hmod : end_idx + 1 < SIZE_MOD)
    (hscan : end_idx < s.sorted_scan_.length)
    (hmask : s.scan_neighbor_picked_.length = end_idx - start_idx + 1)
    (h : SetRegionBuffersFor p sp ep s = .ok s1) :
    RegionWF p start_idx end_idx sp ep s1 := by
  have hframe := SetRegionBuffersFor_frame p sp ep s s1 h
  obtain ⟨h1, h2, h3⟩ := SetRegionBuffersFor_indices p sp ep s s1 hle (by omega) h
  have hsize : uadd (usub ep sp) 1 = ep - sp + 1 := by
    rw [usub_eq hle (by omega), uadd_eq (by omega)]
  have hcurv : s1.region_curvature_.length = ep - sp + 1 := by
    simp only [SetRegionBuffersFor, bind_ok_iff, hsize] at h
    obtain ⟨s2, hs2, h⟩ := h
    obtain ⟨_, h3, _, _⟩ := curvatureLoop_indices p _ _ _ _ _ hs2
    simp only [resize_length] at h3
    rw [sortOuter_frame sp _ _ _ _ h]
    exact h3
  have e1 : s1.sorted_scan_ = s.sorted_scan_ := by rw [hframe]
  have e2 : s1.scan_neighbor_picked_ = s.scan_neighbor_picked_ := by rw [hframe]
  exact ⟨hlo, hle, hhi, hmod, by rw [e1]; exact hscan, by rw [e2]; exact hmask, h2, hcurv, h1, h3⟩

theorem regionBody_ok (env : Env) (p : LoamParams) (start_idx end_idx : Nat)
    (h : LineOK p start_idx end_idx) (hpos : 1 ≤ start_idx + p.curvature_region.toNat)
    (hmod : end_idx + 1 < SIZE_MOD) (j : Nat) (hj : (j : Int) < p.n_feature_regions)
    (acc : PointCloudIRT) (s : State) (hscan : end_idx < s.sorted_scan_.length)
    (hmask : s.scan_neighbor_picked_.length = end_idx - start_idx + 1) :
    ∃ acc1 s1, regionBody env p start_idx end_idx (j : Int) acc s = .ok (acc1, s1) ∧
      s1.sorted_scan_ = s.sorted_scan_ ∧
      s1.scan_neighbor_picked_.length = end_idx - start_idx + 1 := by
  obtain ⟨b1, b2, _⟩ := region_in_line p start_idx end_idx h hpos j hj
  unfold regionBody
  simp only
  split
  · exact ⟨acc, s, rfl, rfl, hmask⟩
  · rename_i hskip
    have hlt : regionStart p start_idx end_idx j < regionEnd p start_idx end_idx j := by
      simp only [regionSkipped, decide_eq_true_eq, not_le] at hskip
      exact hskip
    have hsize : uadd (usub (regionEnd p start_idx end_idx j) (regionStart p start_idx end_idx j)) 1
        = regionEnd p start_idx end_idx j - regionStart p start_idx end_idx j + 1 := by
      rw [usub_eq (by omega) (by omega), uadd_eq (by omega)]
    obtain ⟨s1, hs1⟩ := SetRegionBuffersFor_ok p _ _ s
      (show p.curvature_region.toNat ≤ regionStart p start_idx end_idx j by omega)
      (le_of_lt hlt) (by omega) (by omega)
    have hwf := SetRegionBuffersFor_wf p start_idx end_idx _ _ s s1 b1 (le_of_lt hlt) b2 hmod
      hscan hmask hs1
    obtain ⟨acc1, s2, hs2, hwf2⟩ := regionPasses_ok env p start_idx end_idx _ _ acc s1 hwf
    have hframe := SetRegionBuffersFor_frame p _ _ s s1 hs1
    have hsc : s2.sorted_scan_ = s.sorted_scan_ := by
      have := (regionBody_suppressed env p start_idx end_idx h hpos j hj acc acc1 s s2
        (fun _ => False) ?_ ?_).1
      · exact this
      · exact Suppressed.empty _ _ _ _
      · unfold regionBody
        simp only [hskip, if_false]
        rw [hs1, ok_bind, hsize]
        exact hs2
    rw [hs1, ok_bind, hsize]
    exact ⟨acc1, s2, hs2, hsc, hwf2.hmask⟩

theorem regionLoop_ok (env : Env) (p : LoamParams) (start_idx end_idx : Nat)
    (h : LineOK p start_idx end_idx) (hpos : 1 ≤ start_idx + p.curvature_region.toNat)
    (hmod : end_idx + 1 < SIZE_MOD) :
    ∀ (left j : Nat) (acc : PointCloudIRT) (s : State),
      ((j + left : Nat) : Int) ≤ p.n_feature_regions →
      end_idx < s.sorted_scan_.length →
      s.scan_neighbor_picked_.length = end_idx - start_idx + 1 →
      ∃ acc1 s1, regionLoop env p start_idx end_idx left (j : Int) acc s = .ok (acc1, s1) ∧
        s1.sorted_scan_ = s.sorted_scan_ := by
  intro left
  induction left with
  | zero => intro j acc s _ _ _; exact ⟨acc, s, rfl, rfl⟩
  | succ left ih =>
    intro j acc s hj hscan hmask
    obtain ⟨acc1, s1, hs1, e1, e2⟩ := regionBody_ok env p start_idx end_idx h hpos hmod j
      (by push_cast at hj; omega) acc s hscan hmask
    obtain ⟨acc2, s2, hs2, e3⟩ := ih (j + 1) acc1 s1 (by push_cast at hj ⊢; omega)
      (by rw [e1]; exact hscan) e2
    refine ⟨acc2, s2, ?_, e3.trans e1⟩
    simp only [regionLoop]
    rw [hs1, ok_bind]
    have e : (j : Int) + 1 = ((j + 1 : Nat) : Int) := by push_cast; rfl
    rw [e]
    exact hs2

theorem scanBody_ok (env : Env) (p : LoamParams) (range : IndexRange) (s : State)
    (hcr : 1 ≤ p.curvature_region) (hn : 1 ≤ p.n_feature_regions)
    (hwrap : (range.1 : Int) + 2 * p.curvature_region < SIZE_MOD)
    (hin : (range.1 : Int) + 2 * p.curvature_region < range.2 →
      range.2 < s.sorted_scan_.length ∧
      ((range.2 : Int) + 1) * p.n_feature_regions < SIZE_MOD) :
    ∃ s1, scanBody env p range s = .ok s1 ∧ s1.sorted_scan_ = s.sorted_scan_ := by
  unfold scanBody
  split
  · exact ⟨s, rfl, rfl⟩
  · rename_i hskip
    have hc2 : toSizeT (2 * p.curvature_region) = 2 * p.curvature_region.toNat := by
      rw [toSizeT_eq (by omega) (by omega)]
      omega
    have hlong : (range.1 : Int) + 2 * p.curvature_region < range.2 := by
      simp only [scanSkipped, decide_eq_true_eq, not_le, hc2] at hskip
      rw [uadd_eq (by omega)] at hskip
      omega
    obtain ⟨hscan, hmul⟩ := hin hlong
    have hmod : range.2 + 1 < SIZE_MOD := by
      have : ((range.2 : Int) + 1) * 1 ≤ ((range.2 : Int) + 1) * p.n_feature_regions :=
        mul_le_mul_of_nonneg_left hn (by omega)
      omega
    have hline : LineOK p range.1 range.2 := by
      refine ⟨by omega, hn, hlong, ?_⟩
      have : (range.2 : Int) * p.n_feature_regions ≤ ((range.2 : Int) + 1) * p.n_feature_regions :=
        mul_le_mul_of_nonneg_right (by omega) (by omega)
      omega
    obtain ⟨s1, hs1, hlen, hframe⟩ := SetScanBuffersFor_ok env p range.1 range.2 s (by omega)
      (by omega) (by omega) hmod hscan
    have e1 : s1.sorted_scan_ = s.sorted_scan_ := by rw [hframe]
    obtain ⟨acc, s2, hs2, e2⟩ := regionLoop_ok env p range.1 range.2 hline (by omega) hmod
      p.n_feature_regions.toNat 0 [] s1 (by
        rw [Nat.zero_add, Int.toNat_of_nonneg (by omega)]) (by rw [e1]; exact hscan) hlen
    rw [hs1, ok_bind, ← Nat.cast_zero, hs2, ok_bind]
    simp only
    split
    · exact ⟨_, rfl, e2.trans e1⟩
    · exact ⟨_, rfl, e2.trans e1⟩

theorem scanLoop_ok (env : Env) (p : LoamParams) (hcr : 1 ≤ p.curvature_region)
    (hn : 1 ≤ p.n_feature_regions) (total : Nat) :
    ∀ (ranges : List IndexRange) (s : State), s.sorted_scan_.length = total →
      (∀ r ∈ ranges, (r.1 : Int) + 2 * p.curvature_region < SIZE_MOD ∧
        ((r.1 : Int) + 2 * p.curvature_region < r.2 →
          r.2 < total ∧ ((r.2 : Int) + 1) * p.n_feature_regions < SIZE_MOD)) →
      ∃ s1, scanLoop env p ranges s = .ok s1 := by
  intro ranges
  induction ranges with
  | nil => intro s _ _; exact ⟨s, rfl⟩
  | cons r rest ih =>
    intro s hlen hr
    obtain ⟨h1, h2⟩ := hr r (List.mem_cons_self _ _)
    obtain ⟨s1, hs1, e1⟩ := scanBody_ok env p r s hcr hn h1 (by rw [hlen]; exact h2)
    obtain ⟨s2, hs2⟩ := ih s1 (by rw [e1]; exact hlen)
      (fun r2 hr2 => hr r2 (List.mem_cons_of_mem _ hr2))
    refine ⟨s2, ?_⟩
    simp only [scanLoop]
    rw [hs1, ok_bind]
    exact hs2

theorem rangesFrom_mem :
    ∀ (lines : List PointCloudIRT) (c : Nat) (r : IndexRange), r ∈ rangesFrom c lines →
      ∃ before len, r = rangeAt before len ∧ c ≤ before ∧
        before + len ≤ c + lines.flatten.length := by
  intro lines
  induction lines with
  | nil => intro c r h; simp [rangesFrom] at h
  | cons line rest ih =>
    intro c r h
    simp only [rangesFrom, List.mem_cons] at h
    rcases h with h | h
    · exact ⟨c, line.length, h, Nat.le_refl _, by simp⟩
    · obtain ⟨before, len, e1, e2, e3⟩ := ih _ _ h
      refine ⟨before, len, e1, by omega, ?_⟩
      simp only [List.flatten_cons, List.length_append]
      omega

/-- The orchestrator returns: with a window radius of at least 1, at least one region and
sizes that the index arithmetic can hold, no buffer access of a call is out of range. -/
theorem runScanLines_ok (env : Env) (p : LoamParams) (lines : List PointCloudIRT) (s : State)
    (hcr : 1 ≤ p.curvature_region) (hn : 1 ≤ p.n_feature_regions)
    (hsize : ((lines.flatten.length : Int) + 2 * p.curvature_region) * p.n_feature_regions
      < SIZE_MOD) :
    ∃ s1, runScanLines env p lines s = .ok s1 := by
  have hsz : (lines.flatten.length : Int) + 2 * p.curvature_region < SIZE_MOD := by
    have : ((lines.flatten.length : Int) + 2 * p.curvature_region) * 1 ≤
        ((lines.flatten.length : Int) + 2 * p.curvature_region) * p.n_feature_regions :=
      mul_le_mul_of_nonneg_left hn (by omega)
    omega
  have hget := GetSortedScan_eq lines s (by omega)
  unfold runScanLines
  simp only
  rw [hget]
  apply scanLoop_ok env p hcr hn lines.flatten.length
  · rfl
  · intro r hr
    obtain ⟨before, len, e1, _, e3⟩ := rangesFrom_mem lines 0 r hr
    subst e1
    simp only [rangeAt]
    refine ⟨by omega, ?_⟩
    intro hlong
    split at hlong
    · refine ⟨by rw [if_pos (by assumption)]; omega, ?_⟩
      rw [if_pos (by assumption)]
      have h1 : ((before + len - 1 : Nat) : Int) + 1 ≤
          (lines.flatten.length : Int) + 2 * p.curvature_region := by omega
      have := mul_le_mul_of_nonneg_right h1 (show (0 : Int) ≤ p.n_feature_regions by omega)
      omega
    · exfalso
      have : (0 : Int) ≤ before := Int.natCast_nonneg _
      push_cast at hlong
      omega

theorem ExtractFeaturesFromScanLines_ok (env : Env) (p : LoamParams)
    (lines : List PointCloudIRT) (s : State)
    (hcr : 1 ≤ p.curvature_region) (hn : 1 ≤ p.n_feature_regions)
    (hsize : ((lines.flatten.length : Int) + 2 * p.curvature_region) * p.n_feature_regions
      < SIZE_MOD) :
    ∃ out w s1, ExtractFeaturesFromScanLines env p lines s = .ok (out, w, s1) := by
  obtain ⟨s1, hs1⟩ := runScanLines_ok env p lines s hcr hn hsize
  unfold ExtractFeaturesFromScanLines
  rw [hs1, ok_bind]
  exact ⟨_, _, _, rfl⟩


/-! ### Claim C18: a flat patch has no corners -/

/-- On equally spaced collinear points the window sum is `(W + 2 m)` times the centre. -/
theorem windowSumW_affine (f : Point → ℚ) (scan : List Point) (W o d : ℚ) (i : Nat) :
    ∀ m : Nat, m ≤ i → i + m < scan.length →
      (∀ (k : Nat) (pt : Point), i - m ≤ k → k ≤ i + m → scan[k]? = some pt →
        f pt = o + k * d) →
      windowSumW f scan W i m = (W + 2 * m) * (o + i * d) := by
  intro m
  induction m with
  | zero =>
    intro _ h2 hf
    obtain ⟨pt, _, hpt⟩ := rd_of_lt (show i < scan.length by omega)
    rw [windowSumW_zero, coordAt_of_get f scan i pt hpt i rfl, hf i pt (by omega) (by omega) hpt]
    simp
  | succ m ih =>
    intro h1 h2 hf
    obtain ⟨a, _, ha⟩ := rd_of_lt (show i + (m + 1) < scan.length by omega)
    obtain ⟨b, _, hb⟩ := rd_of_lt (show i - (m + 1) < scan.length by omega)
    rw [windowSumW_succ, ih (by omega) (by omega)
        (fun k pt hk1 hk2 hpt => hf k pt (by omega) (by omega) hpt),
      coordAt_of_get f scan (i + (m + 1)) a ha _ (by push_cast; ring),
      coordAt_of_get f scan (i - (m + 1)) b hb _ (by
        rw [Nat.cast_sub (by omega)]; push_cast; ring),
      hf _ a (by omega) (by omega) ha, hf _ b (by omega) (by omega) hb]
    rw [Nat.cast_sub (by omega)]
    push_cast
    ring

theorem curvatureSpec_flat (scan : List Point) (cr : Int) (hcr : 0 ≤ cr) (a b i : Nat)
    (hflat : EquallySpacedOn scan a b) (h1 : a + cr.toNat ≤ i) (h2 : i + cr.toNat ≤ b)
    (hb : b < scan.length) : curvatureSpec scan cr i = 0 := by
  obtain ⟨ox, oy, oz, dx, dy, dz, hpts⟩ := hflat
  have hW : (((-2 * cr : Int) : ℚ) + 2 * (cr.toNat : ℚ)) = 0 := by
    have : ((cr.toNat : Nat) : Int) = cr := Int.toNat_of_nonneg hcr
    have h3 : ((cr.toNat : Nat) : ℚ) = ((cr : Int) : ℚ) := by
      rw [← Int.cast_natCast, this]
    rw [h3]; push_cast; ring
  have hx : windowSum (fun pt => pt.x) scan cr i = 0 := by
    rw [windowSum_eq _ _ _ hcr, windowSumW_affine _ scan _ ox dx i cr.toNat (by omega) (by omega)
      (fun k pt hk1 hk2 hpt => (hpts k pt (by omega) (by omega) hpt).1), hW, zero_mul]
  have hy : windowSum (fun pt => pt.y) scan cr i = 0 := by
    rw [windowSum_eq _ _ _ hcr, windowSumW_affine _ scan _ oy dy i cr.toNat (by omega) (by omega)
      (fun k pt hk1 hk2 hpt => (hpts k pt (by omega) (by omega) hpt).2.1), hW, zero_mul]
  have hz : windowSum (fun pt => pt.z) scan cr i = 0 := by
    rw [windowSum_eq _ _ _ hcr, windowSumW_affine _ scan _ oz dz i cr.toNat (by omega) (by omega)
      (fun k pt hk1 hk2 hpt => (hpts k pt (by omega) (by omega) hpt).2.2), hW, zero_mul]
  unfold curvatureSpec
  rw [hx, hy, hz]
  simp

/-- The corner pass changes nothing when none of the points it still has to visit has a
curvature above the threshold. -/
theorem cornerLoop_none (p : LoamParams) (scan_start_idx sp : Nat) :
    ∀ (k : Nat) (L : Int) (s s1 : State),
      (∀ t idx c, t < k → s.region_sort_indices_[t]? = some idx →
        s.region_curvature_[usub idx sp]? = some c → ¬ c > p.surface_curvature_threshold) →
      cornerLoop p scan_start_idx sp k L s = .ok s1 → s1 = s := by
  intro k
  induction k with
  | zero =>
    intro L s s1 _ h
    simp only [cornerLoop, Except.ok.injEq] at h
    exact h.symm
  | succ k ih =>
    intro L s s1 hno h
    have hno2 : ∀ t idx c, t < k → s.region_sort_indices_[t]? = some idx →
        s.region_curvature_[usub idx sp]? = some c → ¬ c > p.surface_curvature_threshold :=
      fun t idx c ht => hno t idx c (by omega)
    simp only [cornerLoop] at h
    split at h
    · simp only [bind_ok_iff] at h
      obtain ⟨idx, hidx, picked, _, h⟩ := h
      rw [rd_ok_iff] at hidx
      split at h
      · simp only [bind_ok_iff] at h
        obtain ⟨c, hc, h⟩ := h
        rw [rd_ok_iff] at hc
        split at h
        · rename_i hgt
          exact absurd hgt (hno k idx c (Nat.lt_succ_self _) hidx hc)
        · exact ih _ _ _ hno2 h
      · exact ih _ _ _ hno2 h
    · simp only [Except.ok.injEq] at h
      exact h.symm

theorem flatLoop_labels (p : LoamParams) (scan_start_idx sp left k : Nat) (L : Int)
    (acc acc1 : PointCloudIRT) (s s1 : State)
    (h0 : ∀ l ∈ s.region_label_, l = PointLabel.SURFACE_FLAT ∨ l = PointLabel.SURFACE_LESS_FLAT)
    (h : flatLoop p scan_start_idx sp left k L acc s = .ok (acc1, s1)) :
    s1.region_label_.length = s.region_label_.length ∧
    ∀ l ∈ s1.region_label_, l = PointLabel.SURFACE_FLAT ∨ l = PointLabel.SURFACE_LESS_FLAT := by
  obtain ⟨_, hinv⟩ := flatLoop_induction p scan_start_idx sp
    (fun _ _ s2 => s2.region_label_.length = s.region_label_.length ∧
      ∀ l ∈ s2.region_label_, l = PointLabel.SURFACE_FLAT ∨ l = PointLabel.SURFACE_LESS_FLAT)
    (by
      intro k L acc acc1 s2 s3 idx curv hinv _ _ _ _ _ hacc
      obtain ⟨_, pt, _, _, hmark⟩ := flatAccept_spec p idx _ _ acc acc1 s2 s3 hacc
      obtain ⟨hshape, _⟩ := MarkAsPicked_spec p idx _ _ s3 hmark
      have e : s3.region_label_ = s2.region_label_.set (usub idx sp) PointLabel.SURFACE_FLAT := by
        rw [hshape]
      rw [e]
      refine ⟨by rw [List.length_set]; exact hinv.1, ?_⟩
      intro l hl
      rcases List.mem_or_eq_of_mem_set hl with hl | hl
      · exact hinv.2 l hl
      · exact Or.inl hl)
    left k L acc acc1 s s1 ⟨rfl, h0⟩ h
  exact hinv

/-- The body of the region loop on a flat scan line: no corner is accepted and the labels
of a processed region are `SURFACE_FLAT` or `SURFACE_LESS_FLAT`. -/
theorem regionBody_flat (env : Env) (p : LoamParams) (start_idx end_idx : Nat)
    (h : LineOK p start_idx end_idx) (hpos : 1 ≤ start_idx + p.curvature_region.toNat)
    (hthr : 0 < p.surface_curvature_threshold)
    (j : Nat) (hj : (j : Int) < p.n_feature_regions)
    (acc acc1 : PointCloudIRT) (s s1 : State)
    (hscan : end_idx < s.sorted_scan_.length)
    (hflat : EquallySpacedOn s.sorted_scan_ start_idx end_idx)
    (hrun : regionBody env p start_idx end_idx j acc s = .ok (acc1, s1)) :
    s1.sorted_scan_ = s.sorted_scan_ ∧
    s1.corner_points_sharp_ = s.corner_points_sharp_ ∧
    s1.corner_points_less_sharp_ = s.corner_points_less_sharp_ ∧
    (regionSkipped p start_idx end_idx j = false →
      s1.region_label_.length =
        regionEnd p start_idx end_idx j - regionStart p start_idx end_idx j + 1 ∧
      ∀ l ∈ s1.region_label_,
        l = PointLabel.SURFACE_FLAT ∨ l = PointLabel.SURFACE_LESS_FLAT) := by
  obtain ⟨b1, b2, b3⟩ := region_in_line p start_idx end_idx h hpos j hj
  unfold regionBody at hrun
  simp only at hrun
  split at hrun
  · rename_i hskip
    simp only [Except.ok.injEq, Prod.mk.injEq] at hrun
    obtain ⟨_, h2⟩ := hrun
    subst h2
    exact ⟨rfl, rfl, rfl, fun hc => by rw [hskip] at hc; exact absurd hc (by decide)⟩
  · rename_i hskip
    have hlt : regionStart p start_idx end_idx j < regionEnd p start_idx end_idx j := by
      simp only [regionSkipped, decide_eq_true_eq, not_le] at hskip
      exact hskip
    have hsize : uadd (usub (regionEnd p start_idx end_idx j) (regionStart p start_idx end_idx j)) 1
        = regionEnd p start_idx end_idx j - regionStart p start_idx end_idx j + 1 := by
      rw [usub_eq (by omega) (by omega), uadd_eq (by omega)]
    simp only [bind_ok_iff] at hrun
    obtain ⟨s2, hs2, hrun⟩ := hrun
    have hframe := SetRegionBuffersFor_frame p _ _ s s2 hs2
    have hcurv := SetRegionBuffersFor_curvature p _ _ s s2 h.hcr (by omega) (le_of_lt hlt)
      (by omega) hs2
    obtain ⟨i1, i2, i3⟩ := SetRegionBuffersFor_indices p _ _ s s2 (le_of_lt hlt) (by omega) hs2
    simp only [regionPasses, bind_ok_iff] at hrun
    obtain ⟨s3, hs3, ⟨acc4, s4⟩, hs4, hrun⟩ := hrun
    have hs32 : s3 = s2 := by
      apply cornerLoop_none p _ _ _ _ s2 s3 _ hs3
      intro t idx c _ hidx hc
      obtain ⟨m1, m2⟩ := i3 idx (List.getElem?_mem hidx)
      rw [usub_eq m1 (by omega), hcurv idx m1 m2,
        curvatureSpec_flat s.sorted_scan_ p.curvature_region h.hcr start_idx end_idx idx hflat
          (by omega) (by omega) hscan] at hc
      simp only [Option.some.injEq] at hc
      rw [← hc]
      exact not_lt.mpr (le_of_lt hthr)
    subst hs32
    have hlab0 : ∀ l ∈ s3.region_label_,
        l = PointLabel.SURFACE_FLAT ∨ l = PointLabel.SURFACE_LESS_FLAT := by
      intro l hl
      rw [hframe] at hl
      exact Or.inr (List.eq_of_mem_replicate hl)
    obtain ⟨l1, l2⟩ := flatLoop_labels p _ _ _ _ _ _ _ s3 s4 hlab0 hs4
    obtain ⟨e1, e2⟩ := flatLoop_corners p _ _ _ _ _ _ _ s3 s4 hs4
    have hs : s1 = s4 := by
      simp only at hrun
      split at hrun
      · simp only [bind_ok_iff, Except.ok.injEq, Prod.mk.injEq] at hrun
        obtain ⟨_, _, _, hrun⟩ := hrun
        exact hrun.symm
      · simp only [Except.ok.injEq, Prod.mk.injEq] at hrun
        exact hrun.2.symm
    subst hs
    have hsc : s1.sorted_scan_ = s3.sorted_scan_ := by
      obtain ⟨_, hinv⟩ := flatLoop_induction p start_idx _
        (fun _ _ s5 => s5.sorted_scan_ = s3.sorted_scan_)
        (by
          intro k L acc acc1 s5 s6 idx curv hinv _ _ _ _ _ hacc
          obtain ⟨_, pt, _, _, hmark⟩ := flatAccept_spec p idx _ _ acc acc1 s5 s6 hacc
          obtain ⟨hshape, _⟩ := MarkAsPicked_spec p idx _ _ s6 hmark
          rw [hshape]; exact hinv)
        _ _ _ _ _ s3 s1 rfl hs4
      exact hinv
    refine ⟨by rw [hsc, hframe], by rw [e1, hframe], by rw [e2, hframe], fun _ => ⟨?_, l2⟩⟩
    rw [l1, i2]


theorem regionLoop_flat (env : Env) (p : LoamParams) (start_idx end_idx : Nat)
    (h : LineOK p start_idx end_idx) (hpos : 1 ≤ start_idx + p.curvature_region.toNat)
    (hthr : 0 < p.surface_curvature_threshold) :
    ∀ (left j : Nat) (acc acc1 : PointCloudIRT) (s s1 : State),
      ((j + left : Nat) : Int) ≤ p.n_feature_regions →
      end_idx < s.sorted_scan_.length →
      EquallySpacedOn s.sorted_scan_ start_idx end_idx →
      regionLoop env p start_idx end_idx left (j : Int) acc s = .ok (acc1, s1) →
      s1.sorted_scan_ = s.sorted_scan_ ∧
      s1.corner_points_sharp_ = s.corner_points_sharp_ ∧
      s1.corner_points_less_sharp_ = s.corner_points_less_sharp_ := by
  intro left
  induction left with
  | zero =>
    intro j acc acc1 s s1 _ _ _ hrun
    simp only [regionLoop, Except.ok.injEq, Prod.mk.injEq] at hrun
    obtain ⟨_, h2⟩ := hrun
    subst h2; exact ⟨rfl, rfl, rfl⟩
  | succ left ih =>
    intro j acc acc1 s s1 hj hscan hflat hrun
    simp only [regionLoop, bind_ok_iff] at hrun
    obtain ⟨⟨acc2, s2⟩, h2, hrun⟩ := hrun
    obtain ⟨e1, e2, e3, _⟩ := regionBody_flat env p start_idx end_idx h hpos hthr j
      (by push_cast at hj; omega) acc acc2 s s2 hscan hflat h2
    have e : (j : Int) + 1 = ((j + 1 : Nat) : Int) := by push_cast; rfl
    simp only at hrun
    rw [e] at hrun
    obtain ⟨f1, f2, f3⟩ := ih (j + 1) acc2 acc1 s2 s1 (by push_cast at hj ⊢; omega)
      (by rw [e1]; exact hscan) (by rw [e1]; exact hflat) hrun
    exact ⟨f1.trans e1, f2.trans e2, f3.trans e3⟩

theorem scanBody_flat (env : Env) (p : LoamParams) (range : IndexRange) (s s1 : State)
    (hcr : 1 ≤ p.curvature_region) (hthr : 0 < p.surface_curvature_threshold)
    (hline : scanSkipped p range = false →
      LineOK p range.1 range.2 ∧ range.2 < s.sorted_scan_.length ∧
      EquallySpacedOn s.sorted_scan_ range.1 range.2)
    (hrun : scanBody env p range s = .ok s1) :
    s1.sorted_scan_ = s.sorted_scan_ ∧
    s1.corner_points_sharp_ = s.corner_points_sharp_ ∧
    s1.corner_points_less_sharp_ = s.corner_points_less_sharp_ := by
  unfold scanBody at hrun
  split at hrun
  · simp only [Except.ok.injEq] at hrun
    subst hrun; exact ⟨rfl, rfl, rfl⟩
  · rename_i hskip
    obtain ⟨hl, hscan, hflat⟩ := hline (by simpa using hskip)
    simp only [bind_ok_iff] at hrun
    obtain ⟨s2, hs2, ⟨acc, s3⟩, hs3, hrun⟩ := hrun
    have hframe := SetScanBuffersFor_frame env p _ _ s s2 hs2
    have e1 : s2.sorted_scan_ = s.sorted_scan_ := by rw [hframe]
    have e2 : s2.corner_points_sharp_ = s.corner_points_sharp_ := by rw [hframe]
    have e3 : s2.corner_points_less_sharp_ = s.corner_points_less_sharp_ := by rw [hframe]
    rw [← Nat.cast_zero] at hs3
    obtain ⟨f1, f2, f3⟩ := regionLoop_flat env p range.1 range.2 hl (by omega) hthr
      p.n_feature_regions.toNat 0 [] acc s2 s3 (by
        rw [Nat.zero_add, Int.toNat_of_nonneg (by have := hl.hn; omega)])
      (by rw [e1]; exact hscan) (by rw [e1]; exact hflat) hs3
    simp only at hrun
    split at hrun <;>
    · simp only [Except.ok.injEq] at hrun
      subst hrun
      exact ⟨f1.trans e1, f2.trans e2, f3.trans e3⟩

theorem scanLoop_flat (env : Env) (p : LoamParams)
    (hcr : 1 ≤ p.curvature_region) (hthr : 0 < p.surface_curvature_threshold) :
    ∀ (ranges : List IndexRange) (s s1 : State),
      (∀ r ∈ ranges, scanSkipped p r = false →
        LineOK p r.1 r.2 ∧ r.2 < s.sorted_scan_.length ∧
        EquallySpacedOn s.sorted_scan_ r.1 r.2) →
      scanLoop env p ranges s = .ok s1 →
      s1.sorted_scan_ = s.sorted_scan_ ∧
      s1.corner_points_sharp_ = s.corner_points_sharp_ ∧
      s1.corner_points_less_sharp_ = s.corner_points_less_sharp_ := by
  intro ranges
  induction ranges with
  | nil =>
    intro s s1 _ hrun
    simp only [scanLoop, Except.ok.injEq] at hrun
    subst hrun; exact ⟨rfl, rfl, rfl⟩
  | cons r rest ih =>
    intro s s1 hr hrun
    simp only [scanLoop, bind_ok_iff] at hrun
    obtain ⟨s2, hs2, hrun⟩ := hrun
    obtain ⟨e1, e2, e3⟩ := scanBody_flat env p r s s2 hcr hthr (hr r (List.mem_cons_self _ _)) hs2
    obtain ⟨f1, f2, f3⟩ := ih s2 s1 (fun r2 hr2 hs => by
      rw [e1]; exact hr r2 (List.mem_cons_of_mem _ hr2) hs) hrun
    exact ⟨f1.trans e1, f2.trans e2, f3.trans e3⟩

/-- The range recorded for a scan line whose points are equally spaced: if the line is not
skipped, its index arithmetic does not wrap, it lies in the sorted scan and the sorted scan
is equally spaced on it. -/
theorem range_flat (p : LoamParams) (lines : List PointCloudIRT)
    (hcr : 1 ≤ p.curvature_region) (hn : 1 ≤ p.n_feature_regions)
    (hsize : ((lines.flatten.length : Int) + 2 * p.curvature_region) * p.n_feature_regions
      < SIZE_MOD)
    (hflat : ∀ l ∈ lines, EquallySpaced l)
    (i : Nat) (r : IndexRange) (hr : (rangesFrom 0 lines)[i]? = some r)
    (hskip : scanSkipped p r = false) :
    LineOK p r.1 r.2 ∧ r.2 < lines.flatten.length ∧ EquallySpacedOn lines.flatten r.1 r.2 := by
  have hsz : (lines.flatten.length : Int) + 2 * p.curvature_region < SIZE_MOD := by
    have : ((lines.flatten.length : Int) + 2 * p.curvature_region) * 1 ≤
        ((lines.flatten.length : Int) + 2 * p.curvature_region) * p.n_feature_regions :=
      mul_le_mul_of_nonneg_left hn (by omega)
    omega
  have hi : i < lines.length := by
    have := (List.getElem?_eq_some_iff.mp hr).1
    rw [rangesFrom_length] at this
    exact this
  obtain ⟨ln, hln⟩ : ∃ ln, lines[i]? = some ln := ⟨lines[i], List.getElem?_eq_getElem hi⟩
  have hr2 := rangesFrom_getElem? lines 0 i ln hln
  rw [hr] at hr2
  simp only [Option.some.injEq, Nat.zero_add] at hr2
  have hsplit := flatten_split lines i ln hln
  have htot : (lines.take i).flatten.length + ln.length ≤ lines.flatten.length := by
    rw [hsplit]
    simp only [List.length_append]
    omega
  have hc2 : toSizeT (2 * p.curvature_region) = 2 * p.curvature_region.toNat := by
    rw [toSizeT_eq (by omega) (by omega)]
    omega
  subst hr2
  simp only [scanSkipped, decide_eq_false_iff_not, not_le, hc2, rangeAt] at hskip ⊢
  rw [uadd_eq (by omega)] at hskip
  have hpos : 0 < (lines.take i).flatten.length + ln.length := by
    by_contra hc
    rw [if_neg hc] at hskip
    omega
  rw [if_pos hpos] at hskip ⊢
  refine ⟨⟨by omega, hn, by omega, ?_⟩, by omega, ?_⟩
  · have h1 : (((lines.take i).flatten.length + ln.length - 1 : Nat) : Int) ≤
        (lines.flatten.length : Int) + 2 * p.curvature_region := by omega
    have := mul_le_mul_of_nonneg_right h1 (show (0 : Int) ≤ p.n_feature_regions by omega)
    omega
  · obtain ⟨ox, oy, oz, dx, dy, dz, hpts⟩ := hflat ln (List.getElem?_mem hln)
    refine ⟨ox - (lines.take i).flatten.length * dx, oy - (lines.take i).flatten.length * dy,
      oz - (lines.take i).flatten.length * dz, dx, dy, dz, ?_⟩
    intro k pt hk1 hk2 hpt
    have hget : ln[k - (lines.take i).flatten.length]? = some pt := by
      rw [hsplit, List.append_assoc, List.getElem?_append_right hk1,
        List.getElem?_append_left (by omega)] at hpt
      exact hpt
    obtain ⟨c1, c2, c3⟩ := hpts _ pt hget
    rw [c1, c2, c3, Nat.cast_sub hk1]
    refine ⟨by ring, by ring, by ring⟩

/-- Claim C18: for scan lines of equally spaced collinear points and a positive
`surface_curvature_threshold` (with `curvature_region ≥ 1`, `n_feature_regions ≥ 1` and
sizes below the range of `size_t`), the extraction returns and selects no corner: the
corner-sharp and the corner-less-sharp output are empty, and when the body of the region
loop returns for a processed region of a processed scan line, every label of the region is
`SURFACE_FLAT` or `SURFACE_LESS_FLAT`. -/
theorem flat_patch_no_corners (env : Env) (p : LoamParams) (lines : List PointCloudIRT)
    (s : State) (hcr : 1 ≤ p.curvature_region) (hn : 1 ≤ p.n_feature_regions)
    (hsize : ((lines.flatten.length : Int) + 2 * p.curvature_region) * p.n_feature_regions
      < SIZE_MOD)
    (hthr : 0 < p.surface_curvature_threshold)
    (hflat : ∀ l ∈ lines, EquallySpaced l) :
    (∃ out w s1, ExtractFeaturesFromScanLines env p lines s = .ok (out, w, s1) ∧
      out.edges_strong = [] ∧ out.edges_weak = []) ∧
    (∀ (i : Nat) (range : IndexRange) (j : Nat) (acc acc1 : PointCloudIRT) (st st1 : State),
      (GetSortedScan lines (Reset s)).scan_indices_[i]? = some range →
      scanSkipped p range = false → (j : Int) < p.n_feature_regions →
      regionSkipped p range.1 range.2 j = false →
      st.sorted_scan_ = (GetSortedScan lines (Reset s)).sorted_scan_ →
      regionBody env p range.1 range.2 j acc st = .ok (acc1, st1) →
      st1.region_label_.length =
        regionEnd p range.1 range.2 j - regionStart p range.1 range.2 j + 1 ∧
      ∀ l ∈ st1.region_label_,
        l = PointLabel.SURFACE_FLAT ∨ l = PointLabel.SURFACE_LESS_FLAT) := by
  have hsz : (lines.flatten.length : Int) + 2 * p.curvature_region < SIZE_MOD := by
    have : ((lines.flatten.length : Int) + 2 * p.curvature_region) * 1 ≤
        ((lines.flatten.length : Int) + 2 * p.curvature_region) * p.n_feature_regions :=
      mul_le_mul_of_nonneg_left hn (by omega)
    omega
  have hget := GetSortedScan_eq lines s (by omega)
  constructor
  · obtain ⟨out, w, s1, hrun⟩ := ExtractFeaturesFromScanLines_ok env p lines s hcr hn hsize
    refine ⟨out, w, s1, hrun, ?_⟩
    unfold ExtractFeaturesFromScanLines at hrun
    simp only [bind_ok_iff] at hrun
    obtain ⟨s2, hs2, hrun⟩ := hrun
    unfold runScanLines at hs2
    simp only at hs2
    rw [hget] at hs2
    obtain ⟨_, e2, e3⟩ := scanLoop_flat env p hcr hthr _ _ s2 (by
      intro r hr hskip
      obtain ⟨i, hi, hri⟩ := List.getElem_of_mem hr
      exact range_flat p lines hcr hn hsize hflat i r (by
        rw [List.getElem?_eq_getElem hi, hri]) hskip) hs2
    simp only [Except.ok.injEq, Prod.mk.injEq] at hrun
    obtain ⟨h1, _, _⟩ := hrun
    rw [← h1]
    exact ⟨e2, e3⟩
  · intro i range j acc acc1 st st1 hr hskip hj hrs hst hrun
    rw [hget] at hr hst
    simp only at hr hst
    obtain ⟨hl, hscan, hfl⟩ := range_flat p lines hcr hn hsize hflat i range hr hskip
    exact (regionBody_flat env p range.1 range.2 hl (by omega) hthr j hj acc acc1 st st1
      (by rw [hst]; exact hscan) (by rw [hst]; exact hfl) hrun).2.2.2 hrs

/-- Witness for claim C18: a scan line of seven points on a straight line. -/
theorem flat_patch_no_corners_witness :
    (∀ l ∈ [sampleFlat7], EquallySpaced l) ∧
    ∃ out w s1, ExtractFeaturesFromScanLines sampleEnv sampleParams [sampleFlat7] sampleState =
        .ok (out, w, s1) ∧ out.edges_strong = [] ∧ out.edges_weak = [] :=
  have hflat : ∀ l ∈ [sampleFlat7], EquallySpaced l := by
    intro l hl
    rw [List.mem_singleton] at hl
    subst hl
    refine ⟨10, 0, 0, 1 / 100, 0, 0, ?_⟩
    intro k pt hk
    have hk7 : k < 7 := (List.getElem?_eq_some_iff.mp hk).1
    interval_cases k <;>
    · simp only [sampleFlat7, List.getElem?_cons_zero, List.getElem?_cons_succ,
        Option.some.injEq] at hk
      subst hk
      simp only [samplePoint]
      norm_num
  ⟨hflat, (flat_patch_no_corners sampleEnv sampleParams [sampleFlat7] sampleState (by decide)
    (by decide) (by decide) (by decide!) hflat).1⟩


/-! ### Claim C13: `ignore_weak_features` -/

theorem SetScanBuffersStep_weak (env : Env) (p q : LoamParams)
    (hcr : q.curvature_region = p.curvature_region) (A B : List Point)
    (start_idx i : Nat) (s s1 : State) (h : SetScanBuffersStep env p start_idx i s = .ok s1) :
    SetScanBuffersStep env q start_idx i (withWeak A B s) = .ok (withWeak A B s1) := by
  simp only [SetScanBuffersStep, bind_ok_iff] at h
  obtain ⟨prev, hprev, pt, hpt, next, hnext, h⟩ := h
  simp only [SetScanBuffersStep, withWeak, hcr]
  rw [hprev, ok_bind, hpt, ok_bind, hnext, ok_bind]
  split at h
  · rename_i hc
    simp only [bind_ok_iff, Except.ok.injEq] at h
    obtain ⟨m, hm, h⟩ := h
    subst h
    rw [if_pos hc, hm, ok_bind]
  · rename_i hc
    rw [if_neg hc]
    simp only [bind_ok_iff] at h
    obtain ⟨m, hm, h⟩ := h
    rw [hm, ok_bind]
    split at h
    · rename_i hc2
      simp only [bind_ok_iff, Except.ok.injEq] at h
      obtain ⟨m2, hm2, h⟩ := h
      subst h
      rw [if_pos hc2, hm2, ok_bind]
    · rename_i hc2
      simp only [Except.ok.injEq] at h
      subst h
      rw [if_neg hc2]

theorem SetScanBuffersLoop_weak (env : Env) (p q : LoamParams)
    (hcr : q.curvature_region = p.curvature_region) (A B : List Point) (start_idx : Nat) :
    ∀ (left i : Nat) (s s1 : State), SetScanBuffersLoop env p start_idx left i s = .ok s1 →
      SetScanBuffersLoop env q start_idx left i (withWeak A B s) = .ok (withWeak A B s1) := by
  intro left
  induction left with
  | zero =>
    intro i s s1 h
    simp only [SetScanBuffersLoop, Except.ok.injEq] at h
    subst h
    rfl
  | succ left ih =>
    intro i s s1 h
    simp only [SetScanBuffersLoop, bind_ok_iff] at h
    obtain ⟨s2, hs2, h⟩ := h
    simp only [SetScanBuffersLoop]
    rw [SetScanBuffersStep_weak env p q hcr A B start_idx i s s2 hs2, ok_bind]
    exact ih _ _ _ h

theorem SetScanBuffersFor_weak (env : Env) (p q : LoamParams)
    (hcr : q.curvature_region = p.curvature_region) (A B : List Point)
    (start_idx end_idx : Nat) (s s1 : State)
    (h : SetScanBuffersFor env p start_idx end_idx s = .ok s1) :
    SetScanBuffersFor env q start_idx end_idx (withWeak A B s) = .ok (withWeak A B s1) := by
  simp only [SetScanBuffersFor] at h
  simp only [SetScanBuffersFor, hcr]
  exact SetScanBuffersLoop_weak env p q hcr A B start_idx _ _ _ _ h

theorem curvatureLoop_weak (p q : LoamParams)
    (hcr : q.curvature_region = p.curvature_region) (A B : List Point) :
    ∀ (left i r : Nat) (s s1 : State), curvatureLoop p left i r s = .ok s1 →
      curvatureLoop q left i r (withWeak A B s) = .ok (withWeak A B s1) := by
  intro left
  induction left with
  | zero =>
    intro i r s s1 h
    simp only [curvatureLoop, Except.ok.injEq] at h
    subst h
    rfl
  | succ left ih =>
    intro i r s s1 h
    simp only [curvatureLoop, bind_ok_iff] at h
    obtain ⟨pt, hpt, d, hd, c, hc, ix, hix, h⟩ := h
    simp only [curvatureLoop, withWeak, hcr]
    rw [hpt, ok_bind, hd, ok_bind, hc, ok_bind, hix, ok_bind]
    exact ih _ _ _ _ h

theorem sortInner_weak (A B : List Point) (sp : Nat) :
    ∀ (j : Nat) (s s1 : State), sortInner sp j s = .ok s1 →
      sortInner sp j (withWeak A B s) = .ok (withWeak A B s1) := by
  intro j
  induction j with
  | zero =>
    intro s s1 h
    simp only [sortInner, Except.ok.injEq] at h
    subst h
    rfl
  | succ j ih =>
    intro s s1 h
    simp only [sortInner, bind_ok_iff] at h
    obtain ⟨a, ha, b, hb, ca, hca, cb, hcb, h⟩ := h
    simp only [sortInner, withWeak]
    rw [ha, ok_bind, hb, ok_bind, hca, ok_bind, hcb, ok_bind]
    split at h
    · rename_i hc
      simp only [bind_ok_iff] at h
      obtain ⟨i1, hi1, i2, hi2, h⟩ := h
      rw [if_pos hc, hi1, ok_bind, hi2, ok_bind]
      exact ih _ _ h
    · rename_i hc
      rw [if_neg hc]
      exact ih _ _ h

theorem sortOuter_weak (A B : List Point) (sp : Nat) :
    ∀ (left i : Nat) (s s1 : State), sortOuter sp left i s = .ok s1 →
      sortOuter sp left i (withWeak A B s) = .ok (withWeak A B s1) := by
  intro left
  induction left with
  | zero =>
    intro i s s1 h
    simp only [sortOuter, Except.ok.injEq] at h
    subst h
    rfl
  | succ left ih =>
    intro i s s1 h
    simp only [sortOuter, bind_ok_iff] at h
    obtain ⟨s2, hs2, h⟩ := h
    simp only [sortOuter]
    rw [sortInner_weak A B sp i s s2 hs2, ok_bind]
    exact ih _ _ _ h

theorem SetRegionBuffersFor_weak (p q : LoamParams)
    (hcr : q.curvature_region = p.curvature_region) (A B : List Point)
    (sp ep : Nat) (s s1 : State) (h : SetRegionBuffersFor p sp ep s = .ok s1) :
    SetRegionBuffersFor q sp ep (withWeak A B s) = .ok (withWeak A B s1) := by
  simp only [SetRegionBuffersFor, bind_ok_iff] at h
  obtain ⟨s2, hs2, h⟩ := h
  simp only [SetRegionBuffersFor]
  have := curvatureLoop_weak p q hcr A B _ _ _ _ _ hs2
  simp only [withWeak] at this ⊢
  rw [this, ok_bind]
  exact sortOuter_weak A B sp _ _ _ _ h

theorem MarkAsPicked_weak (p q : LoamParams)
    (hcr : q.curvature_region = p.curvature_region) (A B : List Point)
    (c k : Nat) (s s1 : State) (h : MarkAsPicked p c k s = .ok s1) :
    MarkAsPicked q c k (withWeak A B s) = .ok (withWeak A B s1) := by
  simp only [MarkAsPicked, bind_ok_iff, Except.ok.injEq] at h
  obtain ⟨m0, hm0, m1, hm1, m2, hm2, h⟩ := h
  subst h
  simp only [MarkAsPicked, withWeak, hcr]
  rw [hm0, ok_bind, hm1, ok_bind, hm2, ok_bind]


theorem cornerAccept_weak (p q : LoamParams) (hw : WeakIgnored p q) (A B : List Point)
    (idx scan_idx region_idx : Nat) (L : Int) (s s3 : State)
    (h : cornerAccept p idx scan_idx region_idx L s = .ok s3) :
    cornerAccept q idx scan_idx region_idx L (withWeak A B s) = .ok (withWeak A B s3) := by
  obtain ⟨hl, hmark⟩ := cornerAccept_spec p idx _ _ _ s s3 h
  obtain ⟨_, _, hpt⟩ := cornerAccept_corners p idx _ _ _ s s3 h
  obtain ⟨pt, hpt⟩ := hpt hw.hF
  rw [cornerAccept_eq q idx scan_idx region_idx L (withWeak A B s) pt hl hpt]
  have := MarkAsPicked_weak p q hw.hcr A B idx scan_idx _ s3 hmark
  rw [← this]
  simp only [withWeak, hw.hT, hw.hcs, hpt, Option.toList_some, if_true, List.append_nil]

theorem cornerLoop_weak (p q : LoamParams) (hw : WeakIgnored p q) (A B : List Point)
    (scan_start_idx sp : Nat) :
    ∀ (k : Nat) (L : Int) (s s1 : State), cornerLoop p scan_start_idx sp k L s = .ok s1 →
      cornerLoop q scan_start_idx sp k L (withWeak A B s) = .ok (withWeak A B s1) := by
  intro k
  induction k with
  | zero =>
    intro L s s1 h
    simp only [cornerLoop, Except.ok.injEq] at h
    subst h
    rfl
  | succ k ih =>
    intro L s s1 h
    simp only [cornerLoop] at h ⊢
    rw [hw.hcls, hw.hthr]
    split at h
    · rename_i hL
      rw [if_pos hL]
      simp only [bind_ok_iff] at h
      obtain ⟨idx, hidx, picked, hp, h⟩ := h
      have hidx2 : rd (withWeak A B s).region_sort_indices_ k = .ok idx := hidx
      have hp2 : rd (withWeak A B s).scan_neighbor_picked_ (usub idx scan_start_idx) = .ok picked := hp
      rw [hidx2, ok_bind, hp2, ok_bind]
      split at h
      · rename_i h0
        rw [if_pos h0]
        simp only [bind_ok_iff] at h
        obtain ⟨c, hc, h⟩ := h
        have hc2 : rd (withWeak A B s).region_curvature_ (usub idx sp) = .ok c := hc
        rw [hc2, ok_bind]
        split at h
        · rename_i hgt
          rw [if_pos hgt]
          simp only [bind_ok_iff] at h
          obtain ⟨s3, hs3, h⟩ := h
          rw [cornerAccept_weak p q hw A B _ _ _ _ s s3 hs3, ok_bind]
          exact ih _ _ _ h
        · rename_i hgt
          rw [if_neg hgt]
          exact ih _ _ _ h
      · rename_i h0
        rw [if_neg h0]
        exact ih _ _ _ h
    · rename_i hL
      rw [if_neg hL]
      simp only [Except.ok.injEq] at h
      subst h
      rfl

theorem flatAccept_weak (p q : LoamParams) (hw : WeakIgnored p q) (A B : List Point)
    (idx scan_idx region_idx : Nat) (acc acc1 accT : PointCloudIRT) (s s2 : State)
    (h : flatAccept p idx scan_idx region_idx acc s = .ok (acc1, s2)) :
    flatAccept q idx scan_idx region_idx accT (withWeak A B s) =
      .ok (accT, withWeak A B s2) := by
  obtain ⟨hl, pt, hpt, _, hmark⟩ := flatAccept_spec p idx _ _ acc acc1 s s2 h
  rw [flatAccept_eq q idx scan_idx region_idx accT (withWeak A B s) pt hl hpt]
  have := MarkAsPicked_weak p q hw.hcr A B idx scan_idx _ s2 hmark
  simp only [withWeak] at this ⊢
  rw [this, ok_bind, hw.hT, if_pos rfl]

theorem flatLoop_weak (p q : LoamParams) (hw : WeakIgnored p q) (A B : List Point)
    (scan_start_idx sp : Nat) (accT : PointCloudIRT) :
    ∀ (left k : Nat) (L : Int) (acc acc1 : PointCloudIRT) (s s1 : State),
      flatLoop p scan_start_idx sp left k L acc s = .ok (acc1, s1) →
      flatLoop q scan_start_idx sp left k L accT (withWeak A B s) =
        .ok (accT, withWeak A B s1) := by
  intro left
  induction left with
  | zero =>
    intro k L acc acc1 s s1 h
    simp only [flatLoop, Except.ok.injEq, Prod.mk.injEq] at h
    obtain ⟨_, h⟩ := h
    subst h
    rfl
  | succ left ih =>
    intro k L acc acc1 s s1 h
    simp only [flatLoop] at h ⊢
    rw [hw.hflat, hw.hthr]
    split at h
    · rename_i hL
      rw [if_pos hL]
      simp only [bind_ok_iff] at h
      obtain ⟨idx, hidx, picked, hp, h⟩ := h
      have hidx2 : rd (withWeak A B s).region_sort_indices_ k = .ok idx := hidx
      have hp2 : rd (withWeak A B s).scan_neighbor_picked_ (usub idx scan_start_idx) = .ok picked := hp
      rw [hidx2, ok_bind, hp2, ok_bind]
      split at h
      · rename_i h0
        rw [if_pos h0]
        simp only [bind_ok_iff] at h
        obtain ⟨c, hc, h⟩ := h
        have hc2 : rd (withWeak A B s).region_curvature_ (usub idx sp) = .ok c := hc
        rw [hc2, ok_bind]
        split at h
        · rename_i hgt
          rw [if_pos hgt]
          simp only [bind_ok_iff] at h
          obtain ⟨⟨acc3, s3⟩, hs3, h⟩ := h
          rw [flatAccept_weak p q hw A B _ _ _ acc acc3 accT s s3 hs3, ok_bind]
          exact ih _ _ _ _ _ _ h
        · rename_i hgt
          rw [if_neg hgt]
          exact ih _ _ _ _ _ _ h
      · rename_i h0
        rw [if_neg h0]
        exact ih _ _ _ _ _ _ h
    · rename_i hL
      rw [if_neg hL]
      simp only [Except.ok.injEq, Prod.mk.injEq] at h
      obtain ⟨_, h⟩ := h
      subst h
      rfl

theorem regionPasses_weak (env : Env) (p q : LoamParams) (hw : WeakIgnored p q)
    (A B : List Point) (scan_start_idx sp region_size : Nat)
    (acc acc1 accT : PointCloudIRT) (s s1 : State)
    (h : regionPasses env p scan_start_idx sp region_size acc s = .ok (acc1, s1)) :
    regionPasses env q scan_start_idx sp region_size accT (withWeak A B s) =
      .ok (accT, withWeak A B s1) := by
  simp only [regionPasses, bind_ok_iff] at h
  obtain ⟨s2, hs2, ⟨acc3, s3⟩, hs3, h⟩ := h
  simp only [regionPasses]
  rw [cornerLoop_weak p q hw A B _ _ _ _ s s2 hs2, ok_bind,
    flatLoop_weak p q hw A B _ _ accT _ _ _ acc acc3 s2 s3 hs3, ok_bind]
  simp only [hw.hT, not_true_eq_false, if_false]
  simp only [hw.hF, Bool.false_eq_true, not_false_eq_true, if_true, bind_ok_iff,
    Except.ok.injEq, Prod.mk.injEq] at h
  obtain ⟨_, _, _, h⟩ := h
  rw [h]

theorem regionBody_weak (env : Env) (p q : LoamParams) (hw : WeakIgnored p q)
    (A B : List Point) (scan_start_idx scan_end_idx : Nat) (j : Int)
    (acc acc1 accT : PointCloudIRT) (s s1 : State)
    (h : regionBody env p scan_start_idx scan_end_idx j acc s = .ok (acc1, s1)) :
    regionBody env q scan_start_idx scan_end_idx j accT (withWeak A B s) =
      .ok (accT, withWeak A B s1) := by
  have e1 : regionStart q scan_start_idx scan_end_idx j = regionStart p scan_start_idx scan_end_idx j := by
    simp only [regionStart, hw.hcr, hw.hn]
  have e2 : regionEnd q scan_start_idx scan_end_idx j = regionEnd p scan_start_idx scan_end_idx j := by
    simp only [regionEnd, hw.hcr, hw.hn]
  have e3 : regionSkipped q scan_start_idx scan_end_idx j = regionSkipped p scan_start_idx scan_end_idx j := by
    simp only [regionSkipped, e1, e2]
  unfold regionBody at h ⊢
  simp only at h ⊢
  rw [e1, e2, e3]
  split at h
  · rename_i hs
    rw [if_pos hs]
    simp only [Except.ok.injEq, Prod.mk.injEq] at h
    obtain ⟨_, h⟩ := h
    subst h
    rfl
  · rename_i hs
    rw [if_neg hs]
    simp only [bind_ok_iff] at h
    obtain ⟨s2, hs2, h⟩ := h
    rw [SetRegionBuffersFor_weak p q hw.hcr A B _ _ s s2 hs2, ok_bind]
    exact regionPasses_weak env p q hw A B _ _ _ acc acc1 accT s2 s1 h

theorem regionLoop_weak (env : Env) (p q : LoamParams) (hw : WeakIgnored p q)
    (A B : List Point) (scan_start_idx scan_end_idx : Nat) (accT : PointCloudIRT) :
    ∀ (left : Nat) (j : Int) (acc acc1 : PointCloudIRT) (s s1 : State),
      regionLoop env p scan_start_idx scan_end_idx left j acc s = .ok (acc1, s1) →
      regionLoop env q scan_start_idx scan_end_idx left j accT (withWeak A B s) =
        .ok (accT, withWeak A B s1) := by
  intro left
  induction left with
  | zero =>
    intro j acc acc1 s s1 h
    simp only [regionLoop, Except.ok.injEq, Prod.mk.injEq] at h
    obtain ⟨_, h⟩ := h
    subst h
    rfl
  | succ left ih =>
    intro j acc acc1 s s1 h
    simp only [regionLoop, bind_ok_iff] at h
    obtain ⟨⟨acc2, s2⟩, hs2, h⟩ := h
    simp only [regionLoop]
    rw [regionBody_weak env p q hw A B _ _ j acc acc2 accT s s2 hs2, ok_bind]
    exact ih _ _ _ _ _ h

theorem scanBody_weak (env : Env) (p q : LoamParams) (hw : WeakIgnored p q)
    (A B : List Point) (range : IndexRange) (s s1 : State)
    (h : scanBody env p range s = .ok s1) :
    scanBody env q range (withWeak A B s) = .ok (withWeak A B s1) := by
  have e1 : scanSkipped q range = scanSkipped p range := by
    simp only [scanSkipped, hw.hcr]
  unfold scanBody at h ⊢
  rw [e1]
  split at h
  · rename_i hs
    rw [if_pos hs]
    simp only [Except.ok.injEq] at h
    subst h
    rfl
  · rename_i hs
    rw [if_neg hs]
    simp only [bind_ok_iff] at h
    obtain ⟨s2, hs2, ⟨acc, s3⟩, hs3, h⟩ := h
    rw [SetScanBuffersFor_weak env p q hw.hcr A B _ _ s s2 hs2, ok_bind, hw.hn,
      regionLoop_weak env p q hw A B _ _ [] _ _ [] acc s2 s3 hs3, ok_bind]
    simp only [hw.hT, not_true_eq_false, and_false, if_false, withWeak, List.append_nil]
    simp only at h
    split at h <;>
    · simp only [Except.ok.injEq] at h
      subst h
      rfl

theorem scanLoop_weak (env : Env) (p q : LoamParams) (hw : WeakIgnored p q)
    (A B : List Point) :
    ∀ (ranges : List IndexRange) (s s1 : State), scanLoop env p ranges s = .ok s1 →
      scanLoop env q ranges (withWeak A B s) = .ok (withWeak A B s1) := by
  intro ranges
  induction ranges with
  | nil =>
    intro s s1 h
    simp only [scanLoop, Except.ok.injEq] at h
    subst h
    rfl
  | cons r rest ih =>
    intro s s1 h
    simp only [scanLoop, bind_ok_iff] at h
    obtain ⟨s2, hs2, h⟩ := h
    simp only [scanLoop]
    rw [scanBody_weak env p q hw A B r s s2 hs2, ok_bind]
    exact ih _ _ h

theorem runScanLines_weak (env : Env) (p q : LoamParams) (hw : WeakIgnored p q)
    (lines : List PointCloudIRT) (s s1 : State) (h : runScanLines env p lines s = .ok s1) :
    runScanLines env q lines s = .ok (withWeak [] [] s1) := by
  unfold runScanLines at h ⊢
  simp only at h ⊢
  have e : withWeak [] [] (GetSortedScan lines (Reset s)) = GetSortedScan lines (Reset s) := by
    unfold GetSortedScan
    rw [GetSortedScanLoop_points lines 0 (Reset s)]
    rfl
  have := scanLoop_weak env p q hw [] [] _ _ _ h
  rw [e] at this
  exact this


theorem cornerLoop_lessflat (p : LoamParams) (scan_start_idx sp k : Nat) (L : Int)
    (s s1 : State) (h : cornerLoop p scan_start_idx sp k L s = .ok s1) :
    s1.surface_points_less_flat_ = s.surface_points_less_flat_ := by
  obtain ⟨_, hinv⟩ := cornerLoop_induction p scan_start_idx sp
    (fun _ s2 => s2.surface_points_less_flat_ = s.surface_points_less_flat_)
    (by
      intro k L s2 s3 idx curv hinv _ _ _ _ _ hacc
      obtain ⟨_, hmark⟩ := cornerAccept_spec p idx _ _ _ s2 s3 hacc
      obtain ⟨hshape, _⟩ := MarkAsPicked_spec p idx _ _ s3 hmark
      rw [hshape]; exact hinv)
    k L s s1 rfl h
  exact hinv

theorem flatLoop_lessflat (p : LoamParams) (hT : p.ignore_weak_features = true)
    (scan_start_idx sp left k : Nat) (L : Int) (acc acc1 : PointCloudIRT) (s s1 : State)
    (h : flatLoop p scan_start_idx sp left k L acc s = .ok (acc1, s1)) :
    acc1 = acc ∧ s1.surface_points_less_flat_ = s.surface_points_less_flat_ := by
  obtain ⟨_, hinv⟩ := flatLoop_induction p scan_start_idx sp
    (fun _ acc2 s2 => acc2 = acc ∧ s2.surface_points_less_flat_ = s.surface_points_less_flat_)
    (by
      intro k L acc2 acc3 s2 s3 idx curv hinv _ _ _ _ _ hacc
      obtain ⟨_, pt, _, hacc3, hmark⟩ := flatAccept_spec p idx _ _ acc2 acc3 s2 s3 hacc
      obtain ⟨hshape, _⟩ := MarkAsPicked_spec p idx _ _ s3 hmark
      rw [hT, if_pos rfl] at hacc3
      refine ⟨hacc3.trans hinv.1, ?_⟩
      rw [hshape]; exact hinv.2)
    left k L acc acc1 s s1 ⟨rfl, rfl⟩ h
  exact hinv

theorem regionBody_lessflat (env : Env) (p : LoamParams) (hT : p.ignore_weak_features = true)
    (scan_start_idx scan_end_idx : Nat) (j : Int) (acc acc1 : PointCloudIRT) (s s1 : State)
    (h : regionBody env p scan_start_idx scan_end_idx j acc s = .ok (acc1, s1)) :
    acc1 = acc ∧ s1.surface_points_less_flat_ = s.surface_points_less_flat_ := by
  unfold regionBody at h
  simp only at h
  split at h
  · simp only [Except.ok.injEq, Prod.mk.injEq] at h
    exact ⟨h.1.symm, by rw [← h.2]⟩
  · simp only [bind_ok_iff] at h
    obtain ⟨s2, hs2, h⟩ := h
    have hframe := SetRegionBuffersFor_frame p _ _ s s2 hs2
    simp only [regionPasses, bind_ok_iff] at h
    obtain ⟨s3, hs3, ⟨acc4, s4⟩, hs4, h⟩ := h
    have e1 := cornerLoop_lessflat p _ _ _ _ s2 s3 hs3
    obtain ⟨e2, e3⟩ := flatLoop_lessflat p hT _ _ _ _ _ _ _ s3 s4 hs4
    simp only [hT, not_true_eq_false, if_false, Except.ok.injEq, Prod.mk.injEq] at h
    obtain ⟨h1, h2⟩ := h
    subst h1; subst h2
    refine ⟨e2, ?_⟩
    rw [e3, e1, hframe]

theorem regionLoop_lessflat (env : Env) (p : LoamParams) (hT : p.ignore_weak_features = true)
    (scan_start_idx scan_end_idx : Nat) :
    ∀ (left : Nat) (j : Int) (acc acc1 : PointCloudIRT) (s s1 : State),
      regionLoop env p scan_start_idx scan_end_idx left j acc s = .ok (acc1, s1) →
      acc1 = acc ∧ s1.surface_points_less_flat_ = s.surface_points_less_flat_ := by
  intro left
  induction left with
  | zero =>
    intro j acc acc1 s s1 h
    simp only [regionLoop, Except.ok.injEq, Prod.mk.injEq] at h
    exact ⟨h.1.symm, by rw [← h.2]⟩
  | succ left ih =>
    intro j acc acc1 s s1 h
    simp only [regionLoop, bind_ok_iff] at h
    obtain ⟨⟨acc2, s2⟩, hs2, h⟩ := h
    obtain ⟨e1, e2⟩ := regionBody_lessflat env p hT _ _ j acc acc2 s s2 hs2
    obtain ⟨e3, e4⟩ := ih _ _ _ _ _ h
    exact ⟨e3.trans e1, e4.trans e2⟩

theorem scanBody_lessflat (env : Env) (p : LoamParams) (hT : p.ignore_weak_features = true)
    (range : IndexRange) (s s1 : State) (h : scanBody env p range s = .ok s1) :
    s1.surface_points_less_flat_ = s.surface_points_less_flat_ := by
  unfold scanBody at h
  split at h
  · simp only [Except.ok.injEq] at h
    rw [← h]
  · simp only [bind_ok_iff] at h
    obtain ⟨s2, hs2, ⟨acc, s3⟩, hs3, h⟩ := h
    have hframe := SetScanBuffersFor_frame env p _ _ s s2 hs2
    obtain ⟨e1, e2⟩ := regionLoop_lessflat env p hT _ _ _ _ [] acc s2 s3 hs3
    simp only [hT, not_true_eq_false, and_false, if_false, Except.ok.injEq] at h
    rw [← h]
    simp only
    rw [e1, List.append_nil, e2, hframe]

theorem scanLoop_lessflat (env : Env) (p : LoamParams) (hT : p.ignore_weak_features = true) :
    ∀ (ranges : List IndexRange) (s s1 : State), scanLoop env p ranges s = .ok s1 →
      s1.surface_points_less_flat_ = s.surface_points_less_flat_ := by
  intro ranges
  induction ranges with
  | nil =>
    intro s s1 h
    simp only [scanLoop, Except.ok.injEq] at h
    rw [← h]
  | cons r rest ih =>
    intro s s1 h
    simp only [scanLoop, bind_ok_iff] at h
    obtain ⟨s2, hs2, h⟩ := h
    exact (ih _ _ h).trans (scanBody_lessflat env p hT r s s2 hs2)

theorem runScanLines_weak_empty (env : Env) (p : LoamParams)
    (hT : p.ignore_weak_features = true) (lines : List PointCloudIRT) (s s1 : State)
    (h : runScanLines env p lines s = .ok s1) :
    s1.corner_points_less_sharp_ = [] ∧ s1.surface_points_less_flat_ = [] := by
  unfold runScanLines at h
  simp only at h
  have e : GetSortedScan lines (Reset s) = withWeak [] [] (GetSortedScan lines (Reset s)) := by
    unfold GetSortedScan
    rw [GetSortedScanLoop_points lines 0 (Reset s)]
    rfl
  constructor
  · refine scanLoop_corner_inv (fun _ ls => ls = []) env p ?_ _ _ s1 ?_ h
    · intro idx scan_idx region_idx L s2 s3 hacc hs2
      obtain ⟨_, e2, _⟩ := cornerAccept_corners p idx _ _ _ s2 s3 hacc
      rw [e2, hT, if_pos rfl, List.append_nil]
      exact hs2
    · rw [e]; rfl
  · rw [scanLoop_lessflat env p hT _ _ s1 h, e]
    rfl

/-- Claim C13: with `ignore_weak_features` true the returned corner-less-sharp cloud and the
returned surface-less-flat cloud are empty; and whenever the call with
`ignore_weak_features` false returns, the call with `ignore_weak_features` true returns the
same corner-sharp and surface-flat clouds (and the same warnings), with both weak clouds
empty. -/
theorem ignore_weak_features_strong_same (env : Env) (p : LoamParams)
    (lines : List PointCloudIRT) (s : State) :
    (∀ out w s1,
      ExtractFeaturesFromScanLines env { p with ignore_weak_features := true } lines s =
        .ok (out, w, s1) →
      out.edges_weak = [] ∧ out.surfaces_weak = []) ∧
    (∀ out w s1,
      ExtractFeaturesFromScanLines env { p with ignore_weak_features := false } lines s =
        .ok (out, w, s1) →
      ExtractFeaturesFromScanLines env { p with ignore_weak_features := true } lines s =
        .ok (⟨out.edges_strong, out.surfaces_strong, [], []⟩, w, withWeak [] [] s1)) := by
  constructor
  · intro out w s1 h
    unfold ExtractFeaturesFromScanLines at h
    simp only [bind_ok_iff, Except.ok.injEq, Prod.mk.injEq] at h
    obtain ⟨s2, hs2, h1, _, _⟩ := h
    obtain ⟨e1, e2⟩ := runScanLines_weak_empty env _ rfl lines s s2 hs2
    rw [← h1]
    exact ⟨e1, e2⟩
  · intro out w s1 h
    unfold ExtractFeaturesFromScanLines at h ⊢
    simp only [bind_ok_iff, Except.ok.injEq, Prod.mk.injEq] at h
    obtain ⟨s2, hs2, h1, h2, h3⟩ := h
    have hw : WeakIgnored { p with ignore_weak_features := false }
        { p with ignore_weak_features := true } :=
      ⟨rfl, rfl, rfl, rfl, rfl, rfl, rfl, rfl⟩
    rw [runScanLines_weak env _ _ hw lines s s2 hs2, ok_bind]
    subst h1; subst h2; subst h3
    rfl

/-- Witness for claim C13: the line of seven points with one displaced point, with the
sample parameters. -/
theorem ignore_weak_features_strong_same_witness :
    (ExtractFeaturesFromScanLines sampleEnv { sampleParams with ignore_weak_features := false }
      [sampleLine7] sampleState).toOption.map (fun r => (r.1.edges_strong, r.1.edges_weak)) =
      some ([samplePoint 0 3 (1 / 10)], [samplePoint 0 3 (1 / 10)]) ∧
    (ExtractFeaturesFromScanLines sampleEnv { sampleParams with ignore_weak_features := true }
      [sampleLine7] sampleState).toOption.map (fun r => (r.1.edges_strong, r.1.edges_weak)) =
      some ([samplePoint 0 3 (1 / 10)], []) := by
  have h := (ignore_weak_features_strong_same sampleEnv sampleParams [sampleLine7] sampleState).2
    (okOr (⟨[], [], [], []⟩, [], sampleState) (ExtractFeaturesFromScanLines sampleEnv
      { sampleParams with ignore_weak_features := false } [sampleLine7] sampleState)).1
    (okOr (⟨[], [], [], []⟩, [], sampleState) (ExtractFeaturesFromScanLines sampleEnv
      { sampleParams with ignore_weak_features := false } [sampleLine7] sampleState)).2.1
    (okOr (⟨[], [], [], []⟩, [], sampleState) (ExtractFeaturesFromScanLines sampleEnv
      { sampleParams with ignore_weak_features := false } [sampleLine7] sampleState)).2.2
    (by with_unfolding_all rfl)
  refine ⟨by decide!, ?_⟩
  rw [h]
  decide!


/-! ### Claim C17: a single displaced point -/

theorem fillN_spec {α : Type} (v : α) :
    ∀ (count a : Nat) (xs ys : List α), fillN v count a xs = .ok ys →
      ys.length = xs.length ∧
      ∀ t : Nat, ys[t]? = if a ≤ t ∧ t < a + count then some v else xs[t]? := by
  intro count
  induction count with
  | zero =>
    intro a xs ys h
    simp only [fillN, Except.ok.injEq] at h
    subst h
    refine ⟨rfl, fun t => ?_⟩
    rw [if_neg (by omega)]
  | succ count ih =>
    intro a xs ys h
    simp only [fillN, bind_ok_iff] at h
    obtain ⟨xs1, hx, h⟩ := h
    rw [wr_ok_iff] at hx
    obtain ⟨hlt, hx⟩ := hx
    subst hx
    obtain ⟨h1, h2⟩ := ih _ _ _ h
    refine ⟨by rw [h1, List.length_set], fun t => ?_⟩
    rw [h2 t]
    by_cases ht : a = t
    · subst ht
      rw [if_neg (by omega), List.getElem?_set_self hlt, if_pos (by omega)]
    · rw [List.getElem?_set_ne ht]
      by_cases ht2 : a + 1 ≤ t ∧ t < a + 1 + count
      · rw [if_pos ht2, if_pos (by omega)]
      · rw [if_neg ht2, if_neg (by omega)]

/-- One iteration of the filter, spelled out: the buffers change in the mask only, and the
new mask is the old one with the slots of the occlusion test and of the sparse
neighbourhood test set. -/
theorem SetScanBuffersStep_spec (env : Env) (p : LoamParams) (start_idx i : Nat) (s s1 : State)
    (hcr : 0 ≤ p.curvature_region) (hlo : start_idx + p.curvature_region.toNat ≤ i)
    (hmod : i + 1 < SIZE_MOD)
    (prev pt next : Point) (hprev : s.sorted_scan_[usub i 1]? = some prev)
    (hpt : s.sorted_scan_[i]? = some pt) (hnext : s.sorted_scan_[i + 1]? = some next)
    (h : SetScanBuffersStep env p start_idx i s = .ok s1) :
    s1 = { s with scan_neighbor_picked_ := s1.scan_neighbor_picked_ } ∧
    s1.scan_neighbor_picked_.length = s.scan_neighbor_picked_.length ∧
    ∀ t : Nat, s1.scan_neighbor_picked_[t]? =
      if SquaredDiff next pt > 1 / 10 ∧ PointDistance env pt > PointDistance env next ∧
          divLt (env.sqrt (env.SquaredDiffW next pt
            (PointDistance env next / PointDistance env pt))) (PointDistance env next) (1 / 10)
      then
        (if i - start_idx - p.curvature_region.toNat ≤ t ∧ t ≤ i - start_idx then some 1
         else s.scan_neighbor_picked_[t]?)
      else
        (if (t = i - start_idx ∧ t < s.scan_neighbor_picked_.length ∧
              SquaredDiff next pt > 2 / 10000 * SquaredPointDistance pt ∧
              SquaredDiff pt prev > 2 / 10000 * SquaredPointDistance pt) ∨
            ((SquaredDiff next pt > 1 / 10 ∧ ¬ PointDistance env pt > PointDistance env next ∧
              divLt (env.sqrt (env.SquaredDiffW pt next
                (PointDistance env pt / PointDistance env next))) (PointDistance env pt)
                (1 / 10)) ∧
              i - start_idx + 1 ≤ t ∧ t ≤ i - start_idx + 1 + p.curvature_region.toNat)
         then some 1 else s.scan_neighbor_picked_[t]?) := by
  have hc : toSizeT p.curvature_region = p.curvature_region.toNat :=
    toSizeT_eq hcr (by
      have : ((p.curvature_region.toNat : Nat) : Int) = p.curvature_region :=
        Int.toNat_of_nonneg hcr
      have h2 : p.curvature_region.toNat < SIZE_MOD := by omega
      omega)
  have hc1 : (p.curvature_region + 1).toNat = p.curvature_region.toNat + 1 := by omega
  have e3 : usub i start_idx = i - start_idx := usub_eq (by omega) (by omega)
  have e1 : usub (usub i start_idx) (toSizeT p.curvature_region) =
      i - start_idx - p.curvature_region.toNat := by
    rw [hc, e3, usub_eq (by omega) (by omega)]
  have e2 : uadd (usub i start_idx) 1 = i - start_idx + 1 := by
    rw [e3, uadd_eq (by omega)]
  have hframe := SetScanBuffersStep_frame env p start_idx i s s1 h
  refine ⟨hframe, ?_⟩
  simp only [SetScanBuffersStep, bind_ok_iff] at h
  obtain ⟨prev2, hprev2, pt2, hpt2, next2, hnext2, h⟩ := h
  rw [rd_ok_iff, hprev, Option.some.injEq] at hprev2
  rw [rd_ok_iff, hpt, Option.some.injEq] at hpt2
  rw [rd_ok_iff, uadd_eq hmod, hnext, Option.some.injEq] at hnext2
  subst hprev2; subst hpt2; subst hnext2
  split at h
  · rename_i hocc
    simp only [bind_ok_iff, Except.ok.injEq] at h
    obtain ⟨m, hm, h⟩ := h
    subst h
    rw [e1, hc1] at hm
    obtain ⟨f1, f2⟩ := fillN_spec _ _ _ _ _ hm
    refine ⟨f1, fun t => ?_⟩
    rw [if_pos hocc]
    simp only
    rw [f2 t]
    by_cases ht : i - start_idx - p.curvature_region.toNat ≤ t ∧ t ≤ i - start_idx
    · rw [if_pos ht, if_pos (by omega)]
    · rw [if_neg ht, if_neg (by omega)]
  · rename_i hocc
    simp only [bind_ok_iff] at h
    obtain ⟨m, hm, h⟩ := h
    split at hm
    · rename_i hocc2
      rw [e2, hc1] at hm
      obtain ⟨f1, f2⟩ := fillN_spec _ _ _ _ _ hm
      split at h
      · rename_i hsp
        simp only [bind_ok_iff, Except.ok.injEq] at h
        obtain ⟨m2, hm2, h⟩ := h
        subst h
        rw [wr_ok_iff, e3] at hm2
        obtain ⟨hlt, hm2⟩ := hm2
        subst hm2
        refine ⟨by simp only [List.length_set]; exact f1, fun t => ?_⟩
        simp only
        rw [if_neg hocc]
        by_cases ht : i - start_idx = t
        · subst ht
          rw [List.getElem?_set_self hlt, if_pos (Or.inl ⟨rfl, by rw [← f1]; exact hlt, hsp⟩)]
        · rw [List.getElem?_set_ne ht, f2 t]
          by_cases hr : i - start_idx + 1 ≤ t ∧ t < i - start_idx + 1 + (p.curvature_region.toNat + 1)
          · rw [if_pos hr, if_pos (Or.inr ⟨hocc2, by omega⟩)]
          · rw [if_neg hr, if_neg]
            rintro (⟨h1, _⟩ | ⟨_, h2⟩)
            · exact ht h1.symm
            · exact hr (by omega)
      · rename_i hsp
        simp only [Except.ok.injEq] at h
        subst h
        refine ⟨f1, fun t => ?_⟩
        simp only
        rw [if_neg hocc]
        rw [f2 t]
        by_cases hr : i - start_idx + 1 ≤ t ∧ t < i - start_idx + 1 + (p.curvature_region.toNat + 1)
        · rw [if_pos hr, if_pos (Or.inr ⟨hocc2, by omega⟩)]
        · rw [if_neg hr, if_neg]
          rintro (⟨_, _, h1⟩ | ⟨_, h2⟩)
          · exact hsp h1
          · exact hr (by omega)
    · rename_i hocc2
      simp only [Except.ok.injEq] at hm
      subst hm
      split at h
      · rename_i hsp
        simp only [bind_ok_iff, Except.ok.injEq] at h
        obtain ⟨m2, hm2, h⟩ := h
        subst h
        rw [wr_ok_iff, e3] at hm2
        obtain ⟨hlt, hm2⟩ := hm2
        subst hm2
        refine ⟨by simp only [List.length_set], fun t => ?_⟩
        simp only
        rw [if_neg hocc]
        by_cases ht : i - start_idx = t
        · subst ht
          rw [List.getElem?_set_self hlt, if_pos (Or.inl ⟨rfl, hlt, hsp⟩)]
        · rw [List.getElem?_set_ne ht, if_neg]
          rintro (⟨h1, _⟩ | ⟨h2, _⟩)
          · exact ht h1.symm
          · exact hocc2 h2
      · rename_i hsp
        simp only [Except.ok.injEq] at h
        subst h
        refine ⟨rfl, fun t => ?_⟩
        simp only
        rw [if_neg hocc]
        rw [if_neg]
        rintro (⟨_, _, h1⟩ | ⟨h2, _⟩)
        · exact hsp h1
        · exact hocc2 h2

theorem SetScanBuffersStep_grows (env : Env) (p : LoamParams) (start_idx i : Nat) (s s1 : State)
    (hcr : 0 ≤ p.curvature_region) (hlo : start_idx + p.curvature_region.toNat ≤ i)
    (hmod : i + 1 < SIZE_MOD) (h : SetScanBuffersStep env p start_idx i s = .ok s1) :
    MaskGrows s.scan_neighbor_picked_ s1.scan_neighbor_picked_ := by
  have h0 := h
  simp only [SetScanBuffersStep, bind_ok_iff] at h0
  obtain ⟨prev, hprev, pt, hpt, next, hnext, _⟩ := h0
  rw [rd_ok_iff] at hprev hpt hnext
  rw [uadd_eq hmod] at hnext
  obtain ⟨_, h1, h2⟩ := SetScanBuffersStep_spec env p start_idx i s s1 hcr hlo hmod prev pt next
    hprev hpt hnext h
  refine ⟨h1, fun t => ?_⟩
  rw [h2 t]
  split
  · split
    · exact Or.inr rfl
    · exact Or.inl rfl
  · split
    · exact Or.inr rfl
    · exact Or.inl rfl

/-- The loop of the filter sets the slot of every index it visits at which both neighbours
are farther than the sparse neighbourhood test allows. -/
theorem SetScanBuffersLoop_sparse (env : Env) (p : LoamParams) (start_idx : Nat)
    (hcr : 0 ≤ p.curvature_region) :
    ∀ (left i0 : Nat) (s s1 : State), SetScanBuffersLoop env p start_idx left i0 s = .ok s1 →
      start_idx + p.curvature_region.toNat ≤ i0 → 1 ≤ i0 → i0 + left < SIZE_MOD →
      MaskGrows s.scan_neighbor_picked_ s1.scan_neighbor_picked_ ∧
      ∀ (i : Nat) (prev pt next : Point), i0 ≤ i → i < i0 + left →
        i - start_idx < s.scan_neighbor_picked_.length →
        s.sorted_scan_[i - 1]? = some prev → s.sorted_scan_[i]? = some pt →
        s.sorted_scan_[i + 1]? = some next →
        SquaredDiff next pt > 2 / 10000 * SquaredPointDistance pt →
        SquaredDiff pt prev > 2 / 10000 * SquaredPointDistance pt →
        s1.scan_neighbor_picked_[i - start_idx]? = some 1 := by
  intro left
  induction left with
  | zero =>
    intro i0 s s1 h _ _ _
    simp only [SetScanBuffersLoop, Except.ok.injEq] at h
    subst h
    exact ⟨MaskGrows.refl _, fun i _ _ _ h1 h2 => by omega⟩
  | succ left ih =>
    intro i0 s s1 h hlo hpos hmod
    simp only [SetScanBuffersLoop, bind_ok_iff] at h
    obtain ⟨s2, hs2, h⟩ := h
    have hg := SetScanBuffersStep_grows env p start_idx i0 s s2 hcr hlo (by omega) hs2
    have hframe := SetScanBuffersStep_frame env p start_idx i0 s s2 hs2
    have hscan : s2.sorted_scan_ = s.sorted_scan_ := by rw [hframe]
    obtain ⟨hg2, hrest⟩ := ih (i0 + 1) s2 s1 h (by omega) (by omega) (by omega)
    refine ⟨hg.trans hg2, ?_⟩
    intro i prev pt next hi1 hi2 hlen hprev hpt hnext hs1 hs2c
    by_cases hi : i = i0
    · subst hi
      obtain ⟨_, _, h2⟩ := SetScanBuffersStep_spec env p start_idx i s s2 hcr hlo (by omega)
        prev pt next (by rw [usub_eq hpos (by omega)]; exact hprev) hpt hnext hs2
      have hset : s2.scan_neighbor_picked_[i - start_idx]? = some 1 := by
        rw [h2]
        split
        · rw [if_pos (by omega)]
        · rw [if_pos (Or.inl ⟨rfl, hlen, hs1, hs2c⟩)]
      rcases hg2.2 (i - start_idx) with h3 | h3
      · rw [h3]; exact hset
      · exact h3
    · exact hrest i prev pt next (by omega) (by omega) (by rw [hg.1]; exact hlen)
        (by rw [hscan]; exact hprev) (by rw [hscan]; exact hpt) (by rw [hscan]; exact hnext)
        hs1 hs2c

/-- Claim C26: for every scan line range `[start, end]` (with `curvature_region ≥ 0`, a first
index that has a predecessor, a line longer than the two margins and inside the sorted
scan, no wrap-around) `SetScanBuffersFor` returns, and for every index `i` with
`start + curvature_region ≤ i < end - curvature_region` at which the squared distances to
the points `i + 1` and `i - 1` both exceed 0.0002 times the squared distance of point `i`
from the origin, the mask slot `i - start` is set in the buffers it returns. -/
theorem sparse_points_masked (env : Env) (p : LoamParams) (start_idx end_idx : Nat) (s : State)
    (hcr : 0 ≤ p.curvature_region) (hpos : 1 ≤ start_idx + p.curvature_region.toNat)
    (hlong : start_idx + 2 * p.curvature_region.toNat < end_idx)
    (hmod : end_idx + 1 < SIZE_MOD) (hscan : end_idx < s.sorted_scan_.length) :
    ∃ s1, SetScanBuffersFor env p start_idx end_idx s = .ok s1 ∧
      ∀ (i : Nat) (prev pt next : Point),
        start_idx + p.curvature_region.toNat ≤ i → i < end_idx - p.curvature_region.toNat →
        s.sorted_scan_[i - 1]? = some prev → s.sorted_scan_[i]? = some pt →
        s.sorted_scan_[i + 1]? = some next →
        SquaredDiff next pt > 2 / 10000 * SquaredPointDistance pt →
        SquaredDiff pt prev > 2 / 10000 * SquaredPointDistance pt →
        s1.scan_neighbor_picked_[i - start_idx]? = some 1 := by
  obtain ⟨s1, hs1, _, _⟩ := SetScanBuffersFor_ok env p start_idx end_idx s hcr hpos hlong hmod hscan
  refine ⟨s1, hs1, ?_⟩
  have hc : toSizeT p.curvature_region = p.curvature_region.toNat :=
    toSizeT_eq hcr (by
      have : ((p.curvature_region.toNat : Nat) : Int) = p.curvature_region :=
        Int.toNat_of_nonneg hcr
      have h2 : p.curvature_region.toNat < SIZE_MOD := by omega
      omega)
  have e1 : uadd (usub end_idx start_idx) 1 = end_idx - start_idx + 1 := by
    rw [usub_eq (by omega) (by omega), uadd_eq (by omega)]
  have e2 : uadd start_idx (toSizeT p.curvature_region) = start_idx + p.curvature_region.toNat := by
    rw [hc, uadd_eq (by omega)]
  have e3 : usub end_idx (toSizeT p.curvature_region) = end_idx - p.curvature_region.toNat := by
    rw [hc, usub_eq (by omega) (by omega)]
  simp only [SetScanBuffersFor, e1, e2, e3] at hs1
  obtain ⟨_, hloop⟩ := SetScanBuffersLoop_sparse env p start_idx hcr _ _ _ s1 hs1 (Nat.le_refl _)
    hpos (by omega)
  intro i prev pt next hi1 hi2 hprev hpt hnext h1 h2
  exact hloop i prev pt next hi1 (by omega) (by simp only [List.length_replicate]; omega)
    hprev hpt hnext h1 h2

/-- Witness for claim C26: on the wall at distance 10 the displaced point at index 20 has
both neighbours farther than the test allows, and its slot is set. -/
theorem sparse_points_masked_witness :
    SquaredDiff ⟨1 / 10, 10, 0, 0, 0, 0⟩ ⟨0, 9, 0, 0, 0, 0⟩ >
      2 / 10000 * SquaredPointDistance ⟨0, 9, 0, 0, 0, 0⟩ ∧
    ∃ s1, SetScanBuffersFor spikeEnv spikeParams 0 40 spikeScanNear = .ok s1 ∧
      s1.scan_neighbor_picked_[20 - 0]? = some 1 := by
  obtain ⟨s1, hs1, h⟩ := sparse_points_masked spikeEnv spikeParams 0 40 spikeScanNear
    (by decide) (by decide) (by decide) (by decide) (by decide)
  exact ⟨by decide!, s1, hs1, h 20 ⟨-1 / 10, 10, 0, 0, 0, 0⟩ ⟨0, 9, 0, 0, 0, 0⟩
    ⟨1 / 10, 10, 0, 0, 0, 0⟩ (by decide) (by decide) (by decide!) (by decide!) (by decide!)
    (by decide!) (by decide!)⟩

/-- Claim C21, amended: at an index `i` of the filter loop at which the squared distance to
point `i + 1` exceeds 0.1, one iteration returns and changes the mask only. If point `i` is
the farther one and the depth-normalised difference is below 0.1, the slots
`i - start - curvature_region, ..., i - start` are set, nothing else changes and the sparse
neighbourhood test is not applied. If point `i` is not the farther one and the
depth-normalised difference is below 0.1, the slots `i - start + 1, ...,
i - start + 1 + curvature_region` are set and the sparse neighbourhood test is applied to
`i` all the same: the slot `i - start` is set as well when both neighbours are farther than
the test allows. In both cases the loop goes on with `i + 1`. -/
theorem occlusion_test_slots (env : Env) (p : LoamParams) (start_idx i : Nat) (s : State)
    (hcr : 0 ≤ p.curvature_region) (hi1 : 1 ≤ i)
    (hlo : start_idx + p.curvature_region.toNat ≤ i) (hmod : i + 1 < SIZE_MOD)
    (hmask : i - start_idx + p.curvature_region.toNat + 2 ≤ s.scan_neighbor_picked_.length)
    (prev pt next : Point) (hprev : s.sorted_scan_[i - 1]? = some prev)
    (hpt : s.sorted_scan_[i]? = some pt) (hnext : s.sorted_scan_[i + 1]? = some next)
    (hfar : SquaredDiff next pt > 1 / 10) :
    ∃ s1, SetScanBuffersStep env p start_idx i s = .ok s1 ∧
      s1 = { s with scan_neighbor_picked_ := s1.scan_neighbor_picked_ } ∧
      (∀ left, SetScanBuffersLoop env p start_idx (left + 1) i s =
        SetScanBuffersLoop env p start_idx left (i + 1) s1) ∧
      (PointDistance env pt > PointDistance env next →
        divLt (env.sqrt (env.SquaredDiffW next pt
          (PointDistance env next / PointDistance env pt))) (PointDistance env next) (1 / 10)
          = true →
        ∀ t : Nat, s1.scan_neighbor_picked_[t]? =
          if i - start_idx - p.curvature_region.toNat ≤ t ∧ t ≤ i - start_idx then some 1
          else s.scan_neighbor_picked_[t]?) ∧
      (¬ PointDistance env pt > PointDistance env next →
        divLt (env.sqrt (env.SquaredDiffW pt next
          (PointDistance env pt / PointDistance env next))) (PointDistance env pt) (1 / 10)
          = true →
        ∀ t : Nat, s1.scan_neighbor_picked_[t]? =
          if (i - start_idx + 1 ≤ t ∧ t ≤ i - start_idx + 1 + p.curvature_region.toNat) ∨
            (t = i - start_idx ∧
              SquaredDiff next pt > 2 / 10000 * SquaredPointDistance pt ∧
              SquaredDiff pt prev > 2 / 10000 * SquaredPointDistance pt)
          then some 1 else s.scan_neighbor_picked_[t]?) := by
  have hlen : i + 1 < s.sorted_scan_.length := (List.getElem?_eq_some_iff.mp hnext).1
  obtain ⟨s1, hs1, _⟩ := SetScanBuffersStep_ok env p start_idx i s hcr hi1 hlo hlen hmod hmask
  obtain ⟨f1, f2, f3⟩ := SetScanBuffersStep_spec env p start_idx i s s1 hcr hlo hmod prev pt next
    (by rw [usub_eq hi1 (by omega)]; exact hprev) hpt hnext hs1
  refine ⟨s1, hs1, f1, ?_, ?_, ?_⟩
  · intro left
    simp only [SetScanBuffersLoop]
    rw [hs1, ok_bind]
  · intro hd hw t
    rw [f3 t, if_pos ⟨hfar, hd, hw⟩]
  · intro hd hw t
    rw [f3 t, if_neg (fun hc => hd hc.2.1)]
    by_cases hc : (i - start_idx + 1 ≤ t ∧ t ≤ i - start_idx + 1 + p.curvature_region.toNat) ∨
        (t = i - start_idx ∧
          SquaredDiff next pt > 2 / 10000 * SquaredPointDistance pt ∧
          SquaredDiff pt prev > 2 / 10000 * SquaredPointDistance pt)
    · rw [if_pos hc, if_pos]
      rcases hc with hc | ⟨h1, h2⟩
      · exact Or.inr ⟨⟨hfar, hd, hw⟩, hc⟩
      · exact Or.inl ⟨h1, by omega, h2⟩
    · rw [if_neg hc, if_neg]
      rintro (⟨h1, _, h2⟩ | ⟨_, h2⟩)
      · exact hc (Or.inr ⟨h1, h2⟩)
      · exact hc (Or.inl h2)

/-- Counterexample to claim C21 as stated: on the wall at distance 10, at `i = 20` the
squared distance to point 21 exceeds 0.1, point 20 is not the farther one and the
depth-normalised difference is below 0.1; the iteration sets the slots 21 to 26 on the far
side, and also the slot 20, which only the sparse neighbourhood test sets. -/
theorem occlusion_test_counterexample :
    spikeScanNear.sorted_scan_[20]? = some ⟨0, 9, 0, 0, 0, 0⟩ ∧
    spikeScanNear.sorted_scan_[21]? = some ⟨1 / 10, 10, 0, 0, 0, 0⟩ ∧
    SquaredDiff ⟨1 / 10, 10, 0, 0, 0, 0⟩ ⟨0, 9, 0, 0, 0, 0⟩ > 1 / 10 ∧
    ¬ PointDistance spikeEnv ⟨0, 9, 0, 0, 0, 0⟩ > PointDistance spikeEnv ⟨1 / 10, 10, 0, 0, 0, 0⟩ ∧
    divLt (spikeEnv.sqrt (spikeEnv.SquaredDiffW ⟨0, 9, 0, 0, 0, 0⟩ ⟨1 / 10, 10, 0, 0, 0, 0⟩
      (PointDistance spikeEnv ⟨0, 9, 0, 0, 0, 0⟩ / PointDistance spikeEnv ⟨1 / 10, 10, 0, 0, 0, 0⟩)))
      (PointDistance spikeEnv ⟨0, 9, 0, 0, 0, 0⟩) (1 / 10) = true ∧
    (SetScanBuffersStep spikeEnv spikeParams 0 20 spikeScanNear).toOption.map
      (fun r => r.scan_neighbor_picked_) =
      some (List.replicate 20 0 ++ [1] ++ List.replicate 6 1 ++ List.replicate 14 0) := by
  refine ⟨by decide!, by decide!, by decide!, by decide!, by decide!, by decide!⟩

/-- Witness for claim C21, amended: the same iteration. -/
theorem occlusion_test_slots_witness :
    ∃ s1, SetScanBuffersStep spikeEnv spikeParams 0 20 spikeScanNear = .ok s1 ∧
      s1.scan_neighbor_picked_[20]? = some 1 ∧ s1.scan_neighbor_picked_[26]? = some 1 ∧
      s1.scan_neighbor_picked_[27]? = some 0 := by
  obtain ⟨s1, hs1, _, _, _, h⟩ := occlusion_test_slots spikeEnv spikeParams 0 20 spikeScanNear
    (by decide) (by decide) (by decide) (by decide) (by decide)
    ⟨-1 / 10, 10, 0, 0, 0, 0⟩ ⟨0, 9, 0, 0, 0, 0⟩ ⟨1 / 10, 10, 0, 0, 0, 0⟩
    (by decide!) (by decide!) (by decide!) (by decide!)
  have h2 := h (by decide!) (by decide!)
  refine ⟨s1, hs1, ?_, ?_, ?_⟩
  · rw [h2 20, if_pos (Or.inr ⟨rfl, by decide!, by decide!⟩)]
  · rw [h2 26, if_pos (Or.inl (by decide))]
  · rw [h2 27, if_neg (by decide)]
    decide!


/-! ### Claim C25: `MarkAsPicked`, exactly -/

theorem markForward_exact (scan : List Point) (c k : Nat) :
    ∀ (left i : Nat) (m m1 : List Int), markForward scan c k left i m = .ok m1 →
      1 ≤ c + i → c + i + left ≤ SIZE_MOD → k + i + left ≤ SIZE_MOD →
      ∃ n, n ≤ left ∧ (∀ j, i ≤ j → j < i + n → ¬ Disc scan (c + j - 1)) ∧
        (n < left → Disc scan (c + (i + n) - 1)) ∧ m1.length = m.length ∧
        ∀ t : Nat, m1[t]? = if k + i ≤ t ∧ t < k + i + n then some 1 else m[t]? := by
  intro left
  induction left with
  | zero =>
    intro i m m1 h _ _ _
    simp only [markForward, Except.ok.injEq] at h
    subst h
    exact ⟨0, Nat.le_refl _, fun j h1 h2 => by omega, fun h => by omega, rfl,
      fun t => by rw [if_neg (by omega)]⟩
  | succ left ih =>
    intro i m m1 h h1 h2 h3
    simp only [markForward, bind_ok_iff] at h
    obtain ⟨a, ha, b, hb, h⟩ := h
    rw [rd_ok_iff, uadd_eq (by omega)] at ha
    rw [rd_ok_iff, uadd_eq (by omega), usub_eq h1 (by omega)] at hb
    have hb2 : scan[c + i - 1 + 1]? = some a := by
      have : c + i - 1 + 1 = c + i := by omega
      rw [this]; exact ha
    split at h
    · rename_i hd
      simp only [Except.ok.injEq] at h
      subst h
      refine ⟨0, Nat.zero_le _, fun j h4 h5 => by omega, fun _ => ?_, rfl,
        fun t => by rw [if_neg (by omega)]⟩
      rw [Nat.add_zero]
      exact ⟨b, a, hb, hb2, by rw [SquaredDiff_comm]; exact hd⟩
    · rename_i hd
      simp only [bind_ok_iff] at h
      obtain ⟨m2, hm2, h⟩ := h
      rw [wr_ok_iff, uadd_eq (by omega)] at hm2
      obtain ⟨hlt, hm2⟩ := hm2
      subst hm2
      obtain ⟨n, n1, n2, n3, n4, n5⟩ := ih (i + 1) _ m1 h (by omega) (by omega) (by omega)
      refine ⟨n + 1, by omega, ?_, ?_, by rw [n4, List.length_set], ?_⟩
      · intro j h4 h5
        by_cases hj : j = i
        · subst hj
          rintro ⟨x, y, hx, hy, hxy⟩
          rw [hb, Option.some.injEq] at hx
          rw [hb2, Option.some.injEq] at hy
          subst hx; subst hy
          rw [SquaredDiff_comm] at hxy
          exact hd hxy
        · exact n2 j (by omega) (by omega)
      · intro h4
        have := n3 (by omega)
        have e : c + (i + 1 + n) - 1 = c + (i + (n + 1)) - 1 := by omega
        rw [← e]; exact this
      · intro t
        rw [n5 t]
        by_cases ht : k + i = t
        · subst ht
          rw [if_neg (by omega), List.getElem?_set_self hlt, if_pos (by omega)]
        · rw [List.getElem?_set_ne ht]
          by_cases ht2 : k + (i + 1) ≤ t ∧ t < k + (i + 1) + n
          · rw [if_pos ht2, if_pos (by omega)]
          · rw [if_neg ht2, if_neg (by omega)]

theorem markBackward_exact (scan : List Point) (c k : Nat) :
    ∀ (left i : Nat) (m m1 : List Int), markBackward scan c k left i m = .ok m1 →
      i + left ≤ c + 1 → c + 1 < SIZE_MOD → i + left ≤ k + 1 → k < SIZE_MOD →
      ∃ n, n ≤ left ∧ (∀ j, i ≤ j → j < i + n → ¬ Disc scan (c - j)) ∧
        (n < left → Disc scan (c - (i + n))) ∧ m1.length = m.length ∧
        ∀ t : Nat, m1[t]? = if k < t + i + n ∧ t + i ≤ k then some 1 else m[t]? := by
  intro left
  induction left with
  | zero =>
    intro i m m1 h _ _ _ _
    simp only [markBackward, Except.ok.injEq] at h
    subst h
    exact ⟨0, Nat.le_refl _, fun j h1 h2 => by omega, fun h => by omega, rfl,
      fun t => by rw [if_neg (by omega)]⟩
  | succ left ih =>
    intro i m m1 h h1 h2 h3 h4
    simp only [markBackward, bind_ok_iff] at h
    obtain ⟨a, ha, b, hb, h⟩ := h
    rw [rd_ok_iff, usub_eq (by omega) (by omega)] at ha
    rw [rd_ok_iff, usub_eq (by omega) (by omega), uadd_eq (by omega)] at hb
    split at h
    · rename_i hd
      simp only [Except.ok.injEq] at h
      subst h
      refine ⟨0, Nat.zero_le _, fun j h4 h5 => by omega, fun _ => ?_, rfl,
        fun t => by rw [if_neg (by omega)]⟩
      rw [Nat.add_zero]
      exact ⟨a, b, ha, hb, hd⟩
    · rename_i hd
      simp only [bind_ok_iff] at h
      obtain ⟨m2, hm2, h⟩ := h
      rw [wr_ok_iff, usub_eq (by omega) (by omega)] at hm2
      obtain ⟨hlt, hm2⟩ := hm2
      subst hm2
      obtain ⟨n, n1, n2, n3, n4, n5⟩ := ih (i + 1) _ m1 h (by omega) h2 (by omega) h4
      refine ⟨n + 1, by omega, ?_, ?_, by rw [n4, List.length_set], ?_⟩
      · intro j h5 h6
        by_cases hj : j = i
        · subst hj
          rintro ⟨x, y, hx, hy, hxy⟩
          rw [ha, Option.some.injEq] at hx
          rw [hb, Option.some.injEq] at hy
          subst hx; subst hy
          exact hd hxy
        · exact n2 j (by omega) (by omega)
      · intro h5
        have := n3 (by omega)
        have e : c - (i + 1 + n) = c - (i + (n + 1)) := by omega
        rw [← e]; exact this
      · intro t
        rw [n5 t]
        by_cases ht : k - i = t
        · subst ht
          rw [if_neg (by omega), List.getElem?_set_self hlt, if_pos (by omega)]
        · rw [List.getElem?_set_ne ht]
          by_cases ht2 : k < t + (i + 1) + n ∧ t + (i + 1) ≤ k
          · rw [if_pos ht2, if_pos (by omega)]
          · rw [if_neg ht2, if_neg (by omega)]

/-- Claim C25: called for an accepted point with sorted-scan index `c` and scan-relative
index `k` that both have `curvature_region` neighbours on each side, `MarkAsPicked` returns
and sets the mask slots `k - mB, ..., k + mF`, where `mF ≤ curvature_region` is the number of
steps of the forward walk before the first pair of consecutive points whose squared distance
exceeds 0.05 (`curvature_region` if there is none), and `mB` the same for the backward walk;
every other mask slot, the sorted scan, the region buffers and the outputs are unchanged. -/
theorem MarkAsPicked_exact (p : LoamParams) (c k : Nat) (s : State)
    (h1 : p.curvature_region.toNat ≤ c)
    (h2 : c + p.curvature_region.toNat + 1 < s.sorted_scan_.length)
    (h3 : c + p.curvature_region.toNat + 1 < SIZE_MOD)
    (h4 : p.curvature_region.toNat ≤ k)
    (h5 : k + p.curvature_region.toNat < s.scan_neighbor_picked_.length)
    (h6 : k + p.curvature_region.toNat + 1 ≤ SIZE_MOD) :
    ∃ s1 mF mB, MarkAsPicked p c k s = .ok s1 ∧
      s1 = { s with scan_neighbor_picked_ := s1.scan_neighbor_picked_ } ∧
      mF ≤ p.curvature_region.toNat ∧ mB ≤ p.curvature_region.toNat ∧
      (∀ j, 1 ≤ j → j ≤ mF → ¬ Disc s.sorted_scan_ (c + j - 1)) ∧
      (mF < p.curvature_region.toNat → Disc s.sorted_scan_ (c + mF)) ∧
      (∀ j, 1 ≤ j → j ≤ mB → ¬ Disc s.sorted_scan_ (c - j)) ∧
      (mB < p.curvature_region.toNat → Disc s.sorted_scan_ (c - (mB + 1))) ∧
      s1.scan_neighbor_picked_.length = s.scan_neighbor_picked_.length ∧
      ∀ t : Nat, s1.scan_neighbor_picked_[t]? =
        if k - mB ≤ t ∧ t ≤ k + mF then some 1 else s.scan_neighbor_picked_[t]? := by
  obtain ⟨s1, hs1⟩ := MarkAsPicked_ok p c k s h1 h2 h3 h4 h5 h6
  obtain ⟨hshape, _⟩ := MarkAsPicked_spec p c k s s1 hs1
  have hrun := hs1
  simp only [MarkAsPicked, bind_ok_iff, Except.ok.injEq] at hrun
  obtain ⟨m0, hm0, m1, hm1, m2, hm2, hrun⟩ := hrun
  rw [wr_ok_iff] at hm0
  obtain ⟨hlt, hm0⟩ := hm0
  subst hm0
  obtain ⟨mF, f1, f2, f3, f4, f5⟩ := markForward_exact _ c k _ _ _ m1 hm1 (by omega) (by omega)
    (by omega)
  obtain ⟨mB, b1, b2, b3, b4, b5⟩ := markBackward_exact _ c k _ _ _ m2 hm2 (by omega) (by omega)
    (by omega) (by omega)
  have hm : s1.scan_neighbor_picked_ = m2 := by rw [← hrun]
  refine ⟨s1, mF, mB, hs1, hshape, f1, b1, ?_, ?_, ?_, ?_, ?_, ?_⟩
  · intro j j1 j2
    exact f2 j j1 (by omega)
  · intro hlt2
    have := f3 hlt2
    have e : c + (1 + mF) - 1 = c + mF := by omega
    rw [e] at this; exact this
  · intro j j1 j2
    exact b2 j j1 (by omega)
  · intro hlt2
    have := b3 hlt2
    have e : c - (1 + mB) = c - (mB + 1) := by omega
    rw [e] at this; exact this
  · rw [hm, b4, f4, List.length_set]
  · intro t
    rw [hm, b5 t, f5 t]
    by_cases ht : k - mB ≤ t ∧ t ≤ k + mF
    · rw [if_pos ht]
      by_cases hb : k < t + 1 + mB ∧ t + 1 ≤ k
      · rw [if_pos hb]
      · rw [if_neg hb]
        by_cases hf : k + 1 ≤ t ∧ t < k + 1 + mF
        · rw [if_pos hf]
        · rw [if_neg hf]
          have : k = t := by omega
          subst this
          rw [List.getElem?_set_self hlt]
    · rw [if_neg ht, if_neg (by omega), if_neg (by omega), List.getElem?_set_ne (by omega)]

/-- Witness for claim C25: the displaced point 3 of the line of seven points, with
`curvature_region = 1`. -/
theorem MarkAsPicked_exact_witness :
    ∃ s1, MarkAsPicked sampleParams 3 3 sampleFiltered7 = .ok s1 ∧
      s1.scan_neighbor_picked_.length = sampleFiltered7.scan_neighbor_picked_.length :=
  let ⟨s1, _, _, h, _, _, _, _, _, _, _, hlen, _⟩ :=
    MarkAsPicked_exact sampleParams 3 3 sampleFiltered7 (by decide) (by decide!) (by decide)
      (by decide) (by decide!) (by decide)
  ⟨s1, h, hlen⟩


/-! ### Induction over the two passes, with the position in the rank array -/

/-- Induction over the corner pass: an invariant of the position `k`, the number `L` of
accepted corners and the buffers that survives a visit without accept and an accept holds
when the pass ends, and the pass ends at position 0 or with `L` at its cap. -/
theorem cornerLoop_ind (p : LoamParams) (scan_start_idx sp : Nat)
    (Inv : Nat → Int → State → Prop)
    (hskip : ∀ (k : Nat) (L : Int) (s : State) (idx : Nat) (picked : Int),
      Inv (k + 1) L s → L < p.max_corner_less_sharp →
      s.region_sort_indices_[k]? = some idx →
      s.scan_neighbor_picked_[usub idx scan_start_idx]? = some picked →
      (picked ≠ 0 ∨ ∃ c, s.region_curvature_[usub idx sp]? = some c ∧
        ¬ c > p.surface_curvature_threshold) →
      Inv k L s)
    (hacc : ∀ (k : Nat) (L : Int) (s s3 : State) (idx : Nat) (c : ℚ),
      Inv (k + 1) L s → L < p.max_corner_less_sharp →
      s.region_sort_indices_[k]? = some idx →
      s.scan_neighbor_picked_[usub idx scan_start_idx]? = some 0 →
      s.region_curvature_[usub idx sp]? = some c → c > p.surface_curvature_threshold →
      cornerAccept p idx (usub idx scan_start_idx) (usub idx sp) (L + 1) s = .ok s3 →
      Inv k (L + 1) s3) :
    ∀ (k : Nat) (L : Int) (s s1 : State), Inv k L s →
      cornerLoop p scan_start_idx sp k L s = .ok s1 →
      ∃ k1 L1, Inv k1 L1 s1 ∧ (k1 = 0 ∨ ¬ L1 < p.max_corner_less_sharp) := by
  intro k
  induction k with
  | zero =>
    intro L s s1 hinv h
    simp only [cornerLoop, Except.ok.injEq] at h
    subst h
    exact ⟨0, L, hinv, Or.inl rfl⟩
  | succ k ih =>
    intro L s s1 hinv h
    simp only [cornerLoop] at h
    split at h
    · rename_i hL
      simp only [bind_ok_iff] at h
      obtain ⟨idx, hidx, picked, hp, h⟩ := h
      rw [rd_ok_iff] at hidx hp
      split at h
      · rename_i h0
        subst h0
        simp only [bind_ok_iff] at h
        obtain ⟨c, hc, h⟩ := h
        rw [rd_ok_iff] at hc
        split at h
        · rename_i hgt
          simp only [bind_ok_iff] at h
          obtain ⟨s3, hs3, h⟩ := h
          exact ih _ _ _ (hacc k L s s3 idx c hinv hL hidx hp hc hgt hs3) h
        · rename_i hgt
          exact ih _ _ _ (hskip k L s idx 0 hinv hL hidx hp (Or.inr ⟨c, hc, hgt⟩)) h
      · rename_i h0
        exact ih _ _ _ (hskip k L s idx picked hinv hL hidx hp (Or.inl h0)) h
    · rename_i hL
      simp only [Except.ok.injEq] at h
      subst h
      exact ⟨k + 1, L, hinv, Or.inr hL⟩

/-- Induction over the flat pass, as `cornerLoop_ind`; the pass ends at position
`k + left` or with `L` at its cap. -/
theorem flatLoop_ind (p : LoamParams) (scan_start_idx sp : Nat)
    (Inv : Nat → Int → PointCloudIRT → State → Prop)
    (hskip : ∀ (k : Nat) (L : Int) (acc : PointCloudIRT) (s : State) (idx : Nat) (picked : Int),
      Inv k L acc s → L < p.max_surface_flat →
      s.region_sort_indices_[k]? = some idx →
      s.scan_neighbor_picked_[usub idx scan_start_idx]? = some picked →
      (picked ≠ 0 ∨ ∃ c, s.region_curvature_[usub idx sp]? = some c ∧
        ¬ c < p.surface_curvature_threshold) →
      Inv (k + 1) L acc s)
    (hacc : ∀ (k : Nat) (L : Int) (acc acc1 : PointCloudIRT) (s s2 : State) (idx : Nat) (c : ℚ),
      Inv k L acc s → L < p.max_surface_flat →
      s.region_sort_indices_[k]? = some idx →
      s.scan_neighbor_picked_[usub idx scan_start_idx]? = some 0 →
      s.region_curvature_[usub idx sp]? = some c → c < p.surface_curvature_threshold →
      flatAccept p idx (usub idx scan_start_idx) (usub idx sp) acc s = .ok (acc1, s2) →
      Inv (k + 1) (L + 1) acc1 s2) :
    ∀ (left k : Nat) (L : Int) (acc acc1 : PointCloudIRT) (s s1 : State), Inv k L acc s →
      flatLoop p scan_start_idx sp left k L acc s = .ok (acc1, s1) →
      ∃ k1 L1, Inv k1 L1 acc1 s1 ∧ (k1 = k + left ∨ ¬ L1 < p.max_surface_flat) := by
  intro left
  induction left with
  | zero =>
    intro k L acc acc1 s s1 hinv h
    simp only [flatLoop, Except.ok.injEq, Prod.mk.injEq] at h
    obtain ⟨h1, h2⟩ := h
    subst h1; subst h2
    exact ⟨k, L, hinv, Or.inl rfl⟩
  | succ left ih =>
    intro k L acc acc1 s s1 hinv h
    simp only [flatLoop] at h
    split at h
    · rename_i hL
      simp only [bind_ok_iff] at h
      obtain ⟨idx, hidx, picked, hp, h⟩ := h
      rw [rd_ok_iff] at hidx hp
      have e : k + 1 + left = k + (left + 1) := by omega
      split at h
      · rename_i h0
        subst h0
        simp only [bind_ok_iff] at h
        obtain ⟨c, hc, h⟩ := h
        rw [rd_ok_iff] at hc
        split at h
        · rename_i hgt
          simp only [bind_ok_iff] at h
          obtain ⟨⟨acc3, s3⟩, hs3, h⟩ := h
          obtain ⟨k1, L1, i1, i2⟩ :=
            ih _ _ _ _ _ _ (hacc k L acc acc3 s s3 idx c hinv hL hidx hp hc hgt hs3) h
          exact ⟨k1, L1, i1, by rw [← e]; exact i2⟩
        · rename_i hgt
          obtain ⟨k1, L1, i1, i2⟩ :=
            ih _ _ _ _ _ _ (hskip k L acc s idx 0 hinv hL hidx hp (Or.inr ⟨c, hc, hgt⟩)) h
          exact ⟨k1, L1, i1, by rw [← e]; exact i2⟩
      · rename_i h0
        obtain ⟨k1, L1, i1, i2⟩ :=
          ih _ _ _ _ _ _ (hskip k L acc s idx picked hinv hL hidx hp (Or.inl h0)) h
        exact ⟨k1, L1, i1, by rw [← e]; exact i2⟩
    · rename_i hL
      simp only [Except.ok.injEq, Prod.mk.injEq] at h
      obtain ⟨h1, h2⟩ := h
      subst h1; subst h2
      exact ⟨k, L, hinv, Or.inr hL⟩


/-- What an accepted corner changes. -/
theorem cornerAccept_shape (p : LoamParams) (idx scan_idx region_idx : Nat) (L : Int)
    (s s3 : State) (h : cornerAccept p idx scan_idx region_idx L s = .ok s3) :
    s3.sorted_scan_ = s.sorted_scan_ ∧ s3.region_sort_indices_ = s.region_sort_indices_ ∧
    s3.region_curvature_ = s.region_curvature_ ∧
    s3.surface_points_flat_ = s.surface_points_flat_ ∧
    s3.surface_points_less_flat_ = s.surface_points_less_flat_ ∧
    region_idx < s.region_label_.length ∧
    s3.region_label_ = s.region_label_.set region_idx
      (if L ≤ p.max_corner_sharp then PointLabel.CORNER_SHARP
       else PointLabel.CORNER_LESS_SHARP) ∧
    s3.corner_points_sharp_ = s.corner_points_sharp_ ++
      (if L ≤ p.max_corner_sharp then s.sorted_scan_[idx]?.toList else []) ∧
    s3.corner_points_less_sharp_ = s.corner_points_less_sharp_ ++
      (if p.ignore_weak_features then [] else s.sorted_scan_[idx]?.toList) ∧
    MaskGrows s.scan_neighbor_picked_ s3.scan_neighbor_picked_ ∧
    s3.scan_neighbor_picked_[scan_idx]? = some 1 := by
  obtain ⟨hl, hmark⟩ := cornerAccept_spec p idx _ _ _ s s3 h
  obtain ⟨hshape, hg, hset, _⟩ := MarkAsPicked_spec p idx _ _ s3 hmark
  refine ⟨by rw [hshape], by rw [hshape], by rw [hshape], by rw [hshape], by rw [hshape], hl,
    by rw [hshape], by rw [hshape], by rw [hshape], hg, hset⟩

/-- What an accepted flat point changes. -/
theorem flatAccept_shape (p : LoamParams) (idx scan_idx region_idx : Nat)
    (acc acc1 : PointCloudIRT) (s s2 : State)
    (h : flatAccept p idx scan_idx region_idx acc s = .ok (acc1, s2)) :
    ∃ pt, s.sorted_scan_[idx]? = some pt ∧
      acc1 = (if p.ignore_weak_features then acc else acc ++ [pt]) ∧
      s2.sorted_scan_ = s.sorted_scan_ ∧ s2.region_sort_indices_ = s.region_sort_indices_ ∧
      s2.region_curvature_ = s.region_curvature_ ∧
      s2.corner_points_sharp_ = s.corner_points_sharp_ ∧
      s2.corner_points_less_sharp_ = s.corner_points_less_sharp_ ∧
      s2.surface_points_less_flat_ = s.surface_points_less_flat_ ∧
      region_idx < s.region_label_.length ∧
      s2.region_label_ = s.region_label_.set region_idx PointLabel.SURFACE_FLAT ∧
      s2.surface_points_flat_ = s.surface_points_flat_ ++ [pt] ∧
      MaskGrows s.scan_neighbor_picked_ s2.scan_neighbor_picked_ ∧
      s2.scan_neighbor_picked_[scan_idx]? = some 1 := by
  obtain ⟨hl, pt, hpt, hacc, hmark⟩ := flatAccept_spec p idx _ _ acc acc1 s s2 h
  obtain ⟨hshape, hg, hset, _⟩ := MarkAsPicked_spec p idx _ _ s2 hmark
  refine ⟨pt, hpt, hacc, by rw [hshape], by rw [hshape], by rw [hshape], by rw [hshape],
    by rw [hshape], by rw [hshape], hl, by rw [hshape], by rw [hshape], hg, hset⟩

theorem pointsAt_append (scan : List Point) (a b : List Nat) :
    pointsAt scan (a ++ b) = pointsAt scan a ++ pointsAt scan b := by
  unfold pointsAt
  rw [List.filterMap_append]

theorem pointsAt_singleton (scan : List Point) (i : Nat) :
    pointsAt scan [i] = scan[i]?.toList := by
  unfold pointsAt
  cases h : scan[i]? <;> simp [List.filterMap_cons, h]

theorem pointsAt_nil (scan : List Point) : pointsAt scan [] = [] := rfl

theorem cornerRun_snoc (p : LoamParams) (scan_start_idx sp : Nat) (idx : Nat) :
    ∀ (A : List Nat) (L : Int) (s s2 s3 : State), CornerRun p scan_start_idx sp A L s s2 →
      s2.scan_neighbor_picked_[usub idx scan_start_idx]? = some 0 →
      (∃ c, s2.region_curvature_[usub idx sp]? = some c ∧ c > p.surface_curvature_threshold) →
      cornerAccept p idx (usub idx scan_start_idx) (usub idx sp) (L + A.length + 1) s2 = .ok s3 →
      CornerRun p scan_start_idx sp (A ++ [idx]) L s s3 := by
  intro A
  induction A with
  | nil =>
    intro L s s2 s3 h hz hc hacc
    simp only [CornerRun] at h
    subst h
    simp only [List.length_nil, Nat.cast_zero, add_zero] at hacc
    simp only [List.nil_append, CornerRun]
    exact ⟨hz, hc, s3, hacc, rfl⟩
  | cons a A ih =>
    intro L s s2 s3 h hz hc hacc
    simp only [CornerRun] at h
    obtain ⟨h1, h2, sm, h3, h4⟩ := h
    simp only [List.cons_append, CornerRun]
    refine ⟨h1, h2, sm, h3, ih (L + 1) sm s2 s3 h4 hz hc ?_⟩
    have e : L + 1 + (A.length : Int) + 1 = L + ((a :: A).length : Int) + 1 := by
      rw [List.length_cons]; push_cast; ring
    rw [e]
    exact hacc

theorem flatRun_snoc (p : LoamParams) (scan_start_idx sp : Nat) (idx : Nat) :
    ∀ (F : List Nat) (acc acc2 acc3 : PointCloudIRT) (s s2 s3 : State),
      FlatRun p scan_start_idx sp F acc s acc2 s2 →
      s2.scan_neighbor_picked_[usub idx scan_start_idx]? = some 0 →
      (∃ c, s2.region_curvature_[usub idx sp]? = some c ∧ c < p.surface_curvature_threshold) →
      flatAccept p idx (usub idx scan_start_idx) (usub idx sp) acc2 s2 = .ok (acc3, s3) →
      FlatRun p scan_start_idx sp (F ++ [idx]) acc s acc3 s3 := by
  intro F
  induction F with
  | nil =>
    intro acc acc2 acc3 s s2 s3 h hz hc hacc
    simp only [FlatRun] at h
    obtain ⟨h1, h2⟩ := h
    subst h1; subst h2
    simp only [List.nil_append, FlatRun]
    exact ⟨hz, hc, acc3, s3, hacc, rfl, rfl⟩
  | cons a F ih =>
    intro acc acc2 acc3 s s2 s3 h hz hc hacc
    simp only [FlatRun] at h
    obtain ⟨h1, h2, am, sm, h3, h4⟩ := h
    simp only [List.cons_append, FlatRun]
    exact ⟨h1, h2, am, sm, h3, ih am acc2 acc3 sm s2 s3 h4 hz hc hacc⟩

/-- The corner pass, by the list `A` of the indices it accepts, in acceptance order. -/
theorem cornerLoop_emits (p : LoamParams) (scan_start_idx sp k : Nat) (s s1 : State)
    (h : cornerLoop p scan_start_idx sp k 0 s = .ok s1) :
    ∃ A : List Nat,
      (A.length : Int) ≤ max 0 p.max_corner_less_sharp ∧
      s1.sorted_scan_ = s.sorted_scan_ ∧ s1.region_sort_indices_ = s.region_sort_indices_ ∧
      s1.region_curvature_ = s.region_curvature_ ∧
      s1.surface_points_flat_ = s.surface_points_flat_ ∧
      s1.surface_points_less_flat_ = s.surface_points_less_flat_ ∧
      s1.region_label_.length = s.region_label_.length ∧
      MaskGrows s.scan_neighbor_picked_ s1.scan_neighbor_picked_ ∧
      s1.corner_points_sharp_ = s.corner_points_sharp_ ++
        pointsAt s.sorted_scan_ (A.take p.max_corner_sharp.toNat) ∧
      s1.corner_points_less_sharp_ = s.corner_points_less_sharp_ ++
        (if p.ignore_weak_features then [] else pointsAt s.sorted_scan_ A) ∧
      (∀ idx ∈ A, idx ∈ s.region_sort_indices_ ∧
        s.scan_neighbor_picked_[usub idx scan_start_idx]? = some 0 ∧
        (∃ c, s.region_curvature_[usub idx sp]? = some c ∧ c > p.surface_curvature_threshold) ∧
        s1.scan_neighbor_picked_[usub idx scan_start_idx]? = some 1 ∧
        ∃ l, s1.region_label_[usub idx sp]? = some l ∧
          (l = PointLabel.CORNER_SHARP ∨ l = PointLabel.CORNER_LESS_SHARP)) ∧
      (∀ r : Nat, (∀ idx ∈ A, usub idx sp ≠ r) → s1.region_label_[r]? = s.region_label_[r]?) ∧
      A.Nodup ∧
      CornerRun p scan_start_idx sp A 0 s s1 ∧
      ((A.length : Int) < p.max_corner_less_sharp →
        ∀ (t idx : Nat) (c : ℚ), t < k → s.region_sort_indices_[t]? = some idx →
          s.region_curvature_[usub idx sp]? = some c → c > p.surface_curvature_threshold →
          ∃ v, s1.scan_neighbor_picked_[usub idx scan_start_idx]? = some v ∧ v ≠ 0) := by
  obtain ⟨k1, L1, ⟨A, hA⟩, hend⟩ := cornerLoop_ind p scan_start_idx sp
    (fun k2 L s2 => ∃ A : List Nat, L = (A.length : Int) ∧
      CornerRun p scan_start_idx sp A 0 s s2 ∧
      (∀ (t idx : Nat) (c : ℚ), k2 ≤ t → t < k → s.region_sort_indices_[t]? = some idx →
        s.region_curvature_[usub idx sp]? = some c → c > p.surface_curvature_threshold →
        ∃ v, s2.scan_neighbor_picked_[usub idx scan_start_idx]? = some v ∧ v ≠ 0) ∧
      (A.length : Int) ≤ max 0 p.max_corner_less_sharp ∧
      s2.sorted_scan_ = s.sorted_scan_ ∧ s2.region_sort_indices_ = s.region_sort_indices_ ∧
      s2.region_curvature_ = s.region_curvature_ ∧
      s2.surface_points_flat_ = s.surface_points_flat_ ∧
      s2.surface_points_less_flat_ = s.surface_points_less_flat_ ∧
      s2.region_label_.length = s.region_label_.length ∧
      MaskGrows s.scan_neighbor_picked_ s2.scan_neighbor_picked_ ∧
      s2.corner_points_sharp_ = s.corner_points_sharp_ ++
        pointsAt s.sorted_scan_ (A.take p.max_corner_sharp.toNat) ∧
      s2.corner_points_less_sharp_ = s.corner_points_less_sharp_ ++
        (if p.ignore_weak_features then [] else pointsAt s.sorted_scan_ A) ∧
      (∀ idx ∈ A, idx ∈ s.region_sort_indices_ ∧
        s.scan_neighbor_picked_[usub idx scan_start_idx]? = some 0 ∧
        (∃ c, s.region_curvature_[usub idx sp]? = some c ∧ c > p.surface_curvature_threshold) ∧
        s2.scan_neighbor_picked_[usub idx scan_start_idx]? = some 1 ∧
        ∃ l, s2.region_label_[usub idx sp]? = some l ∧
          (l = PointLabel.CORNER_SHARP ∨ l = PointLabel.CORNER_LESS_SHARP)) ∧
      (∀ r : Nat, (∀ idx ∈ A, usub idx sp ≠ r) → s2.region_label_[r]? = s.region_label_[r]?) ∧
      A.Nodup)
    (by
      intro k2 L s2 idx picked hinv _ hidx hpick hno
      obtain ⟨A, a0, ch, vis, a0b, a1, a2, a3, a4, a5, a6, a7, a8, a9, a10, a11, a12⟩ := hinv
      refine ⟨A, a0, ch, ?_, a0b, a1, a2, a3, a4, a5, a6, a7, a8, a9, a10, a11, a12⟩
      intro t i c ht1 ht2 hi hc hgt
      rcases Nat.eq_or_lt_of_le ht1 with e | e
      · subst e
        rw [← a2, hidx] at hi
        cases hi
        rcases hno with hno | ⟨c2, hc2, hno⟩
        · exact ⟨picked, hpick, hno⟩
        · rw [a3, hc] at hc2
          cases hc2
          exact absurd hgt hno
      · exact vis t i c (by omega) ht2 hi hc hgt)
    (by
      intro k2 L s2 s3 idx c hinv hL hidx hzero hc hgt hacc
      obtain ⟨A, a0, ch, vis, a0b, a1, a2, a3, a4, a5, a6, a7, a8, a9, a10, a11, a12⟩ := hinv
      obtain ⟨e1, e2, e3, e4, e5, hl, e6, e7, e8, hg, hset⟩ :=
        cornerAccept_shape p idx _ _ _ s2 s3 hacc
      have hnew : idx ∉ A := by
        intro hin
        have := (a10 idx hin).2.2.2.1
        rw [hzero] at this
        exact absurd this (by decide)
      refine ⟨A ++ [idx], by rw [a0]; simp, ?_, ?_, ?_, e1.trans a1, e2.trans a2, e3.trans a3,
        e4.trans a4, e5.trans a5, by rw [e6, List.length_set]; exact a6, a7.trans hg, ?_, ?_,
        ?_, ?_, ?_⟩
      · refine cornerRun_snoc p scan_start_idx sp idx A 0 s s2 s3 ch hzero ⟨c, hc, hgt⟩ ?_
        rw [zero_add, ← a0]
        exact hacc
      · intro t i c2 ht1 ht2 hi hc2 hgt2
        rcases Nat.eq_or_lt_of_le ht1 with e | e
        · subst e
          rw [← a2, hidx] at hi
          cases hi
          exact ⟨1, hset, by decide⟩
        · obtain ⟨v, hv, hv0⟩ := vis t i c2 (by omega) ht2 hi hc2 hgt2
          rcases hg.2 (usub i scan_start_idx) with h3 | h3
          · exact ⟨v, by rw [h3]; exact hv, hv0⟩
          · exact ⟨1, h3, by decide⟩
      · rw [List.length_append, List.length_singleton]
        have : L < max 0 p.max_corner_less_sharp := lt_of_lt_of_le hL (le_max_right _ _)
        push_cast
        omega
      · rw [e7, a8, a1, List.append_assoc]
        congr 1
        by_cases hLs : L + 1 ≤ p.max_corner_sharp
        · have t1 : List.take p.max_corner_sharp.toNat (A ++ [idx]) = A ++ [idx] :=
            List.take_of_length_le (by
              rw [List.length_append, List.length_singleton]; omega)
          have t2 : List.take p.max_corner_sharp.toNat A = A :=
            List.take_of_length_le (by omega)
          rw [if_pos hLs, t1, t2, pointsAt_append, pointsAt_singleton]
        · rw [if_neg hLs, List.append_nil, List.take_append_of_le_length (by omega)]
      · rw [e8, a9, a1]
        cases p.ignore_weak_features
        · simp only [Bool.false_eq_true, if_false]
          rw [pointsAt_append, pointsAt_singleton, List.append_assoc]
        · simp only [if_true, List.append_nil]
      · intro i hi
        rcases List.mem_append.mp hi with hi | hi
        · obtain ⟨b1, b2, b3, b4, l, b5, b6⟩ := a10 i hi
          refine ⟨b1, b2, b3, ?_, ?_⟩
          · rcases hg.2 (usub i scan_start_idx) with h3 | h3
            · rw [h3]; exact b4
            · exact h3
          · rw [e6]
            by_cases hr : usub idx sp = usub i sp
            · rw [hr, List.getElem?_set_self (by rw [← hr]; exact hl)]
              exact ⟨_, rfl, by split <;> simp⟩
            · rw [List.getElem?_set_ne hr]
              exact ⟨l, b5, b6⟩
        · rw [List.mem_singleton] at hi
          subst hi
          refine ⟨by rw [← a2]; exact List.getElem?_mem hidx, a7.zero_before hzero,
            ⟨c, by rw [← a3]; exact hc, hgt⟩, hset, ?_⟩
          rw [e6, List.getElem?_set_self hl]
          exact ⟨_, rfl, by split <;> simp⟩
      · intro r hr
        rw [e6, List.getElem?_set_ne (hr idx (by simp))]
        exact a11 r (fun i hi => hr i (List.mem_append_left _ hi))
      · rw [List.nodup_append]
        exact ⟨a12, List.nodup_singleton _, by
          intro x hx hx2
          rw [List.mem_singleton] at hx2
          subst hx2
          exact hnew hx⟩)
    k 0 s s1
    ⟨[], rfl, by simp only [CornerRun], fun t _ _ h1 h2 => absurd h2 (by omega), by simp,
      rfl, rfl, rfl, rfl, rfl, rfl, MaskGrows.refl _, by
      rw [List.take_nil, pointsAt_nil, List.append_nil], by
      rw [pointsAt_nil]; simp, by simp, fun _ _ => rfl, List.nodup_nil⟩ h
  obtain ⟨a0, ch, vis, a0b, a1, a2, a3, a4, a5, a6, a7, a8, a9, a10, a11, a12⟩ := hA
  refine ⟨A, a0b, a1, a2, a3, a4, a5, a6, a7, a8, a9, a10, a11, a12, ch, ?_⟩
  intro hlt t idx c ht
  rcases hend with hend | hend
  · subst hend
    exact vis t idx c (Nat.zero_le _) ht
  · rw [a0] at hend
    exact absurd hlt hend

/-- The flat pass, by the list `F` of the indices it accepts, in acceptance order. -/
theorem flatLoop_emits (p : LoamParams) (scan_start_idx sp n : Nat) (acc acc1 : PointCloudIRT)
    (s s1 : State) (h : flatLoop p scan_start_idx sp n 0 0 acc s = .ok (acc1, s1)) :
    ∃ F : List Nat,
      (F.length : Int) ≤ max 0 p.max_surface_flat ∧
      s1.sorted_scan_ = s.sorted_scan_ ∧ s1.region_sort_indices_ = s.region_sort_indices_ ∧
      s1.region_curvature_ = s.region_curvature_ ∧
      s1.corner_points_sharp_ = s.corner_points_sharp_ ∧
      s1.corner_points_less_sharp_ = s.corner_points_less_sharp_ ∧
      s1.surface_points_less_flat_ = s.surface_points_less_flat_ ∧
      s1.region_label_.length = s.region_label_.length ∧
      MaskGrows s.scan_neighbor_picked_ s1.scan_neighbor_picked_ ∧
      s1.surface_points_flat_ = s.surface_points_flat_ ++ pointsAt s.sorted_scan_ F ∧
      acc1 = acc ++ (if p.ignore_weak_features then [] else pointsAt s.sorted_scan_ F) ∧
      (∀ idx ∈ F, idx ∈ s.region_sort_indices_ ∧
        s.scan_neighbor_picked_[usub idx scan_start_idx]? = some 0 ∧
        (∃ c, s.region_curvature_[usub idx sp]? = some c ∧ c < p.surface_curvature_threshold) ∧
        s1.scan_neighbor_picked_[usub idx scan_start_idx]? = some 1 ∧
        s1.region_label_[usub idx sp]? = some PointLabel.SURFACE_FLAT) ∧
      (∀ r : Nat, (∀ idx ∈ F, usub idx sp ≠ r) → s1.region_label_[r]? = s.region_label_[r]?) ∧
      F.Nodup ∧
      FlatRun p scan_start_idx sp F acc s acc1 s1 ∧
      ((F.length : Int) < p.max_surface_flat →
        ∀ (t idx : Nat) (c : ℚ), t < n → s.region_sort_indices_[t]? = some idx →
          s.region_curvature_[usub idx sp]? = some c → c < p.surface_curvature_threshold →
          ∃ v, s1.scan_neighbor_picked_[usub idx scan_start_idx]? = some v ∧ v ≠ 0) := by
  obtain ⟨k1, L1, ⟨F, hF⟩, hend⟩ := flatLoop_ind p scan_start_idx sp
    (fun k2 L acc2 s2 => ∃ F : List Nat, L = (F.length : Int) ∧
      FlatRun p scan_start_idx sp F acc s acc2 s2 ∧
      (∀ (t idx : Nat) (c : ℚ), t < k2 → s.region_sort_indices_[t]? = some idx →
        s.region_curvature_[usub idx sp]? = some c → c < p.surface_curvature_threshold →
        ∃ v, s2.scan_neighbor_picked_[usub idx scan_start_idx]? = some v ∧ v ≠ 0) ∧
      (F.length : Int) ≤ max 0 p.max_surface_flat ∧
      s2.sorted_scan_ = s.sorted_scan_ ∧ s2.region_sort_indices_ = s.region_sort_indices_ ∧
      s2.region_curvature_ = s.region_curvature_ ∧
      s2.corner_points_sharp_ = s.corner_points_sharp_ ∧
      s2.corner_points_less_sharp_ = s.corner_points_less_sharp_ ∧
      s2.surface_points_less_flat_ = s.surface_points_less_flat_ ∧
      s2.region_label_.length = s.region_label_.length ∧
      MaskGrows s.scan_neighbor_picked_ s2.scan_neighbor_picked_ ∧
      s2.surface_points_flat_ = s.surface_points_flat_ ++ pointsAt s.sorted_scan_ F ∧
      acc2 = acc ++ (if p.ignore_weak_features then [] else pointsAt s.sorted_scan_ F) ∧
      (∀ idx ∈ F, idx ∈ s.region_sort_indices_ ∧
        s.scan_neighbor_picked_[usub idx scan_start_idx]? = some 0 ∧
        (∃ c, s.region_curvature_[usub idx sp]? = some c ∧ c < p.surface_curvature_threshold) ∧
        s2.scan_neighbor_picked_[usub idx scan_start_idx]? = some 1 ∧
        s2.region_label_[usub idx sp]? = some PointLabel.SURFACE_FLAT) ∧
      (∀ r : Nat, (∀ idx ∈ F, usub idx sp ≠ r) → s2.region_label_[r]? = s.region_label_[r]?) ∧
      F.Nodup)
    (by
      intro k2 L acc2 s2 idx picked hinv _ hidx hpick hno
      obtain ⟨F, a0, ch, vis, a0b, a1, a2, a3, a4, a5, a6, a7, a8, a9, a10, a11, a12, a13⟩ :=
        hinv
      refine ⟨F, a0, ch, ?_, a0b, a1, a2, a3, a4, a5, a6, a7, a8, a9, a10, a11, a12, a13⟩
      intro t i c ht1 hi hc hlt
      rcases Nat.eq_or_lt_of_le (Nat.lt_succ_iff.mp ht1) with e | e
      · subst e
        rw [← a2, hidx] at hi
        cases hi
        rcases hno with hno | ⟨c2, hc2, hno⟩
        · exact ⟨picked, hpick, hno⟩
        · rw [a3, hc] at hc2
          cases hc2
          exact absurd hlt hno
      · exact vis t i c e hi hc hlt)
    (by
      intro k2 L acc2 acc3 s2 s3 idx c hinv hL hidx hzero hc hlt hacc
      obtain ⟨F, a0, ch, vis, a0b, a1, a2, a3, a4, a5, a6, a7, a8, a9, a10, a11, a12, a13⟩ :=
        hinv
      obtain ⟨pt, hpt, eacc, e1, e2, e3, e4, e5, e6, hl, e7, e8, hg, hset⟩ :=
        flatAccept_shape p idx _ _ acc2 acc3 s2 s3 hacc
      have hnew : idx ∉ F := by
        intro hin
        have := (a11 idx hin).2.2.2.1
        rw [hzero] at this
        exact absurd this (by decide)
      have hpts : pointsAt s.sorted_scan_ [idx] = [pt] := by
        rw [pointsAt_singleton, ← a1, hpt]; rfl
      refine ⟨F ++ [idx], by rw [a0]; simp, ?_, ?_, ?_, e1.trans a1, e2.trans a2, e3.trans a3,
        e4.trans a4, e5.trans a5, e6.trans a6, by rw [e7, List.length_set]; exact a7,
        a8.trans hg, ?_, ?_, ?_, ?_, ?_⟩
      · exact flatRun_snoc p scan_start_idx sp idx F acc acc2 acc3 s s2 s3 ch hzero
          ⟨c, hc, hlt⟩ hacc
      · intro t i c2 ht1 hi hc2 hlt2
        rcases Nat.eq_or_lt_of_le (Nat.lt_succ_iff.mp ht1) with e | e
        · subst e
          rw [← a2, hidx] at hi
          cases hi
          exact ⟨1, hset, by decide⟩
        · obtain ⟨v, hv, hv0⟩ := vis t i c2 e hi hc2 hlt2
          rcases hg.2 (usub i scan_start_idx) with h3 | h3
          · exact ⟨v, by rw [h3]; exact hv, hv0⟩
          · exact ⟨1, h3, by decide⟩
      · rw [List.length_append, List.length_singleton]
        have : L < max 0 p.max_surface_flat := lt_of_lt_of_le hL (le_max_right _ _)
        push_cast
        omega
      · rw [e8, a9, pointsAt_append, hpts, List.append_assoc]
      · rw [eacc, a10]
        cases p.ignore_weak_features
        · simp only [Bool.false_eq_true, if_false]
          rw [pointsAt_append, hpts, List.append_assoc]
        · simp only [if_true]
      · intro i hi
        rcases List.mem_append.mp hi with hi | hi
        · obtain ⟨b1, b2, b3, b4, b5⟩ := a11 i hi
          refine ⟨b1, b2, b3, ?_, ?_⟩
          · rcases hg.2 (usub i scan_start_idx) with h3 | h3
            · rw [h3]; exact b4
            · exact h3
          · rw [e7]
            by_cases hr : usub idx sp = usub i sp
            · rw [hr, List.getElem?_set_self (by rw [← hr]; exact hl)]
            · rw [List.getElem?_set_ne hr]
              exact b5
        · rw [List.mem_singleton] at hi
          subst hi
          refine ⟨by rw [← a2]; exact List.getElem?_mem hidx, a8.zero_before hzero,
            ⟨c, by rw [← a3]; exact hc, hlt⟩, hset, ?_⟩
          rw [e7, List.getElem?_set_self hl]
      · intro r hr
        rw [e7, List.getElem?_set_ne (hr idx (by simp))]
        exact a12 r (fun i hi => hr i (List.mem_append_left _ hi))
      · rw [List.nodup_append]
        exact ⟨a13, List.nodup_singleton _, by
          intro x hx hx2
          rw [List.mem_singleton] at hx2
          subst hx2
          exact hnew hx⟩)
    n 0 0 acc acc1 s s1
    ⟨[], rfl, by simp only [FlatRun, and_self], fun t _ _ h1 => absurd h1 (by omega), by simp,
      rfl, rfl, rfl, rfl, rfl, rfl, rfl, MaskGrows.refl _, by
      rw [pointsAt_nil, List.append_nil], by
      rw [pointsAt_nil]; simp, by simp, fun _ _ => rfl, List.nodup_nil⟩ h
  obtain ⟨a0, ch, vis, a0b, a1, a2, a3, a4, a5, a6, a7, a8, a9, a10, a11, a12, a13⟩ := hF
  refine ⟨F, a0b, a1, a2, a3, a4, a5, a6, a7, a8, a9, a10, a11, a12, a13, ch, ?_⟩
  intro hlt t idx c ht
  rcases hend with hend | hend
  · subst hend
    exact vis t idx c (by omega)
  · rw [a0] at hend
    exact absurd hlt hend

/-- The remainder pass appends, in index order, the points whose label compares
`≤ SURFACE_LESS_FLAT`. -/
theorem remainderLoop_eq (env : Env) (sp : Nat) (s : State) :
    ∀ (left k : Nat) (acc acc1 : PointCloudIRT), sp + k + left ≤ SIZE_MOD →
      remainderLoop env sp s left k acc = .ok acc1 →
      acc1 = acc ++ (List.range' k left).filterMap fun i =>
        match s.region_label_[i]? with
        | some l =>
          if env.labelValue l ≤ env.labelValue PointLabel.SURFACE_LESS_FLAT then
            s.sorted_scan_[sp + i]?
          else none
        | none => none := by
  intro left
  induction left with
  | zero =>
    intro k acc acc1 _ h
    simp only [remainderLoop, Except.ok.injEq] at h
    subst h
    simp
  | succ left ih =>
    intro k acc acc1 hb h
    simp only [remainderLoop, bind_ok_iff] at h
    obtain ⟨l, hl, h⟩ := h
    rw [rd_ok_iff] at hl
    rw [List.range'_succ, List.filterMap_cons]
    simp only [hl]
    split at h
    · rename_i hle
      simp only [bind_ok_iff] at h
      obtain ⟨pt, hpt, h⟩ := h
      rw [rd_ok_iff, uadd_eq (by omega)] at hpt
      have := ih (k + 1) _ _ (by omega) h
      rw [this, if_pos hle, hpt, List.append_assoc]
      rfl
    · rename_i hle
      have := ih (k + 1) _ _ (by omega) h
      rw [this, if_neg hle]

theorem remainderLoop_remainder (env : Env) (sp n : Nat) (s : State) (acc acc1 : PointCloudIRT)
    (hb : sp + n ≤ SIZE_MOD) (h : remainderLoop env sp s n 0 acc = .ok acc1) :
    acc1 = acc ++ remainderPoints env sp s n := by
  have := remainderLoop_eq env sp s n 0 acc acc1 (by omega) h
  rw [this, remainderPoints, List.range_eq_range']

/-- What processing one region does, by the lists `A` and `F` of the indices that the corner
pass and the flat pass accept, in acceptance order. -/
theorem regionBody_emits (env : Env) (p : LoamParams) (start_idx end_idx : Nat) (j : Int)
    (sp ep : Nat) (acc acc1 : PointCloudIRT) (s s1 : State)
    (hsp : regionStart p start_idx end_idx j = sp) (hep : regionEnd p start_idx end_idx j = ep)
    (hns : regionSkipped p start_idx end_idx j = false)
    (hcr : 0 ≤ p.curvature_region) (hlo : start_idx + p.curvature_region.toNat ≤ sp)
    (hhi : ep + 1 + p.curvature_region.toNat < SIZE_MOD)
    (h : regionBody env p start_idx end_idx j acc s = .ok (acc1, s1)) :
    ∃ (sr sc : State) (accf : PointCloudIRT) (A F : List Nat),
      SetRegionBuffersFor p sp ep s = .ok sr ∧
      cornerLoop p start_idx sp (ep - sp + 1) 0 sr = .ok sc ∧
      flatLoop p start_idx sp (ep - sp + 1) 0 0 acc sc = .ok (accf, s1) ∧
      CornerRun p start_idx sp A 0 sr sc ∧
      FlatRun p start_idx sp F acc sc accf s1 ∧
      ((A.length : Int) < p.max_corner_less_sharp → ∀ i, sp ≤ i → i ≤ ep →
        curvatureSpec s.sorted_scan_ p.curvature_region i > p.surface_curvature_threshold →
        ∃ v, sc.scan_neighbor_picked_[i - start_idx]? = some v ∧ v ≠ 0) ∧
      ((F.length : Int) < p.max_surface_flat → ∀ i, sp ≤ i → i ≤ ep →
        curvatureSpec s.sorted_scan_ p.curvature_region i < p.surface_curvature_threshold →
        ∃ v, s1.scan_neighbor_picked_[i - start_idx]? = some v ∧ v ≠ 0) ∧
      (∀ i, sp ≤ i → i ≤ ep → sr.region_curvature_[i - sp]? =
        some (curvatureSpec s.sorted_scan_ p.curvature_region i)) ∧
      sr.scan_neighbor_picked_ = s.scan_neighbor_picked_ ∧
      A.Nodup ∧ F.Nodup ∧ (∀ i ∈ A, i ∉ F) ∧
      (A.length : Int) ≤ max 0 p.max_corner_less_sharp ∧
      (F.length : Int) ≤ max 0 p.max_surface_flat ∧
      (∀ i ∈ A, sp ≤ i ∧ i ≤ ep ∧ s.scan_neighbor_picked_[i - start_idx]? = some 0 ∧
        curvatureSpec s.sorted_scan_ p.curvature_region i > p.surface_curvature_threshold) ∧
      (∀ i ∈ F, sp ≤ i ∧ i ≤ ep ∧ s.scan_neighbor_picked_[i - start_idx]? = some 0 ∧
        curvatureSpec s.sorted_scan_ p.curvature_region i < p.surface_curvature_threshold) ∧
      (∀ i, i ∈ A ∨ i ∈ F → s1.scan_neighbor_picked_[i - start_idx]? = some 1) ∧
      (∀ i ∈ A, ∃ l, s1.region_label_[i - sp]? = some l ∧
        (l = PointLabel.CORNER_SHARP ∨ l = PointLabel.CORNER_LESS_SHARP)) ∧
      (∀ i ∈ F, s1.region_label_[i - sp]? = some PointLabel.SURFACE_FLAT) ∧
      (∀ i, sp ≤ i → i ≤ ep → i ∉ A → i ∉ F →
        s1.region_label_[i - sp]? = some PointLabel.SURFACE_LESS_FLAT) ∧
      s1.sorted_scan_ = s.sorted_scan_ ∧
      MaskGrows s.scan_neighbor_picked_ s1.scan_neighbor_picked_ ∧
      s1.corner_points_sharp_ = s.corner_points_sharp_ ++
        pointsAt s.sorted_scan_ (A.take p.max_corner_sharp.toNat) ∧
      s1.corner_points_less_sharp_ = s.corner_points_less_sharp_ ++
        (if p.ignore_weak_features then [] else pointsAt s.sorted_scan_ A) ∧
      s1.surface_points_flat_ = s.surface_points_flat_ ++ pointsAt s.sorted_scan_ F ∧
      s1.surface_points_less_flat_ = s.surface_points_less_flat_ ∧
      acc1 = acc ++ (if p.ignore_weak_features then [] else
        pointsAt s.sorted_scan_ F ++ remainderPoints env sp s1 (ep - sp + 1)) := by
  have hlt : sp < ep := by
    simp only [regionSkipped, decide_eq_false_iff_not, hsp, hep] at hns
    omega
  simp only [regionBody, hns, Bool.false_eq_true, if_false, bind_ok_iff, hsp, hep] at h
  obtain ⟨sr, hsr, h⟩ := h
  have hsize : uadd (usub ep sp) 1 = ep - sp + 1 := by
    rw [usub_eq (by omega) (by omega), uadd_eq (by omega)]
  rw [hsize] at h
  have hframe := SetRegionBuffersFor_frame p sp ep s sr hsr
  rw [hsize] at hframe
  have f1 : sr.sorted_scan_ = s.sorted_scan_ := by rw [hframe]
  have f2 : sr.scan_neighbor_picked_ = s.scan_neighbor_picked_ := by rw [hframe]
  have f3 : sr.corner_points_sharp_ = s.corner_points_sharp_ := by rw [hframe]
  have f4 : sr.corner_points_less_sharp_ = s.corner_points_less_sharp_ := by rw [hframe]
  have f5 : sr.surface_points_flat_ = s.surface_points_flat_ := by rw [hframe]
  have f6 : sr.surface_points_less_flat_ = s.surface_points_less_flat_ := by rw [hframe]
  have f7 : sr.region_label_ = List.replicate (ep - sp + 1) PointLabel.SURFACE_LESS_FLAT := by
    rw [hframe]
  obtain ⟨hlen, _, hmem⟩ := SetRegionBuffersFor_indices p sp ep s sr (by omega) (by omega) hsr
  obtain ⟨_, hperm⟩ := SetRegionBuffersFor_sorted p sp ep s sr (by omega) (by omega) hsr
  have hpos : ∀ i, sp ≤ i → i ≤ ep → ∃ t, t < ep - sp + 1 ∧
      sr.region_sort_indices_[t]? = some i := by
    intro i h1 h2
    have hin : i ∈ sr.region_sort_indices_ := by
      rw [hperm.mem_iff, List.mem_range']
      exact ⟨i - sp, by omega, by omega⟩
    obtain ⟨t, ht, e⟩ := List.getElem_of_mem hin
    exact ⟨t, by omega, by rw [List.getElem?_eq_getElem ht, e]⟩
  have hcurv := SetRegionBuffersFor_curvature p sp ep s sr hcr (by omega) (by omega) (by omega) hsr
  simp only [regionPasses, bind_ok_iff] at h
  obtain ⟨sc, hsc, h⟩ := h
  obtain ⟨⟨accf, sf⟩, hsf, h⟩ := h
  obtain ⟨A, c0, c1, c2, c3, c4, c5, c6, c7, c8, c9, c10, c11, c12, chA, cpA⟩ :=
    cornerLoop_emits p start_idx sp _ sr sc hsc
  obtain ⟨F, d0, d1, d2, d3, d4, d5, d6, d7, d8, d9, d10, d11, d12, d13, chF, cpF⟩ :=
    flatLoop_emits p start_idx sp _ acc accf sc sf hsf
  have hA : ∀ i ∈ A, sp ≤ i ∧ i ≤ ep := fun i hi => hmem i (c10 i hi).1
  have hF : ∀ i ∈ F, sp ≤ i ∧ i ≤ ep := fun i hi => hmem i (by rw [← c2]; exact (d11 i hi).1)
  have u1 : ∀ i, sp ≤ i → i ≤ ep → usub i start_idx = i - start_idx := fun i h1 h2 =>
    usub_eq (by omega) (by omega)
  have u2 : ∀ i, sp ≤ i → i ≤ ep → usub i sp = i - sp := fun i h1 h2 =>
    usub_eq (by omega) (by omega)
  have hs1 : s1 = sf ∧ acc1 = (if p.ignore_weak_features then accf else
      accf ++ remainderPoints env sp sf (ep - sp + 1)) := by
    cases hig : p.ignore_weak_features
    · simp only [hig, Bool.false_eq_true, not_false_eq_true, if_true, bind_ok_iff,
        Except.ok.injEq, Prod.mk.injEq] at h
      obtain ⟨a2, ha2, e1, e2⟩ := h
      have := remainderLoop_remainder env sp _ sf accf a2 (by omega) ha2
      subst e1; subst e2
      exact ⟨rfl, by simpa using this⟩
    · simp only [hig, not_true_eq_false, if_false, Except.ok.injEq, Prod.mk.injEq] at h
      exact ⟨h.2.symm, by simpa using h.1.symm⟩
  obtain ⟨es, eacc⟩ := hs1
  subst es
  refine ⟨sr, sc, accf, A, F, hsr, hsc, hsf, chA, chF, ?_, ?_, hcurv, f2, c12, d13, ?_, c0,
    d0, ?_, ?_, ?_, ?_, ?_, ?_, by rw [d1, c1, f1],
    by rw [← f2]; exact c7.trans d8, by rw [d4, c8, f3, f1], by rw [d5, c9, f4, f1],
    by rw [d9, c4, f5, c1, f1], by rw [d6, c5, f6], ?_⟩
  · intro hlt i g1 g2 hgt
    obtain ⟨t, ht, hti⟩ := hpos i g1 g2
    have := cpA hlt t i _ ht hti (by rw [u2 i g1 g2]; exact hcurv i g1 g2) hgt
    rw [u1 i g1 g2] at this
    exact this
  · intro hlt i g1 g2 hgt
    obtain ⟨t, ht, hti⟩ := hpos i g1 g2
    have := cpF hlt t i _ ht (by rw [c2]; exact hti)
      (by rw [u2 i g1 g2, c3]; exact hcurv i g1 g2) hgt
    rw [u1 i g1 g2] at this
    exact this
  · intro i hi hi2
    have h1 := (c10 i hi).2.2.2.1
    have h2 := (d11 i hi2).2.1
    rw [h1] at h2
    exact absurd h2 (by decide)
  · intro i hi
    obtain ⟨_, b2, ⟨c, b3, b4⟩, _⟩ := c10 i hi
    obtain ⟨g1, g2⟩ := hA i hi
    rw [u1 i g1 g2, f2] at b2
    rw [u2 i g1 g2, hcurv i g1 g2] at b3
    cases b3
    exact ⟨g1, g2, b2, b4⟩
  · intro i hi
    obtain ⟨_, b2, ⟨c, b3, b4⟩, _⟩ := d11 i hi
    obtain ⟨g1, g2⟩ := hF i hi
    rw [u1 i g1 g2] at b2
    have b2b := c7.zero_before b2
    rw [f2] at b2b
    rw [u2 i g1 g2, c3, hcurv i g1 g2] at b3
    cases b3
    exact ⟨g1, g2, b2b, b4⟩
  · intro i hi
    rcases hi with hi | hi
    · obtain ⟨g1, g2⟩ := hA i hi
      have b := (c10 i hi).2.2.2.1
      rw [u1 i g1 g2] at b
      rcases d8.2 (i - start_idx) with h3 | h3
      · rw [h3]; exact b
      · exact h3
    · obtain ⟨g1, g2⟩ := hF i hi
      have b := (d11 i hi).2.2.2.1
      rw [u1 i g1 g2] at b
      exact b
  · intro i hi
    obtain ⟨g1, g2⟩ := hA i hi
    obtain ⟨l, b1, b2⟩ := (c10 i hi).2.2.2.2
    rw [u2 i g1 g2] at b1
    refine ⟨l, ?_, b2⟩
    rw [d12 (i - sp) ?_]
    · exact b1
    · intro x hx hxe
      obtain ⟨g3, g4⟩ := hF x hx
      rw [u2 x g3 g4] at hxe
      have : x = i := by omega
      subst this
      have h1 := (c10 x hi).2.2.2.1
      have h2 := (d11 x hx).2.1
      rw [h1] at h2
      exact absurd h2 (by decide)
  · intro i hi
    obtain ⟨g1, g2⟩ := hF i hi
    have b := (d11 i hi).2.2.2.2
    rw [u2 i g1 g2] at b
    exact b
  · intro i g1 g2 hiA hiF
    rw [d12 (i - sp) ?_, c11 (i - sp) ?_, f7, List.getElem?_replicate, if_pos (by omega)]
    · intro x hx hxe
      obtain ⟨g3, g4⟩ := hA x hx
      rw [u2 x g3 g4] at hxe
      exact hiA (by rw [← (show x = i by omega)]; exact hx)
    · intro x hx hxe
      obtain ⟨g3, g4⟩ := hF x hx
      rw [u2 x g3 g4] at hxe
      exact hiF (by rw [← (show x = i by omega)]; exact hx)
  · rw [eacc, d10, c1, f1]
    cases p.ignore_weak_features
    · simp only [Bool.false_eq_true, if_false, List.append_assoc]
    · simp only [if_true]

/-! ### Claims C22, C24, C29: what the passes over a region select -/

theorem curvatureLoop_reads (p : LoamParams) :
    ∀ (left i r : Nat) (s s1 : State), curvatureLoop p left i r s = .ok s1 →
      ∀ t, i ≤ t → t < i + left → t < s.sorted_scan_.length := by
  intro left
  induction left with
  | zero => intro i r s s1 _ t h1 h2; omega
  | succ left ih =>
    intro i r s s1 h t h1 h2
    simp only [curvatureLoop, bind_ok_iff] at h
    obtain ⟨pt, hpt, d, _, curv, _, idxs, _, h⟩ := h
    rw [rd_ok_iff] at hpt
    rcases Nat.eq_or_lt_of_le h1 with e | e
    · subst e
      by_contra hge
      rw [List.getElem?_eq_none (by omega)] at hpt
      cases hpt
    · exact ih (i + 1) (r + 1) _ s1 h t (by omega) (by omega)

theorem SetRegionBuffersFor_reads (p : LoamParams) (sp ep : Nat) (s s1 : State)
    (hle : sp ≤ ep) (hep : ep + 1 < SIZE_MOD) (h : SetRegionBuffersFor p sp ep s = .ok s1) :
    ep < s.sorted_scan_.length := by
  have hsize : uadd (usub ep sp) 1 = ep - sp + 1 := by
    rw [usub_eq hle (by omega), uadd_eq (by omega)]
  simp only [SetRegionBuffersFor, bind_ok_iff, hsize] at h
  obtain ⟨s2, hs2, _⟩ := h
  exact curvatureLoop_reads p _ _ _ _ _ hs2 ep hle (by omega)

/-- The steps of a region that is not skipped: `SetRegionBuffersFor`, the corner pass, the
flat pass and, with weak features retained, the remainder pass. -/
theorem regionBody_steps (env : Env) (p : LoamParams) (start_idx end_idx : Nat) (j : Int)
    (acc acc1 : PointCloudIRT) (s s1 : State)
    (hns : regionSkipped p start_idx end_idx j = false)
    (h : regionBody env p start_idx end_idx j acc s = .ok (acc1, s1)) :
    ∃ (sr sc : State) (accf : PointCloudIRT),
      SetRegionBuffersFor p (regionStart p start_idx end_idx j)
        (regionEnd p start_idx end_idx j) s = .ok sr ∧
      cornerLoop p start_idx (regionStart p start_idx end_idx j)
        (uadd (usub (regionEnd p start_idx end_idx j) (regionStart p start_idx end_idx j)) 1)
        0 sr = .ok sc ∧
      flatLoop p start_idx (regionStart p start_idx end_idx j)
        (uadd (usub (regionEnd p start_idx end_idx j) (regionStart p start_idx end_idx j)) 1)
        0 0 acc sc = .ok (accf, s1) := by
  simp only [regionBody, hns, Bool.false_eq_true, if_false, bind_ok_iff] at h
  obtain ⟨sr, hsr, h⟩ := h
  simp only [regionPasses, bind_ok_iff] at h
  obtain ⟨sc, hsc, ⟨accf, sf⟩, hsf, h⟩ := h
  refine ⟨sr, sc, accf, hsr, hsc, ?_⟩
  split at h
  · simp only [bind_ok_iff, Except.ok.injEq, Prod.mk.injEq] at h
    obtain ⟨_, _, _, e⟩ := h
    subst e
    exact hsf
  · simp only [Except.ok.injEq, Prod.mk.injEq] at h
    obtain ⟨_, e⟩ := h
    subst e
    exact hsf

/-- Claim C24: for every input and every region `[sp, ep]` that is processed, the corner
pass and the flat pass are sequences of accepts (`CornerRun`, `FlatRun`): each corner is
accepted in a state in which its mask slot is unset and its stored curvature is strictly
above `surface_curvature_threshold`, each flat point in a state in which its slot is unset
and its stored curvature strictly below. The points appended to the corner and flat outputs
are the points at the accepted indices `A` and `F`; no index is in both, and an index whose
stored curvature equals the threshold is in neither. When the index arithmetic does not wrap,
the stored curvature of an index of the region is the curvature of the point. -/
theorem accepts_beyond_threshold (env : Env) (p : LoamParams) (start_idx end_idx : Nat)
    (j : Int) (acc acc1 : PointCloudIRT) (s s1 : State)
    (hns : regionSkipped p start_idx end_idx j = false)
    (h : regionBody env p start_idx end_idx j acc s = .ok (acc1, s1)) :
    ∃ (sr sc : State) (accf : PointCloudIRT) (A F : List Nat),
      SetRegionBuffersFor p (regionStart p start_idx end_idx j)
        (regionEnd p start_idx end_idx j) s = .ok sr ∧
      CornerRun p start_idx (regionStart p start_idx end_idx j) A 0 sr sc ∧
      FlatRun p start_idx (regionStart p start_idx end_idx j) F acc sc accf s1 ∧
      s1.corner_points_sharp_ = s.corner_points_sharp_ ++
        pointsAt s.sorted_scan_ (A.take p.max_corner_sharp.toNat) ∧
      s1.corner_points_less_sharp_ = s.corner_points_less_sharp_ ++
        (if p.ignore_weak_features then [] else pointsAt s.sorted_scan_ A) ∧
      s1.surface_points_flat_ = s.surface_points_flat_ ++ pointsAt s.sorted_scan_ F ∧
      (∀ i ∈ A, sr.scan_neighbor_picked_[usub i start_idx]? = some 0 ∧
        ∃ c, sr.region_curvature_[usub i (regionStart p start_idx end_idx j)]? = some c ∧
          c > p.surface_curvature_threshold) ∧
      (∀ i ∈ F, sr.scan_neighbor_picked_[usub i start_idx]? = some 0 ∧
        ∃ c, sr.region_curvature_[usub i (regionStart p start_idx end_idx j)]? = some c ∧
          c < p.surface_curvature_threshold) ∧
      (∀ i ∈ A, i ∉ F) ∧
      (∀ i, sr.region_curvature_[usub i (regionStart p start_idx end_idx j)]? =
        some p.surface_curvature_threshold → i ∉ A ∧ i ∉ F) ∧
      (0 ≤ p.curvature_region →
        start_idx + p.curvature_region.toNat ≤ regionStart p start_idx end_idx j →
        regionEnd p start_idx end_idx j + 1 + p.curvature_region.toNat < SIZE_MOD →
        ∀ i, regionStart p start_idx end_idx j ≤ i → i ≤ regionEnd p start_idx end_idx j →
          usub i (regionStart p start_idx end_idx j) = i - regionStart p start_idx end_idx j ∧
          usub i start_idx = i - start_idx ∧
          sr.region_curvature_[i - regionStart p start_idx end_idx j]? =
            some (curvatureSpec s.sorted_scan_ p.curvature_region i)) := by
  obtain ⟨sr, sc, accf, hsr, hsc, hsf⟩ := regionBody_steps env p start_idx end_idx j acc acc1
    s s1 hns h
  have hframe := SetRegionBuffersFor_frame p _ _ s sr hsr
  have f1 : sr.sorted_scan_ = s.sorted_scan_ := by rw [hframe]
  have f3 : sr.corner_points_sharp_ = s.corner_points_sharp_ := by rw [hframe]
  have f4 : sr.corner_points_less_sharp_ = s.corner_points_less_sharp_ := by rw [hframe]
  have f5 : sr.surface_points_flat_ = s.surface_points_flat_ := by rw [hframe]
  obtain ⟨A, _, c1, c2, c3, c4, c5, c6, c7, c8, c9, c10, c11, c12, chA, _⟩ :=
    cornerLoop_emits p start_idx _ _ sr sc hsc
  obtain ⟨F, _, d1, d2, d3, d4, d5, d6, d7, d8, d9, d10, d11, d12, d13, chF, _⟩ :=
    flatLoop_emits p start_idx _ _ acc accf sc s1 hsf
  have hA : ∀ i ∈ A, sr.scan_neighbor_picked_[usub i start_idx]? = some 0 ∧
      ∃ c, sr.region_curvature_[usub i (regionStart p start_idx end_idx j)]? = some c ∧
        c > p.surface_curvature_threshold := fun i hi =>
    ⟨(c10 i hi).2.1, (c10 i hi).2.2.1⟩
  have hF : ∀ i ∈ F, sr.scan_neighbor_picked_[usub i start_idx]? = some 0 ∧
      ∃ c, sr.region_curvature_[usub i (regionStart p start_idx end_idx j)]? = some c ∧
        c < p.surface_curvature_threshold := fun i hi => by
    obtain ⟨_, b2, ⟨c, b3, b4⟩, _⟩ := d11 i hi
    exact ⟨c7.zero_before b2, c, by rw [← c3]; exact b3, b4⟩
  refine ⟨sr, sc, accf, A, F, hsr, chA, chF, by rw [d4, c8, f3, f1], by rw [d5, c9, f4, f1],
    by rw [d9, c4, f5, c1, f1], hA, hF, ?_, ?_, ?_⟩
  · intro i hi hi2
    have h1 := (c10 i hi).2.2.2.1
    have h2 := (d11 i hi2).2.1
    rw [h1] at h2
    exact absurd h2 (by decide)
  · intro i he
    constructor
    · intro hi
      obtain ⟨_, c, hc, hgt⟩ := hA i hi
      rw [he] at hc
      cases hc
      exact lt_irrefl _ hgt
    · intro hi
      obtain ⟨_, c, hc, hlt⟩ := hF i hi
      rw [he] at hc
      cases hc
      exact lt_irrefl _ hlt
  · intro hcr hlo hhi i g1 g2
    have hle : regionStart p start_idx end_idx j ≤ regionEnd p start_idx end_idx j := by omega
    exact ⟨usub_eq g1 (by omega), usub_eq (by omega) (by omega),
      SetRegionBuffersFor_curvature p _ _ s sr hcr (by omega) hle (by omega) hsr i g1 g2⟩

theorem accepts_beyond_threshold_witness :
    regionSkipped sampleParams 0 6 0 = false ∧
    regionBody sampleEnv sampleParams 0 6 0 [] sampleFiltered7 =
      .ok (sampleRegion7.1, sampleRegion7.2) ∧
    ∃ (sr sc : State) (accf : PointCloudIRT) (A F : List Nat),
      SetRegionBuffersFor sampleParams (regionStart sampleParams 0 6 0)
        (regionEnd sampleParams 0 6 0) sampleFiltered7 = .ok sr ∧
      CornerRun sampleParams 0 (regionStart sampleParams 0 6 0) A 0 sr sc ∧
      FlatRun sampleParams 0 (regionStart sampleParams 0 6 0) F [] sc accf sampleRegion7.2 ∧
      (∀ i ∈ A, i ∉ F) :=
  have h := accepts_beyond_threshold sampleEnv sampleParams 0 6 0 [] sampleRegion7.1
    sampleFiltered7 sampleRegion7.2 (by decide) (by with_unfolding_all rfl)
  let ⟨sr, sc, accf, A, F, h1, h2, h3, _, _, _, _, _, h9, _⟩ := h
  ⟨by decide, by with_unfolding_all rfl, sr, sc, accf, A, F, h1, h2, h3, h9⟩

/-- Claim C29: the passes over a processed region `[sp, ep]` are greedy-complete. With `A`
and `F` the indices that the corner pass and the flat pass accept: if fewer than
`max_corner_less_sharp` corners are accepted, then in the state `sc` at the end of the corner
pass every point of the region with curvature above `surface_curvature_threshold` has a mask
slot that is set; if fewer than `max_surface_flat` flat points are accepted, then in the
state at the end of the flat pass every point of the region with curvature below the
threshold has a mask slot that is set. -/
theorem passes_greedy_complete (env : Env) (p : LoamParams) (start_idx end_idx : Nat)
    (j : Int) (sp ep : Nat) (acc acc1 : PointCloudIRT) (s s1 : State)
    (hsp : regionStart p start_idx end_idx j = sp) (hep : regionEnd p start_idx end_idx j = ep)
    (hns : regionSkipped p start_idx end_idx j = false)
    (hcr : 0 ≤ p.curvature_region) (hlo : start_idx + p.curvature_region.toNat ≤ sp)
    (hhi : ep + 1 + p.curvature_region.toNat < SIZE_MOD)
    (h : regionBody env p start_idx end_idx j acc s = .ok (acc1, s1)) :
    ∃ (sr sc : State) (accf : PointCloudIRT) (A F : List Nat),
      SetRegionBuffersFor p sp ep s = .ok sr ∧
      cornerLoop p start_idx sp (ep - sp + 1) 0 sr = .ok sc ∧
      flatLoop p start_idx sp (ep - sp + 1) 0 0 acc sc = .ok (accf, s1) ∧
      CornerRun p start_idx sp A 0 sr sc ∧
      FlatRun p start_idx sp F acc sc accf s1 ∧
      ((A.length : Int) < p.max_corner_less_sharp → ∀ i, sp ≤ i → i ≤ ep →
        curvatureSpec s.sorted_scan_ p.curvature_region i > p.surface_curvature_threshold →
        ∃ v, sc.scan_neighbor_picked_[i - start_idx]? = some v ∧ v ≠ 0) ∧
      ((F.length : Int) < p.max_surface_flat → ∀ i, sp ≤ i → i ≤ ep →
        curvatureSpec s.sorted_scan_ p.curvature_region i < p.surface_curvature_threshold →
        ∃ v, s1.scan_neighbor_picked_[i - start_idx]? = some v ∧ v ≠ 0) := by
  obtain ⟨sr, sc, accf, A, F, r1, r2, r3, chA, chF, cA, cF, _⟩ :=
    regionBody_emits env p start_idx end_idx j sp ep acc acc1 s s1 hsp hep hns hcr hlo hhi h
  exact ⟨sr, sc, accf, A, F, r1, r2, r3, chA, chF, cA, cF⟩

theorem passes_greedy_complete_witness :
    regionSkipped sampleParams 0 6 0 = false ∧
    regionBody sampleEnv sampleParams 0 6 0 [] sampleFiltered7 =
      .ok (sampleRegion7.1, sampleRegion7.2) ∧
    ∃ (sr sc : State) (accf : PointCloudIRT) (A F : List Nat),
      cornerLoop sampleParams 0 1 (4 - 1 + 1) 0 sr = .ok sc ∧
      flatLoop sampleParams 0 1 (4 - 1 + 1) 0 0 [] sc = .ok (accf, sampleRegion7.2) ∧
      CornerRun sampleParams 0 1 A 0 sr sc ∧
      FlatRun sampleParams 0 1 F [] sc accf sampleRegion7.2 ∧
      ((A.length : Int) < sampleParams.max_corner_less_sharp → ∀ i, 1 ≤ i → i ≤ 4 →
        curvatureSpec sampleFiltered7.sorted_scan_ sampleParams.curvature_region i >
          sampleParams.surface_curvature_threshold →
        ∃ v, sc.scan_neighbor_picked_[i - 0]? = some v ∧ v ≠ 0) :=
  have h := passes_greedy_complete sampleEnv sampleParams 0 6 0 1 4 [] sampleRegion7.1
    sampleFiltered7 sampleRegion7.2 (by decide) (by decide) (by decide) (by decide) (by decide)
    (by decide) (by with_unfolding_all rfl)
  let ⟨sr, sc, accf, A, F, _, h2, h3, h4, h5, h6, _⟩ := h
  ⟨by decide, by with_unfolding_all rfl, sr, sc, accf, A, F, h2, h3, h4, h5, h6⟩

/-! ### Claim C22: the less flat accumulation of a region -/

/-- The points that the remainder pass appends, when the enumerators are ordered as the spec
states: the points of the region, in index order, whose label is not `SURFACE_FLAT`. -/
theorem remainderPoints_spec_order (env : Env) (sp n : Nat) (s : State)
    (h1 : env.labelValue PointLabel.CORNER_SHARP < env.labelValue PointLabel.CORNER_LESS_SHARP)
    (h2 : env.labelValue PointLabel.CORNER_LESS_SHARP <
      env.labelValue PointLabel.SURFACE_LESS_FLAT)
    (h3 : env.labelValue PointLabel.SURFACE_LESS_FLAT < env.labelValue PointLabel.SURFACE_FLAT)
    (hlen : s.region_label_.length = n) :
    remainderPoints env sp s n = pointsAt s.sorted_scan_
      ((List.range' sp n).filter fun i =>
        decide (s.region_label_[i - sp]? ≠ some PointLabel.SURFACE_FLAT)) := by
  have key : ∀ l : List Nat, (∀ k ∈ l, k < n) →
      (l.filterMap fun k =>
        match s.region_label_[k]? with
        | some lab =>
          if env.labelValue lab ≤ env.labelValue PointLabel.SURFACE_LESS_FLAT then
            s.sorted_scan_[sp + k]?
          else none
        | none => none) =
      pointsAt s.sorted_scan_ ((l.map fun k => sp + k).filter fun i =>
        decide (s.region_label_[i - sp]? ≠ some PointLabel.SURFACE_FLAT)) := by
    intro l
    induction l with
    | nil => intro _; rfl
    | cons k l ih =>
      intro hk
      have ih2 := ih (fun x hx => hk x (List.mem_cons_of_mem _ hx))
      have hkn : k < s.region_label_.length := by
        rw [hlen]; exact hk k (List.mem_cons_self _ _)
      obtain ⟨lab, _, hlab⟩ := rd_of_lt hkn
      rw [List.filterMap_cons, List.map_cons, List.filter_cons]
      simp only [Nat.add_sub_cancel_left, hlab]
      by_cases hf : lab = PointLabel.SURFACE_FLAT
      · subst hf
        rw [if_neg (by omega)]
        simp only [ne_eq, not_true_eq_false, decide_False, Bool.false_eq_true, if_false]
        exact ih2
      · have hle : env.labelValue lab ≤ env.labelValue PointLabel.SURFACE_LESS_FLAT := by
          cases lab
          · omega
          · omega
          · exact le_refl _
          · exact absurd rfl hf
        have hne : (some lab ≠ some PointLabel.SURFACE_FLAT) := fun e => hf (Option.some.inj e)
        rw [if_pos hle]
        simp only [ne_eq, decide_not, Bool.not_eq_true', decide_eq_false_iff_not]
        rw [if_pos hne]
        have hp : ∀ (i : Nat) (rest : List Nat), pointsAt s.sorted_scan_ (i :: rest) =
            s.sorted_scan_[i]?.toList ++ pointsAt s.sorted_scan_ rest := fun i rest => by
          rw [← pointsAt_singleton, ← pointsAt_append]; rfl
        rw [hp]
        simp only [ne_eq, decide_not] at ih2
        cases hpt : s.sorted_scan_[sp + k]? with
        | none => simpa using ih2
        | some pt => simpa using ih2
  have := key (List.range n) (fun k hk => List.mem_range.mp hk)
  rw [List.range'_eq_map_range]
  exact this

/-- The points that a processed region `[sp, ep]` adds to the less flat accumulation of its
scan line when weak features are retained, for every valuation of the enumerators: the points
at the indices `F` of the region that the flat pass accepts, followed by the points of the
remainder pass, the points of the region, in index order, whose label compares
`≤ SURFACE_LESS_FLAT`. When the enumerators are ordered `CORNER_SHARP < CORNER_LESS_SHARP <
SURFACE_LESS_FLAT < SURFACE_FLAT` the remainder pass adds the points whose label is not
`SURFACE_FLAT`, the points labelled as corners among them. -/
theorem regionBody_less_flat (env : Env) (p : LoamParams) (start_idx end_idx : Nat)
    (j : Int) (sp ep : Nat) (acc acc1 : PointCloudIRT) (s s1 : State)
    (hig : p.ignore_weak_features = false)
    (hsp : regionStart p start_idx end_idx j = sp) (hep : regionEnd p start_idx end_idx j = ep)
    (hns : regionSkipped p start_idx end_idx j = false)
    (hcr : 0 ≤ p.curvature_region) (hlo : start_idx + p.curvature_region.toNat ≤ sp)
    (hhi : ep + 1 + p.curvature_region.toNat < SIZE_MOD)
    (h : regionBody env p start_idx end_idx j acc s = .ok (acc1, s1)) :
    ∃ F : List Nat,
      acc1 = acc ++ (pointsAt s.sorted_scan_ F ++ remainderPoints env sp s1 (ep - sp + 1)) ∧
      (∀ i ∈ F, s1.region_label_[i - sp]? = some PointLabel.SURFACE_FLAT) ∧
      (∀ i ∈ F, sp ≤ i ∧ i ≤ ep) ∧
      s1.surface_points_flat_ = s.surface_points_flat_ ++ pointsAt s.sorted_scan_ F ∧
      s1.sorted_scan_ = s.sorted_scan_ ∧ ep < s.sorted_scan_.length ∧
      (env.labelValue PointLabel.CORNER_SHARP < env.labelValue PointLabel.CORNER_LESS_SHARP →
        env.labelValue PointLabel.CORNER_LESS_SHARP <
          env.labelValue PointLabel.SURFACE_LESS_FLAT →
        env.labelValue PointLabel.SURFACE_LESS_FLAT < env.labelValue PointLabel.SURFACE_FLAT →
        ∃ R : List Nat,
          remainderPoints env sp s1 (ep - sp + 1) = pointsAt s.sorted_scan_ R ∧
          R = (List.range' sp (ep - sp + 1)).filter (fun i =>
            decide (s1.region_label_[i - sp]? ≠ some PointLabel.SURFACE_FLAT)) ∧
          (∀ i, sp ≤ i → i ≤ ep →
            (s1.region_label_[i - sp]? = some PointLabel.CORNER_SHARP ∨
              s1.region_label_[i - sp]? = some PointLabel.CORNER_LESS_SHARP) → i ∈ R) ∧
          (F ++ R).Perm (List.range' sp (ep - sp + 1))) := by
  have hlt : sp < ep := by
    simp only [regionSkipped, decide_eq_false_iff_not, hsp, hep] at hns
    omega
  obtain ⟨sr, sc, accf, A, F, r1, r2, r3, _, _, _, _, _, _, _, hFn, hAF, _, _, hA, hF, _, lA,
    lF, lrest, hscan, _, _, _, o3, _, hacc⟩ :=
    regionBody_emits env p start_idx end_idx j sp ep acc acc1 s s1 hsp hep hns hcr hlo hhi h
  have hlen : s1.region_label_.length = ep - sp + 1 := by
    obtain ⟨_, hl, _⟩ := SetRegionBuffersFor_indices p sp ep s sr (by omega) (by omega) r1
    obtain ⟨_, _, _, _, _, _, _, hc, _⟩ := cornerLoop_emits p start_idx sp _ sr sc r2
    obtain ⟨_, _, _, _, _, _, _, _, hf, _⟩ := flatLoop_emits p start_idx sp _ acc accf sc s1 r3
    rw [hf, hc, hl]
  refine ⟨F, by rw [hacc, hig]; simp, lF, fun i hi => ⟨(hF i hi).1, (hF i hi).2.1⟩, o3, hscan,
    SetRegionBuffersFor_reads p sp ep s sr (by omega) (by omega) r1, ?_⟩
  intro h1 h2 h3
  have hrem := remainderPoints_spec_order env sp (ep - sp + 1) s1 h1 h2 h3 hlen
  rw [hscan] at hrem
  refine ⟨_, hrem, rfl, ?_, ?_⟩
  · intro i g1 g2 hl
    rw [List.mem_filter, List.mem_range']
    refine ⟨⟨i - sp, by omega, by omega⟩, ?_⟩
    rcases hl with hl | hl <;> rw [hl] <;> decide
  · have hperm : F.Perm ((List.range' sp (ep - sp + 1)).filter (fun i =>
        decide (s1.region_label_[i - sp]? = some PointLabel.SURFACE_FLAT))) := by
      rw [List.perm_ext_iff_of_nodup hFn ((List.nodup_range' sp (ep - sp + 1)).filter _)]
      intro i
      rw [List.mem_filter, List.mem_range', decide_eq_true_eq]
      constructor
      · intro hi
        obtain ⟨g1, g2, _⟩ := hF i hi
        exact ⟨⟨i - sp, by omega, by omega⟩, lF i hi⟩
      · rintro ⟨⟨t, ht, e⟩, hl⟩
        by_contra hiF
        have g1 : sp ≤ i := by omega
        have g2 : i ≤ ep := by omega
        by_cases hiA : i ∈ A
        · obtain ⟨l, hl2, hl3⟩ := lA i hiA
          rw [hl] at hl2
          rcases hl3 with e3 | e3 <;> subst e3 <;> cases hl2
        · have := lrest i g1 g2 hiA hiF
          rw [hl] at this
          cases this
    have hsplit := List.filter_append_perm (fun i =>
      decide (s1.region_label_[i - sp]? = some PointLabel.SURFACE_FLAT))
      (List.range' sp (ep - sp + 1))
    refine (List.Perm.append hperm ?_).trans hsplit
    have e : (fun i => decide (s1.region_label_[i - sp]? ≠ some PointLabel.SURFACE_FLAT)) =
        (fun i => !decide (s1.region_label_[i - sp]? = some PointLabel.SURFACE_FLAT)) := by
      funext i
      simp
    rw [e]

/-- A point of the region whose label compares `≤ SURFACE_LESS_FLAT` is among the points that
the remainder pass appends, whatever the label is. -/
theorem remainderPoints_mem (env : Env) (sp n k : Nat) (s : State) (lab : PointLabel)
    (pt : Point) (hk : k < n) (hlab : s.region_label_[k]? = some lab)
    (hle : env.labelValue lab ≤ env.labelValue PointLabel.SURFACE_LESS_FLAT)
    (hpt : s.sorted_scan_[sp + k]? = some pt) :
    pt ∈ remainderPoints env sp s n := by
  unfold remainderPoints
  rw [List.mem_filterMap]
  refine ⟨k, List.mem_range.mpr hk, ?_⟩
  simp only [hlab]
  rw [if_pos hle, hpt]

/-- Claim C22, the code diverges from the claim: region `[1, 4]` of the scan line `sampleLine7`,
with weak features retained and downsampling off, labels the point at index 1 `SURFACE_FLAT`
and the point at index 3 `CORNER_SHARP`. With the enumerator values 255, 1, 0, -1 the less
flat accumulation of the region is the points at the indices 1, 1, 2, 4: the flat pass adds
the point at index 1 and the remainder pass adds it a second time. With the enumerators
ordered as the spec states it is the points at the indices 1, 2, 3, 4: the remainder pass
adds the point selected as a sharp corner. -/
theorem remainder_pass_adds_selected :
    sampleParams.ignore_weak_features = false ∧
    sampleParams.downsample_less_flat_features = false ∧
    regionStart sampleParams 0 6 0 = 1 ∧ regionEnd sampleParams 0 6 0 = 4 ∧
    (regionBody sampleEnv sampleParams 0 6 0 [] sampleFiltered7).toOption.map
        (fun r => (r.2.region_label_, r.2.surface_points_flat_, r.2.corner_points_sharp_, r.1)) =
      some ([PointLabel.SURFACE_FLAT, PointLabel.SURFACE_LESS_FLAT, PointLabel.CORNER_SHARP,
          PointLabel.SURFACE_LESS_FLAT],
        [samplePoint 0 1 0], [samplePoint 0 3 (1 / 10)],
        [samplePoint 0 1 0, samplePoint 0 1 0, samplePoint 0 2 0, samplePoint 0 4 0]) ∧
    (regionBody specOrderEnv sampleParams 0 6 0 [] sampleFiltered7).toOption.map
        (fun r => (r.2.region_label_, r.2.surface_points_flat_, r.2.corner_points_sharp_, r.1)) =
      some ([PointLabel.SURFACE_FLAT, PointLabel.SURFACE_LESS_FLAT, PointLabel.CORNER_SHARP,
          PointLabel.SURFACE_LESS_FLAT],
        [samplePoint 0 1 0], [samplePoint 0 3 (1 / 10)],
        [samplePoint 0 1 0, samplePoint 0 2 0, samplePoint 0 3 (1 / 10), samplePoint 0 4 0]) := by
  refine ⟨rfl, rfl, by decide, by decide, by decide!, by decide!⟩

/-! ### Claims C27, C30: where the emitted points come from -/

theorem emitted_refl (Q : Nat → Prop) (scan c : List Point) : EmittedFrom Q scan c c :=
  ⟨[], by rw [pointsAt_nil, List.append_nil], fun _ hi => absurd hi (List.not_mem_nil _)⟩

theorem emitted_trans {Q : Nat → Prop} {scan a b c : List Point}
    (h1 : EmittedFrom Q scan a b) (h2 : EmittedFrom Q scan b c) : EmittedFrom Q scan a c := by
  obtain ⟨i1, e1, q1⟩ := h1
  obtain ⟨i2, e2, q2⟩ := h2
  refine ⟨i1 ++ i2, by rw [e2, e1, pointsAt_append, List.append_assoc], fun i hi => ?_⟩
  rcases List.mem_append.mp hi with hi | hi
  · exact q1 i hi
  · exact q2 i hi

theorem emitted_of_points {Q : Nat → Prop} {scan a b : List Point} (idxs : List Nat)
    (e : b = a ++ pointsAt scan idxs) (q : ∀ i ∈ idxs, Q i) : EmittedFrom Q scan a b :=
  ⟨idxs, e, q⟩

theorem pointsAt_mem {scan : List Point} {idxs : List Nat} {pt : Point}
    (h : pt ∈ pointsAt scan idxs) : ∃ i ∈ idxs, scan[i]? = some pt := by
  unfold pointsAt at h
  rw [List.mem_filterMap] at h
  exact h

theorem emitted_mem {Q : Nat → Prop} {scan b : List Point} (h : EmittedFrom Q scan [] b)
    (pt : Point) (hpt : pt ∈ b) : ∃ i, scan[i]? = some pt ∧ Q i := by
  obtain ⟨idxs, e, q⟩ := h
  rw [e, List.nil_append] at hpt
  obtain ⟨i, hi, hs⟩ := pointsAt_mem hpt
  exact ⟨i, hs, q i hi⟩

/-- The points of the remainder pass are the points at a list of indices of the region. -/
theorem remainderPoints_indices (env : Env) (sp n : Nat) (s : State) :
    ∃ R : List Nat, remainderPoints env sp s n = pointsAt s.sorted_scan_ R ∧
      ∀ i ∈ R, sp ≤ i ∧ i < sp + n := by
  have key : ∀ l : List Nat, ∃ R : List Nat,
      (l.filterMap fun k =>
        match s.region_label_[k]? with
        | some lab =>
          if env.labelValue lab ≤ env.labelValue PointLabel.SURFACE_LESS_FLAT then
            s.sorted_scan_[sp + k]?
          else none
        | none => none) = pointsAt s.sorted_scan_ R ∧ ∀ i ∈ R, ∃ k ∈ l, i = sp + k := by
    intro l
    induction l with
    | nil => exact ⟨[], rfl, fun _ hi => absurd hi (List.not_mem_nil _)⟩
    | cons k l ih =>
      obtain ⟨R, e, q⟩ := ih
      have hq : ∀ i ∈ R, ∃ k2 ∈ k :: l, i = sp + k2 := fun i hi => by
        obtain ⟨k2, h1, h2⟩ := q i hi
        exact ⟨k2, List.mem_cons_of_mem _ h1, h2⟩
      rw [List.filterMap_cons]
      cases hlab : s.region_label_[k]? with
      | none => exact ⟨R, by simpa using e, hq⟩
      | some lab =>
        by_cases hle : env.labelValue lab ≤ env.labelValue PointLabel.SURFACE_LESS_FLAT
        · simp only [if_pos hle]
          cases hpt : s.sorted_scan_[sp + k]? with
          | none => exact ⟨R, by simpa using e, hq⟩
          | some pt =>
            refine ⟨(sp + k) :: R, ?_, ?_⟩
            · have : pointsAt s.sorted_scan_ ((sp + k) :: R) =
                  pt :: pointsAt s.sorted_scan_ R := by
                unfold pointsAt
                rw [List.filterMap_cons, hpt]
              rw [this]
              simpa using e
            · intro i hi
              rcases List.mem_cons.mp hi with hi | hi
              · exact ⟨k, List.mem_cons_self _ _, hi⟩
              · exact hq i hi
        · simp only [if_neg hle]
          exact ⟨R, by simpa using e, hq⟩
  obtain ⟨R, e, q⟩ := key (List.range n)
  refine ⟨R, e, fun i hi => ?_⟩
  obtain ⟨k, hk, e2⟩ := q i hi
  rw [List.mem_range] at hk
  omega

/-- Processing region `j` of a scan line appends, to the outputs and to the less flat
accumulation, points of the sorted scan at indices of the line that lie `curvature_region`
inside it; the indices of the corner and flat points have an unset slot in every earlier
mask `m0` of the line. -/
theorem regionBody_emitted (env : Env) (p : LoamParams) (start_idx end_idx : Nat)
    (hline : LineOK p start_idx end_idx) (hpos : 1 ≤ start_idx + p.curvature_region.toNat)
    (m0 : List Int) (scan0 : List Point) (Qc Qf Qr : Nat → Prop)
    (hQc : ∀ i, start_idx + p.curvature_region.toNat ≤ i →
      i + p.curvature_region.toNat + 1 ≤ end_idx → m0[i - start_idx]? = some 0 →
      curvatureSpec scan0 p.curvature_region i > p.surface_curvature_threshold → Qc i)
    (hQf : ∀ i, start_idx + p.curvature_region.toNat ≤ i →
      i + p.curvature_region.toNat + 1 ≤ end_idx → m0[i - start_idx]? = some 0 →
      curvatureSpec scan0 p.curvature_region i < p.surface_curvature_threshold → Qf i)
    (hQr : ∀ i, start_idx + p.curvature_region.toNat ≤ i →
      i + p.curvature_region.toNat + 1 ≤ end_idx → Qr i)
    (j : Nat) (hj : (j : Int) < p.n_feature_regions) (acc acc1 : PointCloudIRT) (s s1 : State)
    (hscan : s.sorted_scan_ = scan0) (hm : MaskGrows m0 s.scan_neighbor_picked_)
    (h : regionBody env p start_idx end_idx (j : Int) acc s = .ok (acc1, s1)) :
    s1.sorted_scan_ = scan0 ∧ MaskGrows m0 s1.scan_neighbor_picked_ ∧
    EmittedFrom Qc scan0 s.corner_points_sharp_ s1.corner_points_sharp_ ∧
    EmittedFrom Qc scan0 s.corner_points_less_sharp_ s1.corner_points_less_sharp_ ∧
    EmittedFrom Qf scan0 s.surface_points_flat_ s1.surface_points_flat_ ∧
    s1.surface_points_less_flat_ = s.surface_points_less_flat_ ∧
    EmittedFrom Qr scan0 acc acc1 := by
  by_cases hsk : regionSkipped p start_idx end_idx j = true
  · simp only [regionBody, hsk, if_true, Except.ok.injEq, Prod.mk.injEq] at h
    obtain ⟨e1, e2⟩ := h
    subst e1; subst e2
    exact ⟨hscan, hm, emitted_refl _ _ _, emitted_refl _ _ _, emitted_refl _ _ _,
      rfl, emitted_refl _ _ _⟩
  · have hns : regionSkipped p start_idx end_idx j = false := by
      cases hr : regionSkipped p start_idx end_idx j
      · rfl
      · exact absurd hr hsk
    obtain ⟨b1, b2, b3⟩ := region_in_line p start_idx end_idx hline hpos j hj
    obtain ⟨sr, sc, accf, A, F, _, _, _, _, _, _, _, _, _, _, _, _, _, _, hA, hF, _, _, _, _,
      e1, hg, o1, o2, o3, o4, hacc⟩ :=
      regionBody_emits env p start_idx end_idx j _ _ acc acc1 s s1 rfl rfl hns hline.hcr b1
        (by omega) h
    rw [hscan] at hA hF o1 o2 o3 hacc
    have qA : ∀ i ∈ A, Qc i := fun i hi => by
      obtain ⟨g1, g2, g3, g4⟩ := hA i hi
      exact hQc i (by omega) (by omega) (hm.zero_before g3) g4
    have qF : ∀ i ∈ F, Qf i := fun i hi => by
      obtain ⟨g1, g2, g3, g4⟩ := hF i hi
      exact hQf i (by omega) (by omega) (hm.zero_before g3) g4
    have qFr : ∀ i ∈ F, Qr i := fun i hi => by
      obtain ⟨g1, g2, _, _⟩ := hF i hi
      exact hQr i (by omega) (by omega)
    refine ⟨e1.trans hscan, hm.trans hg,
      emitted_of_points _ o1 (fun i hi => qA i (List.mem_of_mem_take hi)), ?_,
      emitted_of_points _ o3 qF, o4, ?_⟩
    · cases hig : p.ignore_weak_features
      · rw [hig] at o2
        exact emitted_of_points A (by simpa using o2) qA
      · rw [hig] at o2
        exact emitted_of_points [] (by simpa [pointsAt_nil] using o2)
          (fun _ hi => absurd hi (List.not_mem_nil _))
    · cases hig : p.ignore_weak_features
      · rw [hig] at hacc
        obtain ⟨R, hR, qR⟩ := remainderPoints_indices env
          (regionStart p start_idx end_idx j)
          (regionEnd p start_idx end_idx j - regionStart p start_idx end_idx j + 1) s1
        rw [hR, e1, hscan] at hacc
        refine emitted_of_points (F ++ R) (by rw [pointsAt_append]; simpa using hacc) ?_
        intro i hi
        rcases List.mem_append.mp hi with hi | hi
        · exact qFr i hi
        · obtain ⟨g1, g2⟩ := qR i hi
          have hlt : regionStart p start_idx end_idx j < regionEnd p start_idx end_idx j := by
            simp only [regionSkipped, decide_eq_false_iff_not] at hns
            omega
          exact hQr i (by omega) (by omega)
      · rw [hig] at hacc
        exact emitted_of_points [] (by simpa [pointsAt_nil] using hacc)
          (fun _ hi => absurd hi (List.not_mem_nil _))

theorem regionLoop_emitted (env : Env) (p : LoamParams) (start_idx end_idx : Nat)
    (hline : LineOK p start_idx end_idx) (hpos : 1 ≤ start_idx + p.curvature_region.toNat)
    (m0 : List Int) (scan0 : List Point) (Qc Qf Qr : Nat → Prop)
    (hQc : ∀ i, start_idx + p.curvature_region.toNat ≤ i →
      i + p.curvature_region.toNat + 1 ≤ end_idx → m0[i - start_idx]? = some 0 →
      curvatureSpec scan0 p.curvature_region i > p.surface_curvature_threshold → Qc i)
    (hQf : ∀ i, start_idx + p.curvature_region.toNat ≤ i →
      i + p.curvature_region.toNat + 1 ≤ end_idx → m0[i - start_idx]? = some 0 →
      curvatureSpec scan0 p.curvature_region i < p.surface_curvature_threshold → Qf i)
    (hQr : ∀ i, start_idx + p.curvature_region.toNat ≤ i →
      i + p.curvature_region.toNat + 1 ≤ end_idx → Qr i) :
    ∀ (left j : Nat) (acc acc1 : PointCloudIRT) (s s1 : State),
      ((j + left : Nat) : Int) ≤ p.n_feature_regions →
      s.sorted_scan_ = scan0 → MaskGrows m0 s.scan_neighbor_picked_ →
      regionLoop env p start_idx end_idx left (j : Int) acc s = .ok (acc1, s1) →
      s1.sorted_scan_ = scan0 ∧ MaskGrows m0 s1.scan_neighbor_picked_ ∧
      EmittedFrom Qc scan0 s.corner_points_sharp_ s1.corner_points_sharp_ ∧
      EmittedFrom Qc scan0 s.corner_points_less_sharp_ s1.corner_points_less_sharp_ ∧
      EmittedFrom Qf scan0 s.surface_points_flat_ s1.surface_points_flat_ ∧
      s1.surface_points_less_flat_ = s.surface_points_less_flat_ ∧
      EmittedFrom Qr scan0 acc acc1 := by
  intro left
  induction left with
  | zero =>
    intro j acc acc1 s s1 _ hscan hm h
    simp only [regionLoop, Except.ok.injEq, Prod.mk.injEq] at h
    obtain ⟨e1, e2⟩ := h
    subst e1; subst e2
    exact ⟨hscan, hm, emitted_refl _ _ _, emitted_refl _ _ _, emitted_refl _ _ _,
      rfl, emitted_refl _ _ _⟩
  | succ left ih =>
    intro j acc acc1 s s1 hj hscan hm h
    simp only [regionLoop, bind_ok_iff] at h
    obtain ⟨⟨acc2, s2⟩, h2, h⟩ := h
    obtain ⟨a1, a2, a3, a4, a5, a6, a7⟩ := regionBody_emitted env p start_idx end_idx hline hpos
      m0 scan0 Qc Qf Qr hQc hQf hQr j (by push_cast at hj; omega) acc acc2 s s2 hscan hm h2
    have e : (j : Int) + 1 = ((j + 1 : Nat) : Int) := by push_cast; rfl
    rw [e] at h
    obtain ⟨c1, c2, c3, c4, c5, c6, c7⟩ := ih (j + 1) acc2 acc1 s2 s1
      (by push_cast at hj ⊢; omega) a1 a2 h
    exact ⟨c1, c2, emitted_trans a3 c3, emitted_trans a4 c4, emitted_trans a5 c5, c6.trans a6,
      emitted_trans a7 c7⟩

/-- The steps of a scan line `[start_idx, end_idx]` that is processed: the filter leaves the
state `sA`, the regions leave the accumulation `acc` and the state `s2`, and the accumulation
is appended to the less flat output, downsampled or not. -/
theorem scanBody_steps (env : Env) (p : LoamParams) (start_idx end_idx : Nat) (s s1 : State)
    (hns : scanSkipped p (start_idx, end_idx) = false)
    (h : scanBody env p (start_idx, end_idx) s = .ok s1) :
    ∃ (sA s2 : State) (acc : PointCloudIRT),
      SetScanBuffersFor env p start_idx end_idx s = .ok sA ∧
      regionLoop env p start_idx end_idx p.n_feature_regions.toNat 0 [] sA = .ok (acc, s2) ∧
      s1 = { s2 with surface_points_less_flat_ := s2.surface_points_less_flat_ ++
        (if p.downsample_less_flat_features = true ∧ ¬ p.ignore_weak_features = true then
          env.voxelGrid p.less_flat_filter_size acc else acc) } := by
  simp only [scanBody, hns, Bool.false_eq_true, if_false, bind_ok_iff] at h
  obtain ⟨sA, hsA, ⟨acc, s2⟩, hloop, h⟩ := h
  refine ⟨sA, s2, acc, hsA, hloop, ?_⟩
  split at h
  · rename_i hc
    simp only [Except.ok.injEq] at h
    rw [if_pos hc, ← h]
  · rename_i hc
    simp only [Except.ok.injEq] at h
    rw [if_neg hc, ← h]

/-- Claim C27: the reliability filter changes nothing but the mask, `SetScanBuffersFor`
leaves every other buffer (the sorted scan, the labels, the four outputs) as it is. In a
scan line that is processed the mask only grows after the filter, up to every region boundary
and up to the end of the line, and the points appended to the corner-sharp, corner-less-sharp
and surface-flat outputs are points of the sorted scan at indices of the line whose slot the
filter left unset: a point whose slot the filter set is not emitted. -/
theorem filter_only_narrows (env : Env) (p : LoamParams) (start_idx end_idx : Nat)
    (s sA s1 : State) (hA : SetScanBuffersFor env p start_idx end_idx s = .ok sA) :
    sA = { s with scan_neighbor_picked_ := sA.scan_neighbor_picked_ } ∧
    (LineOK p start_idx end_idx → 1 ≤ start_idx + p.curvature_region.toNat →
      scanBody env p (start_idx, end_idx) s = .ok s1 →
      MaskGrows sA.scan_neighbor_picked_ s1.scan_neighbor_picked_ ∧
      (∀ (k : Nat) (acck : PointCloudIRT) (sk : State), k ≤ p.n_feature_regions.toNat →
        regionLoop env p start_idx end_idx k 0 [] sA = .ok (acck, sk) →
        MaskGrows sA.scan_neighbor_picked_ sk.scan_neighbor_picked_) ∧
      ∃ C L F : List Nat,
        s1.corner_points_sharp_ = s.corner_points_sharp_ ++ pointsAt s.sorted_scan_ C ∧
        s1.corner_points_less_sharp_ =
          s.corner_points_less_sharp_ ++ pointsAt s.sorted_scan_ L ∧
        s1.surface_points_flat_ = s.surface_points_flat_ ++ pointsAt s.sorted_scan_ F ∧
        ∀ i, i ∈ C ∨ i ∈ L ∨ i ∈ F →
          start_idx ≤ i ∧ i ≤ end_idx ∧ sA.scan_neighbor_picked_[i - start_idx]? = some 0) := by
  have hframe := SetScanBuffersFor_frame env p start_idx end_idx s sA hA
  refine ⟨hframe, fun hline hpos h => ?_⟩
  have f1 : sA.sorted_scan_ = s.sorted_scan_ := by rw [hframe]
  have f2 : sA.corner_points_sharp_ = s.corner_points_sharp_ := by rw [hframe]
  have f3 : sA.corner_points_less_sharp_ = s.corner_points_less_sharp_ := by rw [hframe]
  have f4 : sA.surface_points_flat_ = s.surface_points_flat_ := by rw [hframe]
  have hloops : ∀ (k : Nat) (acck : PointCloudIRT) (sk : State), k ≤ p.n_feature_regions.toNat →
      regionLoop env p start_idx end_idx k 0 [] sA = .ok (acck, sk) →
      MaskGrows sA.scan_neighbor_picked_ sk.scan_neighbor_picked_ ∧
      EmittedFrom (fun i => start_idx ≤ i ∧ i ≤ end_idx ∧
        sA.scan_neighbor_picked_[i - start_idx]? = some 0) s.sorted_scan_
        sA.corner_points_sharp_ sk.corner_points_sharp_ ∧
      EmittedFrom (fun i => start_idx ≤ i ∧ i ≤ end_idx ∧
        sA.scan_neighbor_picked_[i - start_idx]? = some 0) s.sorted_scan_
        sA.corner_points_less_sharp_ sk.corner_points_less_sharp_ ∧
      EmittedFrom (fun i => start_idx ≤ i ∧ i ≤ end_idx ∧
        sA.scan_neighbor_picked_[i - start_idx]? = some 0) s.sorted_scan_
        sA.surface_points_flat_ sk.surface_points_flat_ := by
    intro k acck sk hk hrun
    have hn := hline.hn
    obtain ⟨_, g, c1, c2, c3, _, _⟩ := regionLoop_emitted env p start_idx end_idx hline hpos
      sA.scan_neighbor_picked_ s.sorted_scan_
      (fun i => start_idx ≤ i ∧ i ≤ end_idx ∧ sA.scan_neighbor_picked_[i - start_idx]? = some 0)
      (fun i => start_idx ≤ i ∧ i ≤ end_idx ∧ sA.scan_neighbor_picked_[i - start_idx]? = some 0)
      (fun _ => True)
      (fun i g1 g2 g3 _ => ⟨by omega, by omega, g3⟩)
      (fun i g1 g2 g3 _ => ⟨by omega, by omega, g3⟩)
      (fun _ _ _ => trivial) k 0 [] acck sA sk (by push_cast; omega) f1 (MaskGrows.refl _)
      (by rw [Nat.cast_zero]; exact hrun)
    exact ⟨g, c1, c2, c3⟩
  obtain ⟨sA2, s2, acc, hsA, hloop, hs1⟩ := scanBody_steps env p start_idx end_idx s s1
    hline.not_skipped h
  rw [hA] at hsA
  cases hsA
  obtain ⟨g, ⟨C, eC, qC⟩, ⟨L, eL, qL⟩, ⟨F, eF, qF⟩⟩ := hloops _ acc s2 (Nat.le_refl _) hloop
  have m1 : s1.scan_neighbor_picked_ = s2.scan_neighbor_picked_ := by rw [hs1]
  have m2 : s1.corner_points_sharp_ = s2.corner_points_sharp_ := by rw [hs1]
  have m3 : s1.corner_points_less_sharp_ = s2.corner_points_less_sharp_ := by rw [hs1]
  have m4 : s1.surface_points_flat_ = s2.surface_points_flat_ := by rw [hs1]
  refine ⟨by rw [m1]; exact g, fun k acck sk hk hrun => (hloops k acck sk hk hrun).1,
    C, L, F, by rw [m2, eC, f2], by rw [m3, eL, f3], by rw [m4, eF, f4], ?_⟩
  intro i hi
  rcases hi with hi | hi | hi
  · exact qC i hi
  · exact qL i hi
  · exact qF i hi

theorem filter_only_narrows_witness :
    SetScanBuffersFor sampleEnv sampleParams 0 6 sampleScan7 = .ok sampleFiltered7 ∧
    scanBody sampleEnv sampleParams (0, 6) sampleScan7 = .ok sampleBody7 ∧
    sampleFiltered7 = { sampleScan7 with
      scan_neighbor_picked_ := sampleFiltered7.scan_neighbor_picked_ } ∧
    MaskGrows sampleFiltered7.scan_neighbor_picked_ sampleBody7.scan_neighbor_picked_ :=
  have h := filter_only_narrows sampleEnv sampleParams 0 6 sampleScan7 sampleFiltered7
    sampleBody7 (by with_unfolding_all rfl)
  ⟨by with_unfolding_all rfl, by with_unfolding_all rfl, h.1,
    (h.2 ⟨by decide, by decide, by decide, by decide⟩ (by decide)
      (by with_unfolding_all rfl)).1⟩

/-- The body of the loop over the scan lines appends points of the sorted scan at indices
that lie `curvature_region` inside the range, and nothing for a range that is skipped. -/
theorem scanBody_emitted (env : Env) (p : LoamParams) (range : IndexRange) (s s1 : State)
    (hcr : 1 ≤ p.curvature_region) (hn : 1 ≤ p.n_feature_regions)
    (hwrap : (range.1 : Int) + 2 * p.curvature_region < SIZE_MOD)
    (hin : (range.1 : Int) + 2 * p.curvature_region < range.2 →
      ((range.2 : Int) + 1) * p.n_feature_regions < SIZE_MOD)
    (Qc Qf Qr : Nat → Prop)
    (hQc : ∀ i, range.1 + 2 * p.curvature_region.toNat < range.2 →
      range.1 + p.curvature_region.toNat ≤ i → i + p.curvature_region.toNat + 1 ≤ range.2 →
      curvatureSpec s.sorted_scan_ p.curvature_region i > p.surface_curvature_threshold → Qc i)
    (hQf : ∀ i, range.1 + 2 * p.curvature_region.toNat < range.2 →
      range.1 + p.curvature_region.toNat ≤ i → i + p.curvature_region.toNat + 1 ≤ range.2 →
      curvatureSpec s.sorted_scan_ p.curvature_region i < p.surface_curvature_threshold → Qf i)
    (hQr : ∀ i, range.1 + 2 * p.curvature_region.toNat < range.2 →
      range.1 + p.curvature_region.toNat ≤ i → i + p.curvature_region.toNat + 1 ≤ range.2 →
      Qr i)
    (h : scanBody env p range s = .ok s1) :
    s1.sorted_scan_ = s.sorted_scan_ ∧
    EmittedFrom Qc s.sorted_scan_ s.corner_points_sharp_ s1.corner_points_sharp_ ∧
    EmittedFrom Qc s.sorted_scan_ s.corner_points_less_sharp_ s1.corner_points_less_sharp_ ∧
    EmittedFrom Qf s.sorted_scan_ s.surface_points_flat_ s1.surface_points_flat_ ∧
    (p.downsample_less_flat_features = false →
      EmittedFrom Qr s.sorted_scan_ s.surface_points_less_flat_ s1.surface_points_less_flat_) := by
  by_cases hsk : scanSkipped p range = true
  · simp only [scanBody, hsk, if_true, Except.ok.injEq] at h
    subst h
    exact ⟨rfl, emitted_refl _ _ _, emitted_refl _ _ _, emitted_refl _ _ _,
      fun _ => emitted_refl _ _ _⟩
  · have hns : scanSkipped p range = false := by
      cases hr : scanSkipped p range
      · rfl
      · exact absurd hr hsk
    have hc2 : toSizeT (2 * p.curvature_region) = 2 * p.curvature_region.toNat := by
      rw [toSizeT_eq (by omega) (by omega)]
      omega
    have hlong : (range.1 : Int) + 2 * p.curvature_region < range.2 := by
      simp only [scanSkipped, decide_eq_false_iff_not, not_le, hc2] at hns
      rw [uadd_eq (by omega)] at hns
      omega
    have hmul := hin hlong
    have hline : LineOK p range.1 range.2 := by
      refine ⟨by omega, hn, hlong, ?_⟩
      have : (range.2 : Int) * p.n_feature_regions ≤ ((range.2 : Int) + 1) * p.n_feature_regions :=
        mul_le_mul_of_nonneg_right (by omega) (by omega)
      omega
    have hl2 : range.1 + 2 * p.curvature_region.toNat < range.2 := by omega
    obtain ⟨sA, s2, acc, hsA, hloop, hs1⟩ := scanBody_steps env p range.1 range.2 s s1 hns h
    have hframe := SetScanBuffersFor_frame env p range.1 range.2 s sA hsA
    have f1 : sA.sorted_scan_ = s.sorted_scan_ := by rw [hframe]
    have f2 : sA.corner_points_sharp_ = s.corner_points_sharp_ := by rw [hframe]
    have f3 : sA.corner_points_less_sharp_ = s.corner_points_less_sharp_ := by rw [hframe]
    have f4 : sA.surface_points_flat_ = s.surface_points_flat_ := by rw [hframe]
    have f5 : sA.surface_points_less_flat_ = s.surface_points_less_flat_ := by rw [hframe]
    obtain ⟨c0, _, c1, c2, c3, c4, c5⟩ := regionLoop_emitted env p range.1 range.2 hline
      (by omega) sA.scan_neighbor_picked_ s.sorted_scan_ Qc Qf Qr
      (fun i g1 g2 _ g4 => hQc i hl2 g1 g2 g4) (fun i g1 g2 _ g4 => hQf i hl2 g1 g2 g4)
      (fun i g1 g2 => hQr i hl2 g1 g2) p.n_feature_regions.toNat 0 [] acc sA s2
      (by rw [Nat.zero_add, Int.toNat_of_nonneg (by omega)]) f1 (MaskGrows.refl _)
      (by rw [Nat.cast_zero]; exact hloop)
    rw [f2] at c1
    rw [f3] at c2
    rw [f4] at c3
    rw [f5] at c4
    have m0 : s1.sorted_scan_ = s2.sorted_scan_ := by rw [hs1]
    have m2 : s1.corner_points_sharp_ = s2.corner_points_sharp_ := by rw [hs1]
    have m3 : s1.corner_points_less_sharp_ = s2.corner_points_less_sharp_ := by rw [hs1]
    have m4 : s1.surface_points_flat_ = s2.surface_points_flat_ := by rw [hs1]
    refine ⟨m0.trans c0, by rw [m2]; exact c1, by rw [m3]; exact c2, by rw [m4]; exact c3, ?_⟩
    intro hds
    have m5 : s1.surface_points_less_flat_ = s2.surface_points_less_flat_ ++ acc := by
      rw [hs1, hds]
      simp
    obtain ⟨R, eR, qR⟩ := c5
    rw [List.nil_append] at eR
    exact ⟨R, by rw [m5, c4, eR], qR⟩

theorem scanLoop_emitted (env : Env) (p : LoamParams) (hcr : 1 ≤ p.curvature_region)
    (hn : 1 ≤ p.n_feature_regions) (scan0 : List Point) (Qc Qf Qr : Nat → Prop) :
    ∀ (ranges : List IndexRange) (s s1 : State), s.sorted_scan_ = scan0 →
      (∀ r ∈ ranges, (r.1 : Int) + 2 * p.curvature_region < SIZE_MOD ∧
        ((r.1 : Int) + 2 * p.curvature_region < r.2 →
          ((r.2 : Int) + 1) * p.n_feature_regions < SIZE_MOD)) →
      (∀ r ∈ ranges, ∀ i, r.1 + 2 * p.curvature_region.toNat < r.2 →
        r.1 + p.curvature_region.toNat ≤ i → i + p.curvature_region.toNat + 1 ≤ r.2 →
        (curvatureSpec scan0 p.curvature_region i > p.surface_curvature_threshold → Qc i) ∧
        (curvatureSpec scan0 p.curvature_region i < p.surface_curvature_threshold → Qf i) ∧
        Qr i) →
      scanLoop env p ranges s = .ok s1 →
      s1.sorted_scan_ = scan0 ∧
      EmittedFrom Qc scan0 s.corner_points_sharp_ s1.corner_points_sharp_ ∧
      EmittedFrom Qc scan0 s.corner_points_less_sharp_ s1.corner_points_less_sharp_ ∧
      EmittedFrom Qf scan0 s.surface_points_flat_ s1.surface_points_flat_ ∧
      (p.downsample_less_flat_features = false →
        EmittedFrom Qr scan0 s.surface_points_less_flat_ s1.surface_points_less_flat_) := by
  intro ranges
  induction ranges with
  | nil =>
    intro s s1 hscan _ _ h
    simp only [scanLoop, Except.ok.injEq] at h
    subst h
    exact ⟨hscan, emitted_refl _ _ _, emitted_refl _ _ _, emitted_refl _ _ _,
      fun _ => emitted_refl _ _ _⟩
  | cons r rest ih =>
    intro s s1 hscan hr hQ h
    simp only [scanLoop, bind_ok_iff] at h
    obtain ⟨s2, h2, h⟩ := h
    obtain ⟨w1, w2⟩ := hr r (List.mem_cons_self _ _)
    have hq := hQ r (List.mem_cons_self _ _)
    obtain ⟨a0, a1, a2, a3, a4⟩ := scanBody_emitted env p r s s2 hcr hn w1 w2 Qc Qf Qr
      (fun i g0 g1 g2 g3 => (hq i g0 g1 g2).1 (by rw [← hscan]; exact g3))
      (fun i g0 g1 g2 g3 => (hq i g0 g1 g2).2.1 (by rw [← hscan]; exact g3))
      (fun i g0 g1 g2 => (hq i g0 g1 g2).2.2) h2
    rw [hscan] at a0 a1 a2 a3 a4
    obtain ⟨c0, c1, c2, c3, c4⟩ := ih s2 s1 a0
      (fun r2 hr2 => hr r2 (List.mem_cons_of_mem _ hr2))
      (fun r2 hr2 => hQ r2 (List.mem_cons_of_mem _ hr2)) h
    exact ⟨c0, emitted_trans a1 c1, emitted_trans a2 c2, emitted_trans a3 c3,
      fun hds => emitted_trans (a4 hds) (c4 hds)⟩

theorem rangesFrom_mem_line (lines : List PointCloudIRT) (c : Nat) (r : IndexRange)
    (h : r ∈ rangesFrom c lines) :
    ∃ (l : Nat) (line : PointCloudIRT), lines[l]? = some line ∧
      r = rangeAt (c + (lines.take l).flatten.length) line.length := by
  obtain ⟨l, hl, e⟩ := List.getElem_of_mem h
  rw [rangesFrom_length] at hl
  obtain ⟨line, _, hline⟩ := rd_of_lt hl
  have := rangesFrom_getElem? lines c l line hline
  rw [List.getElem?_eq_getElem (by rw [rangesFrom_length]; exact hl), e] at this
  exact ⟨l, line, hline, Option.some.inj this⟩

/-- Claim C30: with a window radius of at least 1, at least one region, sizes that the index
arithmetic can hold and downsampling off, the call returns, and every point of each of the
four output clouds is the point at some position `k` of a scan line `ln` with at least
`2 * curvature_region + 2` points, with `curvature_region ≤ k ≤ length - 1 -
curvature_region - 1`; it is the sorted-scan point at index `start + k`, where `start` is
the number of points of the lines before `ln`. Lines with fewer points, and the
`curvature_region` points at each end of a line, contribute nothing. -/
theorem outputs_from_line_interiors (env : Env) (p : LoamParams)
    (lines : List PointCloudIRT) (s : State)
    (hcr : 1 ≤ p.curvature_region) (hn : 1 ≤ p.n_feature_regions)
    (hsize : ((lines.flatten.length : Int) + 2 * p.curvature_region) * p.n_feature_regions
      < SIZE_MOD)
    (hds : p.downsample_less_flat_features = false) :
    ∃ out w s1, ExtractFeaturesFromScanLines env p lines s = .ok (out, w, s1) ∧
      s1.sorted_scan_ = lines.flatten ∧
      ∀ pt, pt ∈ out.edges_strong ∨ pt ∈ out.surfaces_strong ∨ pt ∈ out.edges_weak ∨
          pt ∈ out.surfaces_weak →
        ∃ (l : Nat) (ln : PointCloudIRT) (k : Nat), lines[l]? = some ln ∧
          2 * p.curvature_region + 2 ≤ (ln.length : Int) ∧
          p.curvature_region ≤ (k : Int) ∧
          (k : Int) ≤ (ln.length : Int) - 1 - p.curvature_region - 1 ∧
          ln[k]? = some pt ∧
          s1.sorted_scan_[(lines.take l).flatten.length + k]? = some pt := by
  have hsz : (lines.flatten.length : Int) + 2 * p.curvature_region < SIZE_MOD := by
    have : ((lines.flatten.length : Int) + 2 * p.curvature_region) * 1 ≤
        ((lines.flatten.length : Int) + 2 * p.curvature_region) * p.n_feature_regions :=
      mul_le_mul_of_nonneg_left hn (by omega)
    omega
  obtain ⟨s1, hs1⟩ := runScanLines_ok env p lines s hcr hn hsize
  have hrun := hs1
  unfold runScanLines at hrun
  simp only at hrun
  rw [GetSortedScan_eq lines s (by omega)] at hrun
  obtain ⟨e0, c1, c2, c3, c4⟩ := scanLoop_emitted env p hcr hn lines.flatten
    (fun i => ∃ (l : Nat) (ln : PointCloudIRT) (k : Nat), lines[l]? = some ln ∧
      2 * p.curvature_region + 2 ≤ (ln.length : Int) ∧ p.curvature_region ≤ (k : Int) ∧
      (k : Int) ≤ (ln.length : Int) - 1 - p.curvature_region - 1 ∧
      i = (lines.take l).flatten.length + k)
    (fun i => ∃ (l : Nat) (ln : PointCloudIRT) (k : Nat), lines[l]? = some ln ∧
      2 * p.curvature_region + 2 ≤ (ln.length : Int) ∧ p.curvature_region ≤ (k : Int) ∧
      (k : Int) ≤ (ln.length : Int) - 1 - p.curvature_region - 1 ∧
      i = (lines.take l).flatten.length + k)
    (fun i => ∃ (l : Nat) (ln : PointCloudIRT) (k : Nat), lines[l]? = some ln ∧
      2 * p.curvature_region + 2 ≤ (ln.length : Int) ∧ p.curvature_region ≤ (k : Int) ∧
      (k : Int) ≤ (ln.length : Int) - 1 - p.curvature_region - 1 ∧
      i = (lines.take l).flatten.length + k)
    (rangesFrom 0 lines) _ s1 rfl
    (by
      intro r hr
      obtain ⟨before, len, e1, _, e3⟩ := rangesFrom_mem lines 0 r hr
      subst e1
      simp only [rangeAt]
      refine ⟨by omega, ?_⟩
      intro hlong
      split at hlong
      · rw [if_pos (by assumption)]
        have h1 : ((before + len - 1 : Nat) : Int) + 1 ≤
            (lines.flatten.length : Int) + 2 * p.curvature_region := by omega
        have := mul_le_mul_of_nonneg_right h1 (show (0 : Int) ≤ p.n_feature_regions by omega)
        omega
      · exfalso
        have : (0 : Int) ≤ before := Int.natCast_nonneg _
        push_cast at hlong
        omega)
    (by
      intro r hr i g0 g1 g2
      obtain ⟨l, ln, hl, e⟩ := rangesFrom_mem_line lines 0 r hr
      subst e
      simp only [rangeAt, Nat.zero_add] at g0 g1 g2
      have key : ∃ (l : Nat) (ln : PointCloudIRT) (k : Nat), lines[l]? = some ln ∧
          2 * p.curvature_region + 2 ≤ (ln.length : Int) ∧ p.curvature_region ≤ (k : Int) ∧
          (k : Int) ≤ (ln.length : Int) - 1 - p.curvature_region - 1 ∧
          i = (lines.take l).flatten.length + k := by
        refine ⟨l, ln, i - (lines.take l).flatten.length, hl, ?_⟩
        split at g0
        · rw [if_pos (by assumption)] at g2
          refine ⟨by omega, by omega, by omega, by omega⟩
        · omega
      exact ⟨fun _ => key, fun _ => key, key⟩)
    hrun
  refine ⟨_, _, s1, by unfold ExtractFeaturesFromScanLines; rw [hs1, ok_bind], e0, ?_⟩
  intro pt hpt
  have hfrom : ∃ i, lines.flatten[i]? = some pt ∧
      ∃ (l : Nat) (ln : PointCloudIRT) (k : Nat), lines[l]? = some ln ∧
        2 * p.curvature_region + 2 ≤ (ln.length : Int) ∧ p.curvature_region ≤ (k : Int) ∧
        (k : Int) ≤ (ln.length : Int) - 1 - p.curvature_region - 1 ∧
        i = (lines.take l).flatten.length + k := by
    rcases hpt with hpt | hpt | hpt | hpt
    · exact emitted_mem c1 pt hpt
    · exact emitted_mem c3 pt hpt
    · exact emitted_mem c2 pt hpt
    · exact emitted_mem (c4 hds) pt hpt
  obtain ⟨i, hi, l, ln, k, hl, q1, q2, q3, q4⟩ := hfrom
  subst q4
  refine ⟨l, ln, k, hl, q1, q2, q3, ?_, by rw [e0]; exact hi⟩
  rw [flatten_split lines l ln hl, List.append_assoc,
    List.getElem?_append_right (Nat.le_add_right _ _), Nat.add_sub_cancel_left,
    List.getElem?_append_left (by omega)] at hi
  exact hi

theorem outputs_from_line_interiors_witness :
    ((([sampleLine7, sampleLine3].flatten.length : Nat) : Int)
        + 2 * sampleParams.curvature_region) * sampleParams.n_feature_regions < SIZE_MOD ∧
    ∃ out w s1, ExtractFeaturesFromScanLines sampleEnv sampleParams [sampleLine7, sampleLine3]
        sampleState = .ok (out, w, s1) ∧
      s1.sorted_scan_ = [sampleLine7, sampleLine3].flatten ∧
      ∀ pt, pt ∈ out.edges_strong ∨ pt ∈ out.surfaces_strong ∨ pt ∈ out.edges_weak ∨
          pt ∈ out.surfaces_weak →
        ∃ (l : Nat) (ln : PointCloudIRT) (k : Nat),
          [sampleLine7, sampleLine3][l]? = some ln ∧
          2 * sampleParams.curvature_region + 2 ≤ (ln.length : Int) ∧
          sampleParams.curvature_region ≤ (k : Int) ∧
          (k : Int) ≤ (ln.length : Int) - 1 - sampleParams.curvature_region - 1 ∧
          ln[k]? = some pt ∧
          s1.sorted_scan_[([sampleLine7, sampleLine3].take l).flatten.length + k]? = some pt :=
  ⟨by decide, outputs_from_line_interiors sampleEnv sampleParams [sampleLine7, sampleLine3]
    sampleState (by decide) (by decide) (by decide) rfl⟩

/-! ### Claim C28: the accesses of a scan line stay inside the line -/

theorem rd_congr {α : Type} {xs ys : List α} {i : Nat} (h : ys[i]? = xs[i]?) :
    rd ys i = rd xs i := by
  unfold rd
  rw [h]

theorem SetScanBuffersStep_scan (env : Env) (p : LoamParams) (B : List Point)
    (start_idx i : Nat) (s s1 : State)
    (h1 : B[usub i 1]? = s.sorted_scan_[usub i 1]?) (h2 : B[i]? = s.sorted_scan_[i]?)
    (h3 : B[uadd i 1]? = s.sorted_scan_[uadd i 1]?)
    (h : SetScanBuffersStep env p start_idx i s = .ok s1) :
    SetScanBuffersStep env p start_idx i (withScan B s) = .ok (withScan B s1) := by
  simp only [SetScanBuffersStep, bind_ok_iff] at h
  obtain ⟨prev, hprev, pt, hpt, next, hnext, h⟩ := h
  simp only [SetScanBuffersStep, withScan]
  rw [rd_congr h1, rd_congr h2, rd_congr h3, hprev, ok_bind, hpt, ok_bind, hnext, ok_bind]
  split at h
  · rename_i hc
    simp only [bind_ok_iff, Except.ok.injEq] at h
    obtain ⟨m, hm, h⟩ := h
    subst h
    rw [if_pos hc, hm, ok_bind]
  · rename_i hc
    rw [if_neg hc]
    simp only [bind_ok_iff] at h
    obtain ⟨m, hm, h⟩ := h
    rw [hm, ok_bind]
    split at h
    · rename_i hc2
      simp only [bind_ok_iff, Except.ok.injEq] at h
      obtain ⟨m2, hm2, h⟩ := h
      subst h
      rw [if_pos hc2, hm2, ok_bind]
    · rename_i hc2
      simp only [Except.ok.injEq] at h
      subst h
      rw [if_neg hc2]

theorem SetScanBuffersLoop_scan (env : Env) (p : LoamParams) (A B : List Point)
    (start_idx lo hi : Nat) (hhi : hi < SIZE_MOD)
    (hag : ∀ t, lo ≤ t → t ≤ hi → B[t]? = A[t]?) :
    ∀ (left i : Nat) (s s1 : State), s.sorted_scan_ = A → lo + 1 ≤ i → i + left ≤ hi →
      SetScanBuffersLoop env p start_idx left i s = .ok s1 →
      SetScanBuffersLoop env p start_idx left i (withScan B s) = .ok (withScan B s1) := by
  intro left
  induction left with
  | zero =>
    intro i s s1 _ _ _ h
    simp only [SetScanBuffersLoop, Except.ok.injEq] at h
    subst h
    rfl
  | succ left ih =>
    intro i s s1 hA h1 h2 h
    simp only [SetScanBuffersLoop, bind_ok_iff] at h
    obtain ⟨s2, hs2, h⟩ := h
    simp only [SetScanBuffersLoop]
    have e1 : usub i 1 = i - 1 := usub_eq (by omega) (by omega)
    have e2 : uadd i 1 = i + 1 := uadd_eq (by omega)
    rw [SetScanBuffersStep_scan env p B start_idx i s s2
      (by rw [e1, hA]; exact hag _ (by omega) (by omega))
      (by rw [hA]; exact hag _ (by omega) (by omega))
      (by rw [e2, hA]; exact hag _ (by omega) (by omega)) hs2, ok_bind]
    have hf := SetScanBuffersStep_frame env p start_idx i s s2 hs2
    exact ih (i + 1) s2 s1 (by rw [hf]; exact hA) (by omega) (by omega) h

theorem SetScanBuffersFor_scan (env : Env) (p : LoamParams) (B : List Point)
    (start_idx end_idx : Nat) (s s1 : State)
    (hcr : 1 ≤ p.curvature_region)
    (hlong : start_idx + 2 * p.curvature_region.toNat < end_idx) (hmod : end_idx < SIZE_MOD)
    (hag : ∀ t, start_idx ≤ t → t ≤ end_idx → B[t]? = s.sorted_scan_[t]?)
    (h : SetScanBuffersFor env p start_idx end_idx s = .ok s1) :
    SetScanBuffersFor env p start_idx end_idx (withScan B s) = .ok (withScan B s1) := by
  have hc : toSizeT p.curvature_region = p.curvature_region.toNat :=
    toSizeT_eq (by omega) (by omega)
  have e2 : uadd start_idx p.curvature_region.toNat = start_idx + p.curvature_region.toNat :=
    uadd_eq (by omega)
  have e3 : usub end_idx p.curvature_region.toNat = end_idx - p.curvature_region.toNat :=
    usub_eq (by omega) (by omega)
  simp only [SetScanBuffersFor, hc, e2, e3] at h ⊢
  exact SetScanBuffersLoop_scan env p s.sorted_scan_ B start_idx start_idx end_idx hmod hag
    (end_idx - p.curvature_region.toNat - (start_idx + p.curvature_region.toNat))
    (start_idx + p.curvature_region.toNat)
    { s with scan_neighbor_picked_ := List.replicate (uadd (usub end_idx start_idx) 1) (0 : Int) }
    s1 rfl (by omega) (by omega) h

theorem curvatureWindow_scan (A B : List Point) (i : Nat) :
    ∀ (left j : Nat) (d : ℚ × ℚ × ℚ),
      (∀ m, j ≤ m → m < j + left →
        B[uadd i m]? = A[uadd i m]? ∧ B[usub i m]? = A[usub i m]?) →
      curvatureWindow B i left j d = curvatureWindow A i left j d := by
  intro left
  induction left with
  | zero => intro j d _; rfl
  | succ left ih =>
    intro j d hag
    obtain ⟨g1, g2⟩ := hag j (Nat.le_refl _) (by omega)
    have ih2 : ∀ d2, curvatureWindow B i left (j + 1) d2 = curvatureWindow A i left (j + 1) d2 :=
      fun d2 => ih (j + 1) d2 (fun m h1 h2 => hag m (by omega) (by omega))
    simp only [curvatureWindow, rd_congr g1, rd_congr g2, ih2]

theorem curvatureLoop_scan (p : LoamParams) (A B : List Point) :
    ∀ (left i r : Nat) (s s1 : State), s.sorted_scan_ = A →
      (∀ t, i ≤ t → t < i + left → B[t]? = A[t]? ∧ ∀ m, 1 ≤ m → m ≤ p.curvature_region.toNat →
        B[uadd t m]? = A[uadd t m]? ∧ B[usub t m]? = A[usub t m]?) →
      curvatureLoop p left i r s = .ok s1 →
      curvatureLoop p left i r (withScan B s) = .ok (withScan B s1) := by
  intro left
  induction left with
  | zero =>
    intro i r s s1 _ _ h
    simp only [curvatureLoop, Except.ok.injEq] at h
    subst h
    rfl
  | succ left ih =>
    intro i r s s1 hA hag h
    simp only [curvatureLoop, bind_ok_iff] at h
    obtain ⟨pt, hpt, d, hd, c, hc, ix, hix, h⟩ := h
    obtain ⟨g1, g2⟩ := hag i (Nat.le_refl _) (by omega)
    simp only [curvatureLoop, withScan]
    rw [hA] at hpt hd
    rw [rd_congr g1, hpt, ok_bind,
      curvatureWindow_scan A B i _ 1 _ (fun m h1 h2 => g2 m h1 (by omega)), hd, ok_bind, hc,
      ok_bind, hix, ok_bind]
    exact ih (i + 1) (r + 1) { s with region_curvature_ := c, region_sort_indices_ := ix } s1
      hA (fun t h1 h2 => hag t (by omega) (by omega)) h

theorem sortInner_scan (B : List Point) (sp : Nat) :
    ∀ (j : Nat) (s s1 : State), sortInner sp j s = .ok s1 →
      sortInner sp j (withScan B s) = .ok (withScan B s1) := by
  intro j
  induction j with
  | zero =>
    intro s s1 h
    simp only [sortInner, Except.ok.injEq] at h
    subst h
    rfl
  | succ j ih =>
    intro s s1 h
    simp only [sortInner, bind_ok_iff] at h
    obtain ⟨a, ha, b, hb, ca, hca, cb, hcb, h⟩ := h
    simp only [sortInner, withScan]
    rw [ha, ok_bind, hb, ok_bind, hca, ok_bind, hcb, ok_bind]
    split at h
    · rename_i hc
      simp only [bind_ok_iff] at h
      obtain ⟨i1, hi1, i2, hi2, h⟩ := h
      rw [if_pos hc, hi1, ok_bind, hi2, ok_bind]
      exact ih _ _ h
    · rename_i hc
      rw [if_neg hc]
      exact ih _ _ h

theorem sortOuter_scan (B : List Point) (sp : Nat) :
    ∀ (left i : Nat) (s s1 : State), sortOuter sp left i s = .ok s1 →
      sortOuter sp left i (withScan B s) = .ok (withScan B s1) := by
  intro left
  induction left with
  | zero =>
    intro i s s1 h
    simp only [sortOuter, Except.ok.injEq] at h
    subst h
    rfl
  | succ left ih =>
    intro i s s1 h
    simp only [sortOuter, bind_ok_iff] at h
    obtain ⟨s2, hs2, h⟩ := h
    simp only [sortOuter]
    rw [sortInner_scan B sp i s s2 hs2, ok_bind]
    exact ih _ _ _ h

theorem SetRegionBuffersFor_scan (p : LoamParams) (B : List Point) (sp ep : Nat) (s s1 : State)
    (hle : sp ≤ ep) (hlo : p.curvature_region.toNat ≤ sp)
    (hhi : ep + 1 + p.curvature_region.toNat < SIZE_MOD)
    (hag : ∀ t, sp - p.curvature_region.toNat ≤ t → t ≤ ep + p.curvature_region.toNat →
      B[t]? = s.sorted_scan_[t]?)
    (h : SetRegionBuffersFor p sp ep s = .ok s1) :
    SetRegionBuffersFor p sp ep (withScan B s) = .ok (withScan B s1) := by
  simp only [SetRegionBuffersFor, bind_ok_iff] at h
  obtain ⟨s2, hs2, h⟩ := h
  simp only [SetRegionBuffersFor]
  have := curvatureLoop_scan p s.sorted_scan_ B (ep + 1 - sp) sp 0
    { s with
      region_curvature_ := resize s.region_curvature_ (uadd (usub ep sp) 1) 0,
      region_sort_indices_ := resize s.region_sort_indices_ (uadd (usub ep sp) 1) 0,
      region_label_ := List.replicate (uadd (usub ep sp) 1) PointLabel.SURFACE_LESS_FLAT }
    s2 rfl (by
    intro t h1 h2
    refine ⟨hag t (by omega) (by omega), fun m hm1 hm2 => ?_⟩
    rw [uadd_eq (by omega), usub_eq (by omega) (by omega)]
    exact ⟨hag _ (by omega) (by omega), hag _ (by omega) (by omega)⟩) hs2
  simp only [withScan] at this ⊢
  rw [this, ok_bind]
  exact sortOuter_scan B sp _ _ _ _ h

theorem markForward_scan (A B : List Point) (cloud_idx scan_idx : Nat) :
    ∀ (left i : Nat) (picked : List Int),
      (∀ m, i ≤ m → m < i + left → B[uadd cloud_idx m]? = A[uadd cloud_idx m]? ∧
        B[usub (uadd cloud_idx m) 1]? = A[usub (uadd cloud_idx m) 1]?) →
      markForward B cloud_idx scan_idx left i picked =
        markForward A cloud_idx scan_idx left i picked := by
  intro left
  induction left with
  | zero => intro i picked _; rfl
  | succ left ih =>
    intro i picked hag
    obtain ⟨g1, g2⟩ := hag i (Nat.le_refl _) (by omega)
    have ih2 : ∀ pk, markForward B cloud_idx scan_idx left (i + 1) pk =
        markForward A cloud_idx scan_idx left (i + 1) pk :=
      fun pk => ih (i + 1) pk (fun m h1 h2 => hag m (by omega) (by omega))
    simp only [markForward, rd_congr g1, rd_congr g2, ih2]

theorem markBackward_scan (A B : List Point) (cloud_idx scan_idx : Nat) :
    ∀ (left i : Nat) (picked : List Int),
      (∀ m, i ≤ m → m < i + left → B[usub cloud_idx m]? = A[usub cloud_idx m]? ∧
        B[uadd (usub cloud_idx m) 1]? = A[uadd (usub cloud_idx m) 1]?) →
      markBackward B cloud_idx scan_idx left i picked =
        markBackward A cloud_idx scan_idx left i picked := by
  intro left
  induction left with
  | zero => intro i picked _; rfl
  | succ left ih =>
    intro i picked hag
    obtain ⟨g1, g2⟩ := hag i (Nat.le_refl _) (by omega)
    have ih2 : ∀ pk, markBackward B cloud_idx scan_idx left (i + 1) pk =
        markBackward A cloud_idx scan_idx left (i + 1) pk :=
      fun pk => ih (i + 1) pk (fun m h1 h2 => hag m (by omega) (by omega))
    simp only [markBackward, rd_congr g1, rd_congr g2, ih2]

/-- `MarkAsPicked` at an index `idx` of the window `[lo, hi]` reads the sorted scan only
within `curvature_region` of `idx`. -/
theorem MarkAsPicked_scan (p : LoamParams) (B : List Point) (idx k lo hi : Nat) (s s1 : State)
    (h : MarkAsPicked p idx k s = .ok s1)
    (h1 : lo + p.curvature_region.toNat ≤ idx) (h2 : idx + p.curvature_region.toNat ≤ hi)
    (hhi : hi < SIZE_MOD)
    (hag : ∀ t, lo ≤ t → t ≤ hi → B[t]? = s.sorted_scan_[t]?) :
    MarkAsPicked p idx k (withScan B s) = .ok (withScan B s1) := by
  simp only [MarkAsPicked, bind_ok_iff, Except.ok.injEq] at h
  obtain ⟨m0, hm0, m1, hm1, m2, hm2, h⟩ := h
  subst h
  simp only [MarkAsPicked, withScan]
  rw [hm0, ok_bind,
    markForward_scan s.sorted_scan_ B idx k _ 1 m0 (by
      intro m g1 g2
      rw [uadd_eq (by omega), usub_eq (by omega) (by omega)]
      exact ⟨hag _ (by omega) (by omega), hag _ (by omega) (by omega)⟩), hm1, ok_bind,
    markBackward_scan s.sorted_scan_ B idx k _ 1 m1 (by
      intro m g1 g2
      rw [usub_eq (by omega) (by omega), uadd_eq (by omega)]
      exact ⟨hag _ (by omega) (by omega), hag _ (by omega) (by omega)⟩), hm2, ok_bind]

theorem cornerAccept_scan (p : LoamParams) (B : List Point) (idx k r lo hi : Nat) (L : Int)
    (s s3 : State)
    (h1 : lo + p.curvature_region.toNat ≤ idx) (h2 : idx + p.curvature_region.toNat ≤ hi)
    (hhi : hi < SIZE_MOD) (hlen : hi < s.sorted_scan_.length)
    (hag : ∀ t, lo ≤ t → t ≤ hi → B[t]? = s.sorted_scan_[t]?)
    (h : cornerAccept p idx k r L s = .ok s3) :
    cornerAccept p idx k r L (withScan B s) = .ok (withScan B s3) := by
  obtain ⟨hl, hmark⟩ := cornerAccept_spec p idx _ _ _ s s3 h
  obtain ⟨pt, _, hpt⟩ := rd_of_lt (show idx < s.sorted_scan_.length by omega)
  rw [hpt] at hmark
  have hB : (withScan B s).sorted_scan_[idx]? = some pt := by
    show B[idx]? = some pt
    rw [hag idx (by omega) (by omega), hpt]
  rw [cornerAccept_eq p idx k r L (withScan B s) pt hl hB]
  have := MarkAsPicked_scan p B idx k lo hi _ s3 hmark h1 h2 hhi hag
  rw [← this]
  simp only [withScan, Option.toList_some]

theorem cornerLoop_scan (p : LoamParams) (A B : List Point) (scan_start_idx sp ep lo hi : Nat)
    (h1 : lo + p.curvature_region.toNat ≤ sp) (h2 : ep + p.curvature_region.toNat ≤ hi)
    (hhi : hi < SIZE_MOD) (hlen : hi < A.length)
    (hag : ∀ t, lo ≤ t → t ≤ hi → B[t]? = A[t]?) :
    ∀ (k : Nat) (L : Int) (s s1 : State), s.sorted_scan_ = A →
      (∀ x ∈ s.region_sort_indices_, sp ≤ x ∧ x ≤ ep) →
      cornerLoop p scan_start_idx sp k L s = .ok s1 →
      cornerLoop p scan_start_idx sp k L (withScan B s) = .ok (withScan B s1) := by
  intro k
  induction k with
  | zero =>
    intro L s s1 _ _ h
    simp only [cornerLoop, Except.ok.injEq] at h
    subst h
    rfl
  | succ k ih =>
    intro L s s1 hA hmem h
    simp only [cornerLoop] at h ⊢
    split at h
    · rename_i hL
      rw [if_pos hL]
      simp only [bind_ok_iff] at h
      obtain ⟨idx, hidx, picked, hp, h⟩ := h
      have hidx2 : rd (withScan B s).region_sort_indices_ k = .ok idx := hidx
      have hp2 : rd (withScan B s).scan_neighbor_picked_ (usub idx scan_start_idx) =
          .ok picked := hp
      rw [hidx2, ok_bind, hp2, ok_bind]
      split at h
      · rename_i h0
        rw [if_pos h0]
        simp only [bind_ok_iff] at h
        obtain ⟨c, hc, h⟩ := h
        have hc2 : rd (withScan B s).region_curvature_ (usub idx sp) = .ok c := hc
        rw [hc2, ok_bind]
        split at h
        · rename_i hgt
          rw [if_pos hgt]
          simp only [bind_ok_iff] at h
          obtain ⟨s3, hs3, h⟩ := h
          obtain ⟨g1, g2⟩ := hmem idx (List.getElem?_mem (rd_ok_iff.mp hidx))
          rw [cornerAccept_scan p B idx _ _ lo hi _ s s3 (by omega) (by omega) hhi
            (by rw [hA]; exact hlen) (by rw [hA]; exact hag) hs3, ok_bind]
          obtain ⟨e1, e2, _⟩ := cornerAccept_shape p idx _ _ _ s s3 hs3
          exact ih _ s3 s1 (e1.trans hA) (by rw [e2]; exact hmem) h
        · rename_i hgt
          rw [if_neg hgt]
          exact ih _ s s1 hA hmem h
      · rename_i h0
        rw [if_neg h0]
        exact ih _ s s1 hA hmem h
    · rename_i hL
      rw [if_neg hL]
      simp only [Except.ok.injEq] at h
      subst h
      rfl

theorem flatAccept_scan (p : LoamParams) (B : List Point) (idx k r lo hi : Nat)
    (acc acc1 : PointCloudIRT) (s s2 : State)
    (h1 : lo + p.curvature_region.toNat ≤ idx) (h2 : idx + p.curvature_region.toNat ≤ hi)
    (hhi : hi < SIZE_MOD)
    (hag : ∀ t, lo ≤ t → t ≤ hi → B[t]? = s.sorted_scan_[t]?)
    (h : flatAccept p idx k r acc s = .ok (acc1, s2)) :
    flatAccept p idx k r acc (withScan B s) = .ok (acc1, withScan B s2) := by
  obtain ⟨hl, pt, hpt, hacc, hmark⟩ := flatAccept_spec p idx _ _ acc acc1 s s2 h
  have hB : (withScan B s).sorted_scan_[idx]? = some pt := by
    show B[idx]? = some pt
    rw [hag idx (by omega) (by omega), hpt]
  rw [flatAccept_eq p idx k r acc (withScan B s) pt hl hB]
  have := MarkAsPicked_scan p B idx k lo hi _ s2 hmark h1 h2 hhi hag
  simp only [withScan] at this ⊢
  rw [this, ok_bind, hacc]

theorem flatLoop_scan (p : LoamParams) (A B : List Point) (scan_start_idx sp ep lo hi : Nat)
    (h1 : lo + p.curvature_region.toNat ≤ sp) (h2 : ep + p.curvature_region.toNat ≤ hi)
    (hhi : hi < SIZE_MOD)
    (hag : ∀ t, lo ≤ t → t ≤ hi → B[t]? = A[t]?) :
    ∀ (left k : Nat) (L : Int) (acc acc1 : PointCloudIRT) (s s1 : State), s.sorted_scan_ = A →
      (∀ x ∈ s.region_sort_indices_, sp ≤ x ∧ x ≤ ep) →
      flatLoop p scan_start_idx sp left k L acc s = .ok (acc1, s1) →
      flatLoop p scan_start_idx sp left k L acc (withScan B s) = .ok (acc1, withScan B s1) := by
  intro left
  induction left with
  | zero =>
    intro k L acc acc1 s s1 _ _ h
    simp only [flatLoop, Except.ok.injEq, Prod.mk.injEq] at h
    obtain ⟨e1, e2⟩ := h
    subst e1; subst e2
    rfl
  | succ left ih =>
    intro k L acc acc1 s s1 hA hmem h
    simp only [flatLoop] at h ⊢
    split at h
    · rename_i hL
      rw [if_pos hL]
      simp only [bind_ok_iff] at h
      obtain ⟨idx, hidx, picked, hp, h⟩ := h
      have hidx2 : rd (withScan B s).region_sort_indices_ k = .ok idx := hidx
      have hp2 : rd (withScan B s).scan_neighbor_picked_ (usub idx scan_start_idx) =
          .ok picked := hp
      rw [hidx2, ok_bind, hp2, ok_bind]
      split at h
      · rename_i h0
        rw [if_pos h0]
        simp only [bind_ok_iff] at h
        obtain ⟨c, hc, h⟩ := h
        have hc2 : rd (withScan B s).region_curvature_ (usub idx sp) = .ok c := hc
        rw [hc2, ok_bind]
        split at h
        · rename_i hgt
          rw [if_pos hgt]
          simp only [bind_ok_iff] at h
          obtain ⟨⟨acc3, s3⟩, hs3, h⟩ := h
          obtain ⟨g1, g2⟩ := hmem idx (List.getElem?_mem (rd_ok_iff.mp hidx))
          rw [flatAccept_scan p B idx _ _ lo hi acc acc3 s s3 (by omega) (by omega) hhi
            (by rw [hA]; exact hag) hs3, ok_bind]
          obtain ⟨_, _, _, e1, e2, _⟩ := flatAccept_shape p idx _ _ acc acc3 s s3 hs3
          exact ih _ _ _ _ s3 s1 (e1.trans hA) (by rw [e2]; exact hmem) h
        · rename_i hgt
          rw [if_neg hgt]
          exact ih _ _ _ _ s s1 hA hmem h
      · rename_i h0
        rw [if_neg h0]
        exact ih _ _ _ _ s s1 hA hmem h
    · rename_i hL
      rw [if_neg hL]
      simp only [Except.ok.injEq, Prod.mk.injEq] at h
      obtain ⟨e1, e2⟩ := h
      subst e1; subst e2
      rfl

theorem remainderLoop_scan (env : Env) (sp : Nat) (B : List Point) (s : State) :
    ∀ (left k : Nat) (acc : PointCloudIRT),
      (∀ t, k ≤ t → t < k + left → B[uadd sp t]? = s.sorted_scan_[uadd sp t]?) →
      remainderLoop env sp (withScan B s) left k acc = remainderLoop env sp s left k acc := by
  intro left
  induction left with
  | zero => intro k acc _; rfl
  | succ left ih =>
    intro k acc hag
    have g := hag k (Nat.le_refl _) (by omega)
    have g2 : rd (withScan B s).sorted_scan_ (uadd sp k) = rd s.sorted_scan_ (uadd sp k) :=
      rd_congr g
    have ih2 : ∀ a, remainderLoop env sp (withScan B s) left (k + 1) a =
        remainderLoop env sp s left (k + 1) a :=
      fun a => ih (k + 1) a (fun t h1 h2 => hag t (by omega) (by omega))
    have g3 : (withScan B s).region_label_ = s.region_label_ := rfl
    simp only [remainderLoop, g2, g3, ih2]

theorem regionPasses_scan (env : Env) (p : LoamParams) (B : List Point)
    (scan_start_idx sp ep lo hi n : Nat) (acc acc1 : PointCloudIRT) (s s1 : State)
    (h : regionPasses env p scan_start_idx sp n acc s = .ok (acc1, s1))
    (h1 : lo + p.curvature_region.toNat ≤ sp) (h2 : ep + p.curvature_region.toNat ≤ hi)
    (hn : sp + n ≤ ep + 1)
    (hhi : hi < SIZE_MOD) (hlen : hi < s.sorted_scan_.length)
    (hag : ∀ t, lo ≤ t → t ≤ hi → B[t]? = s.sorted_scan_[t]?)
    (hmem : ∀ x ∈ s.region_sort_indices_, sp ≤ x ∧ x ≤ ep) :
    regionPasses env p scan_start_idx sp n acc (withScan B s) = .ok (acc1, withScan B s1) := by
  simp only [regionPasses, bind_ok_iff] at h
  obtain ⟨sc, hsc, ⟨accf, sf⟩, hsf, h⟩ := h
  obtain ⟨_, _, c1, c2, _⟩ := cornerLoop_emits p scan_start_idx sp _ s sc hsc
  obtain ⟨_, _, d1, _⟩ := flatLoop_emits p scan_start_idx sp _ acc accf sc sf hsf
  simp only [regionPasses]
  rw [cornerLoop_scan p s.sorted_scan_ B scan_start_idx sp ep lo hi h1 h2 hhi hlen hag _ _ s sc
      rfl hmem hsc, ok_bind,
    flatLoop_scan p s.sorted_scan_ B scan_start_idx sp ep lo hi h1 h2 hhi hag _ _ _ acc accf
      sc sf c1 (by rw [c2]; exact hmem) hsf, ok_bind]
  simp only
  split at h
  · rename_i hw
    rw [if_pos hw]
    simp only [bind_ok_iff, Except.ok.injEq, Prod.mk.injEq] at h
    obtain ⟨a2, ha2, e1, e2⟩ := h
    subst e1; subst e2
    rw [remainderLoop_scan env sp B sf n 0 accf (by
      intro t g1 g2
      rw [uadd_eq (by omega), d1, c1]
      exact hag _ (by omega) (by omega)), ha2, ok_bind]
  · rename_i hw
    rw [if_neg hw]
    simp only [Except.ok.injEq, Prod.mk.injEq] at h
    obtain ⟨e1, e2⟩ := h
    subst e1; subst e2
    rfl

theorem regionBody_scan (env : Env) (p : LoamParams) (B : List Point) (start_idx end_idx : Nat)
    (hline : LineOK p start_idx end_idx) (hpos : 1 ≤ start_idx + p.curvature_region.toNat)
    (j : Nat) (hj : (j : Int) < p.n_feature_regions) (acc acc1 : PointCloudIRT) (s s1 : State)
    (h : regionBody env p start_idx end_idx (j : Int) acc s = .ok (acc1, s1))
    (hscan : end_idx < s.sorted_scan_.length)
    (hag : ∀ t, start_idx ≤ t → t ≤ end_idx → B[t]? = s.sorted_scan_[t]?) :
    regionBody env p start_idx end_idx (j : Int) acc (withScan B s) =
      .ok (acc1, withScan B s1) := by
  obtain ⟨b1, b2, b3⟩ := region_in_line p start_idx end_idx hline hpos j hj
  unfold regionBody at h ⊢
  simp only at h ⊢
  split at h
  · rename_i hs
    rw [if_pos hs]
    simp only [Except.ok.injEq, Prod.mk.injEq] at h
    obtain ⟨e1, e2⟩ := h
    subst e1; subst e2
    rfl
  · rename_i hs
    rw [if_neg hs]
    have hlt : regionStart p start_idx end_idx j < regionEnd p start_idx end_idx j := by
      simp only [regionSkipped, decide_eq_true_eq, not_le] at hs
      exact hs
    simp only [bind_ok_iff] at h
    obtain ⟨sr, hsr, h⟩ := h
    have hsize : uadd (usub (regionEnd p start_idx end_idx j)
        (regionStart p start_idx end_idx j)) 1 =
        regionEnd p start_idx end_idx j - regionStart p start_idx end_idx j + 1 := by
      rw [usub_eq (by omega) (by omega), uadd_eq (by omega)]
    rw [hsize] at h ⊢
    have hframe := SetRegionBuffersFor_frame p _ _ s sr hsr
    have f1 : sr.sorted_scan_ = s.sorted_scan_ := by rw [hframe]
    obtain ⟨_, _, hmem⟩ := SetRegionBuffersFor_indices p _ _ s sr (by omega) (by omega) hsr
    rw [SetRegionBuffersFor_scan p B _ _ s sr (by omega) (by omega) (by omega)
      (fun t g1 g2 => hag t (by omega) (by omega)) hsr, ok_bind]
    exact regionPasses_scan env p B start_idx _ (regionEnd p start_idx end_idx j) start_idx
      end_idx _ acc acc1 sr s1 h b1 (by omega) (by omega) b3 (by rw [f1]; exact hscan)
      (by rw [f1]; exact hag) hmem

theorem regionLoop_scan (env : Env) (p : LoamParams) (A B : List Point)
    (start_idx end_idx : Nat)
    (hline : LineOK p start_idx end_idx) (hpos : 1 ≤ start_idx + p.curvature_region.toNat)
    (hmod : end_idx + 1 < SIZE_MOD) (hscan : end_idx < A.length)
    (hag : ∀ t, start_idx ≤ t → t ≤ end_idx → B[t]? = A[t]?) :
    ∀ (left j : Nat) (acc acc1 : PointCloudIRT) (s s1 : State),
      ((j + left : Nat) : Int) ≤ p.n_feature_regions → s.sorted_scan_ = A →
      s.scan_neighbor_picked_.length = end_idx - start_idx + 1 →
      regionLoop env p start_idx end_idx left (j : Int) acc s = .ok (acc1, s1) →
      regionLoop env p start_idx end_idx left (j : Int) acc (withScan B s) =
        .ok (acc1, withScan B s1) := by
  intro left
  induction left with
  | zero =>
    intro j acc acc1 s s1 _ _ _ h
    simp only [regionLoop, Except.ok.injEq, Prod.mk.injEq] at h
    obtain ⟨e1, e2⟩ := h
    subst e1; subst e2
    rfl
  | succ left ih =>
    intro j acc acc1 s s1 hj hA hmask h
    simp only [regionLoop, bind_ok_iff] at h
    obtain ⟨⟨acc2, s2⟩, h2, h⟩ := h
    obtain ⟨acc3, s3, h3, e1, e2⟩ := regionBody_ok env p start_idx end_idx hline hpos hmod j
      (by push_cast at hj; omega) acc s (by rw [hA]; exact hscan) hmask
    rw [h2] at h3
    simp only [Except.ok.injEq, Prod.mk.injEq] at h3
    obtain ⟨_, e3⟩ := h3
    subst e3
    simp only [regionLoop]
    rw [regionBody_scan env p B start_idx end_idx hline hpos j (by push_cast at hj; omega) acc
      acc2 s s2 h2 (by rw [hA]; exact hscan) (by rw [hA]; exact hag), ok_bind]
    have e : (j : Int) + 1 = ((j + 1 : Nat) : Int) := by push_cast; rfl
    rw [e] at h ⊢
    exact ih (j + 1) acc2 acc1 s2 s1 (by push_cast at hj ⊢; omega) (e1.trans hA) e2 h

/-- The body of the loop over the scan lines reads the sorted scan only at indices of the
line: on buffers whose sorted scan is replaced by any `B` that agrees with it on
`[start_idx, end_idx]`, it returns the same buffers (with `B` for the sorted scan). -/
theorem scanBody_scan (env : Env) (p : LoamParams) (B : List Point) (start_idx end_idx : Nat)
    (s s1 : State) (hcr : 1 ≤ p.curvature_region)
    (hline : LineOK p start_idx end_idx) (hmod : end_idx + 1 < SIZE_MOD)
    (hscan : end_idx < s.sorted_scan_.length)
    (hag : ∀ t, start_idx ≤ t → t ≤ end_idx → B[t]? = s.sorted_scan_[t]?)
    (h : scanBody env p (start_idx, end_idx) s = .ok s1) :
    scanBody env p (start_idx, end_idx) (withScan B s) = .ok (withScan B s1) := by
  have hw := hline.window
  obtain ⟨sA, s2, acc, hsA, hloop, hs1⟩ := scanBody_steps env p start_idx end_idx s s1
    hline.not_skipped h
  obtain ⟨sA2, hsA2, hlen, hframe⟩ := SetScanBuffersFor_ok env p start_idx end_idx s (by omega)
    (by omega) hw hmod hscan
  rw [hsA] at hsA2
  cases hsA2
  have f1 : sA.sorted_scan_ = s.sorted_scan_ := by rw [hframe]
  have k1 := SetScanBuffersFor_scan env p B start_idx end_idx s sA hcr hw (by omega) hag hsA
  have k2 := regionLoop_scan env p s.sorted_scan_ B start_idx end_idx hline (by omega) hmod
    hscan hag p.n_feature_regions.toNat 0 [] acc sA s2 (by
      rw [Nat.zero_add, Int.toNat_of_nonneg (by have := hline.hn; omega)]) f1 hlen
    (by rw [Nat.cast_zero]; exact hloop)
  rw [Nat.cast_zero] at k2
  simp only [scanBody, hline.not_skipped, Bool.false_eq_true, if_false]
  rw [k1, ok_bind, k2, ok_bind, hs1]
  simp only
  split <;> rfl

theorem NoWrap.of_le {a b : Nat} (h : b ≤ a) (ha : a < SIZE_MOD) : NoWrap a b := by
  unfold NoWrap
  rw [usub_eq h ha]
  omega

theorem scanBody_line_ok (env : Env) (p : LoamParams) (start_idx end_idx : Nat) (s : State)
    (hline : LineOK p start_idx end_idx) (hpos : 1 ≤ start_idx + p.curvature_region.toNat)
    (hmod : end_idx + 1 < SIZE_MOD) (hscan : end_idx < s.sorted_scan_.length) :
    ∃ s1, scanBody env p (start_idx, end_idx) s = .ok s1 ∧
      s1.scan_neighbor_picked_.length = end_idx - start_idx + 1 := by
  have hn := hline.hn
  obtain ⟨sA, hsA, hlen, hframe⟩ := SetScanBuffersFor_ok env p start_idx end_idx s hline.hcr
    hpos hline.window hmod hscan
  have f1 : sA.sorted_scan_ = s.sorted_scan_ := by rw [hframe]
  obtain ⟨acc, s2, hs2, _⟩ := regionLoop_ok env p start_idx end_idx hline hpos hmod
    p.n_feature_regions.toNat 0 [] sA (by
      rw [Nat.zero_add, Int.toNat_of_nonneg (by omega)]) (by rw [f1]; exact hscan) hlen
  obtain ⟨_, hg, _⟩ := regionLoop_emitted env p start_idx end_idx hline hpos
    sA.scan_neighbor_picked_ sA.sorted_scan_ (fun _ => True) (fun _ => True) (fun _ => True)
    (fun _ _ _ _ _ => trivial) (fun _ _ _ _ _ => trivial) (fun _ _ _ => trivial)
    p.n_feature_regions.toNat 0 [] acc sA s2 (by
      rw [Nat.zero_add, Int.toNat_of_nonneg (by omega)]) rfl (MaskGrows.refl _) hs2
  rw [Nat.cast_zero] at hs2
  simp only [scanBody, hline.not_skipped, Bool.false_eq_true, if_false]
  rw [hsA, ok_bind, hs2, ok_bind]
  simp only
  split
  · exact ⟨_, rfl, by rw [hg.1, hlen]⟩
  · exact ⟨_, rfl, by rw [hg.1, hlen]⟩

/-- Claim C28: for `curvature_region ≥ 1`, `n_feature_regions ≥ 1` and a scan line
`[start_idx, end_idx]` of the sorted scan that is processed (not skipped; the index
arithmetic does not overflow). (1) The body of the loop over the scan lines returns without
a fault, and the mask has `end_idx - start_idx + 1` slots afterwards: every access of the
buffers is in range, a mask slot written lies in `[0, end_idx - start_idx]`. (2) The sorted
scan is read at indices of `[start_idx, end_idx]` only: with any other sorted scan `B` that
agrees on these indices, whatever it holds elsewhere and however long it is, the result is
the same. (3) Every region `j` has `start_idx + curvature_region ≤ sp` and
`ep ≤ end_idx - curvature_region - 1`. (4) No unsigned subtraction wraps: `end - start`,
`end - curvature_region`; `i - 1`, `i - start` and `i - start - curvature_region` in the
filter loop; the `- 1` of `ep`, `ep - sp` of a region that is not skipped; for an index of
the region `idx - start`, `idx - sp`, `idx - m` and `(idx - start) - m` for
`m ≤ curvature_region`; and the rank array of a region holds indices of the region. -/
theorem line_accesses_in_range (env : Env) (p : LoamParams) (start_idx end_idx : Nat)
    (s : State) (hcr : 1 ≤ p.curvature_region) (hline : LineOK p start_idx end_idx)
    (hmod : end_idx + 1 < SIZE_MOD) (hscan : end_idx < s.sorted_scan_.length) :
    (∃ s1, scanBody env p (start_idx, end_idx) s = .ok s1 ∧
      s1.scan_neighbor_picked_.length = end_idx - start_idx + 1 ∧
      ∀ B : List Point, (∀ t, start_idx ≤ t → t ≤ end_idx → B[t]? = s.sorted_scan_[t]?) →
        scanBody env p (start_idx, end_idx) (withScan B s) = .ok (withScan B s1)) ∧
    (∀ j : Nat, (j : Int) < p.n_feature_regions →
      (start_idx : Int) + p.curvature_region ≤ regionStart p start_idx end_idx j ∧
      (regionEnd p start_idx end_idx j : Int) ≤ end_idx - p.curvature_region - 1) ∧
    NoWrap end_idx start_idx ∧ NoWrap end_idx (toSizeT p.curvature_region) ∧
    (∀ i, uadd start_idx (toSizeT p.curvature_region) ≤ i →
      i < usub end_idx (toSizeT p.curvature_region) →
      NoWrap i 1 ∧ NoWrap i start_idx ∧ NoWrap (usub i start_idx) (toSizeT p.curvature_region)) ∧
    (∀ j : Nat, (j : Int) < p.n_feature_regions →
      NoWrap (regionEnd p start_idx end_idx j + 1) 1 ∧
      regionEnd p start_idx end_idx j + 1 = regionStart p start_idx end_idx ((j : Int) + 1) ∧
      (regionSkipped p start_idx end_idx j = false →
        NoWrap (regionEnd p start_idx end_idx j) (regionStart p start_idx end_idx j)) ∧
      (∀ idx, regionStart p start_idx end_idx j ≤ idx → idx ≤ regionEnd p start_idx end_idx j →
        NoWrap idx start_idx ∧ NoWrap idx (regionStart p start_idx end_idx j) ∧
        ∀ m : Nat, 1 ≤ m → (m : Int) ≤ p.curvature_region →
          NoWrap idx m ∧ NoWrap (usub idx start_idx) m) ∧
      (regionSkipped p start_idx end_idx j = false → ∀ (s2 sr : State),
        SetRegionBuffersFor p (regionStart p start_idx end_idx j)
          (regionEnd p start_idx end_idx j) s2 = .ok sr →
        ∀ x ∈ sr.region_sort_indices_,
          regionStart p start_idx end_idx j ≤ x ∧ x ≤ regionEnd p start_idx end_idx j)) := by
  have hw := hline.window
  have hc : toSizeT p.curvature_region = p.curvature_region.toNat := hline.toSizeT_cr
  have hpos : 1 ≤ start_idx + p.curvature_region.toNat := by omega
  have hcn : ((p.curvature_region.toNat : Nat) : Int) = p.curvature_region :=
    Int.toNat_of_nonneg (by omega)
  refine ⟨?_, ?_, NoWrap.of_le (by omega) (by omega), by
    rw [hc]; exact NoWrap.of_le (by omega) (by omega), ?_, ?_⟩
  · obtain ⟨s1, hs1, hlen⟩ := scanBody_line_ok env p start_idx end_idx s hline hpos hmod hscan
    exact ⟨s1, hs1, hlen, fun B hag =>
      scanBody_scan env p B start_idx end_idx s s1 hcr hline hmod hscan hag hs1⟩
  · intro j hj
    obtain ⟨b1, b2, _⟩ := region_in_line p start_idx end_idx hline hpos j hj
    omega
  · intro i g1 g2
    rw [hc, uadd_eq (by omega)] at g1
    rw [hc, usub_eq (by omega) (by omega)] at g2
    rw [hc, usub_eq (show start_idx ≤ i by omega) (by omega)]
    exact ⟨NoWrap.of_le (by omega) (by omega), NoWrap.of_le (by omega) (by omega),
      NoWrap.of_le (by omega) (by omega)⟩
  · intro j hj
    obtain ⟨b1, b2, b3⟩ := region_in_line p start_idx end_idx hline hpos j hj
    have hsucc := regionEnd_succ p start_idx end_idx hline hpos j (by omega)
    refine ⟨NoWrap.of_le (by omega) (by omega), by
      rw [hsucc]; push_cast; rfl, ?_, ?_, ?_⟩
    · intro hns
      simp only [regionSkipped, decide_eq_false_iff_not, not_le] at hns
      exact NoWrap.of_le (by omega) (by omega)
    · intro idx g1 g2
      refine ⟨NoWrap.of_le (by omega) (by omega), NoWrap.of_le g1 (by omega), ?_⟩
      intro m hm1 hm2
      rw [usub_eq (show start_idx ≤ idx by omega) (by omega)]
      exact ⟨NoWrap.of_le (by omega) (by omega), NoWrap.of_le (by omega) (by omega)⟩
    · intro hns s2 sr hsr
      simp only [regionSkipped, decide_eq_false_iff_not, not_le] at hns
      exact (SetRegionBuffersFor_indices p _ _ s2 sr (by omega) (by omega) hsr).2.2

theorem line_accesses_in_range_witness :
    LineOK sampleParams 0 6 ∧
    (∃ s1, scanBody sampleEnv sampleParams (0, 6) sampleScan7 = .ok s1 ∧
      s1.scan_neighbor_picked_.length = 6 - 0 + 1 ∧
      ∀ B : List Point, (∀ t, 0 ≤ t → t ≤ 6 → B[t]? = sampleScan7.sorted_scan_[t]?) →
        scanBody sampleEnv sampleParams (0, 6) (withScan B sampleScan7) =
          .ok (withScan B s1)) ∧
    (∀ j : Nat, (j : Int) < sampleParams.n_feature_regions →
      ((0 : Nat) : Int) + sampleParams.curvature_region ≤ regionStart sampleParams 0 6 j ∧
      (regionEnd sampleParams 0 6 j : Int) ≤ ((6 : Nat) : Int) - sampleParams.curvature_region - 1) :=
  have h := line_accesses_in_range sampleEnv sampleParams 0 6 sampleScan7 (by decide)
    ⟨by decide, by decide, by decide, by decide⟩ (by decide) (by decide)
  ⟨⟨by decide, by decide, by decide, by decide⟩, h.1, h.2.1⟩

/-! ### Claim C31: the scan line of an elevation angle -/

theorem getLineId_offset (angle : ℚ) :
    ∀ (bins : List ℚ) (i : Nat), getLineId angle bins i = i + getLineId angle bins 0 := by
  intro bins
  induction bins with
  | nil => intro i; simp [getLineId]
  | cons b rest ih =>
    intro i
    simp only [getLineId]
    split
    · simp
    · rw [ih (i + 1), ih (0 + 1)]
      omega

theorem getLineId_cons (angle b : ℚ) (rest : List ℚ) :
    getLineId angle (b :: rest) 0 = if angle > b then 0 else getLineId angle rest 0 + 1 := by
  simp only [getLineId]
  split
  · rfl
  · rw [getLineId_offset angle rest (0 + 1)]
    omega

theorem getLineId_le (angle : ℚ) : ∀ bins : List ℚ, getLineId angle bins 0 ≤ bins.length := by
  intro bins
  induction bins with
  | nil => simp [getLineId]
  | cons b rest ih =>
    rw [getLineId_cons]
    split
    · exact Nat.zero_le _
    · simp only [List.length_cons]
      omega

theorem getLineId_before (angle : ℚ) :
    ∀ (bins : List ℚ) (i : Nat) (b : ℚ), i < getLineId angle bins 0 → bins[i]? = some b →
      ¬ angle > b := by
  intro bins
  induction bins with
  | nil => intro i b h; simp [getLineId] at h
  | cons b0 rest ih =>
    intro i b h hb
    rw [getLineId_cons] at h
    split at h
    · omega
    · rename_i hgt
      cases i with
      | zero =>
        simp only [List.getElem?_cons_zero, Option.some.injEq] at hb
        subst hb
        exact hgt
      | succ i =>
        simp only [List.getElem?_cons_succ] at hb
        exact ih i b (by omega) hb

theorem getLineId_at (angle : ℚ) :
    ∀ (bins : List ℚ) (b : ℚ), bins[getLineId angle bins 0]? = some b → angle > b := by
  intro bins
  induction bins with
  | nil => intro b h; simp [getLineId] at h
  | cons b0 rest ih =>
    intro b h
    rw [getLineId_cons] at h
    split at h
    · rename_i hgt
      simp only [List.getElem?_cons_zero, Option.some.injEq] at h
      subst h
      exact hgt
    · simp only [List.getElem?_cons_succ] at h
      exact ih b h

theorem getLineId_count (angle : ℚ) :
    ∀ bins : List ℚ, bins.Pairwise (fun a b => a ≥ b) →
      getLineId angle bins 0 = bins.countP (fun b => decide (b ≥ angle)) := by
  intro bins
  induction bins with
  | nil => intro _; simp [getLineId]
  | cons b0 rest ih =>
    intro hs
    rw [List.pairwise_cons] at hs
    rw [getLineId_cons, List.countP_cons]
    split
    · rename_i hgt
      have h0 : rest.countP (fun b => decide (b ≥ angle)) = 0 := by
        rw [List.countP_eq_zero]
        intro b hb
        have := hs.1 b hb
        simp only [decide_eq_true_eq, not_le]
        exact lt_of_le_of_lt this hgt
      rw [h0, if_neg (by simp only [decide_eq_true_eq, not_le]; exact hgt)]
    · rename_i hgt
      rw [ih hs.2, if_pos (by simp only [decide_eq_true_eq]; exact not_lt.mp hgt)]

theorem getLineId_antitone (a1 a2 : ℚ) (h : a1 ≤ a2) :
    ∀ bins : List ℚ, getLineId a2 bins 0 ≤ getLineId a1 bins 0 := by
  intro bins
  induction bins with
  | nil => simp [getLineId]
  | cons b0 rest ih =>
    rw [getLineId_cons, getLineId_cons]
    by_cases h1 : a1 > b0
    · rw [if_pos h1, if_pos (lt_of_lt_of_le h1 h)]
    · rw [if_neg h1]
      split
      · exact Nat.zero_le _
      · omega

theorem GetScanLinesStep_eq (env : Env) (atanDeg : ℚ → ℚ → ℚ) (p : LoamParams) (x y z : ℚ)
    (scan_lines : List PointCloudIRT) (h : ¬ x * x + y * y + z * z < 1 / 10000) :
    GetScanLinesStep env atanDeg p ⟨.finite x, .finite y, .finite z⟩ scan_lines =
      (elevationAngle env atanDeg p x y z >>= fun angle_deg =>
        match scan_lines[getLineId angle_deg p.beam_angle_bins_deg 0]? with
        | none => .error .undefined
        | some line => .ok (scan_lines.set (getLineId angle_deg p.beam_angle_bins_deg 0)
            (line ++ [⟨x, y, z, 0, 0, 0⟩]))) := by
  simp only [GetScanLinesStep, elevationAngle, if_neg h]

/-- Claim C31: for every elevation angle `angle` and every list `bins` of thresholds, the
line id of the search (`getLineId`) is at most the number of thresholds, no threshold before
it is exceeded by the angle and the threshold at it, if there is one, is exceeded: it is the
least index `i` with `angle > bins[i]`, or the number of thresholds. When the list is sorted
in descending order it is the number of thresholds that are `≥ angle`. A larger angle never
yields a larger line id, and with `number_of_beams - 1` thresholds the id is below
`number_of_beams`. For a valid point (finite coordinates, squared norm at least 0.0001)
with elevation angle `angle`, the body of the loop of `GetScanLines` appends the point to
the scan line with that id. -/
theorem line_id_first_exceeded (angle : ℚ) (bins : List ℚ) :
    getLineId angle bins 0 ≤ bins.length ∧
    (∀ (i : Nat) (b : ℚ), i < getLineId angle bins 0 → bins[i]? = some b → ¬ angle > b) ∧
    (∀ b : ℚ, bins[getLineId angle bins 0]? = some b → angle > b) ∧
    (bins.Pairwise (fun a b => a ≥ b) →
      getLineId angle bins 0 = bins.countP (fun b => decide (b ≥ angle))) ∧
    (∀ angle2 : ℚ, angle ≤ angle2 → getLineId angle2 bins 0 ≤ getLineId angle bins 0) ∧
    (∀ number_of_beams : Int, (bins.length : Int) = number_of_beams - 1 →
      (getLineId angle bins 0 : Int) < number_of_beams) ∧
    (∀ (env : Env) (atanDeg : ℚ → ℚ → ℚ) (p : LoamParams) (x y z : ℚ)
      (scan_lines : List PointCloudIRT), p.beam_angle_bins_deg = bins →
      ¬ x * x + y * y + z * z < 1 / 10000 →
      elevationAngle env atanDeg p x y z = .ok angle →
      GetScanLinesStep env atanDeg p ⟨.finite x, .finite y, .finite z⟩ scan_lines =
        match scan_lines[getLineId angle bins 0]? with
        | none => .error .undefined
        | some line => .ok (scan_lines.set (getLineId angle bins 0)
            (line ++ [⟨x, y, z, 0, 0, 0⟩]))) := by
  refine ⟨getLineId_le angle bins, getLineId_before angle bins, getLineId_at angle bins,
    getLineId_count angle bins, fun a2 h => getLineId_antitone angle a2 h bins, ?_, ?_⟩
  · intro nb h
    have := getLineId_le angle bins
    omega
  · intro env atanDeg p x y z scan_lines hb hn ha
    rw [GetScanLinesStep_eq env atanDeg p x y z scan_lines hn, ha, hb]
    rfl

/-- Witness for claim C31: with the thresholds 10, 0, -10 the point `(1, 0, 1 / 10)`, of
elevation angle 4.5, goes to scan line 1. -/
theorem line_id_first_exceeded_witness :
    getLineId (9 / 2) [10, 0, -10] 0 = 1 ∧
    getLineId (9 / 2) [10, 0, -10] 0 =
      ([10, 0, -10] : List ℚ).countP (fun b => decide (b ≥ 9 / 2)) ∧
    GetScanLinesStep sampleEnv sampleAtanDeg sampleParamsBins
        ⟨.finite 1, .finite 0, .finite (1 / 10)⟩ [[], [], [], []] =
      .ok [[], [⟨1, 0, 1 / 10, 0, 0, 0⟩], [], []] :=
  ⟨by decide!,
    (line_id_first_exceeded (9 / 2) [10, 0, -10]).2.2.2.1 (by decide!),
    by
      rw [(line_id_first_exceeded (9 / 2) [10, 0, -10]).2.2.2.2.2.2 sampleEnv sampleAtanDeg
        sampleParamsBins 1 0 (1 / 10) [[], [], [], []] rfl (by decide!)
        (by with_unfolding_all rfl)]
      with_unfolding_all rfl⟩

/-! ### Claim C32: the curvature does not change when the scan is moved -/

theorem rd_translate (tx ty tz : ℚ) (scan : List Point) (i : Nat) (a : Point)
    (h : rd scan i = .ok a) :
    rd (translateScan tx ty tz scan) i = .ok (translatePoint tx ty tz a) := by
  rw [rd_ok_iff] at h ⊢
  unfold translateScan
  rw [List.getElem?_map, h]
  rfl

theorem translateScan_back (tx ty tz : ℚ) (scan : List Point) :
    translateScan (-tx) (-ty) (-tz) (translateScan tx ty tz scan) = scan := by
  unfold translateScan
  rw [List.map_map]
  have : (translatePoint (-tx) (-ty) (-tz) ∘ translatePoint tx ty tz) = id := by
    funext pt
    cases pt
    simp [translatePoint]
  rw [this, List.map_id]

/-- On the moved scan the window loop adds `2 * left` times the vector to the three sums. -/
theorem curvatureWindow_translate (tx ty tz : ℚ) (scan : List Point) (i : Nat) :
    ∀ (left j : Nat) (d d1 : ℚ × ℚ × ℚ) (k : ℚ), curvatureWindow scan i left j d = .ok d1 →
      curvatureWindow (translateScan tx ty tz scan) i left j
        (d.1 + k * tx, d.2.1 + k * ty, d.2.2 + k * tz) =
        .ok (d1.1 + (k + 2 * left) * tx, d1.2.1 + (k + 2 * left) * ty,
          d1.2.2 + (k + 2 * left) * tz) := by
  intro left
  induction left with
  | zero =>
    intro j d d1 k h
    simp only [curvatureWindow, Except.ok.injEq] at h
    subst h
    simp [curvatureWindow]
  | succ left ih =>
    intro j d d1 k h
    simp only [curvatureWindow, bind_ok_iff] at h
    obtain ⟨a, ha, b, hb, h⟩ := h
    simp only [curvatureWindow]
    rw [rd_translate tx ty tz scan _ a ha, ok_bind, rd_translate tx ty tz scan _ b hb, ok_bind]
    have := ih (j + 1) _ d1 (k + 2) h
    simp only at this
    have e : ((d.1 + k * tx + ((translatePoint tx ty tz a).x + (translatePoint tx ty tz b).x),
        d.2.1 + k * ty + ((translatePoint tx ty tz a).y + (translatePoint tx ty tz b).y),
        d.2.2 + k * tz + ((translatePoint tx ty tz a).z + (translatePoint tx ty tz b).z)) :
        ℚ × ℚ × ℚ) =
        (d.1 + (a.x + b.x) + (k + 2) * tx, d.2.1 + (a.y + b.y) + (k + 2) * ty,
          d.2.2 + (a.z + b.z) + (k + 2) * tz) := by
      simp only [translatePoint, Prod.mk.injEq]
      refine ⟨by ring, by ring, by ring⟩
    rw [e, this]
    simp only [Except.ok.injEq, Prod.mk.injEq]
    push_cast
    refine ⟨by ring, by ring, by ring⟩

theorem curvatureLoop_translate (p : LoamParams) (hcr : 0 ≤ p.curvature_region)
    (tx ty tz : ℚ) (A : List Point) :
    ∀ (left i r : Nat) (s s1 : State), s.sorted_scan_ = A →
      curvatureLoop p left i r s = .ok s1 →
      curvatureLoop p left i r (withScan (translateScan tx ty tz A) s) =
        .ok (withScan (translateScan tx ty tz A) s1) := by
  intro left
  induction left with
  | zero =>
    intro i r s s1 _ h
    simp only [curvatureLoop, Except.ok.injEq] at h
    subst h
    rfl
  | succ left ih =>
    intro i r s s1 hA h
    simp only [curvatureLoop, bind_ok_iff] at h
    obtain ⟨pt, hpt, d, hd, c, hc, ix, hix, h⟩ := h
    rw [hA] at hpt hd
    have hw := curvatureWindow_translate tx ty tz A i p.curvature_region.toNat 1 _ d
      (((-2 * p.curvature_region : Int) : ℚ)) hd
    simp only at hw
    have hz : (((-2 * p.curvature_region : Int) : ℚ)) + 2 * (p.curvature_region.toNat : ℚ) = 0 := by
      have : ((p.curvature_region.toNat : Nat) : Int) = p.curvature_region :=
        Int.toNat_of_nonneg hcr
      have h2 : ((p.curvature_region.toNat : Nat) : ℚ) = ((p.curvature_region : Int) : ℚ) := by
        rw [← this]; push_cast; rw [this]
      rw [h2]
      push_cast
      ring
    rw [hz] at hw
    simp only [zero_mul, add_zero] at hw
    have e0 : ((((-2 * p.curvature_region : Int) : ℚ)) * (translatePoint tx ty tz pt).x,
        (((-2 * p.curvature_region : Int) : ℚ)) * (translatePoint tx ty tz pt).y,
        (((-2 * p.curvature_region : Int) : ℚ)) * (translatePoint tx ty tz pt).z) =
        ((((-2 * p.curvature_region : Int) : ℚ)) * pt.x
            + (((-2 * p.curvature_region : Int) : ℚ)) * tx,
          (((-2 * p.curvature_region : Int) : ℚ)) * pt.y
            + (((-2 * p.curvature_region : Int) : ℚ)) * ty,
          (((-2 * p.curvature_region : Int) : ℚ)) * pt.z
            + (((-2 * p.curvature_region : Int) : ℚ)) * tz) := by
      simp only [translatePoint, Prod.mk.injEq]
      refine ⟨by ring, by ring, by ring⟩
    simp only [curvatureLoop, withScan]
    rw [rd_translate tx ty tz A i pt hpt, ok_bind, e0, hw, ok_bind, hc, ok_bind, hix, ok_bind]
    exact ih (i + 1) (r + 1) { s with region_curvature_ := c, region_sort_indices_ := ix } s1
      hA h

theorem SetRegionBuffersFor_translate (p : LoamParams) (hcr : 0 ≤ p.curvature_region)
    (tx ty tz : ℚ) (sp ep : Nat) (s s1 : State) (h : SetRegionBuffersFor p sp ep s = .ok s1) :
    SetRegionBuffersFor p sp ep (withScan (translateScan tx ty tz s.sorted_scan_) s) =
      .ok (withScan (translateScan tx ty tz s.sorted_scan_) s1) := by
  simp only [SetRegionBuffersFor, bind_ok_iff] at h
  obtain ⟨s2, hs2, h⟩ := h
  simp only [SetRegionBuffersFor]
  have := curvatureLoop_translate p hcr tx ty tz s.sorted_scan_ (ep + 1 - sp) sp 0
    { s with
      region_curvature_ := resize s.region_curvature_ (uadd (usub ep sp) 1) 0,
      region_sort_indices_ := resize s.region_sort_indices_ (uadd (usub ep sp) 1) 0,
      region_label_ := List.replicate (uadd (usub ep sp) 1) PointLabel.SURFACE_LESS_FLAT }
    s2 rfl hs2
  simp only [withScan] at this ⊢
  rw [this, ok_bind]
  exact sortOuter_scan _ sp _ _ _ _ h

/-- Claim C32: with `curvature_region ≥ 0`, for every sorted scan, every region `[sp, ep]`
and every vector `(tx, ty, tz)`: `SetRegionBuffersFor` returns on the scan moved by the
vector exactly when it returns on the scan itself, and it then leaves the same buffers but
for the sorted scan: the same curvature of every region point (in exact arithmetic, the
weights of the window sum to zero) and the same rank array. -/
theorem curvature_translation_invariant (p : LoamParams) (sp ep : Nat) (s : State)
    (tx ty tz : ℚ) (hcr : 0 ≤ p.curvature_region) :
    (∀ s1, SetRegionBuffersFor p sp ep s = .ok s1 →
      SetRegionBuffersFor p sp ep (withScan (translateScan tx ty tz s.sorted_scan_) s) =
        .ok (withScan (translateScan tx ty tz s.sorted_scan_) s1)) ∧
    (∀ s2, SetRegionBuffersFor p sp ep (withScan (translateScan tx ty tz s.sorted_scan_) s) =
        .ok s2 →
      ∃ s1, SetRegionBuffersFor p sp ep s = .ok s1 ∧
        s2 = withScan (translateScan tx ty tz s.sorted_scan_) s1 ∧
        s2.region_curvature_ = s1.region_curvature_ ∧
        s2.region_sort_indices_ = s1.region_sort_indices_ ∧
        s2.region_label_ = s1.region_label_) := by
  refine ⟨fun s1 h => SetRegionBuffersFor_translate p hcr tx ty tz sp ep s s1 h, ?_⟩
  intro s2 h2
  have hback := SetRegionBuffersFor_translate p hcr (-tx) (-ty) (-tz) sp ep _ s2 h2
  have e1 : (withScan (translateScan tx ty tz s.sorted_scan_) s).sorted_scan_ =
      translateScan tx ty tz s.sorted_scan_ := rfl
  rw [e1, translateScan_back] at hback
  have e2 : withScan s.sorted_scan_ (withScan (translateScan tx ty tz s.sorted_scan_) s) = s :=
    rfl
  rw [e2] at hback
  refine ⟨_, hback, ?_, rfl, rfl, rfl⟩
  have hf := SetRegionBuffersFor_frame p sp ep _ s2 h2
  have e3 : s2.sorted_scan_ = translateScan tx ty tz s.sorted_scan_ := by rw [hf]; rfl
  cases s2
  simp only [withScan] at e3 ⊢
  rw [e3]

/-- Witness for claim C32: region `[1, 4]` of the seven-point line, moved by `(1, 2, 3)`. -/
theorem curvature_translation_invariant_witness :
    SetRegionBuffersFor sampleParams 1 4 sampleFiltered7 = .ok sampleRanked7 ∧
    SetRegionBuffersFor sampleParams 1 4
        (withScan (translateScan 1 2 3 sampleFiltered7.sorted_scan_) sampleFiltered7) =
      .ok (withScan (translateScan 1 2 3 sampleFiltered7.sorted_scan_) sampleRanked7) :=
  ⟨by with_unfolding_all rfl,
    (curvature_translation_invariant sampleParams 1 4 sampleFiltered7 1 2 3 (by decide)).1
      sampleRanked7 (by with_unfolding_all rfl)⟩

/-! ### Claims C33, C34: `CropBox::Filter` -/

theorem FilterLoop_eq {Affine3f : Type} (transformPoint : PointXYZf → Affine3f → PointXYZf)
    (box : CropBox Affine3f) :
    ∀ (input_cloud cropped_cloud : List PointXYZf),
      CropBox.FilterLoop transformPoint box input_cloud cropped_cloud =
        cropped_cloud ++ input_cloud.filter (fun p =>
          !outsideBox box.min_vec_ box.max_vec_ (transformPoint p box.T_box_cloud_)) := by
  intro input_cloud
  induction input_cloud with
  | nil => intro c; simp [CropBox.FilterLoop]
  | cons it rest ih =>
    intro c
    simp only [CropBox.FilterLoop, List.filter_cons]
    by_cases h : outsideBox box.min_vec_ box.max_vec_ (transformPoint it box.T_box_cloud_) = true
    · have h2 := h
      unfold outsideBox at h2
      rw [if_pos h2, ih c]
      simp [h]
    · have h2 := h
      unfold outsideBox at h2
      rw [if_neg h2, ih (c ++ [it])]
      simp [h]

theorem floatVal_le_iff_not_lt (a b : FloatVal) (ha : a ≠ .nan) (hb : b ≠ .nan) :
    FloatVal.le a b = !(FloatVal.lt b a) := by
  cases a <;> cases b <;> simp_all [FloatVal.le]

theorem inside_iff_not_outside (min_vec max_vec : Vector3f) (point : PointXYZf)
    (h : noNaN min_vec max_vec point) :
    insideBox min_vec max_vec point = !outsideBox min_vec max_vec point := by
  obtain ⟨h1, h2, h3, h4, h5, h6, h7, h8, h9⟩ := h
  unfold insideBox outsideBox FloatVal.gt
  rw [floatVal_le_iff_not_lt _ _ h4 h1, floatVal_le_iff_not_lt _ _ h1 h7,
    floatVal_le_iff_not_lt _ _ h5 h2, floatVal_le_iff_not_lt _ _ h2 h8,
    floatVal_le_iff_not_lt _ _ h6 h3, floatVal_le_iff_not_lt _ _ h3 h9]
  simp only [Bool.not_or]
  cases point.x.lt min_vec.v0 <;> cases max_vec.v0.lt point.x <;>
    cases point.y.lt min_vec.v1 <;> cases max_vec.v1.lt point.y <;>
    cases point.z.lt min_vec.v2 <;> cases max_vec.v2.lt point.z <;> rfl

theorem nan_not_outside (min_vec max_vec : Vector3f) :
    outsideBox min_vec max_vec ⟨.nan, .nan, .nan⟩ = false := by
  unfold outsideBox FloatVal.gt
  cases min_vec.v0 <;> cases min_vec.v1 <;> cases min_vec.v2 <;> cases max_vec.v0 <;>
    cases max_vec.v1 <;> cases max_vec.v2 <;> rfl

theorem calls_min_set {Affine3f : Type} (cs : List (CropBoxCall Affine3f)) :
    ∀ (box : CropBox Affine3f), (box.calls cs).min_vec_set_ = true ↔
      (box.min_vec_set_ = true ∨ ∃ v, CropBoxCall.SetMinVector v ∈ cs) := by
  induction cs with
  | nil => intro box; simp [CropBox.calls]
  | cons c rest ih =>
    intro box
    have e : box.calls (c :: rest) = (box.call c).calls rest := rfl
    rw [e, ih]
    cases c <;> simp [CropBox.call, CropBox.SetMinVector, CropBox.SetMaxVector,
      CropBox.SetTransform]

theorem calls_max_set {Affine3f : Type} (cs : List (CropBoxCall Affine3f)) :
    ∀ (box : CropBox Affine3f), (box.calls cs).max_vec_set_ = true ↔
      (box.max_vec_set_ = true ∨ ∃ v, CropBoxCall.SetMaxVector v ∈ cs) := by
  induction cs with
  | nil => intro box; simp [CropBox.calls]
  | cons c rest ih =>
    intro box
    have e : box.calls (c :: rest) = (box.call c).calls rest := rfl
    rw [e, ih]
    cases c <;> simp [CropBox.call, CropBox.SetMinVector, CropBox.SetMaxVector,
      CropBox.SetTransform]

theorem Filter_set {Affine3f : Type} (transformPoint : PointXYZf → Affine3f → PointXYZf)
    (box : CropBox Affine3f) (input_cloud cropped_cloud : List PointXYZf)
    (hmin : box.min_vec_set_ = true) (hmax : box.max_vec_set_ = true) :
    CropBox.Filter transformPoint box input_cloud cropped_cloud =
      (.ok (), input_cloud.filter (fun p =>
        !outsideBox box.min_vec_ box.max_vec_ (transformPoint p box.T_box_cloud_))) := by
  simp [CropBox.Filter, hmin, hmax, FilterLoop_eq]

/-- Claim C33, the claim as stated fails: with the box from `(0, 0, 0)` to `(1, 1, 1)` and the
identity transform, the filter keeps the point whose coordinates are NaN, although
`min ≤ point ≤ max` does not hold for it. -/
theorem crop_keeps_nan_point :
    (CropBox.Filter sampleTransformPoint sampleBox sampleCloudF []).2 =
        [⟨.nan, .nan, .nan⟩, ⟨.finite (1 / 2), .finite (1 / 2), .finite (1 / 2)⟩,
         ⟨.finite 1, .finite 0, .finite 1⟩] ∧
      sampleBox.min_vec_set_ = true ∧ sampleBox.max_vec_set_ = true ∧
      insideBox sampleBox.min_vec_ sampleBox.max_vec_
        (sampleTransformPoint ⟨.nan, .nan, .nan⟩ sampleBox.T_box_cloud_) = false ∧
      (⟨.nan, .nan, .nan⟩ : PointXYZf) ∈ sampleCloudF := by
  refine ⟨by decide!, rfl, rfl, by decide!, by decide!⟩

/-- Claim C33, amended: when both vectors are set, `CropBox::Filter` returns and replaces the
output cloud with the input points, untransformed and in input order, for whose transformed
point none of the six comparisons `point < min`, `point > max` holds. Where no coordinate of
the transformed point or of the two vectors is a NaN these are the points with
`min ≤ T_box_cloud·p ≤ max`, bounds included; a point whose transformed coordinates are NaN
is kept. Filtering the result again, into any output cloud, returns the result unchanged. -/
theorem crop_keeps_not_outside {Affine3f : Type}
    (transformPoint : PointXYZf → Affine3f → PointXYZf) (box : CropBox Affine3f)
    (input_cloud cropped_cloud : List PointXYZf)
    (hmin : box.min_vec_set_ = true) (hmax : box.max_vec_set_ = true) :
    (CropBox.Filter transformPoint box input_cloud cropped_cloud).1 = .ok () ∧
    (CropBox.Filter transformPoint box input_cloud cropped_cloud).2 =
      input_cloud.filter (fun p =>
        !outsideBox box.min_vec_ box.max_vec_ (transformPoint p box.T_box_cloud_)) ∧
    ((∀ p ∈ input_cloud,
        noNaN box.min_vec_ box.max_vec_ (transformPoint p box.T_box_cloud_)) →
      (CropBox.Filter transformPoint box input_cloud cropped_cloud).2 =
        input_cloud.filter (fun p =>
          insideBox box.min_vec_ box.max_vec_ (transformPoint p box.T_box_cloud_))) ∧
    (∀ p ∈ input_cloud,
      noNaN box.min_vec_ box.max_vec_ (transformPoint p box.T_box_cloud_) →
      (p ∈ (CropBox.Filter transformPoint box input_cloud cropped_cloud).2 ↔
        insideBox box.min_vec_ box.max_vec_ (transformPoint p box.T_box_cloud_) = true)) ∧
    (∀ p ∈ input_cloud, transformPoint p box.T_box_cloud_ = ⟨.nan, .nan, .nan⟩ →
      p ∈ (CropBox.Filter transformPoint box input_cloud cropped_cloud).2) ∧
    (∀ again : List PointXYZf,
      CropBox.Filter transformPoint box
          (CropBox.Filter transformPoint box input_cloud cropped_cloud).2 again =
        (.ok (), (CropBox.Filter transformPoint box input_cloud cropped_cloud).2)) := by
  rw [Filter_set transformPoint box input_cloud cropped_cloud hmin hmax]
  refine ⟨rfl, rfl, ?_, ?_, ?_, ?_⟩
  · intro h
    apply List.filter_congr
    intro p hp
    rw [inside_iff_not_outside _ _ _ (h p hp)]
  · intro p hp hn
    rw [inside_iff_not_outside _ _ _ hn]
    simp [List.mem_filter, hp]
  · intro p hp hn
    simp [List.mem_filter, hp, hn, nan_not_outside]
  · intro again
    rw [Filter_set transformPoint box _ again hmin hmax]
    simp [List.filter_filter]

theorem crop_keeps_not_outside_witness :
    sampleBox.min_vec_set_ = true ∧ sampleBox.max_vec_set_ = true ∧
    (CropBox.Filter sampleTransformPoint sampleBox sampleCloudF []).2 =
      sampleCloudF.filter (fun p =>
        !outsideBox sampleBox.min_vec_ sampleBox.max_vec_
          (sampleTransformPoint p sampleBox.T_box_cloud_)) ∧
    sampleCloudF.filter (fun p =>
        !outsideBox sampleBox.min_vec_ sampleBox.max_vec_
          (sampleTransformPoint p sampleBox.T_box_cloud_)) =
      [⟨.nan, .nan, .nan⟩, ⟨.finite (1 / 2), .finite (1 / 2), .finite (1 / 2)⟩,
       ⟨.finite 1, .finite 0, .finite 1⟩] :=
  ⟨rfl, rfl, (crop_keeps_not_outside sampleTransformPoint sampleBox sampleCloudF [] rfl rfl).2.1,
    by decide!⟩

/-- Claim C34: on a box that was constructed and then received the calls `cs`,
`CropBox::Filter` fails exactly when `cs` holds no `SetMinVector` or no `SetMaxVector`; a
failure is an invalid-argument error and leaves the output cloud as it was. -/
theorem filter_fails_iff_unset {Affine3f : Type}
    (transformPoint : PointXYZf → Affine3f → PointXYZf) (identity : Affine3f)
    (min0 max0 : Vector3f) (cs : List (CropBoxCall Affine3f))
    (input_cloud cropped_cloud : List PointXYZf) :
    ((CropBox.Filter transformPoint ((CropBox.construct identity min0 max0).calls cs)
          input_cloud cropped_cloud).1 = .error .invalid_argument ↔
      ((¬ ∃ v, CropBoxCall.SetMinVector v ∈ cs) ∨ (¬ ∃ v, CropBoxCall.SetMaxVector v ∈ cs))) ∧
    ((CropBox.Filter transformPoint ((CropBox.construct identity min0 max0).calls cs)
          input_cloud cropped_cloud).1 ≠ .ok () →
      (CropBox.Filter transformPoint ((CropBox.construct identity min0 max0).calls cs)
          input_cloud cropped_cloud).1 = .error .invalid_argument ∧
      (CropBox.Filter transformPoint ((CropBox.construct identity min0 max0).calls cs)
          input_cloud cropped_cloud).2 = cropped_cloud) := by
  have h1 := calls_min_set cs (CropBox.construct identity min0 max0)
  have h2 := calls_max_set cs (CropBox.construct identity min0 max0)
  simp only [CropBox.construct, Bool.false_eq_true, false_or] at h1 h2
  simp only [CropBox.construct]
  generalize (CropBox.calls _ cs) = box at h1 h2 ⊢
  rw [← h1, ← h2]
  unfold CropBox.Filter
  cases hmin : box.min_vec_set_ <;> cases hmax : box.max_vec_set_ <;> simp

theorem filter_fails_iff_unset_witness :
    (CropBox.Filter sampleTransformPoint
      ((CropBox.construct () ⟨.nan, .nan, .nan⟩ ⟨.nan, .nan, .nan⟩).calls
        [.SetMinVector ⟨.finite 0, .finite 0, .finite 0⟩, .GetMaxVector])
      sampleCloudF [⟨.finite 2, .finite 0, .finite 0⟩]).2 =
        [⟨.finite 2, .finite 0, .finite 0⟩] :=
  ((filter_fails_iff_unset sampleTransformPoint ()
    ⟨.nan, .nan, .nan⟩ ⟨.nan, .nan, .nan⟩
    [.SetMinVector ⟨.finite 0, .finite 0, .finite 0⟩, .GetMaxVector]
    sampleCloudF [⟨.finite 2, .finite 0, .finite 0⟩]).2 (by
      intro h
      have h2 := congrArg Except.toOption h
      revert h2
      decide!)).2

/-! ### Claim C35: `Corrosion::GetOSIMSeverity` -/

theorem GetOSIMSeverity_eq (hullArea : List PointXYZf → FloatVal) (c : Corrosion) :
    (c.GetOSIMSeverity hullArea).1 = osimSeverityOf (c.GetSize hullArea).1 := rfl

theorem severityRank_le (s : DefectOSIMSeverity) : severityRank s ≤ 4 := by
  cases s <;> decide

theorem osimSeverityOf_posInf : osimSeverityOf .posInf = .VERY_SEVERE := by
  decide!

theorem osimSeverityOf_mono (a1 a2 : FloatVal) (h0 : FloatVal.le (.finite 0) a1 = true)
    (h : FloatVal.le a1 a2 = true) :
    severityRank (osimSeverityOf a1) ≤ severityRank (osimSeverityOf a2) := by
  cases a1 with
  | nan => simp [FloatVal.le] at h0
  | negInf => simp [FloatVal.le, FloatVal.lt] at h0
  | posInf =>
    cases a2 with
    | posInf => exact le_refl _
    | nan => simp [FloatVal.le] at h
    | negInf => simp [FloatVal.le, FloatVal.lt] at h
    | finite b => simp [FloatVal.le, FloatVal.lt] at h
  | finite a =>
    cases a2 with
    | posInf => rw [osimSeverityOf_posInf]; exact severityRank_le _
    | nan => simp [FloatVal.le] at h
    | negInf => simp [FloatVal.le, FloatVal.lt] at h
    | finite b =>
      simp [FloatVal.le, FloatVal.lt] at h0 h
      unfold osimSeverityOf
      simp only [FloatVal.lt, FloatVal.finite.injEq, decide_eq_true_eq]
      by_cases ha0 : a = 0
      · simp [ha0, severityRank]
      · have hb0 : b ≠ 0 := by
          intro hb; apply ha0; rw [hb] at h; exact le_antisymm h h0
        rw [if_neg ha0, if_neg hb0]
        by_cases b1 : b < 9 / 400
        · have a1 : a < 9 / 400 := lt_of_le_of_lt h b1
          simp [a1, b1]
        · rw [if_neg b1]
          by_cases b2 : b < 9 / 100
          · rw [if_pos b2]
            by_cases a1 : a < 9 / 400
            · simp [a1, severityRank]
            · have a2 : a < 9 / 100 := lt_of_le_of_lt h b2
              simp [a1, a2]
          · rw [if_neg b2]
            by_cases b3 : b < 9 / 25
            · rw [if_pos b3]
              have a3 : a < 9 / 25 := lt_of_le_of_lt h b3
              by_cases a1 : a < 9 / 400
              · simp [a1, severityRank]
              · by_cases a2 : a < 9 / 100
                · simp [a1, a2, severityRank]
                · simp [a1, a2, a3]
            · rw [if_neg b3]
              split_ifs <;> simp [severityRank]

/-- Claim C35: `Corrosion::GetOSIMSeverity` returns, and the severity is a step function of
the area `a` that `GetSize` returns: `NONE` when `a = 0`, `LIGHT` when `0 < a < 0.0225`,
`MEDIUM` when `0.0225 ≤ a < 0.09`, `SEVERE` when `0.09 ≤ a < 0.36`, `VERY_SEVERE` when
`a ≥ 0.36`. For areas that are not negative, a larger area never has a lower severity. A
defect with an empty cloud and no size cached has severity `NONE`, and the call leaves it as
it is. -/
theorem osim_severity_steps (hullArea : List PointXYZf → FloatVal) (c : Corrosion) :
    ((c.GetSize hullArea).1 = .finite 0 → (c.GetOSIMSeverity hullArea).1 = .NONE) ∧
    (FloatVal.lt (.finite 0) (c.GetSize hullArea).1 = true →
      FloatVal.lt (c.GetSize hullArea).1 (.finite (9 / 400)) = true →
      (c.GetOSIMSeverity hullArea).1 = .LIGHT) ∧
    (FloatVal.le (.finite (9 / 400)) (c.GetSize hullArea).1 = true →
      FloatVal.lt (c.GetSize hullArea).1 (.finite (9 / 100)) = true →
      (c.GetOSIMSeverity hullArea).1 = .MEDIUM) ∧
    (FloatVal.le (.finite (9 / 100)) (c.GetSize hullArea).1 = true →
      FloatVal.lt (c.GetSize hullArea).1 (.finite (9 / 25)) = true →
      (c.GetOSIMSeverity hullArea).1 = .SEVERE) ∧
    (FloatVal.le (.finite (9 / 25)) (c.GetSize hullArea).1 = true →
      (c.GetOSIMSeverity hullArea).1 = .VERY_SEVERE) ∧
    (∀ (hullArea2 : List PointXYZf → FloatVal) (c2 : Corrosion),
      FloatVal.le (.finite 0) (c.GetSize hullArea).1 = true →
      FloatVal.le (c.GetSize hullArea).1 (c2.GetSize hullArea2).1 = true →
      severityRank (c.GetOSIMSeverity hullArea).1 ≤
        severityRank (c2.GetOSIMSeverity hullArea2).1) ∧
    (c.defect_cloud_ = [] → c.corrosion_size_ = .finite 0 →
      c.GetOSIMSeverity hullArea = (.NONE, c)) := by
  rw [GetOSIMSeverity_eq]
  refine ⟨?_, ?_, ?_, ?_, ?_, ?_, ?_⟩
  · intro h; rw [h]; rfl
  · generalize (c.GetSize hullArea).1 = a
    intro h1 h2
    cases a <;> simp [FloatVal.lt] at h1 h2
    rename_i q
    unfold osimSeverityOf
    simp [FloatVal.lt, h2, ne_of_gt h1]
  · generalize (c.GetSize hullArea).1 = a
    intro h1 h2
    cases a <;> simp [FloatVal.le, FloatVal.lt] at h1 h2
    rename_i q
    unfold osimSeverityOf
    have hq : q ≠ 0 := by
      intro h0; rw [h0] at h1; norm_num at h1
    simp [FloatVal.lt, h2, hq, not_lt.mpr h1]
  · generalize (c.GetSize hullArea).1 = a
    intro h1 h2
    cases a <;> simp [FloatVal.le, FloatVal.lt] at h1 h2
    rename_i q
    unfold osimSeverityOf
    have hq : q ≠ 0 := by
      intro h0; rw [h0] at h1; norm_num at h1
    have h3 : ¬ q < 9 / 400 := by
      intro h; have : q < 9 / 100 := lt_trans h (by norm_num); exact absurd h1 (not_le.mpr this)
    simp [FloatVal.lt, h2, hq, not_lt.mpr h1, h3]
  · generalize (c.GetSize hullArea).1 = a
    intro h1
    cases a <;> simp [FloatVal.le, FloatVal.lt] at h1
    · rename_i q
      unfold osimSeverityOf
      have hq : q ≠ 0 := by
        intro h0; rw [h0] at h1; norm_num at h1
      have h3 : ¬ q < 9 / 400 := by
        intro h; have : q < 9 / 25 := lt_trans h (by norm_num); exact absurd h1 (not_le.mpr this)
      have h4 : ¬ q < 9 / 100 := by
        intro h; have : q < 9 / 25 := lt_trans h (by norm_num); exact absurd h1 (not_le.mpr this)
      simp [FloatVal.lt, hq, not_lt.mpr h1, h3, h4]
    · unfold osimSeverityOf
      simp [FloatVal.lt]
  · intro hullArea2 c2 h0 h
    rw [GetOSIMSeverity_eq]
    exact osimSeverityOf_mono _ _ h0 h
  · intro he h0
    cases c with
    | mk cloud size =>
      simp only at he h0
      subst he; subst h0
      rfl

theorem osim_severity_steps_witness :
    (sampleCorrosion.GetSize sampleHullArea).1 = .finite (1 / 25) ∧
    (sampleCorrosion.GetOSIMSeverity sampleHullArea).1 = .MEDIUM ∧
    (sampleCorrosionLarge.GetOSIMSeverity sampleHullArea).1 = .VERY_SEVERE ∧
    severityRank (sampleCorrosion.GetOSIMSeverity sampleHullArea).1 ≤
      severityRank (sampleCorrosionLarge.GetOSIMSeverity sampleHullArea).1 ∧
    (Corrosion.GetOSIMSeverity sampleHullArea ⟨[], .finite 0⟩).1 = .NONE :=
  ⟨by decide!,
    (osim_severity_steps sampleHullArea sampleCorrosion).2.2.1 (by decide!) (by decide!),
    by decide!,
    (osim_severity_steps sampleHullArea sampleCorrosion).2.2.2.2.2.1 sampleHullArea
      sampleCorrosionLarge (by decide!) (by decide!),
    by decide!⟩

end beam_matching
